import Mathlib

/-!
# PDisk chunk tracker: quota accounting

A shallow embedding of `ydb/core/blobstorage/pdisk/blobstorage_pdisk_chunk_tracker.h`
(`TPerOwnerQuotaTracker`, `TChunkTracker`) and the properties of its quota accounting.

Conventions of the embedding

* `i64` values are integers (`Int`); signed overflow is undefined behaviour in C++ and the
  statements range over values for which no arithmetic step overflows.  The one place where a
  signed value is converted to an unsigned one (`Total / parts`, an `i64` divided by a `size_t`)
  is modelled with the conversion.
* A failed `Y_VERIFY` aborts the process: operations that contain one return `Option`, and `none`
  is the abort.
* `bool f(..., TString &outErrorReason)` becomes a function that takes the current content of the
  reason string and returns the new state, the boolean and the new content of the string.
* `TOwner` is `ui8`, so `std::array<TQuotaRecord, 256>` is a total map from `TOwner`.
-/

namespace NKikimr
namespace NPDisk

/-! ## Declarations of headers that are not among the sources -/

/-- Owner identifier: `ui8` (the source asserts `sizeof(TOwner) == 1`). -/
abbrev TOwner := Fin 256

/-- Identifier of a virtual disk; only stored, never inspected. -/
abbrev TVDiskID := Nat

/-- Modelled from the spec: `NKikimrBlobStorage::TPDiskSpaceColor::E` (protobuf enumeration, not
among the sources).  The glossary lists the colours from the mildest to the most severe. -/
inductive TColor where
  | GREEN
  | CYAN
  | YELLOW
  | LIGHT_ORANGE
  | ORANGE
  | RED
  | BLACK
deriving DecidableEq, Repr

/-- Severity rank of a colour, Green the mildest and Black the most severe (glossary); the
enumeration's numeric order, which `Min` and `Max` compare. -/
def TColor.Severity : TColor → Nat
  | TColor.GREEN => 0
  | TColor.CYAN => 1
  | TColor.YELLOW => 2
  | TColor.LIGHT_ORANGE => 3
  | TColor.ORANGE => 4
  | TColor.RED => 5
  | TColor.BLACK => 6

/-- The function `Min(a, b)` of util/generic: `b < a ? b : a`. -/
def TColor.Min (a b : TColor) : TColor := if b.Severity < a.Severity then b else a

/-- The function `Max(a, b)` of util/generic: `a < b ? b : a`. -/
def TColor.Max (a b : TColor) : TColor := if a.Severity < b.Severity then b else a

/-- Modelled from the spec: `TColorLimits` (blobstorage_pdisk_color_limits.h, not among the
sources): six thresholds in chunks, named by colour (§3). -/
structure TColorLimits where
  Cyan : Int := 0
  Yellow : Int := 0
  LightOrange : Int := 0
  Orange : Int := 0
  Red : Int := 0
  Black : Int := 0
deriving DecidableEq, Repr

/-- Modelled from the spec: `TQuotaRecord` (blobstorage_pdisk_quota_record.h, not among the
sources): `{ name, optional VDiskId, hard_limit, used, ColorLimits }` (§3).  A default-constructed
record is empty. -/
structure TQuotaRecord where
  Name : String := ""
  VDiskId : Option TVDiskID := none
  HardLimit : Int := 0
  Used : Int := 0
  Limits : TColorLimits := {}
deriving DecidableEq, Repr

namespace TQuotaRecord

def SetName (r : TQuotaRecord) (name : String) : TQuotaRecord :=
  { r with Name := name }

def SetVDiskId (r : TQuotaRecord) (v : TVDiskID) : TQuotaRecord :=
  { r with VDiskId := some v }

def GetHardLimit (r : TQuotaRecord) : Int := r.HardLimit

def GetUsed (r : TQuotaRecord) : Int := r.Used

/-- Modelled from the spec: derived `free = hard_limit − used` (§3). -/
def GetFree (r : TQuotaRecord) : Int := r.HardLimit - r.Used

/-- Modelled from the spec: `TQuotaRecord::ForceHardLimit` (§4.1 `force_hard_limit`): sets
`hard_limit := new_limit` and the colour thresholds, does not touch `used`.  The returned number
is the signed change that the caller adds to its unappropriated running total: the callers in the
source are `unappropriated += AddSystemOwner(...)` followed by `if (unappropriated < 0)`, and §4.3
has the total decrease when an owner is added, so the value is `old_limit − new_limit` (negative
when the limit grows).  §4.1 words the delta as `new_limit − old_limit`; only the orientation that
the source and §4.3 use lets `Reset` ever reach its error branches, and it is the one modelled. -/
def ForceHardLimit (r : TQuotaRecord) (hardLimit : Int) (limits : TColorLimits) :
    TQuotaRecord × Int :=
  ({ r with HardLimit := hardLimit, Limits := limits }, r.HardLimit - hardLimit)

/-- Modelled from the spec: `TQuotaRecord::TryAllocate` (§4.1 `try_allocate`): if
`used + n ≤ hard_limit`, increments `used` and returns ok; else returns failure with a descriptive
reason and leaves the record as it was. -/
def TryAllocate (r : TQuotaRecord) (count : Int) (outErrorReason : String) :
    TQuotaRecord × Bool × String :=
  if r.Used + count ≤ r.HardLimit then
    ({ r with Used := r.Used + count }, true, outErrorReason)
  else
    (r, false, "Allocation of count# " ++ toString count ++ " chunks refused, used# "
      ++ toString r.Used ++ " hard limit# " ++ toString r.HardLimit)

/-- Modelled from the spec: `TQuotaRecord::ForceAllocate` (§4.1 `force_allocate`): unconditionally
increments `used`; returns ok always. -/
def ForceAllocate (r : TQuotaRecord) (count : Int) : TQuotaRecord × Bool :=
  ({ r with Used := r.Used + count }, true)

/-- Modelled from the spec: `TQuotaRecord::InitialAllocate`, which `TChunkTracker::Reset` calls on
`SharedQuota` and whose result it tests.  §4.1 has no row for it; by §3 an operation that would
violate `used ≤ hard_limit` must refuse unless it is a designated force variant, so it is the
refusing allocation without a reason string. -/
def InitialAllocate (r : TQuotaRecord) (count : Int) : TQuotaRecord × Bool :=
  if r.Used + count ≤ r.HardLimit then
    ({ r with Used := r.Used + count }, true)
  else
    (r, false)

/-- Modelled from the spec: `TQuotaRecord::Release` (§4.1 `release`): decrements `used` by `n`;
requires `n ≤ used`.  A violated requirement is a programmer error that aborts (§7). -/
def Release (r : TQuotaRecord) (count : Int) : Option TQuotaRecord :=
  if count ≤ r.Used then some { r with Used := r.Used - count } else none

/-- Modelled from the spec: `TQuotaRecord::EstimateSpaceColor` (§4.1 `estimate_color`): walk the
colours from the least to the most severe and return the last one whose threshold still exceeds
the projected free `free − alloc`; the default is Green. -/
def EstimateSpaceColor (r : TQuotaRecord) (allocationSize : Int) : TColor :=
  let newFree := r.GetFree - allocationSize
  let color := TColor.GREEN
  let color := if r.Limits.Cyan > newFree then TColor.CYAN else color
  let color := if r.Limits.Yellow > newFree then TColor.YELLOW else color
  let color := if r.Limits.LightOrange > newFree then TColor.LIGHT_ORANGE else color
  let color := if r.Limits.Orange > newFree then TColor.ORANGE else color
  let color := if r.Limits.Red > newFree then TColor.RED else color
  let color := if r.Limits.Black > newFree then TColor.BLACK else color
  color

end TQuotaRecord

/-- Modelled from the spec: `TKeeperParams::OwnersInfo` value type
(blobstorage_pdisk_keeper_params.h, not among the sources): chunks owned and VDiskId (§6). -/
structure TOwnerInfo where
  ChunksOwned : Int := 0
  VDiskId : TVDiskID := 0
deriving DecidableEq, Repr

/-- Modelled from the spec: `TKeeperParams` (blobstorage_pdisk_keeper_params.h, not among the
sources), the tunable parameters of §6.  `OwnersInfo` is an ordered map in the source (it is
iterated as key/value pairs); it is the list of its entries here, and a well-formed table has
pairwise distinct keys. -/
structure TKeeperParams where
  TotalChunks : Int := 0
  ExpectedOwnerCount : Nat := 0
  SysLogSize : Int := 0
  CommonLogSize : Int := 0
  HasStaticGroups : Bool := false
  OwnersInfo : List (TOwner × TOwnerInfo) := []
  SpaceColorBorder : TColor := TColor.GREEN
deriving DecidableEq, Repr

/-- Modelled from the spec: the declarations of blobstorage_pdisk_defs.h and
blobstorage_pdisk_color_limits.h that the tracker uses and whose values neither the sources nor
the spec give: the fixed system owner ids, the first user id, the predicate `IsOwnerUser` (§3
OwnerId) and the two colour presets (§3 ColorLimits).  They are a parameter of the embedding. -/
structure TPDiskDefs where
  OwnerSystem : TOwner
  OwnerSystemLog : TOwner
  OwnerSystemReserve : TOwner
  OwnerCommonStaticLog : TOwner
  OwnerBeginUser : TOwner
  IsOwnerUser : TOwner → Bool
  MakeLogLimits : TColorLimits
  MakeChunkLimits : TColorLimits

/-- The ids that `TChunkTracker::Reset` registers in `GlobalQuota` are pairwise distinct, and the
four system roles are not user ids (§3: the value space is partitioned). -/
structure TPDiskDefs.WellFormed (d : TPDiskDefs) : Prop where
  log_ne_reserve : d.OwnerSystemLog ≠ d.OwnerSystemReserve
  log_ne_static : d.OwnerSystemLog ≠ d.OwnerCommonStaticLog
  log_ne_system : d.OwnerSystemLog ≠ d.OwnerSystem
  log_ne_user : d.OwnerSystemLog ≠ d.OwnerBeginUser
  reserve_ne_static : d.OwnerSystemReserve ≠ d.OwnerCommonStaticLog
  reserve_ne_system : d.OwnerSystemReserve ≠ d.OwnerSystem
  reserve_ne_user : d.OwnerSystemReserve ≠ d.OwnerBeginUser
  static_ne_system : d.OwnerCommonStaticLog ≠ d.OwnerSystem
  static_ne_user : d.OwnerCommonStaticLog ≠ d.OwnerBeginUser
  system_ne_user : d.OwnerSystem ≠ d.OwnerBeginUser
  system_not_user : d.IsOwnerUser d.OwnerSystem = false
  log_not_user : d.IsOwnerUser d.OwnerSystemLog = false
  reserve_not_user : d.IsOwnerUser d.OwnerSystemReserve = false
  static_not_user : d.IsOwnerUser d.OwnerCommonStaticLog = false

/-- A concrete owner layout used for the worked examples: `OwnerSystem = 0`, user ids
`2 ≤ id < 241`, `OwnerSystemLog = 251`, `OwnerSystemReserve = 252`,
`OwnerCommonStaticLog = 253`; the colour presets are irrelevant to quota accounting and are left
zero. -/
def sampleDefs : TPDiskDefs where
  OwnerSystem := 0
  OwnerSystemLog := 251
  OwnerSystemReserve := 252
  OwnerCommonStaticLog := 253
  OwnerBeginUser := 2
  IsOwnerUser := fun o => decide (2 ≤ o.val ∧ o.val < 241)
  MakeLogLimits := {}
  MakeChunkLimits := {}

/-! ## Machine arithmetic -/

/-- Conversion of an unsigned 64-bit value back to `i64` (two's complement). -/
def toI64 (n : Int) : Int := (n + 2 ^ 63) % 2 ^ 64 - 2 ^ 63

/-- The expression `Total / parts` of `RedistributeQuotas`: `Total` is `i64` and `parts` is
`size_t`, so `Total` is converted to the unsigned 64-bit type, divided, and the quotient is
converted back on assignment to `i64 limit`. -/
def divBySize (total : Int) (parts : Nat) : Int :=
  toI64 ((total % 2 ^ 64) / (parts : Int))

/-! ## TPerOwnerQuotaTracker -/

structure TPerOwnerQuotaTracker where
  ColorLimits : TColorLimits
  Total : Int
  ExpectedOwnerCount : Nat
  ActiveOwnerIds : List TOwner
  QuotaForOwner : TOwner → TQuotaRecord

namespace TPerOwnerQuotaTracker

def Reset (_t : TPerOwnerQuotaTracker) (total : Int) (limits : TColorLimits) :
    TPerOwnerQuotaTracker where
  ColorLimits := limits
  Total := total
  ExpectedOwnerCount := 0
  ActiveOwnerIds := []
  QuotaForOwner := fun _ => {}

/-- The constructor: `TColorLimits limits; Reset(0, limits);`. -/
def new : TPerOwnerQuotaTracker where
  ColorLimits := {}
  Total := 0
  ExpectedOwnerCount := 0
  ActiveOwnerIds := []
  QuotaForOwner := fun _ => {}

def ForceHardLimit (t : TPerOwnerQuotaTracker) (ownerId : TOwner) (limit : Int) :
    Option (TPerOwnerQuotaTracker × Int) :=
  if 0 ≤ limit then
    let res := (t.QuotaForOwner ownerId).ForceHardLimit limit t.ColorLimits
    some ({ t with QuotaForOwner := Function.update t.QuotaForOwner ownerId res.1 }, res.2)
  else
    none

/-- The loop `for (TOwner id : ActiveOwnerIds) ForceHardLimit(id, limit);`. -/
def ForceHardLimitAll (limit : Int) :
    List TOwner → TPerOwnerQuotaTracker → Option TPerOwnerQuotaTracker
  | [], t => some t
  | id :: rest, t =>
    match t.ForceHardLimit id limit with
    | none => none
    | some res => ForceHardLimitAll limit rest res.1

def RedistributeQuotas (t : TPerOwnerQuotaTracker) : Option TPerOwnerQuotaTracker :=
  let parts := max t.ExpectedOwnerCount t.ActiveOwnerIds.length
  if parts ≠ 0 then
    let limit := divBySize t.Total parts
    ForceHardLimitAll limit t.ActiveOwnerIds t
  else
    some t

def SetExpectedOwnerCount (t : TPerOwnerQuotaTracker) (newOwnerCount : Nat) :
    Option TPerOwnerQuotaTracker :=
  if newOwnerCount ≠ t.ExpectedOwnerCount then
    RedistributeQuotas { t with ExpectedOwnerCount := newOwnerCount }
  else
    some t

def AddOwner (t : TPerOwnerQuotaTracker) (id : TOwner) (vdiskId : TVDiskID) :
    Option TPerOwnerQuotaTracker :=
  let record := t.QuotaForOwner id
  if record.GetHardLimit = 0 ∧ record.GetFree = 0 then
    let record := (record.SetName ("Owner# " ++ toString id.val)).SetVDiskId vdiskId
    let t1 := { t with
      QuotaForOwner := Function.update t.QuotaForOwner id record
      ActiveOwnerIds := t.ActiveOwnerIds ++ [id] }
    if t1.ActiveOwnerIds.length ≤ t1.ExpectedOwnerCount ∨ t1.ExpectedOwnerCount = 0 then
      RedistributeQuotas t1
    else
      some t1
  else
    none

/-- The search loop of `RemoveOwner`: the first entry equal to `id` is overwritten with the last
entry and the last entry is popped; the boolean is `isFound`. -/
def SwapRemove (ids : List TOwner) (id : TOwner) : List TOwner × Bool :=
  let idx := ids.indexOf id
  if idx < ids.length then
    ((ids.set idx (ids.getLastD id)).dropLast, true)
  else
    (ids, false)

def RemoveOwner (t : TPerOwnerQuotaTracker) (id : TOwner) : Option TPerOwnerQuotaTracker :=
  let res := SwapRemove t.ActiveOwnerIds id
  if res.2 then
    (ForceHardLimit { t with ActiveOwnerIds := res.1 } id 0).map Prod.fst
  else
    none

def AddSystemOwner (t : TPerOwnerQuotaTracker) (id : TOwner) (quota : Int) (name : String) :
    Option (TPerOwnerQuotaTracker × Int) :=
  let record := t.QuotaForOwner id
  if record.GetHardLimit = 0 ∧ record.GetFree = 0 then
    let t1 := { t with QuotaForOwner := Function.update t.QuotaForOwner id (record.SetName name) }
    match t1.ForceHardLimit id quota with
    | none => none
    | some res => some ({ res.1 with ActiveOwnerIds := res.1.ActiveOwnerIds ++ [id] }, res.2)
  else
    none

def GetHardLimit (t : TPerOwnerQuotaTracker) (id : TOwner) : Int :=
  (t.QuotaForOwner id).GetHardLimit

def GetFree (t : TPerOwnerQuotaTracker) (id : TOwner) : Int :=
  (t.QuotaForOwner id).GetFree

def GetUsed (t : TPerOwnerQuotaTracker) (id : TOwner) : Int :=
  (t.QuotaForOwner id).GetUsed

def EstimateSpaceColor (t : TPerOwnerQuotaTracker) (id : TOwner) (allocationSize : Int) :
    TColor :=
  (t.QuotaForOwner id).EstimateSpaceColor allocationSize

def TryAllocate (t : TPerOwnerQuotaTracker) (id : TOwner) (count : Int)
    (outErrorReason : String) : TPerOwnerQuotaTracker × Bool × String :=
  let res := (t.QuotaForOwner id).TryAllocate count outErrorReason
  ({ t with QuotaForOwner := Function.update t.QuotaForOwner id res.1 }, res.2.1, res.2.2)

def ForceAllocate (t : TPerOwnerQuotaTracker) (id : TOwner) (count : Int) :
    TPerOwnerQuotaTracker × Bool :=
  let res := (t.QuotaForOwner id).ForceAllocate count
  ({ t with QuotaForOwner := Function.update t.QuotaForOwner id res.1 }, res.2)

def InitialAllocate (t : TPerOwnerQuotaTracker) (id : TOwner) (count : Int) :
    Option (TPerOwnerQuotaTracker × Bool) :=
  if 0 ≤ count then some (t.ForceAllocate id count) else none

def Release (t : TPerOwnerQuotaTracker) (id : TOwner) (count : Int) :
    Option TPerOwnerQuotaTracker :=
  match (t.QuotaForOwner id).Release count with
  | none => none
  | some r => some { t with QuotaForOwner := Function.update t.QuotaForOwner id r }

/-- The tracker in which every record of `ids` has hard limit `limit` and the tracker's colour
limits, and nothing else differs from `t`: the effect of the loop of `RedistributeQuotas`. -/
def WithLimit (t : TPerOwnerQuotaTracker) (ids : List TOwner) (limit : Int) :
    TPerOwnerQuotaTracker :=
  { t with QuotaForOwner := fun id =>
      if id ∈ ids then { t.QuotaForOwner id with HardLimit := limit, Limits := t.ColorLimits }
      else t.QuotaForOwner id }

/-- The tracker after the first half of `AddOwner`: the record of `id` carries its name and
VDiskId and `id` is appended to the active list; no quota has been redistributed yet. -/
def Joined (t : TPerOwnerQuotaTracker) (id : TOwner) (vdiskId : TVDiskID) :
    TPerOwnerQuotaTracker :=
  { t with
    QuotaForOwner := Function.update t.QuotaForOwner id
      (((t.QuotaForOwner id).SetName ("Owner# " ++ toString id.val)).SetVDiskId vdiskId)
    ActiveOwnerIds := t.ActiveOwnerIds ++ [id] }

/-- The tracker after a successful `AddSystemOwner(id, quota, name)`: the record of `id` carries
the name, the quota as hard limit and the tracker's colour limits, and `id` is appended to the
active list. -/
def GlobalWith (t : TPerOwnerQuotaTracker) (id : TOwner) (quota : Int) (name : String) :
    TPerOwnerQuotaTracker :=
  { t with
    QuotaForOwner := Function.update t.QuotaForOwner id
      { t.QuotaForOwner id with Name := name, HardLimit := quota, Limits := t.ColorLimits }
    ActiveOwnerIds := t.ActiveOwnerIds ++ [id] }

/-- The tracker in which the record of `id` has the given `used` and nothing else differs from
`t`: the effect of an allocation or a release on one record. -/
def WithUsed (t : TPerOwnerQuotaTracker) (id : TOwner) (used : Int) : TPerOwnerQuotaTracker :=
  { t with
    QuotaForOwner := Function.update t.QuotaForOwner id
      { t.QuotaForOwner id with Used := used } }

/-- The sum of `hard_limit` over the active owners (one term per entry of `ActiveOwnerIds`). -/
def ActiveHardLimitSum (t : TPerOwnerQuotaTracker) : Int :=
  (t.ActiveOwnerIds.map (fun id => t.GetHardLimit id)).sum

/-- States of a tracker that is modified only through `Reset` (with a total that is a
non-negative `i64`), `SetExpectedOwnerCount`, `AddOwner` and `RemoveOwner`; a call that fails a
`Y_VERIFY` produces no state. -/
inductive Reachable : TPerOwnerQuotaTracker → Prop
  | reset (t : TPerOwnerQuotaTracker) (total : Int) (limits : TColorLimits) :
      0 ≤ total → total < 2 ^ 63 → Reachable (t.Reset total limits)
  | setExpectedOwnerCount (t t' : TPerOwnerQuotaTracker) (n : Nat) :
      Reachable t → t.SetExpectedOwnerCount n = some t' → Reachable t'
  | addOwner (t t' : TPerOwnerQuotaTracker) (id : TOwner) (vdiskId : TVDiskID) :
      Reachable t → t.AddOwner id vdiskId = some t' → Reachable t'
  | removeOwner (t t' : TPerOwnerQuotaTracker) (id : TOwner) :
      Reachable t → t.RemoveOwner id = some t' → Reachable t'

/-- The invariant behind the equal-split bound: the total is a non-negative `i64`, no hard limit
is negative, and the hard limits of the active list sum to at most the total. -/
structure SplitInv (t : TPerOwnerQuotaTracker) : Prop where
  total_nonneg : 0 ≤ t.Total
  total_lt : t.Total < 2 ^ 63
  limit_nonneg : ∀ id, 0 ≤ (t.QuotaForOwner id).HardLimit
  sum_le : t.ActiveHardLimitSum ≤ t.Total

end TPerOwnerQuotaTracker

/-! ## TChunkTracker -/

structure TChunkTracker where
  GlobalQuota : TPerOwnerQuotaTracker
  SharedQuota : TQuotaRecord
  OwnerQuota : TPerOwnerQuotaTracker
  Params : TKeeperParams
  ColorBorder : TColor

namespace TChunkTracker

def SysReserveSize : Int := 5

def CommonStaticLogSize : Int := 70

def MinCommonLogSize : Int := 200

/-- The constructor: two fresh trackers, an empty `SharedQuota`, default parameters and
`ColorBorder = GREEN`. -/
def new : TChunkTracker where
  GlobalQuota := TPerOwnerQuotaTracker.new
  SharedQuota := {}
  OwnerQuota := TPerOwnerQuotaTracker.new
  Params := {}
  ColorBorder := TColor.GREEN

def AddOwner (d : TPDiskDefs) (s : TChunkTracker) (owner : TOwner) (vdiskId : TVDiskID) :
    Option TChunkTracker :=
  if d.IsOwnerUser owner then
    match s.OwnerQuota.AddOwner owner vdiskId with
    | none => none
    | some oq => some { s with OwnerQuota := oq }
  else
    none

def RemoveOwner (d : TPDiskDefs) (s : TChunkTracker) (owner : TOwner) : Option TChunkTracker :=
  if d.IsOwnerUser owner then
    match s.OwnerQuota.RemoveOwner owner with
    | none => none
    | some oq => some { s with OwnerQuota := oq }
  else
    none

/-- The second loop over `params.OwnersInfo` in `Reset` (lines 297-307).  The boolean is `false`
when the loop leaves `Reset` through `return false`. -/
def ResetOwners (d : TPDiskDefs) :
    List (TOwner × TOwnerInfo) → TChunkTracker → Option (TChunkTracker × Bool)
  | [], s => some (s, true)
  | (ownerId, ownerInfo) :: rest, s =>
    let chunks := ownerInfo.ChunksOwned
    match s.AddOwner d ownerId ownerInfo.VDiskId with
    | none => none
    | some s1 =>
      if chunks ≠ 0 then
        match s1.OwnerQuota.InitialAllocate ownerId chunks with
        | none => none
        | some oq =>
          let s2 := { s1 with OwnerQuota := oq.1 }
          let res := s2.SharedQuota.InitialAllocate chunks
          let s3 := { s2 with SharedQuota := res.1 }
          if res.2 then ResetOwners d rest s3 else some (s3, false)
      else
        ResetOwners d rest s1

/-- The first loop over `params.OwnersInfo` in `Reset` (lines 275-278). -/
def SumChunksOwned (owners : List (TOwner × TOwnerInfo)) : Int :=
  owners.foldl (fun acc e => acc + e.2.ChunksOwned) 0

/-- Lines 291-317 of `Reset`: everything after the five quota checks. -/
def ResetUserPool (d : TPDiskDefs) (s : TChunkTracker) (params : TKeeperParams)
    (outErrorReason : String) : Option (TChunkTracker × Bool × String) :=
  let chunkLimits := d.MakeChunkLimits
  let shared := ((s.SharedQuota.SetName "SharedQuota").ForceHardLimit
    (s.GlobalQuota.GetHardLimit d.OwnerBeginUser) chunkLimits).1
  let s := { s with SharedQuota := shared }
  let s := { s with
    OwnerQuota := s.OwnerQuota.Reset (s.GlobalQuota.GetHardLimit d.OwnerBeginUser) chunkLimits }
  match s.OwnerQuota.SetExpectedOwnerCount params.ExpectedOwnerCount with
  | none => none
  | some oq =>
  let s := { s with OwnerQuota := oq }
  match ResetOwners d params.OwnersInfo s with
  | none => none
  | some (s, false) => some (s, false, outErrorReason)
  | some (s, true) =>
  if params.CommonLogSize ≠ 0 then
    match s.GlobalQuota.InitialAllocate d.OwnerSystem params.CommonLogSize with
    | none => none
    | some (gq, isOk) =>
      let s := { s with GlobalQuota := gq }
      if !isOk then some (s, false, outErrorReason)
      else some ({ s with ColorBorder := params.SpaceColorBorder }, true, outErrorReason)
  else
    some ({ s with ColorBorder := params.SpaceColorBorder }, true, outErrorReason)

def Reset (d : TPDiskDefs) (s : TChunkTracker) (params : TKeeperParams)
    (outErrorReason : String) : Option (TChunkTracker × Bool × String) :=
  let s := { s with Params := params }
  let s := { s with GlobalQuota := s.GlobalQuota.Reset params.TotalChunks d.MakeLogLimits }
  let unappropriated := params.TotalChunks
  match s.GlobalQuota.AddSystemOwner d.OwnerSystemLog params.SysLogSize "SysLog" with
  | none => none
  | some (gq, inc) =>
  let s := { s with GlobalQuota := gq }
  let unappropriated := unappropriated + inc
  if unappropriated < 0 then
    some (s, false, "Error adding OwnerSystemLog quota, size# " ++ toString params.SysLogSize
      ++ " TotalChunks# " ++ toString params.TotalChunks)
  else
  match s.GlobalQuota.AddSystemOwner d.OwnerSystemReserve SysReserveSize "System Reserve" with
  | none => none
  | some (gq, inc) =>
  let s := { s with GlobalQuota := gq }
  let unappropriated := unappropriated + inc
  if unappropriated < 0 then
    some (s, false, "Error adding OwnerSystemReserve quota, size# " ++ toString SysReserveSize
      ++ " TotalChunks# " ++ toString params.TotalChunks)
  else
  let staticLog := if params.HasStaticGroups then CommonStaticLogSize else 0
  match s.GlobalQuota.AddSystemOwner d.OwnerCommonStaticLog staticLog
      "Common Log Static Group Bonus" with
  | none => none
  | some (gq, inc) =>
  let s := { s with GlobalQuota := gq }
  let unappropriated := unappropriated + inc
  if unappropriated < 0 then
    some (s, false, "Error adding OwnerCommonStaticLog quota, size# " ++ toString staticLog
      ++ " TotalChunks# " ++ toString params.TotalChunks)
  else
  let commonLog :=
    if MinCommonLogSize + staticLog < params.CommonLogSize then params.CommonLogSize - staticLog
    else MinCommonLogSize
  match s.GlobalQuota.AddSystemOwner d.OwnerSystem commonLog "Common Log" with
  | none => none
  | some (gq, inc) =>
  let s := { s with GlobalQuota := gq }
  let unappropriated := unappropriated + inc
  if unappropriated < 0 then
    some (s, false, "Error adding OwnerSystem (common log) quota, size# " ++ toString commonLog
      ++ " TotalChunks# " ++ toString params.TotalChunks)
  else
  let chunksOwned := SumChunksOwned params.OwnersInfo
  if chunksOwned > unappropriated then
    some (s, false, "Error adding OwnerBeginUser quota, chunksOwned#" ++ toString chunksOwned
      ++ " unappropriated# " ++ toString unappropriated
      ++ " TotalChunks# " ++ toString params.TotalChunks)
  else
  match s.GlobalQuota.AddSystemOwner d.OwnerBeginUser unappropriated "Per Owner Chunk Pool" with
  | none => none
  | some (gq, inc) =>
  let s := { s with GlobalQuota := gq }
  let unappropriated := unappropriated + inc
  if unappropriated < 0 then
    some (s, false, "Error adding OwnerBeginUser quota, size# " ++ toString unappropriated
      ++ " TotalChunks# " ++ toString params.TotalChunks)
  else
  ResetUserPool d s params outErrorReason

def GetOwnerHardLimit (d : TPDiskDefs) (s : TChunkTracker) (owner : TOwner) : Int :=
  if d.IsOwnerUser owner then
    s.OwnerQuota.GetHardLimit owner
  else if owner = d.OwnerCommonStaticLog then
    s.GlobalQuota.GetHardLimit d.OwnerCommonStaticLog + s.GlobalQuota.GetHardLimit d.OwnerSystem
  else
    s.GlobalQuota.GetHardLimit owner

def GetOwnerUsed (s : TChunkTracker) (owner : TOwner) : Int :=
  s.OwnerQuota.GetUsed owner

def GetTotalUsed (s : TChunkTracker) : Int := s.SharedQuota.GetUsed

def GetTotalHardLimit (s : TChunkTracker) : Int := s.SharedQuota.GetHardLimit

def GetOwnerFree (d : TPDiskDefs) (s : TChunkTracker) (owner : TOwner) : Int :=
  if d.IsOwnerUser owner then
    s.SharedQuota.GetFree
  else if owner = d.OwnerCommonStaticLog then
    s.GlobalQuota.GetFree d.OwnerCommonStaticLog + s.GlobalQuota.GetFree d.OwnerSystem
  else
    s.GlobalQuota.GetFree owner

def EstimateSpaceColor (d : TPDiskDefs) (s : TChunkTracker) (owner : TOwner)
    (allocationSize : Int) : TColor :=
  if d.IsOwnerUser owner then
    let ret := TColor.Min s.ColorBorder (s.OwnerQuota.EstimateSpaceColor owner allocationSize)
    let ret := TColor.Max ret (s.SharedQuota.EstimateSpaceColor allocationSize)
    ret
  else
    let owner :=
      if owner = d.OwnerCommonStaticLog then
        if s.GlobalQuota.GetHardLimit d.OwnerCommonStaticLog = 0 then d.OwnerSystem else owner
      else owner
    s.GlobalQuota.EstimateSpaceColor owner allocationSize

def GetSpaceColor (d : TPDiskDefs) (s : TChunkTracker) (owner : TOwner) : TColor :=
  EstimateSpaceColor d s owner 0

def TryAllocate (d : TPDiskDefs) (s : TChunkTracker) (owner : TOwner) (count : Int)
    (outErrorReason : String) : TChunkTracker × Bool × String :=
  if d.IsOwnerUser owner then
    let s := { s with OwnerQuota := (s.OwnerQuota.ForceAllocate owner count).1 }
    let res := s.SharedQuota.TryAllocate count outErrorReason
    ({ s with SharedQuota := res.1 }, res.2.1, res.2.2)
  else if owner = d.OwnerCommonStaticLog then
    let res := s.GlobalQuota.TryAllocate d.OwnerSystem count outErrorReason
    let s := { s with GlobalQuota := res.1 }
    if res.2.1 then
      (s, true, res.2.2)
    else
      let res := s.GlobalQuota.TryAllocate d.OwnerCommonStaticLog count res.2.2
      ({ s with GlobalQuota := res.1 }, res.2.1, res.2.2)
  else
    let res := s.GlobalQuota.TryAllocate owner count outErrorReason
    ({ s with GlobalQuota := res.1 }, res.2.1, res.2.2)

def Release (d : TPDiskDefs) (s : TChunkTracker) (owner : TOwner) (count : Int) :
    Option TChunkTracker :=
  if d.IsOwnerUser owner then
    match s.OwnerQuota.Release owner count with
    | none => none
    | some oq =>
      match s.SharedQuota.Release count with
      | none => none
      | some sq => some { s with OwnerQuota := oq, SharedQuota := sq }
  else if owner = d.OwnerCommonStaticLog ∨ owner = d.OwnerSystem then
    let usedBonus := s.GlobalQuota.GetUsed d.OwnerCommonStaticLog
    let releaseBonus := min usedBonus count
    let afterBonus :=
      if releaseBonus ≠ 0 then s.GlobalQuota.Release d.OwnerCommonStaticLog releaseBonus
      else some s.GlobalQuota
    match afterBonus with
    | none => none
    | some gq =>
      let releaseCommon := count - releaseBonus
      let afterCommon :=
        if releaseCommon ≠ 0 then gq.Release d.OwnerSystem releaseCommon else some gq
      match afterCommon with
      | none => none
      | some gq => some { s with GlobalQuota := gq }
  else
    match s.GlobalQuota.Release owner count with
    | none => none
    | some gq => some { s with GlobalQuota := gq }

/-- The sum over all user owner ids of `OwnerQuota.used`. -/
def UserUsedSum (d : TPDiskDefs) (s : TChunkTracker) : Int :=
  (((List.finRange 256).filter (fun u => d.IsOwnerUser u)).map
    (fun u => s.OwnerQuota.GetUsed u)).sum

/-- The static-log bonus in the words of the specification (§4.3 step 3): 70 if
`has_static_groups`, else 0. -/
def SpecStaticLog (p : TKeeperParams) : Int := if p.HasStaticGroups then 70 else 0

/-- The common-log size in the words of the specification (§4.3 step 4):
`max(MinCommonLogSize, common_log_size − staticLog)` with `MinCommonLogSize = 200`. -/
def SpecCommonLog (p : TKeeperParams) : Int := max 200 (p.CommonLogSize - SpecStaticLog p)

/-- The user pool in the words of the specification (§4.3 step 5, §8 scenario 5):
`total_chunks − sys_log_size − 5 − staticLog − commonLog`. -/
def SpecUserPool (p : TKeeperParams) : Int :=
  p.TotalChunks - p.SysLogSize - 5 - SpecStaticLog p - SpecCommonLog p

/-- The tracker `GlobalQuota` after the first `k` system owners of `Reset` have been added
(`k ≤ 5`), in the
order SystemLog, SystemReserve, CommonStaticLog, System, BeginUser. -/
def GlobalStage (d : TPDiskDefs) (p : TKeeperParams) (k : Nat) : TPerOwnerQuotaTracker :=
  ([(d.OwnerSystemLog, p.SysLogSize, "SysLog"),
    (d.OwnerSystemReserve, SysReserveSize, "System Reserve"),
    (d.OwnerCommonStaticLog, SpecStaticLog p, "Common Log Static Group Bonus"),
    (d.OwnerSystem, SpecCommonLog p, "Common Log"),
    (d.OwnerBeginUser, SpecUserPool p, "Per Owner Chunk Pool")].take k).foldl
    (fun g e => g.GlobalWith e.1 e.2.1 e.2.2)
    (TPerOwnerQuotaTracker.new.Reset p.TotalChunks d.MakeLogLimits)

/-- States reachable from a successful `Reset` of a freshly constructed tracker by `TryAllocate`,
`Release`, `AddOwner` and `RemoveOwner` calls with positive chunk counts.  A call that aborts
(a failed `Y_VERIFY`, a `Release` of more than is used) produces no state; a `TryAllocate` that
returns failure does produce one. -/
inductive Reachable (d : TPDiskDefs) : TChunkTracker → Prop
  | reset (p : TKeeperParams) (r r' : String) (s : TChunkTracker) :
      Reset d TChunkTracker.new p r = some (s, true, r') → Reachable d s
  | tryAllocate (s : TChunkTracker) (owner : TOwner) (count : Int) (r : String) :
      Reachable d s → 0 < count → Reachable d (TryAllocate d s owner count r).1
  | release (s s' : TChunkTracker) (owner : TOwner) (count : Int) :
      Reachable d s → 0 < count → Release d s owner count = some s' → Reachable d s'
  | addOwner (s s' : TChunkTracker) (owner : TOwner) (vdiskId : TVDiskID) :
      Reachable d s → AddOwner d s owner vdiskId = some s' → Reachable d s'
  | removeOwner (s s' : TChunkTracker) (owner : TOwner) :
      Reachable d s → RemoveOwner d s owner = some s' → Reachable d s'

end TChunkTracker

/-- Colour thresholds used in the worked examples, non-increasing from Cyan to Black. -/
def sampleLimits : TColorLimits where
  Cyan := 100
  Yellow := 80
  LightOrange := 60
  Orange := 40
  Red := 20
  Black := 10

/-- The state of scenario 6 of §8: `ColorBorder = Yellow`; every per-owner record has 90 chunks
free of 1000 (colour Cyan with `sampleLimits`); the shared record has 35 chunks free of 1000
(colour Orange). -/
def scenario6 : TChunkTracker where
  GlobalQuota := TPerOwnerQuotaTracker.new
  SharedQuota := { Name := "SharedQuota", HardLimit := 1000, Used := 965, Limits := sampleLimits }
  OwnerQuota := { TPerOwnerQuotaTracker.new with
    ColorLimits := sampleLimits
    Total := 4000
    QuotaForOwner := fun _ => { HardLimit := 1000, Used := 910, Limits := sampleLimits } }
  Params := {}
  ColorBorder := TColor.YELLOW

/-- A tracker with a full common log and a partly used static bonus (sample owner layout):
System owner 200 of 200 chunks used, CommonStaticLog owner 5 of 70. -/
def staticLogSample : TChunkTracker :=
  { TChunkTracker.new with
    GlobalQuota := { TPerOwnerQuotaTracker.new with
      QuotaForOwner := fun id =>
        if id = 0 then { Name := "Common Log", HardLimit := 200, Used := 200 }
        else if id = 253 then { Name := "Common Log Static Group Bonus", HardLimit := 70, Used := 5 }
        else {} } }

/-- A tracker with a half-used common log and a partly used static bonus (sample owner layout):
System owner 100 of 200 chunks used, CommonStaticLog owner 5 of 70. -/
def commonLogSample : TChunkTracker :=
  { TChunkTracker.new with
    GlobalQuota := { TPerOwnerQuotaTracker.new with
      QuotaForOwner := fun id =>
        if id = 0 then { Name := "Common Log", HardLimit := 200, Used := 100 }
        else if id = 253 then { Name := "Common Log Static Group Bonus", HardLimit := 70, Used := 5 }
        else {} } }

/-- Parameters with static groups: 1000 chunks, system log 50, common log 200 (all of it in
use at start), no user owners. -/
def staticGroupParams : TKeeperParams where
  TotalChunks := 1000
  SysLogSize := 50
  CommonLogSize := 200
  HasStaticGroups := true

/-- The parameters of scenario 5 of §8: 1000 chunks, system log 50, common log 200, no static
groups, 4 expected owners, three user owners that own 100, 50 and 0 chunks. -/
def scenario5 : TKeeperParams where
  TotalChunks := 1000
  ExpectedOwnerCount := 4
  SysLogSize := 50
  CommonLogSize := 200
  HasStaticGroups := false
  OwnersInfo := [(2, { ChunksOwned := 100, VDiskId := 1 }), (3, { ChunksOwned := 50, VDiskId := 2 }),
    (4, { ChunksOwned := 0, VDiskId := 3 })]
  SpaceColorBorder := TColor.GREEN

end NPDisk

/-! # Blob-depot agent: the pending event queue

A shallow embedding of the queue handlers of `ydb/core/blob_depot/agent/query.cpp`
(`HandleStorageProxy`, `HandlePendingEvent`, `HandleProcessPendingEvent`,
`ClearPendingEventQueue`, `ProcessStorageEvent`, `HandlePendingEventQueueWatchdog`).

* The agent is an actor: its handlers run one at a time, so a handler is a function from the
  state before the call to the state after it.  What a handler sends or starts is appended to the
  `Effects` of the state, in program order.
* `CreateQuery<0>(ev)->EndWithError(status, reason)` and `query->Initiate()` are recorded as
  effects; the life of the query object itself is not part of this component.
* Clock readings (`TMonotonic::Now()`, `TActivationContext::Monotonic()`) are arguments of the
  handlers.  The test `timer.Passed() >= 1 ms` of `HandlePendingEvent` is an argument too: a
  function that tells, for the i-th processed event, whether the budget is used up.
* `size_t` arithmetic wraps modulo 2^64.
-/

namespace NBlobDepot

/-- Modelled from the spec: the event kinds of `ENUMERATE_INCOMING_EVENTS` (agent_impl.h, not
among the sources); §6 lists them. -/
inductive EEventType where
  | EvGet
  | EvPut
  | EvBlock
  | EvDiscover
  | EvRange
  | EvCollectGarbage
  | EvStatus
  | EvPatch
  | EvAssimilate
deriving DecidableEq, Repr

/-- Modelled from the spec: `NKikimrProto::EReplyStatus` (protobuf enumeration, not among the
sources); §6 names these codes. -/
inductive EReplyStatus where
  | OK
  | ERROR
  | DEADLINE
deriving DecidableEq, Repr

/-- Modelled from the spec: an incoming `IEventHandle` with its typed payload (§6): the event
kind, the `Decommission` flag (read for Get and Range only), the value its `CalculateSize()`
returns, the sender and the cookie. -/
structure TEvent where
  EventType : EEventType
  Decommission : Bool := false
  CalculateSize : Nat := 0
  Sender : Nat := 0
  Cookie : Nat := 0
deriving DecidableEq, Repr

/-- Modelled from the spec: `TPendingEvent` (agent_impl.h): the entry that `HandleStorageProxy`
builds as `TPendingEvent{event, size, expiration}` (§3 PendingEvent). -/
structure TPendingEvent where
  Event : TEvent
  Size : Nat
  ExpirationTimestamp : Nat
deriving DecidableEq, Repr

/-- What a handler sends or starts. -/
inductive TEffect where
  | Forward (ev : TEvent)
  | EndWithError (ev : TEvent) (status : EReplyStatus) (reason : String)
  | Initiate (ev : TEvent)
  | SendProcessPendingEvent
  | SchedulePendingEventQueueWatchdog
deriving DecidableEq, Repr

/-- Modelled from the spec: the constants `MaxPendingEventBytes` and `EventExpirationTime`
(agent_impl.h); neither the sources nor the spec give their values, they are a parameter (§3
PendingQueue). -/
structure TAgentConsts where
  MaxPendingEventBytes : Nat
  EventExpirationTime : Nat

/-- Modelled from the spec: the members of `TBlobDepotAgent` that the queue handlers use
(agent_impl.h), with the initial values of a fresh agent: not connected, no tablet, empty
queue. -/
structure TBlobDepotAgent where
  IsConnected : Bool := false
  TabletId : Nat := 0
  PendingEventQ : List TPendingEvent := []
  PendingEventBytes : Nat := 0
  ProcessPendingEventInFlight : Bool := false
  Effects : List TEffect := []

/-- Addition of two `size_t` values. -/
def addSize (a b : Nat) : Nat := (a + b) % 2 ^ 64

/-- Subtraction of two `size_t` values (wraps below zero). -/
def subSize (a b : Nat) : Nat := (a + (2 ^ 64 - b % 2 ^ 64)) % 2 ^ 64

namespace TBlobDepotAgent

def ProcessStorageEvent (s : TBlobDepotAgent) (ev : TEvent) : TBlobDepotAgent :=
  if s.TabletId = 0 then
    { s with Effects := s.Effects ++
        [TEffect.EndWithError ev EReplyStatus.ERROR "group is in error state"] }
  else
    { s with Effects := s.Effects ++ [TEffect.Initiate ev] }

def HandleStorageProxy (c : TAgentConsts) (now : Nat) (s : TBlobDepotAgent) (ev : TEvent) :
    TBlobDepotAgent :=
  let doForward :=
    match ev.EventType with
    | EEventType.EvGet => ev.Decommission
    | EEventType.EvRange => ev.Decommission
    | _ => false
  if doForward then
    { s with Effects := s.Effects ++ [TEffect.Forward ev] }
  else
    let size := if !s.IsConnected then ev.CalculateSize else 0
    if !s.IsConnected ∧ addSize size s.PendingEventBytes > c.MaxPendingEventBytes then
      { s with Effects := s.Effects ++
          [TEffect.EndWithError ev EReplyStatus.ERROR "pending event queue overflow"] }
    else if !s.IsConnected ∨ !s.PendingEventQ.isEmpty then
      { s with
        PendingEventBytes := addSize s.PendingEventBytes size
        PendingEventQ := s.PendingEventQ ++
          [{ Event := ev, Size := size, ExpirationTimestamp := now + c.EventExpirationTime }] }
    else
      s.ProcessStorageEvent ev

/-- The loop of `HandlePendingEvent`; the list is the content of `PendingEventQ`, `i` counts the
events processed so far in this call, and `timedOut i` is the outcome of
`timer.Passed() >= 1 ms` after the i-th of them. -/
def DrainLoop (timedOut : Nat → Bool) :
    List TPendingEvent → Nat → TBlobDepotAgent → Option TBlobDepotAgent
  | [], _, s => some s
  | item :: rest, i, s =>
    let s := s.ProcessStorageEvent item.Event
    if s.PendingEventBytes ≥ item.Size then
      let s := { s with
        PendingEventBytes := subSize s.PendingEventBytes item.Size
        PendingEventQ := rest }
      if !rest.isEmpty ∧ timedOut i then
        if !s.ProcessPendingEventInFlight then
          some { s with
            Effects := s.Effects ++ [TEffect.SendProcessPendingEvent]
            ProcessPendingEventInFlight := true }
        else
          some s
      else
        DrainLoop timedOut rest (i + 1) s
    else
      none

def HandlePendingEvent (timedOut : Nat → Bool) (s : TBlobDepotAgent) : Option TBlobDepotAgent :=
  DrainLoop timedOut s.PendingEventQ 0 s

def HandleProcessPendingEvent (timedOut : Nat → Bool) (s : TBlobDepotAgent) :
    Option TBlobDepotAgent :=
  if s.ProcessPendingEventInFlight then
    HandlePendingEvent timedOut { s with ProcessPendingEventInFlight := false }
  else
    none

/-- The loop of `ClearPendingEventQueue` over the queue content that `std::exchange` took
out. -/
def ClearLoop (reason : String) : List TPendingEvent → TBlobDepotAgent → Option TBlobDepotAgent
  | [], s => some s
  | item :: rest, s =>
    if s.PendingEventBytes ≥ item.Size then
      ClearLoop reason rest { s with
        PendingEventBytes := subSize s.PendingEventBytes item.Size
        Effects := s.Effects ++ [TEffect.EndWithError item.Event EReplyStatus.ERROR reason] }
    else
      none

def ClearPendingEventQueue (reason : String) (s : TBlobDepotAgent) : Option TBlobDepotAgent :=
  ClearLoop reason s.PendingEventQ { s with PendingEventQ := [] }

/-- The loop of `HandlePendingEventQueueWatchdog`; it returns the entries from the final
position of the iterator on, which `erase(begin, it)` keeps. -/
def WatchdogLoop (now : Nat) :
    List TPendingEvent → TBlobDepotAgent → List TPendingEvent × TBlobDepotAgent
  | [], s => ([], s)
  | item :: rest, s =>
    if item.ExpirationTimestamp ≤ now then
      WatchdogLoop now rest { s with
        Effects := s.Effects ++
          [TEffect.EndWithError item.Event EReplyStatus.ERROR "pending event queue timeout"]
        PendingEventBytes := subSize s.PendingEventBytes item.Size }
    else
      (item :: rest, s)

def HandlePendingEventQueueWatchdog (now : Nat) (s : TBlobDepotAgent) : TBlobDepotAgent :=
  let s :=
    if !s.IsConnected then
      let res := WatchdogLoop now s.PendingEventQ s
      { res.2 with PendingEventQ := res.1 }
    else s
  { s with Effects := s.Effects ++ [TEffect.SchedulePendingEventQueueWatchdog] }

/-- The sum of the recorded `Size` over the entries of a queue. -/
def QueuedBytes (q : List TPendingEvent) : Nat := (q.map (fun e => e.Size)).sum

/-- The sum over the events held in a queue of their `CalculateSize()` estimate. -/
def QueuedEventBytes (q : List TPendingEvent) : Nat :=
  (q.map (fun e => e.Event.CalculateSize)).sum

/-- States of the agent reachable from a state with an empty queue and `PendingEventBytes = 0`
through the queue handlers of query.cpp.  `IsConnected` and `TabletId` are written by code
outside this file; any such write is a step.  An arriving event has a size that `size_t`
addition with the cap does not wrap.  A handler call that aborts produces no state. -/
inductive Reachable (c : TAgentConsts) : TBlobDepotAgent → Prop
  | init (s : TBlobDepotAgent) :
      s.PendingEventQ = [] → s.PendingEventBytes = 0 → Reachable c s
  | handleStorageProxy (s : TBlobDepotAgent) (ev : TEvent) (now : Nat) :
      Reachable c s → ev.CalculateSize + c.MaxPendingEventBytes < 2 ^ 64 →
      Reachable c (HandleStorageProxy c now s ev)
  | handlePendingEvent (s s' : TBlobDepotAgent) (timedOut : Nat → Bool) :
      Reachable c s → HandlePendingEvent timedOut s = some s' → Reachable c s'
  | handleProcessPendingEvent (s s' : TBlobDepotAgent) (timedOut : Nat → Bool) :
      Reachable c s → HandleProcessPendingEvent timedOut s = some s' → Reachable c s'
  | clearPendingEventQueue (s s' : TBlobDepotAgent) (reason : String) :
      Reachable c s → ClearPendingEventQueue reason s = some s' → Reachable c s'
  | handlePendingEventQueueWatchdog (s : TBlobDepotAgent) (now : Nat) :
      Reachable c s → Reachable c (HandlePendingEventQueueWatchdog now s)
  | setConnected (s : TBlobDepotAgent) (b : Bool) :
      Reachable c s → Reachable c { s with IsConnected := b }
  | setTabletId (s : TBlobDepotAgent) (id : Nat) :
      Reachable c s → Reachable c { s with TabletId := id }

/-- The invariant of the byte accounting: the counter is the sum of the recorded sizes, it is a
`size_t` value within the cap, and the size recorded with an entry is the estimate of its event
or zero. -/
structure BytesInv (c : TAgentConsts) (s : TBlobDepotAgent) : Prop where
  bytes_eq : s.PendingEventBytes = QueuedBytes s.PendingEventQ
  bytes_lt : s.PendingEventBytes < 2 ^ 64
  bytes_le : s.PendingEventBytes ≤ c.MaxPendingEventBytes
  sizes : ∀ e ∈ s.PendingEventQ, e.Size = e.Event.CalculateSize ∨ e.Size = 0

/-- The entries that a run of the watchdog at time `now` finds expired at the front of a
queue. -/
def ExpiredPrefix (now : Nat) (q : List TPendingEvent) : List TPendingEvent :=
  q.takeWhile (fun e => decide (e.ExpirationTimestamp ≤ now))

end TBlobDepotAgent

/-- Constants for the worked examples: scenario 1 of §8, a cap of 1000 bytes and an expiration
time of 10 time units. -/
def sampleConsts : TAgentConsts where
  MaxPendingEventBytes := 1000
  EventExpirationTime := 10

/-- Three put requests for the worked examples, with estimates of 300, 300 and 2000 bytes. -/
def evA : TEvent := { EventType := EEventType.EvPut, CalculateSize := 300, Cookie := 1 }

def evB : TEvent := { EventType := EEventType.EvPut, CalculateSize := 300, Cookie := 2 }

def evC : TEvent := { EventType := EEventType.EvPut, CalculateSize := 2000, Cookie := 3 }

/-- A fresh agent that received `evA` and `evB` at time 0 while disconnected. -/
def queuedAB : TBlobDepotAgent :=
  TBlobDepotAgent.HandleStorageProxy sampleConsts 0
    (TBlobDepotAgent.HandleStorageProxy sampleConsts 0 {} evA) evB

/-- The agent of `queuedAB` after the connection to tablet 7 came up. -/
def connectedAB : TBlobDepotAgent := { queuedAB with IsConnected := true, TabletId := 7 }

/-- The agent of `connectedAB` after a run of `HandlePendingEvent` that the 1 ms timer stopped
after the first event: `evA` is initiated, `evB` is still queued and the continuation is in
flight. -/
def drainedB : TBlobDepotAgent where
  IsConnected := true
  TabletId := 7
  PendingEventQ := [{ Event := evB, Size := 300, ExpirationTimestamp := 10 }]
  PendingEventBytes := 300
  ProcessPendingEventInFlight := true
  Effects := [TEffect.Initiate evA, TEffect.SendProcessPendingEvent]

/-- The agent of `drainedB` after `evC` arrived at time 1, before the continuation ran. -/
def overCap : TBlobDepotAgent := TBlobDepotAgent.HandleStorageProxy sampleConsts 1 drainedB evC

end NBlobDepot

namespace NBlobDepot

/-- The value of the local `doForward` of `HandleStorageProxy`: the `Decommission` flag of a Get
or a Range, false for every other kind. -/
def TEvent.DoForward (ev : TEvent) : Bool :=
  match ev.EventType with
  | EEventType.EvGet => ev.Decommission
  | EEventType.EvRange => ev.Decommission
  | _ => false

namespace TBlobDepotAgent

/-- The effect that `ProcessStorageEvent` appends for an event, for a given `TabletId`. -/
def ProcessEffect (tabletId : Nat) (ev : TEvent) : TEffect :=
  if tabletId = 0 then TEffect.EndWithError ev EReplyStatus.ERROR "group is in error state"
  else TEffect.Initiate ev

/-- The status and the reason of every `EndWithError` among a list of effects, in order. -/
def ErrorReplies (l : List TEffect) : List (EReplyStatus × String) :=
  l.filterMap (fun e =>
    match e with
    | TEffect.EndWithError _ status reason => some (status, reason)
    | _ => none)

/-- The number of `EvProcessPendingEvent` self-events sent according to a list of effects. -/
def SelfEventsSent (l : List TEffect) : Nat := l.count TEffect.SendProcessPendingEvent

end TBlobDepotAgent

/-- The agent together with its mailbox, as far as the drain is concerned: `Undelivered` counts
the `EvProcessPendingEvent` self-events that were sent and are not yet delivered. -/
structure TAgentMailbox where
  Agent : TBlobDepotAgent
  Undelivered : Nat

namespace TAgentMailbox

/-- The mailbox after a handler took the agent to the state `s`: the self-events that the
handler sent are added to the undelivered ones. -/
def AfterHandler (m : TAgentMailbox) (s : TBlobDepotAgent) : TAgentMailbox where
  Agent := s
  Undelivered := m.Undelivered
    + (TBlobDepotAgent.SelfEventsSent s.Effects - TBlobDepotAgent.SelfEventsSent m.Agent.Effects)

/-- The mailbox after one self-event was taken out for delivery. -/
def TakeOne (m : TAgentMailbox) : TAgentMailbox := { m with Undelivered := m.Undelivered - 1 }

/-- States of agent and mailbox reachable from a fresh agent (empty queue, counter 0, no
self-event in flight, empty mailbox).  The handlers of the queue run as in
`TBlobDepotAgent.Reachable`; `HandleProcessPendingEvent` runs only on delivery of a self-event
that is in the mailbox. -/
inductive Reachable (c : TAgentConsts) : TAgentMailbox → Prop
  | init (s : TBlobDepotAgent) :
      s.PendingEventQ = [] → s.PendingEventBytes = 0 → s.ProcessPendingEventInFlight = false →
      Reachable c { Agent := s, Undelivered := 0 }
  | handleStorageProxy (m : TAgentMailbox) (ev : TEvent) (now : Nat) :
      Reachable c m → ev.CalculateSize + c.MaxPendingEventBytes < 2 ^ 64 →
      Reachable c (m.AfterHandler (TBlobDepotAgent.HandleStorageProxy c now m.Agent ev))
  | handlePendingEvent (m : TAgentMailbox) (s : TBlobDepotAgent) (timedOut : Nat → Bool) :
      Reachable c m → TBlobDepotAgent.HandlePendingEvent timedOut m.Agent = some s →
      Reachable c (m.AfterHandler s)
  | deliver (m : TAgentMailbox) (s : TBlobDepotAgent) (timedOut : Nat → Bool) :
      Reachable c m → 0 < m.Undelivered →
      TBlobDepotAgent.HandleProcessPendingEvent timedOut m.Agent = some s →
      Reachable c (m.TakeOne.AfterHandler s)
  | clearPendingEventQueue (m : TAgentMailbox) (s : TBlobDepotAgent) (reason : String) :
      Reachable c m → TBlobDepotAgent.ClearPendingEventQueue reason m.Agent = some s →
      Reachable c (m.AfterHandler s)
  | handlePendingEventQueueWatchdog (m : TAgentMailbox) (now : Nat) :
      Reachable c m →
      Reachable c (m.AfterHandler (TBlobDepotAgent.HandlePendingEventQueueWatchdog now m.Agent))
  | setConnected (m : TAgentMailbox) (b : Bool) :
      Reachable c m → Reachable c { m with Agent := { m.Agent with IsConnected := b } }
  | setTabletId (m : TAgentMailbox) (id : Nat) :
      Reachable c m → Reachable c { m with Agent := { m.Agent with TabletId := id } }

end TAgentMailbox

/-- An event of 300 bytes with the given cookie. -/
def ev300 (cookie : Nat) : TEvent :=
  { EventType := EEventType.EvPut, CalculateSize := 300, Cookie := cookie }

/-- Scenario 1 of §8 after three arrivals: a fresh, disconnected agent that received three
events of 300 bytes at time 0. -/
def queued3 : TBlobDepotAgent :=
  [ev300 1, ev300 2, ev300 3].foldl (TBlobDepotAgent.HandleStorageProxy sampleConsts 0) {}

/-- Scenario 1 of §8: a fresh, disconnected agent that received five events of 300 bytes at
time 0. -/
def queued5 : TBlobDepotAgent :=
  [ev300 1, ev300 2, ev300 3, ev300 4, ev300 5].foldl
    (TBlobDepotAgent.HandleStorageProxy sampleConsts 0) {}

/-- Scenario 3 of §8: the agent of `queued3` after the connection to tablet 7 came up. -/
def connected3 : TBlobDepotAgent := { queued3 with IsConnected := true, TabletId := 7 }

/-- Scenario 2 of §8: a fresh, disconnected agent that received `evA` at time 0; the entry
expires at time 10. -/
def queued1 : TBlobDepotAgent := TBlobDepotAgent.HandleStorageProxy sampleConsts 0 {} evA

/-- Scenario 4 of §8 in small: the agent of `drainedB`, which stopped its drain on the timer
with `evB` still queued, and the one self-event it sent. -/
def yieldedMailbox : TAgentMailbox := { Agent := drainedB, Undelivered := 1 }

end NBlobDepot

/-! # Blob-depot agent: the query registry

A shallow embedding of the `TQuery` methods of `ydb/core/blob_depot/agent/query.cpp`
(constructor, destructor, `CheckQueryExecutionTime`, `EndWithError`, `EndWithSuccess`,
`DoDestroy`) and of `HandleQueryWatchdog`.

* A query object is identified by its address; the registry maps an address to the object that
  lives there, if any.
* `QueryWatchdogMap` is a `std::multimap`: a list of nodes (key, query) sorted by key, a new node
  going behind the nodes with an equal key.  An iterator keeps designating its node; the
  iterator stored in a query is given by the key of that node, the iterator of the watchdog loop
  by the position of its node.
* The intrusive lists are lists of addresses: `Unlink` removes the address, `PushBack` appends
  it.
* What the methods send, log at watchdog priority or schedule is appended to `Effects`.  Debug
  logging, `TRequestSender` and what `OnDestroy` does in a concrete query are not modelled.
-/

namespace NBlobDepot

/-- The address of a `TQuery` object. -/
abbrev TQueryPtr := Nat

/-- Modelled from the spec: the log priorities `NLog::EPriority` that the watchdog uses (§4.5:
an initial priority, debug, bumped to Notice). -/
inductive EPriority where
  | PRI_DEBUG
  | PRI_INFO
  | PRI_NOTICE
deriving DecidableEq, Repr

/-- Modelled from the spec: the members of `TQuery` (agent_impl.h) that query.cpp uses (§3
Query).  `QueryWatchdogMapIter` is the key of the node it designates. -/
structure TQuery where
  Event : TEvent
  QueryId : Nat
  StartTime : Nat
  QueryWatchdogMapIter : Nat
  WatchdogPriority : EPriority := EPriority.PRI_DEBUG
  Destroyed : Bool := false
deriving DecidableEq, Repr

/-- Modelled from the spec: a reply event (§6): a status code and, on error, a reason. -/
structure TResponse where
  Status : EReplyStatus
  ErrorReason : String := ""
deriving DecidableEq, Repr

/-- Modelled from the spec: `MakeErrorResponse(status, reason, virtual_group_id)` of an event
(§6); every kind of the enumeration has one, so the response is never null. -/
def TEvent.MakeErrorResponse (_ev : TEvent) (status : EReplyStatus) (reason : String) :
    TResponse :=
  { Status := status, ErrorReason := reason }

/-- What the methods of a query send, log or schedule. -/
inductive TQueryEffect where
  | Send (recipient : Nat) (cookie : Nat) (response : TResponse)
  | OnDestroy (query : TQueryPtr) (success : Bool)
  | StillExecuting (priority : EPriority) (query : TQueryPtr)
  | ScheduleQueryWatchdog
deriving DecidableEq, Repr

/-- Modelled from the spec: the members of `TBlobDepotAgent` that the queries use
(agent_impl.h; §3 QueryRegistry): the live objects, the deadline index, the three membership
lists and the destruction list. -/
structure TQueryRegistry where
  Queries : TQueryPtr → Option TQuery := fun _ => none
  QueryWatchdogMap : List (Nat × TQueryPtr) := []
  ExecutingQueries : List TQueryPtr := []
  PendingBlockChecks : List TQueryPtr := []
  PendingId : List TQueryPtr := []
  DeletePendingQueries : List TQueryPtr := []
  Effects : List TQueryEffect := []

/-- The position that `std::multimap::upper_bound(k)` returns: the number of leading nodes
with a key `≤ k`. -/
def MapUpperBound (k : Nat) : List (Nat × TQueryPtr) → Nat
  | [] => 0
  | e :: m => if e.1 ≤ k then MapUpperBound k m + 1 else 0

/-- Insertion into a `std::multimap`: the node goes behind the nodes with a key `≤ k`. -/
def MapInsert (k : Nat) (p : TQueryPtr) : List (Nat × TQueryPtr) → List (Nat × TQueryPtr)
  | [] => [(k, p)]
  | e :: m => if e.1 ≤ k then e :: MapInsert k p m else (k, p) :: e :: m

namespace TQuery

/-- The constructor `TQuery::TQuery` of a query at the address `self`, at time `now`:
`StartTime` is the current time and the query enters `QueryWatchdogMap` under the key
`StartTime + WatchdogDuration`. -/
def Construct (wd now : Nat) (reg : TQueryRegistry) (self : TQueryPtr) (event : TEvent)
    (queryId : Nat) : TQueryRegistry :=
  { reg with
    Queries := Function.update reg.Queries self (some
      { Event := event, QueryId := queryId, StartTime := now,
        QueryWatchdogMapIter := now + wd })
    QueryWatchdogMap := MapInsert (now + wd) self reg.QueryWatchdogMap }

/-- The destructor `TQuery::~TQuery`: the node of the query is erased from `QueryWatchdogMap`
and the object is gone.  No object at `self`, or an iterator without a node, is undefined
behaviour. -/
def Destruct (reg : TQueryRegistry) (self : TQueryPtr) : Option TQueryRegistry :=
  match reg.Queries self with
  | none => none
  | some q =>
    if (q.QueryWatchdogMapIter, self) ∈ reg.QueryWatchdogMap then
      some { reg with
        QueryWatchdogMap := reg.QueryWatchdogMap.erase (q.QueryWatchdogMapIter, self)
        Queries := Function.update reg.Queries self none }
    else
      none

def CheckQueryExecutionTime (wd now : Nat) (reg : TQueryRegistry) (self : TQueryPtr) :
    Option TQueryRegistry :=
  match reg.Queries self with
  | none => none
  | some q =>
    let prio := q.WatchdogPriority
    if (q.QueryWatchdogMapIter, self) ∈ reg.QueryWatchdogMap then
      let nh := reg.QueryWatchdogMap.erase (q.QueryWatchdogMapIter, self)
      some { reg with
        Effects := reg.Effects ++ [TQueryEffect.StillExecuting prio self]
        QueryWatchdogMap := MapInsert (now + wd) self nh
        Queries := Function.update reg.Queries self (some
          { q with
            WatchdogPriority := EPriority.PRI_NOTICE
            QueryWatchdogMapIter := now + wd }) }
    else
      none

def DoDestroy (reg : TQueryRegistry) (self : TQueryPtr) : Option TQueryRegistry :=
  match reg.Queries self with
  | none => none
  | some q =>
    if q.Destroyed then
      none
    else
      some { reg with
        Queries := Function.update reg.Queries self (some { q with Destroyed := true })
        ExecutingQueries := reg.ExecutingQueries.filter (fun p => p ≠ self)
        PendingBlockChecks := reg.PendingBlockChecks.filter (fun p => p ≠ self)
        PendingId := reg.PendingId.filter (fun p => p ≠ self)
        DeletePendingQueries := reg.DeletePendingQueries ++ [self] }

def EndWithError (reg : TQueryRegistry) (self : TQueryPtr) (status : EReplyStatus)
    (errorReason : String) : Option TQueryRegistry :=
  match reg.Queries self with
  | none => none
  | some q =>
    let response := q.Event.MakeErrorResponse status errorReason
    let reg := { reg with
      Effects := reg.Effects ++
        [TQueryEffect.Send q.Event.Sender q.Event.Cookie response,
         TQueryEffect.OnDestroy self false] }
    DoDestroy reg self

def EndWithSuccess (reg : TQueryRegistry) (self : TQueryPtr) (response : TResponse) :
    Option TQueryRegistry :=
  match reg.Queries self with
  | none => none
  | some q =>
    let reg := { reg with
      Effects := reg.Effects ++
        [TQueryEffect.Send q.Event.Sender q.Event.Cookie response,
         TQueryEffect.OnDestroy self true] }
    DoDestroy reg self

end TQuery

namespace TQueryRegistry

/-- The loop of `HandleQueryWatchdog`.  `it` is the position of the node that the iterator
designates; `fuel` bounds the number of iterations, `none` being returned when it is used up.
After `*it++` the iterator designates the successor, whose position moves by the extraction and
the insertion that `CheckQueryExecutionTime` does. -/
def QueryWatchdogLoop (wd now : Nat) : Nat → Nat → TQueryRegistry → Option TQueryRegistry
  | 0, _, _ => none
  | fuel + 1, it, reg =>
    match reg.QueryWatchdogMap.get? it with
    | none => some reg
    | some (timestamp, query) =>
      if timestamp ≤ now then
        match reg.Queries query with
        | none => none
        | some q =>
          let node := (q.QueryWatchdogMapIter, query)
          let extracted := reg.QueryWatchdogMap.indexOf node
          let inserted := MapUpperBound (now + wd) (reg.QueryWatchdogMap.erase node)
          let it := if extracted < it + 1 then it else it + 1
          let it := if inserted ≤ it then it + 1 else it
          match TQuery.CheckQueryExecutionTime wd now reg query with
          | none => none
          | some reg => QueryWatchdogLoop wd now fuel it reg
      else
        some reg

def HandleQueryWatchdog (wd now fuel : Nat) (reg : TQueryRegistry) : Option TQueryRegistry :=
  match QueryWatchdogLoop wd now fuel 0 reg with
  | none => none
  | some reg =>
    some { reg with Effects := reg.Effects ++ [TQueryEffect.ScheduleQueryWatchdog] }

/-- The destructors of a list of queries, run in order. -/
def DestructAll : List TQueryPtr → TQueryRegistry → Option TQueryRegistry
  | [], reg => some reg
  | p :: ps, reg =>
    match TQuery.Destruct reg p with
    | none => none
    | some reg => DestructAll ps reg

/-- Modelled from the spec: the physical destruction at the end of an event dispatch (§4.5;
done by the state function of agent_impl.h): the destruction list is emptied and every query on
it is deleted. -/
def FlushDeletePending (reg : TQueryRegistry) : Option TQueryRegistry :=
  DestructAll reg.DeletePendingQueries { reg with DeletePendingQueries := [] }

/-- States of the registry reachable from the empty one.  A query is constructed at an address
where no object lives; it is terminated through `EndWithError` or `EndWithSuccess`; code
outside query.cpp links live queries into the membership lists and flushes the destruction
list. -/
inductive Reachable (wd : Nat) : TQueryRegistry → Prop
  | init : Reachable wd {}
  | construct (reg : TQueryRegistry) (now : Nat) (self : TQueryPtr) (event : TEvent)
      (queryId : Nat) :
      Reachable wd reg → reg.Queries self = none →
      Reachable wd (TQuery.Construct wd now reg self event queryId)
  | endWithError (reg reg' : TQueryRegistry) (self : TQueryPtr) (status : EReplyStatus)
      (errorReason : String) :
      Reachable wd reg → TQuery.EndWithError reg self status errorReason = some reg' →
      Reachable wd reg'
  | endWithSuccess (reg reg' : TQueryRegistry) (self : TQueryPtr) (response : TResponse) :
      Reachable wd reg → TQuery.EndWithSuccess reg self response = some reg' →
      Reachable wd reg'
  | handleQueryWatchdog (reg reg' : TQueryRegistry) (now fuel : Nat) :
      Reachable wd reg → HandleQueryWatchdog wd now fuel reg = some reg' → Reachable wd reg'
  | flushDeletePending (reg reg' : TQueryRegistry) :
      Reachable wd reg → FlushDeletePending reg = some reg' → Reachable wd reg'
  | linkExecuting (reg : TQueryRegistry) (self : TQueryPtr) (q : TQuery) :
      Reachable wd reg → reg.Queries self = some q → q.Destroyed = false →
      Reachable wd { reg with ExecutingQueries := reg.ExecutingQueries ++ [self] }
  | linkPendingBlockChecks (reg : TQueryRegistry) (self : TQueryPtr) (q : TQuery) :
      Reachable wd reg → reg.Queries self = some q → q.Destroyed = false →
      Reachable wd { reg with PendingBlockChecks := reg.PendingBlockChecks ++ [self] }
  | linkPendingId (reg : TQueryRegistry) (self : TQueryPtr) (q : TQuery) :
      Reachable wd reg → reg.Queries self = some q → q.Destroyed = false →
      Reachable wd { reg with PendingId := reg.PendingId ++ [self] }

/-- The invariant of the deadline index: it is sorted, and its nodes are the nodes of the
objects that exist, one for each. -/
structure MapInv (reg : TQueryRegistry) : Prop where
  sorted : reg.QueryWatchdogMap.Pairwise (fun a b => a.1 ≤ b.1)
  owner : ∀ e ∈ reg.QueryWatchdogMap,
    ∃ q, reg.Queries e.2 = some q ∧ q.QueryWatchdogMapIter = e.1
  nodup : (reg.QueryWatchdogMap.map (fun e => e.2)).Nodup
  node : ∀ p q, reg.Queries p = some q → (q.QueryWatchdogMapIter, p) ∈ reg.QueryWatchdogMap

/-- The list `ps` holds the terminated objects of the registry, each once. -/
structure PendingInv (reg : TQueryRegistry) (ps : List TQueryPtr) : Prop where
  pending : ∀ p, p ∈ ps ↔ ∃ q, reg.Queries p = some q ∧ q.Destroyed = true
  pending_nodup : ps.Nodup

/-- The invariant of the registry: that of the deadline index, and the destruction list holds
the terminated objects, each once. -/
structure Inv (reg : TQueryRegistry) : Prop where
  map : MapInv reg
  del : PendingInv reg reg.DeletePendingQueries

/-- The registry after the termination of the query `q` that lives at `self`: what the call
sent is appended to the effects, the query is marked destroyed, unlinked from the three
membership lists and appended to the destruction list. -/
def AfterTermination (reg : TQueryRegistry) (self : TQueryPtr) (q : TQuery)
    (sent : List TQueryEffect) : TQueryRegistry :=
  { reg with
    Effects := reg.Effects ++ sent
    Queries := Function.update reg.Queries self (some { q with Destroyed := true })
    ExecutingQueries := reg.ExecutingQueries.filter (fun p => p ≠ self)
    PendingBlockChecks := reg.PendingBlockChecks.filter (fun p => p ≠ self)
    PendingId := reg.PendingId.filter (fun p => p ≠ self)
    DeletePendingQueries := reg.DeletePendingQueries ++ [self] }

/-- The queries on which `CheckQueryExecutionTime` logged, in order. -/
def CheckedQueries (l : List TQueryEffect) : List TQueryPtr :=
  l.filterMap (fun e =>
    match e with
    | TQueryEffect.StillExecuting _ query => some query
    | _ => none)

end TQueryRegistry

end NBlobDepot

namespace NBlobDepot

/-- A registry with a watchdog duration of 10 in which one query, for `evA`, was constructed at
the address 1 at time 0. -/
def oneQuery : TQueryRegistry := TQuery.Construct 10 0 {} 1 evA 42

/-- The query of `oneQuery`. -/
def queryA : TQuery :=
  { Event := evA, QueryId := 42, StartTime := 0, QueryWatchdogMapIter := 10 }

/-- The registry `oneQuery` after its query was ended with "group is in error state", as
`ProcessStorageEvent` does without a tablet. -/
def endedQuery : TQueryRegistry :=
  oneQuery.AfterTermination 1 queryA
    [TQueryEffect.Send evA.Sender evA.Cookie
       { Status := EReplyStatus.ERROR, ErrorReason := "group is in error state" },
     TQueryEffect.OnDestroy 1 false]

/-- A registry with a watchdog duration of 10 in which three queries were constructed, at the
addresses 1, 2, 3 and the times 0, 3, 15: their deadlines are 10, 13 and 25. -/
def threeQueries : TQueryRegistry :=
  TQuery.Construct 10 15
    (TQuery.Construct 10 3 (TQuery.Construct 10 0 {} 1 evA 41) 2 evB 42) 3 evC 43

end NBlobDepot

namespace NPDisk

set_option maxRecDepth 100000

/-! ## Machine arithmetic: lemmas -/

theorem toI64_of_range (n : Int) (h0 : 0 ≤ n) (h1 : n < 2 ^ 63) : toI64 n = n := by
  unfold toI64
  omega

theorem divBySize_eq (total : Int) (parts : Nat) (h0 : 0 ≤ total) (h1 : total < 2 ^ 63) :
    divBySize total parts = total / (parts : Int) := by
  unfold divBySize
  have hm : total % 2 ^ 64 = total := Int.emod_eq_of_lt h0 (by omega)
  rw [hm]
  apply toI64_of_range
  · exact Int.ediv_nonneg h0 (Int.natCast_nonneg parts)
  · exact lt_of_le_of_lt (Int.ediv_le_self _ h0) h1

theorem divBySize_nonneg (total : Int) (parts : Nat) (h0 : 0 ≤ total) (h1 : total < 2 ^ 63) :
    0 ≤ divBySize total parts := by
  rw [divBySize_eq total parts h0 h1]
  exact Int.ediv_nonneg h0 (Int.natCast_nonneg parts)

/-! ## TPerOwnerQuotaTracker: lemmas -/

namespace TPerOwnerQuotaTracker

theorem ForceHardLimitAll_eq (limit : Int) (h : 0 ≤ limit) (ids : List TOwner)
    (t : TPerOwnerQuotaTracker) :
    ForceHardLimitAll limit ids t = some (t.WithLimit ids limit) := by
  induction ids generalizing t with
  | nil => simp [ForceHardLimitAll, WithLimit]
  | cons id rest ih =>
    simp only [ForceHardLimitAll, ForceHardLimit, h, if_true, TQuotaRecord.ForceHardLimit]
    rw [ih]
    simp only [WithLimit, Option.some.injEq]
    congr 1
    funext x
    by_cases hx : x ∈ rest
    · by_cases hxi : x = id
      · subst hxi; simp [hx]
      · simp [hx, hxi, Function.update_noteq hxi]
    · by_cases hxi : x = id
      · subst hxi; simp [hx]
      · simp [hx, hxi, Function.update_noteq hxi]

theorem RedistributeQuotas_eq (t : TPerOwnerQuotaTracker) (h0 : 0 ≤ t.Total)
    (h1 : t.Total < 2 ^ 63) :
    t.RedistributeQuotas = some
      (if max t.ExpectedOwnerCount t.ActiveOwnerIds.length ≠ 0 then
        t.WithLimit t.ActiveOwnerIds
          (t.Total / ((max t.ExpectedOwnerCount t.ActiveOwnerIds.length : Nat) : Int))
       else t) := by
  unfold RedistributeQuotas
  simp only []
  split
  · rw [ForceHardLimitAll_eq _ (divBySize_nonneg _ _ h0 h1), divBySize_eq _ _ h0 h1]
  · rfl

theorem set_indexOf_dropLast_perm (l : List TOwner) (id : TOwner) (h : id ∈ l) (d : TOwner) :
    List.Perm ((l.set (l.indexOf id) (l.getLastD d)).dropLast) (l.erase id) := by
  induction l generalizing d with
  | nil => simp at h
  | cons a rest ih =>
    by_cases ha : a = id
    · subst ha
      cases rest with
      | nil => simp
      | cons b rest2 =>
        simp only [List.indexOf_cons_self, List.set_cons_zero, List.erase_cons_head]
        have hne : (b :: rest2) ≠ [] := by simp
        rw [List.dropLast_cons_of_ne_nil hne]
        have hl : (a :: b :: rest2).getLastD d = (b :: rest2).getLast hne := by
          simp [List.getLastD]
        rw [hl]
        have := List.dropLast_append_getLast hne
        conv_rhs => rw [← this]
        exact (List.perm_append_singleton _ _).symm
    · have hmem : id ∈ rest := by
        rcases List.mem_cons.mp h with h | h
        · exact absurd h.symm ha
        · exact h
      cases rest with
      | nil => simp at hmem
      | cons b rest2 =>
        have hidx : (a :: b :: rest2).indexOf id = (b :: rest2).indexOf id + 1 :=
          List.indexOf_cons_ne _ ha
        rw [hidx, List.set_cons_succ]
        have hne : ((b :: rest2).set ((b :: rest2).indexOf id) ((a :: b :: rest2).getLastD d)) ≠ [] := by
          simp
        rw [List.dropLast_cons_of_ne_nil hne]
        have hl : (a :: b :: rest2).getLastD d = (b :: rest2).getLastD d := by
          simp [List.getLastD]
        rw [hl, List.erase_cons_tail (by simpa using ha)]
        exact List.Perm.cons a (ih hmem d)

theorem SwapRemove_found (ids : List TOwner) (id : TOwner) :
    (SwapRemove ids id).2 = decide (id ∈ ids) := by
  unfold SwapRemove
  by_cases h : id ∈ ids
  · simp [List.indexOf_lt_length.mpr h, h]
  · have : ¬ (ids.indexOf id < ids.length) := fun hlt => h (List.indexOf_lt_length.mp hlt)
    simp [this, h]

theorem SwapRemove_perm (ids : List TOwner) (id : TOwner) (h : id ∈ ids) :
    List.Perm (SwapRemove ids id).1 (ids.erase id) := by
  unfold SwapRemove
  simp only [List.indexOf_lt_length.mpr h, if_true]
  exact set_indexOf_dropLast_perm ids id h id

theorem RemoveOwner_eq (t : TPerOwnerQuotaTracker) (id : TOwner) :
    t.RemoveOwner id =
      if id ∈ t.ActiveOwnerIds then
        some { t with
          ActiveOwnerIds := (SwapRemove t.ActiveOwnerIds id).1
          QuotaForOwner := Function.update t.QuotaForOwner id
            { t.QuotaForOwner id with HardLimit := 0, Limits := t.ColorLimits } }
      else none := by
  unfold RemoveOwner
  simp only [SwapRemove_found]
  by_cases h : id ∈ t.ActiveOwnerIds
  · simp [h, ForceHardLimit, TQuotaRecord.ForceHardLimit]
  · simp [h]

@[simp] theorem WithLimit_GetHardLimit (t : TPerOwnerQuotaTracker) (ids : List TOwner)
    (limit : Int) (x : TOwner) :
    (t.WithLimit ids limit).GetHardLimit x = if x ∈ ids then limit else t.GetHardLimit x := by
  unfold WithLimit GetHardLimit TQuotaRecord.GetHardLimit
  by_cases hx : x ∈ ids <;> simp [hx]

@[simp] theorem WithLimit_GetUsed (t : TPerOwnerQuotaTracker) (ids : List TOwner)
    (limit : Int) (x : TOwner) : (t.WithLimit ids limit).GetUsed x = t.GetUsed x := by
  unfold WithLimit GetUsed TQuotaRecord.GetUsed
  by_cases hx : x ∈ ids <;> simp [hx]

@[simp] theorem Joined_GetHardLimit (t : TPerOwnerQuotaTracker) (id : TOwner) (v : TVDiskID)
    (x : TOwner) : (t.Joined id v).GetHardLimit x = t.GetHardLimit x := by
  unfold Joined GetHardLimit TQuotaRecord.GetHardLimit
  by_cases hx : x = id
  · subst hx; simp [TQuotaRecord.SetName, TQuotaRecord.SetVDiskId]
  · simp [Function.update_noteq hx]

@[simp] theorem Joined_GetUsed (t : TPerOwnerQuotaTracker) (id : TOwner) (v : TVDiskID)
    (x : TOwner) : (t.Joined id v).GetUsed x = t.GetUsed x := by
  unfold Joined GetUsed TQuotaRecord.GetUsed
  by_cases hx : x = id
  · subst hx; simp [TQuotaRecord.SetName, TQuotaRecord.SetVDiskId]
  · simp [Function.update_noteq hx]

theorem AddOwner_eq (t : TPerOwnerQuotaTracker) (id : TOwner) (vdiskId : TVDiskID)
    (h0 : 0 ≤ t.Total) (h1 : t.Total < 2 ^ 63) :
    t.AddOwner id vdiskId =
      if t.GetHardLimit id = 0 ∧ t.GetUsed id = 0 then
        if t.ActiveOwnerIds.length + 1 ≤ t.ExpectedOwnerCount ∨ t.ExpectedOwnerCount = 0 then
          some ((t.Joined id vdiskId).WithLimit (t.ActiveOwnerIds ++ [id])
            (t.Total / ((max t.ExpectedOwnerCount (t.ActiveOwnerIds.length + 1) : Nat) : Int)))
        else some (t.Joined id vdiskId)
      else none := by
  unfold AddOwner
  simp only [GetHardLimit, GetUsed, TQuotaRecord.GetHardLimit, TQuotaRecord.GetUsed,
    TQuotaRecord.GetFree, List.length_append, List.length_singleton]
  by_cases hrec : (t.QuotaForOwner id).HardLimit = 0 ∧ (t.QuotaForOwner id).Used = 0
  · have hrec2 : (t.QuotaForOwner id).HardLimit = 0 ∧
        (t.QuotaForOwner id).HardLimit - (t.QuotaForOwner id).Used = 0 := by
      constructor
      · exact hrec.1
      · rw [hrec.1, hrec.2]; rfl
    rw [if_pos hrec2, if_pos hrec]
    split
    · refine (RedistributeQuotas_eq _ ?_ ?_).trans ?_
      · exact h0
      · exact h1
      · simp [Joined]
    · rfl
  · have hrec2 : ¬ ((t.QuotaForOwner id).HardLimit = 0 ∧
        (t.QuotaForOwner id).HardLimit - (t.QuotaForOwner id).Used = 0) := by
      intro hh
      apply hrec
      refine ⟨hh.1, ?_⟩
      have := hh.2
      rw [hh.1] at this
      omega
    rw [if_neg hrec2, if_neg hrec]

theorem sum_map_const_int (l : List TOwner) (c : Int) :
    (l.map (fun _ => c)).sum = (l.length : Int) * c := by
  induction l with
  | nil => simp
  | cons a rest ih => simp [ih]; ring

theorem ActiveHardLimitSum_WithLimit (t : TPerOwnerQuotaTracker) (limit : Int) :
    (t.WithLimit t.ActiveOwnerIds limit).ActiveHardLimitSum
      = (t.ActiveOwnerIds.length : Int) * limit := by
  unfold ActiveHardLimitSum WithLimit GetHardLimit TQuotaRecord.GetHardLimit
  simp only []
  rw [← sum_map_const_int]
  congr 1
  apply List.map_congr_left
  intro a ha
  simp [ha]

theorem length_mul_div_le (total : Int) (len parts : Nat) (h0 : 0 ≤ total) (hlen : len ≤ parts)
    (hp : parts ≠ 0) : (len : Int) * (total / (parts : Int)) ≤ total := by
  have hq : 0 ≤ total / (parts : Int) := Int.ediv_nonneg h0 (Int.natCast_nonneg parts)
  have h1 : (len : Int) * (total / (parts : Int)) ≤ (parts : Int) * (total / (parts : Int)) :=
    mul_le_mul_of_nonneg_right (by exact_mod_cast hlen) hq
  have h2 : (parts : Int) * (total / (parts : Int)) ≤ total := by
    rw [mul_comm]
    exact Int.ediv_mul_le total (by exact_mod_cast hp)
  exact le_trans h1 h2

theorem SplitInv_redistribute (t : TPerOwnerQuotaTracker) (h : SplitInv t)
    (t' : TPerOwnerQuotaTracker) (ht : t.RedistributeQuotas = some t') : SplitInv t' := by
  rw [RedistributeQuotas_eq t h.total_nonneg h.total_lt] at ht
  simp only [Option.some.injEq] at ht
  subst ht
  split
  · rename_i hp
    refine ⟨h.total_nonneg, h.total_lt, ?_, ?_⟩
    · intro id
      simp only [WithLimit]
      split
      · exact Int.ediv_nonneg h.total_nonneg (Int.natCast_nonneg _)
      · exact h.limit_nonneg id
    · rw [ActiveHardLimitSum_WithLimit]
      exact length_mul_div_le _ _ _ h.total_nonneg (le_max_right _ _) hp
  · exact h

theorem SplitInv_reset (t : TPerOwnerQuotaTracker) (total : Int) (limits : TColorLimits)
    (h0 : 0 ≤ total) (h1 : total < 2 ^ 63) : SplitInv (t.Reset total limits) := by
  refine ⟨h0, h1, ?_, ?_⟩
  · intro id; simp [Reset]
  · simpa [ActiveHardLimitSum, Reset] using h0

theorem SplitInv_setExpectedOwnerCount (t : TPerOwnerQuotaTracker) (h : SplitInv t) (n : Nat)
    (t' : TPerOwnerQuotaTracker) (ht : t.SetExpectedOwnerCount n = some t') : SplitInv t' := by
  unfold SetExpectedOwnerCount at ht
  split at ht
  · refine SplitInv_redistribute { t with ExpectedOwnerCount := n } ?_ t' ht
    exact ⟨h.total_nonneg, h.total_lt, h.limit_nonneg, h.sum_le⟩
  · simp only [Option.some.injEq] at ht
    subst ht
    exact h

theorem sum_map_update_of_zero (l : List TOwner) (q : TOwner → TQuotaRecord) (id : TOwner)
    (r : TQuotaRecord) (hr : r.HardLimit = (q id).HardLimit) :
    (l.map (fun x => (Function.update q id r x).HardLimit)).sum
      = (l.map (fun x => (q x).HardLimit)).sum := by
  congr 1
  apply List.map_congr_left
  intro a _
  by_cases ha : a = id
  · subst ha; simp [hr]
  · simp [Function.update_noteq ha]

theorem SplitInv_addOwner (t : TPerOwnerQuotaTracker) (h : SplitInv t) (id : TOwner)
    (vdiskId : TVDiskID) (t' : TPerOwnerQuotaTracker) (ht : t.AddOwner id vdiskId = some t') :
    SplitInv t' := by
  unfold AddOwner at ht
  simp only [] at ht
  split at ht
  · rename_i hrec
    have hbase : SplitInv { t with
        QuotaForOwner := Function.update t.QuotaForOwner id
          (((t.QuotaForOwner id).SetName ("Owner# " ++ toString id.val)).SetVDiskId vdiskId)
        ActiveOwnerIds := t.ActiveOwnerIds ++ [id] } := by
      refine ⟨h.total_nonneg, h.total_lt, ?_, ?_⟩
      · intro x
        by_cases hx : x = id
        · subst hx
          simpa [TQuotaRecord.SetName, TQuotaRecord.SetVDiskId] using h.limit_nonneg x
        · simpa [Function.update_noteq hx] using h.limit_nonneg x
      · have hs := h.sum_le
        have hz : (t.QuotaForOwner id).HardLimit = 0 := hrec.1
        unfold ActiveHardLimitSum GetHardLimit TQuotaRecord.GetHardLimit at hs ⊢
        simp only [List.map_append, List.sum_append, List.map_cons, List.map_nil, List.sum_cons,
          List.sum_nil, Function.update_same, TQuotaRecord.SetName, TQuotaRecord.SetVDiskId]
        have hu := sum_map_update_of_zero t.ActiveOwnerIds t.QuotaForOwner id
          { Name := "Owner# " ++ toString id.val, VDiskId := some vdiskId,
            HardLimit := (t.QuotaForOwner id).HardLimit, Used := (t.QuotaForOwner id).Used,
            Limits := (t.QuotaForOwner id).Limits } rfl
        rw [hu, hz]
        simpa using hs
    split at ht
    · exact SplitInv_redistribute _ hbase t' ht
    · simp only [Option.some.injEq] at ht
      subst ht
      exact hbase
  · simp at ht

theorem SplitInv_removeOwner (t : TPerOwnerQuotaTracker) (h : SplitInv t) (id : TOwner)
    (t' : TPerOwnerQuotaTracker) (ht : t.RemoveOwner id = some t') : SplitInv t' := by
  rw [RemoveOwner_eq] at ht
  split at ht
  · rename_i hmem
    simp only [Option.some.injEq] at ht
    subst ht
    refine ⟨h.total_nonneg, h.total_lt, ?_, ?_⟩
    · intro x
      by_cases hx : x = id
      · subst hx; simp
      · simpa [Function.update_noteq hx] using h.limit_nonneg x
    · have hs := h.sum_le
      unfold ActiveHardLimitSum GetHardLimit TQuotaRecord.GetHardLimit at hs ⊢
      simp only []
      have hperm := SwapRemove_perm t.ActiveOwnerIds id hmem
      rw [(hperm.map _).sum_eq]
      have hle : ((t.ActiveOwnerIds.erase id).map (fun x =>
            (Function.update t.QuotaForOwner id
              { Name := (t.QuotaForOwner id).Name, VDiskId := (t.QuotaForOwner id).VDiskId,
                HardLimit := 0, Used := (t.QuotaForOwner id).Used, Limits := t.ColorLimits }
              x).HardLimit)).sum
          ≤ ((t.ActiveOwnerIds.erase id).map (fun x => (t.QuotaForOwner x).HardLimit)).sum := by
        apply List.sum_le_sum
        intro x _
        by_cases hx : x = id
        · subst hx; simpa using h.limit_nonneg x
        · simp [Function.update_noteq hx]
      have herase := List.sum_map_erase (fun x => (t.QuotaForOwner x).HardLimit) hmem
      have hnn := h.limit_nonneg id
      simp only [] at herase
      omega
  · simp at ht

theorem RemoveOwner_GetHardLimit_other (u u' : TPerOwnerQuotaTracker) (y x : TOwner)
    (hu : u.RemoveOwner y = some u') (hyx : y ≠ x) : u'.GetHardLimit x = u.GetHardLimit x := by
  rw [RemoveOwner_eq] at hu
  split at hu
  · simp only [Option.some.injEq] at hu
    subst hu
    simp [GetHardLimit, Function.update_noteq (Ne.symm hyx)]
  · simp at hu

theorem AddOwner_GetHardLimit_of_full (u u' : TPerOwnerQuotaTracker) (y : TOwner) (w : TVDiskID)
    (x : TOwner) (hu : u.AddOwner y w = some u')
    (hnc : ¬ (u.ActiveOwnerIds.length + 1 ≤ u.ExpectedOwnerCount ∨ u.ExpectedOwnerCount = 0)) :
    u'.GetHardLimit x = u.GetHardLimit x := by
  unfold AddOwner at hu
  simp only [List.length_append, List.length_singleton] at hu
  split at hu
  · simp only [if_neg hnc, Option.some.injEq] at hu
    subst hu
    exact Joined_GetHardLimit u y w x
  · simp at hu

theorem SetExpectedOwnerCount_same (u : TPerOwnerQuotaTracker) :
    u.SetExpectedOwnerCount u.ExpectedOwnerCount = some u := by
  simp [SetExpectedOwnerCount]

end TPerOwnerQuotaTracker

namespace TChunkTracker

theorem AddOwner_frame (d : TPDiskDefs) (s s' : TChunkTracker) (owner : TOwner) (v : TVDiskID)
    (h : AddOwner d s owner v = some s') :
    d.IsOwnerUser owner = true ∧ s'.SharedQuota = s.SharedQuota ∧
      s'.GlobalQuota = s.GlobalQuota ∧ s'.Params = s.Params ∧ s'.ColorBorder = s.ColorBorder ∧
      s.OwnerQuota.AddOwner owner v = some s'.OwnerQuota := by
  unfold AddOwner at h
  split at h
  · rename_i hu
    split at h
    · simp at h
    · rename_i oq hoq
      simp only [Option.some.injEq] at h
      subst h
      exact ⟨hu, rfl, rfl, rfl, rfl, hoq⟩
  · simp at h

theorem RemoveOwner_frame (d : TPDiskDefs) (s s' : TChunkTracker) (owner : TOwner)
    (h : RemoveOwner d s owner = some s') :
    d.IsOwnerUser owner = true ∧ s'.SharedQuota = s.SharedQuota ∧
      s'.GlobalQuota = s.GlobalQuota ∧ s'.Params = s.Params ∧ s'.ColorBorder = s.ColorBorder ∧
      s.OwnerQuota.RemoveOwner owner = some s'.OwnerQuota := by
  unfold RemoveOwner at h
  split at h
  · rename_i hu
    split at h
    · simp at h
    · rename_i oq hoq
      simp only [Option.some.injEq] at h
      subst h
      exact ⟨hu, rfl, rfl, rfl, rfl, hoq⟩
  · simp at h

theorem ResetOwners_shared_le (d : TPDiskDefs) (l : List (TOwner × TOwnerInfo))
    (s s' : TChunkTracker) (b : Bool) (h : ResetOwners d l s = some (s', b))
    (hs : s.SharedQuota.Used ≤ s.SharedQuota.HardLimit) :
    s'.SharedQuota.Used ≤ s'.SharedQuota.HardLimit := by
  induction l generalizing s with
  | nil =>
    simp only [ResetOwners, Option.some.injEq, Prod.mk.injEq] at h
    rw [← h.1]; exact hs
  | cons e rest ih =>
    obtain ⟨ownerId, ownerInfo⟩ := e
    simp only [ResetOwners] at h
    split at h
    · simp at h
    · rename_i s1 hs1
      have hf := AddOwner_frame d s s1 ownerId ownerInfo.VDiskId hs1
      have hs1' : s1.SharedQuota.Used ≤ s1.SharedQuota.HardLimit := by rw [hf.2.1]; exact hs
      split at h
      · split at h
        · simp at h
        · rename_i oq _
          simp only [TQuotaRecord.InitialAllocate] at h
          by_cases hc : s1.SharedQuota.Used + ownerInfo.ChunksOwned ≤ s1.SharedQuota.HardLimit
          · simp only [hc, if_true] at h
            exact ih _ h (by simpa using hc)
          · simp only [hc, if_false] at h
            simp only [Bool.false_eq_true, if_false, Option.some.injEq, Prod.mk.injEq] at h
            rw [← h.1]
            exact hs1'
      · exact ih _ h hs1'

end TChunkTracker

namespace TPerOwnerQuotaTracker

theorem AddSystemOwner_some (g g' : TPerOwnerQuotaTracker) (id : TOwner) (q : Int)
    (name : String) (inc : Int) (h : g.AddSystemOwner id q name = some (g', inc)) :
    0 ≤ q ∧ g'.GetHardLimit id = q ∧ inc = -q := by
  unfold AddSystemOwner at h
  simp only [ForceHardLimit, TQuotaRecord.ForceHardLimit, TQuotaRecord.SetName,
    TQuotaRecord.GetHardLimit, TQuotaRecord.GetFree] at h
  split at h
  · rename_i hrec
    by_cases hq : 0 ≤ q
    · simp only [hq, if_true, Function.update_same, Function.update_idem, Option.some.injEq,
        Prod.mk.injEq] at h
      obtain ⟨h1, h2⟩ := h
      subst h1
      refine ⟨hq, by simp [GetHardLimit, TQuotaRecord.GetHardLimit], ?_⟩
      rw [← h2, hrec.1]; simp
    · simp [hq] at h
  · simp at h

end TPerOwnerQuotaTracker

namespace TChunkTracker

theorem ResetUserPool_shared_le (d : TPDiskDefs) (s0 s : TChunkTracker) (p : TKeeperParams)
    (r r' : String) (b : Bool) (h : ResetUserPool d s0 p r = some (s, b, r'))
    (h0 : s0.SharedQuota.Used ≤ s0.GlobalQuota.GetHardLimit d.OwnerBeginUser) :
    s.SharedQuota.Used ≤ s.SharedQuota.HardLimit := by
  unfold ResetUserPool at h
  simp only [] at h
  split at h
  · simp at h
  · rename_i oq hoq
    split at h
    · simp at h
    · rename_i s1 hs1
      have := ResetOwners_shared_le d _ _ _ _ hs1
        (by simpa [TQuotaRecord.ForceHardLimit, TQuotaRecord.SetName] using h0)
      simp only [Option.some.injEq, Prod.mk.injEq] at h
      rw [← h.1]; exact this
    · rename_i s1 hs1
      have := ResetOwners_shared_le d _ _ _ _ hs1
        (by simpa [TQuotaRecord.ForceHardLimit, TQuotaRecord.SetName] using h0)
      split at h
      · split at h
        · simp at h
        · rename_i gq isOk _
          cases isOk
          · simp only [Bool.not_false, if_true, Option.some.injEq, Prod.mk.injEq] at h
            rw [← h.1]; exact this
          · simp only [Bool.not_true, Bool.false_eq_true, if_false, Option.some.injEq,
              Prod.mk.injEq] at h
            rw [← h.1]; exact this
      · simp only [Option.some.injEq, Prod.mk.injEq] at h
        rw [← h.1]; exact this

theorem Reset_ok_shared_le (d : TPDiskDefs) (s0 s : TChunkTracker) (p : TKeeperParams)
    (r r' : String) (h : Reset d s0 p r = some (s, true, r')) (h0 : s0.SharedQuota.Used ≤ 0) :
    s.SharedQuota.Used ≤ s.SharedQuota.HardLimit := by
  unfold Reset at h
  simp only [] at h
  split at h
  · simp at h
  split at h
  · simp at h
  split at h
  · simp at h
  split at h
  · simp at h
  split at h
  · simp at h
  split at h
  · simp at h
  split at h
  · simp at h
  split at h
  · simp at h
  split at h
  · simp at h
  split at h
  · simp at h
  · rename_i gq inc hgq
    split at h
    · simp at h
    · refine ResetUserPool_shared_le d _ s p r r' true h ?_
      have := TPerOwnerQuotaTracker.AddSystemOwner_some _ _ _ _ _ _ hgq
      simp only []
      rw [this.2.1]
      exact le_trans h0 this.1

theorem TryAllocate_shared_le (d : TPDiskDefs) (s : TChunkTracker) (owner : TOwner) (count : Int)
    (r : String) (hs : s.SharedQuota.Used ≤ s.SharedQuota.HardLimit) :
    (TryAllocate d s owner count r).1.SharedQuota.Used
      ≤ (TryAllocate d s owner count r).1.SharedQuota.HardLimit := by
  unfold TryAllocate
  by_cases hu : d.IsOwnerUser owner = true
  · simp only [hu, if_true, TQuotaRecord.TryAllocate]
    by_cases hc : s.SharedQuota.Used + count ≤ s.SharedQuota.HardLimit
    · simp [hc]
    · simpa [hc] using hs
  · simp only [hu, Bool.false_eq_true, if_false]
    by_cases ho : owner = d.OwnerCommonStaticLog
    · simp only [ho, if_true]
      split <;> exact hs
    · simp only [ho, if_false]
      exact hs

theorem Release_shared_le (d : TPDiskDefs) (s s' : TChunkTracker) (owner : TOwner) (count : Int)
    (hc : 0 < count) (h : Release d s owner count = some s')
    (hs : s.SharedQuota.Used ≤ s.SharedQuota.HardLimit) :
    s'.SharedQuota.Used ≤ s'.SharedQuota.HardLimit := by
  unfold Release at h
  split at h
  · split at h
    · simp at h
    · split at h
      · simp at h
      · rename_i sq hsq
        simp only [Option.some.injEq] at h
        subst h
        unfold TQuotaRecord.Release at hsq
        split at hsq
        · simp only [Option.some.injEq] at hsq
          subst hsq
          simp only []
          omega
        · simp at hsq
  · split at h
    · simp only [] at h
      split at h
      · simp at h
      · split at h
        · simp at h
        · simp only [Option.some.injEq] at h
          subst h
          exact hs
    · split at h
      · simp at h
      · simp only [Option.some.injEq] at h
        subst h
        exact hs

end TChunkTracker

namespace TPerOwnerQuotaTracker

@[simp] theorem Reset_GetHardLimit (t : TPerOwnerQuotaTracker) (total : Int)
    (limits : TColorLimits) (x : TOwner) : (t.Reset total limits).GetHardLimit x = 0 := rfl

@[simp] theorem Reset_GetUsed (t : TPerOwnerQuotaTracker) (total : Int)
    (limits : TColorLimits) (x : TOwner) : (t.Reset total limits).GetUsed x = 0 := rfl

theorem Reset_eq_new (t : TPerOwnerQuotaTracker) (total : Int) (limits : TColorLimits) :
    t.Reset total limits = TPerOwnerQuotaTracker.new.Reset total limits := rfl

@[simp] theorem GlobalWith_GetHardLimit (g : TPerOwnerQuotaTracker) (id : TOwner) (q : Int)
    (name : String) (x : TOwner) :
    (g.GlobalWith id q name).GetHardLimit x = if x = id then q else g.GetHardLimit x := by
  unfold GlobalWith GetHardLimit TQuotaRecord.GetHardLimit
  by_cases hx : x = id
  · subst hx; simp
  · simp [hx, Function.update_noteq hx]

@[simp] theorem GlobalWith_GetUsed (g : TPerOwnerQuotaTracker) (id : TOwner) (q : Int)
    (name : String) (x : TOwner) : (g.GlobalWith id q name).GetUsed x = g.GetUsed x := by
  unfold GlobalWith GetUsed TQuotaRecord.GetUsed
  by_cases hx : x = id
  · subst hx; simp
  · simp [hx, Function.update_noteq hx]

theorem AddSystemOwner_eq (g : TPerOwnerQuotaTracker) (id : TOwner) (q : Int) (name : String) :
    g.AddSystemOwner id q name =
      if g.GetHardLimit id = 0 ∧ g.GetUsed id = 0 then
        if 0 ≤ q then some (g.GlobalWith id q name, -q) else none
      else none := by
  unfold AddSystemOwner
  simp only [GetHardLimit, GetUsed, TQuotaRecord.GetHardLimit, TQuotaRecord.GetUsed,
    TQuotaRecord.GetFree, ForceHardLimit, TQuotaRecord.ForceHardLimit, TQuotaRecord.SetName]
  by_cases hrec : (g.QuotaForOwner id).HardLimit = 0 ∧ (g.QuotaForOwner id).Used = 0
  · have hrec2 : (g.QuotaForOwner id).HardLimit = 0 ∧
        (g.QuotaForOwner id).HardLimit - (g.QuotaForOwner id).Used = 0 := by
      rw [hrec.1, hrec.2]; exact ⟨rfl, rfl⟩
    rw [if_pos hrec2, if_pos hrec]
    by_cases hq : 0 ≤ q
    · simp [hq, GlobalWith, hrec.1]
    · simp [hq]
  · have hrec2 : ¬ ((g.QuotaForOwner id).HardLimit = 0 ∧
        (g.QuotaForOwner id).HardLimit - (g.QuotaForOwner id).Used = 0) := by
      intro hh
      apply hrec
      refine ⟨hh.1, ?_⟩
      have := hh.2
      rw [hh.1] at this
      omega
    rw [if_neg hrec2, if_neg hrec]

end TPerOwnerQuotaTracker

namespace TChunkTracker

theorem SpecStaticLog_nonneg (p : TKeeperParams) : 0 ≤ SpecStaticLog p := by
  unfold SpecStaticLog; split <;> decide

theorem SpecStaticLog_eq (p : TKeeperParams) :
    (if p.HasStaticGroups = true then CommonStaticLogSize else 0) = SpecStaticLog p := rfl

theorem SpecCommonLog_eq (p : TKeeperParams) :
    (if MinCommonLogSize + SpecStaticLog p < p.CommonLogSize
      then p.CommonLogSize - SpecStaticLog p else MinCommonLogSize) = SpecCommonLog p := by
  unfold SpecCommonLog MinCommonLogSize
  split
  · rw [max_eq_right]; omega
  · rw [max_eq_left]; omega

theorem SpecCommonLog_ge (p : TKeeperParams) : 200 ≤ SpecCommonLog p := le_max_left _ _

theorem GlobalStage_one (d : TPDiskDefs) (p : TKeeperParams) :
    GlobalStage d p 1 = (TPerOwnerQuotaTracker.new.Reset p.TotalChunks d.MakeLogLimits).GlobalWith
      d.OwnerSystemLog p.SysLogSize "SysLog" := rfl

theorem GlobalStage_two (d : TPDiskDefs) (p : TKeeperParams) :
    GlobalStage d p 2 = (GlobalStage d p 1).GlobalWith
      d.OwnerSystemReserve SysReserveSize "System Reserve" := rfl

theorem GlobalStage_three (d : TPDiskDefs) (p : TKeeperParams) :
    GlobalStage d p 3 = (GlobalStage d p 2).GlobalWith
      d.OwnerCommonStaticLog (SpecStaticLog p) "Common Log Static Group Bonus" := rfl

theorem GlobalStage_four (d : TPDiskDefs) (p : TKeeperParams) :
    GlobalStage d p 4 = (GlobalStage d p 3).GlobalWith
      d.OwnerSystem (SpecCommonLog p) "Common Log" := rfl

theorem GlobalStage_five (d : TPDiskDefs) (p : TKeeperParams) :
    GlobalStage d p 5 = (GlobalStage d p 4).GlobalWith
      d.OwnerBeginUser (SpecUserPool p) "Per Owner Chunk Pool" := rfl

theorem AddSystemOwner_stage (d : TPDiskDefs) (hd : d.WellFormed) (p : TKeeperParams)
    (g : TPerOwnerQuotaTracker) (hsys : 0 ≤ p.SysLogSize) :
    (g.Reset p.TotalChunks d.MakeLogLimits).AddSystemOwner d.OwnerSystemLog p.SysLogSize "SysLog"
        = some (GlobalStage d p 1, -p.SysLogSize) ∧
    (GlobalStage d p 1).AddSystemOwner d.OwnerSystemReserve SysReserveSize "System Reserve"
        = some (GlobalStage d p 2, -SysReserveSize) ∧
    (GlobalStage d p 2).AddSystemOwner d.OwnerCommonStaticLog (SpecStaticLog p)
        "Common Log Static Group Bonus" = some (GlobalStage d p 3, -SpecStaticLog p) ∧
    (GlobalStage d p 3).AddSystemOwner d.OwnerSystem (SpecCommonLog p) "Common Log"
        = some (GlobalStage d p 4, -SpecCommonLog p) ∧
    (0 ≤ SpecUserPool p →
      (GlobalStage d p 4).AddSystemOwner d.OwnerBeginUser (SpecUserPool p) "Per Owner Chunk Pool"
        = some (GlobalStage d p 5, -SpecUserPool p)) := by
  have h5 : (0 : Int) ≤ SysReserveSize := by decide
  have hst := SpecStaticLog_nonneg p
  have hcl : 0 ≤ SpecCommonLog p := le_trans (by decide) (SpecCommonLog_ge p)
  refine ⟨?_, ?_, ?_, ?_, ?_⟩
  · rw [TPerOwnerQuotaTracker.AddSystemOwner_eq]
    simp [hsys, GlobalStage_one, TPerOwnerQuotaTracker.Reset_eq_new g]
  · rw [TPerOwnerQuotaTracker.AddSystemOwner_eq]
    simp [h5, GlobalStage_one, GlobalStage_two, hd.log_ne_reserve.symm]
  · rw [TPerOwnerQuotaTracker.AddSystemOwner_eq]
    simp [hst, GlobalStage_one, GlobalStage_two, GlobalStage_three, hd.log_ne_static.symm,
      hd.reserve_ne_static.symm]
  · rw [TPerOwnerQuotaTracker.AddSystemOwner_eq]
    simp [hcl, GlobalStage_one, GlobalStage_two, GlobalStage_three, GlobalStage_four,
      hd.log_ne_system.symm, hd.reserve_ne_system.symm, hd.static_ne_system.symm]
  · intro hpool
    rw [TPerOwnerQuotaTracker.AddSystemOwner_eq]
    simp [hpool, GlobalStage_one, GlobalStage_two, GlobalStage_three, GlobalStage_four,
      GlobalStage_five, hd.log_ne_user.symm, hd.reserve_ne_user.symm, hd.static_ne_user.symm,
      hd.system_ne_user.symm]

theorem Reset_eq (d : TPDiskDefs) (hd : d.WellFormed) (s0 : TChunkTracker) (p : TKeeperParams)
    (r : String) (hsys : 0 ≤ p.SysLogSize) :
    Reset d s0 p r =
      if p.TotalChunks < p.SysLogSize then
        some ({ s0 with Params := p, GlobalQuota := GlobalStage d p 1 }, false,
          "Error adding OwnerSystemLog quota, size# " ++ toString p.SysLogSize
            ++ " TotalChunks# " ++ toString p.TotalChunks)
      else if p.TotalChunks - p.SysLogSize < 5 then
        some ({ s0 with Params := p, GlobalQuota := GlobalStage d p 2 }, false,
          "Error adding OwnerSystemReserve quota, size# " ++ toString SysReserveSize
            ++ " TotalChunks# " ++ toString p.TotalChunks)
      else if p.TotalChunks - p.SysLogSize - 5 < SpecStaticLog p then
        some ({ s0 with Params := p, GlobalQuota := GlobalStage d p 3 }, false,
          "Error adding OwnerCommonStaticLog quota, size# " ++ toString (SpecStaticLog p)
            ++ " TotalChunks# " ++ toString p.TotalChunks)
      else if p.TotalChunks - p.SysLogSize - 5 - SpecStaticLog p < SpecCommonLog p then
        some ({ s0 with Params := p, GlobalQuota := GlobalStage d p 4 }, false,
          "Error adding OwnerSystem (common log) quota, size# " ++ toString (SpecCommonLog p)
            ++ " TotalChunks# " ++ toString p.TotalChunks)
      else if SpecUserPool p < SumChunksOwned p.OwnersInfo then
        some ({ s0 with Params := p, GlobalQuota := GlobalStage d p 4 }, false,
          "Error adding OwnerBeginUser quota, chunksOwned#"
            ++ toString (SumChunksOwned p.OwnersInfo)
            ++ " unappropriated# " ++ toString (SpecUserPool p)
            ++ " TotalChunks# " ++ toString p.TotalChunks)
      else
        ResetUserPool d { s0 with Params := p, GlobalQuota := GlobalStage d p 5 } p r := by
  obtain ⟨h1, h2, h3, h4, h5⟩ := AddSystemOwner_stage d hd p s0.GlobalQuota hsys
  unfold Reset
  simp only [SpecStaticLog_eq, SpecCommonLog_eq]
  rw [h1]
  simp only []
  by_cases c1 : p.TotalChunks < p.SysLogSize
  · rw [if_pos c1, if_pos (by omega)]
  rw [if_neg c1, if_neg (by omega), h2]
  simp only []
  by_cases c2 : p.TotalChunks - p.SysLogSize < 5
  · rw [if_pos c2, if_pos (by unfold SysReserveSize; omega)]
  rw [if_neg c2, if_neg (by unfold SysReserveSize; omega), h3]
  simp only []
  by_cases c3 : p.TotalChunks - p.SysLogSize - 5 < SpecStaticLog p
  · rw [if_pos c3, if_pos (by unfold SysReserveSize; omega)]
  rw [if_neg c3, if_neg (by unfold SysReserveSize; omega), h4]
  simp only []
  by_cases c4 : p.TotalChunks - p.SysLogSize - 5 - SpecStaticLog p < SpecCommonLog p
  · rw [if_pos c4, if_pos (by unfold SysReserveSize; omega)]
  rw [if_neg c4, if_neg (by unfold SysReserveSize; omega)]
  have hun : p.TotalChunks + -p.SysLogSize + -SysReserveSize + -SpecStaticLog p
      + -SpecCommonLog p = SpecUserPool p := by
    unfold SpecUserPool SysReserveSize; omega
  rw [hun]
  by_cases c5 : SpecUserPool p < SumChunksOwned p.OwnersInfo
  · rw [if_pos c5, if_pos (by omega)]
  rw [if_neg c5, if_neg (by omega)]
  have hpool : 0 ≤ SpecUserPool p := by unfold SpecUserPool; omega
  rw [h5 hpool]
  simp only []
  rw [if_neg (by omega)]

end TChunkTracker

namespace TPerOwnerQuotaTracker

theorem AddOwner_spec (t : TPerOwnerQuotaTracker) (id : TOwner) (vdiskId : TVDiskID)
    (h0 : 0 ≤ t.Total) (h1 : t.Total < 2 ^ 63)
    (hrec : t.GetHardLimit id = 0 ∧ t.GetUsed id = 0) :
    ∃ t', t.AddOwner id vdiskId = some t' ∧
      t'.ActiveOwnerIds = t.ActiveOwnerIds ++ [id] ∧
      t'.Total = t.Total ∧ t'.ExpectedOwnerCount = t.ExpectedOwnerCount ∧
      t'.ColorLimits = t.ColorLimits ∧
      (∀ x, t'.GetUsed x = t.GetUsed x) ∧
      (∀ x, x ∉ t.ActiveOwnerIds ++ [id] → t'.GetHardLimit x = t.GetHardLimit x) ∧
      ((t.ActiveOwnerIds.length + 1 ≤ t.ExpectedOwnerCount ∨ t.ExpectedOwnerCount = 0) →
        ∀ x ∈ t.ActiveOwnerIds ++ [id], t'.GetHardLimit x
          = t.Total / ((max t.ExpectedOwnerCount (t.ActiveOwnerIds.length + 1) : Nat) : Int)) := by
  have hEq := AddOwner_eq t id vdiskId h0 h1
  rw [if_pos hrec] at hEq
  by_cases hc : t.ActiveOwnerIds.length + 1 ≤ t.ExpectedOwnerCount ∨ t.ExpectedOwnerCount = 0
  · rw [if_pos hc] at hEq
    refine ⟨_, hEq, rfl, rfl, rfl, rfl, ?_, ?_, ?_⟩
    · intro x; simp
    · intro x hx
      rw [WithLimit_GetHardLimit, if_neg hx, Joined_GetHardLimit]
    · intro _ x hx
      rw [WithLimit_GetHardLimit, if_pos hx]
  · rw [if_neg hc] at hEq
    refine ⟨_, hEq, rfl, rfl, rfl, rfl, ?_, ?_, ?_⟩
    · intro x; simp
    · intro x _
      exact Joined_GetHardLimit t id vdiskId x
    · intro hy
      exact absurd hy hc

theorem ForceAllocate_GetUsed (t : TPerOwnerQuotaTracker) (id : TOwner) (count : Int)
    (x : TOwner) :
    (t.ForceAllocate id count).1.GetUsed x
      = if x = id then t.GetUsed id + count else t.GetUsed x := by
  unfold ForceAllocate GetUsed TQuotaRecord.ForceAllocate TQuotaRecord.GetUsed
  by_cases hx : x = id
  · subst hx; simp
  · simp [hx, Function.update_noteq hx]

theorem ForceAllocate_GetHardLimit (t : TPerOwnerQuotaTracker) (id : TOwner) (count : Int)
    (x : TOwner) : (t.ForceAllocate id count).1.GetHardLimit x = t.GetHardLimit x := by
  unfold ForceAllocate GetHardLimit TQuotaRecord.ForceAllocate TQuotaRecord.GetHardLimit
  by_cases hx : x = id
  · subst hx; simp
  · simp [hx, Function.update_noteq hx]

end TPerOwnerQuotaTracker

namespace TChunkTracker

theorem SumChunksOwned_foldl (l : List (TOwner × TOwnerInfo)) (a : Int) :
    l.foldl (fun acc e => acc + e.2.ChunksOwned) a = a + SumChunksOwned l := by
  unfold SumChunksOwned
  induction l generalizing a with
  | nil => simp
  | cons e rest ih =>
    simp only [List.foldl_cons]
    rw [ih (a + e.2.ChunksOwned), ih (0 + e.2.ChunksOwned)]
    omega

theorem SumChunksOwned_nil : SumChunksOwned [] = 0 := rfl

theorem SumChunksOwned_cons (e : TOwner × TOwnerInfo) (l : List (TOwner × TOwnerInfo)) :
    SumChunksOwned (e :: l) = e.2.ChunksOwned + SumChunksOwned l := by
  have := SumChunksOwned_foldl l (0 + e.2.ChunksOwned)
  unfold SumChunksOwned at this ⊢
  simp only [List.foldl_cons]
  rw [this]; omega

theorem SumChunksOwned_nonneg (l : List (TOwner × TOwnerInfo))
    (h : ∀ e ∈ l, 0 ≤ e.2.ChunksOwned) : 0 ≤ SumChunksOwned l := by
  induction l with
  | nil => decide
  | cons e rest ih =>
    rw [SumChunksOwned_cons]
    have h1 := h e (List.mem_cons_self _ _)
    have h2 := ih (fun e' he' => h e' (List.mem_cons_of_mem _ he'))
    omega

theorem ResetOwners_step (d : TPDiskDefs) (s : TChunkTracker) (u : TOwner) (info : TOwnerInfo)
    (rest : List (TOwner × TOwnerInfo))
    (h0 : 0 ≤ s.OwnerQuota.Total) (h1 : s.OwnerQuota.Total < 2 ^ 63)
    (hu : d.IsOwnerUser u = true)
    (hrec : s.OwnerQuota.GetHardLimit u = 0 ∧ s.OwnerQuota.GetUsed u = 0)
    (hch : 0 ≤ info.ChunksOwned)
    (hsh : s.SharedQuota.Used + info.ChunksOwned ≤ s.SharedQuota.HardLimit) :
    ∃ s3, ResetOwners d ((u, info) :: rest) s = ResetOwners d rest s3 ∧
      s3.GlobalQuota = s.GlobalQuota ∧ s3.Params = s.Params ∧ s3.ColorBorder = s.ColorBorder ∧
      s3.SharedQuota = { s.SharedQuota with Used := s.SharedQuota.Used + info.ChunksOwned } ∧
      s3.OwnerQuota.ActiveOwnerIds = s.OwnerQuota.ActiveOwnerIds ++ [u] ∧
      s3.OwnerQuota.Total = s.OwnerQuota.Total ∧
      s3.OwnerQuota.ExpectedOwnerCount = s.OwnerQuota.ExpectedOwnerCount ∧
      (∀ x, s3.OwnerQuota.GetUsed x
        = if x = u then info.ChunksOwned else s.OwnerQuota.GetUsed x) ∧
      (∀ x, x ∉ s.OwnerQuota.ActiveOwnerIds ++ [u] →
        s3.OwnerQuota.GetHardLimit x = s.OwnerQuota.GetHardLimit x) ∧
      ((s.OwnerQuota.ActiveOwnerIds.length + 1 ≤ s.OwnerQuota.ExpectedOwnerCount ∨
          s.OwnerQuota.ExpectedOwnerCount = 0) →
        ∀ x ∈ s.OwnerQuota.ActiveOwnerIds ++ [u], s3.OwnerQuota.GetHardLimit x
          = s.OwnerQuota.Total / ((max s.OwnerQuota.ExpectedOwnerCount
              (s.OwnerQuota.ActiveOwnerIds.length + 1) : Nat) : Int)) := by
  obtain ⟨t', hadd, hA, hT, hE, _, hUsed, hHLout, hHLin⟩ :=
    TPerOwnerQuotaTracker.AddOwner_spec s.OwnerQuota u info.VDiskId h0 h1 hrec
  by_cases hz : info.ChunksOwned = 0
  · refine ⟨{ s with OwnerQuota := t' }, ?_, rfl, rfl, rfl, ?_, hA, hT, hE, ?_, hHLout, hHLin⟩
    · simp [ResetOwners, AddOwner, hu, hadd, hz]
    · simp [hz]
    · intro x
      rw [hUsed x]
      by_cases hx : x = u
      · subst hx; rw [if_pos rfl, hrec.2, hz]
      · rw [if_neg hx]
  · refine ⟨{ s with
        OwnerQuota := (t'.ForceAllocate u info.ChunksOwned).1
        SharedQuota := { s.SharedQuota with Used := s.SharedQuota.Used + info.ChunksOwned } },
      ?_, rfl, rfl, rfl, rfl, ?_, ?_, ?_, ?_, ?_, ?_⟩
    · simp [ResetOwners, AddOwner, hu, hadd, hz, TPerOwnerQuotaTracker.InitialAllocate, hch,
        TQuotaRecord.InitialAllocate, hsh]
    · simpa [TPerOwnerQuotaTracker.ForceAllocate] using hA
    · simpa [TPerOwnerQuotaTracker.ForceAllocate] using hT
    · simpa [TPerOwnerQuotaTracker.ForceAllocate] using hE
    · intro x
      simp only []
      rw [TPerOwnerQuotaTracker.ForceAllocate_GetUsed, hUsed x, hUsed u]
      by_cases hx : x = u
      · rw [if_pos hx, if_pos hx, hrec.2]; omega
      · rw [if_neg hx, if_neg hx]
    · intro x hx
      simp only []
      rw [TPerOwnerQuotaTracker.ForceAllocate_GetHardLimit]
      exact hHLout x hx
    · intro hc x hx
      simp only []
      rw [TPerOwnerQuotaTracker.ForceAllocate_GetHardLimit]
      exact hHLin hc x hx

theorem ResetOwners_spec (d : TPDiskDefs) (l : List (TOwner × TOwnerInfo)) :
    ∀ (s : TChunkTracker), 0 ≤ s.OwnerQuota.Total → s.OwnerQuota.Total < 2 ^ 63 →
    (∀ e ∈ l, d.IsOwnerUser e.1 = true) →
    (l.map Prod.fst).Nodup →
    (∀ e ∈ l, s.OwnerQuota.GetHardLimit e.1 = 0 ∧ s.OwnerQuota.GetUsed e.1 = 0 ∧
      e.1 ∉ s.OwnerQuota.ActiveOwnerIds) →
    (∀ e ∈ l, 0 ≤ e.2.ChunksOwned) →
    s.SharedQuota.Used + SumChunksOwned l ≤ s.SharedQuota.HardLimit →
    ∃ s', ResetOwners d l s = some (s', true) ∧
      s'.GlobalQuota = s.GlobalQuota ∧ s'.Params = s.Params ∧ s'.ColorBorder = s.ColorBorder ∧
      s'.SharedQuota = { s.SharedQuota with Used := s.SharedQuota.Used + SumChunksOwned l } ∧
      s'.OwnerQuota.ActiveOwnerIds = s.OwnerQuota.ActiveOwnerIds ++ l.map Prod.fst ∧
      s'.OwnerQuota.Total = s.OwnerQuota.Total ∧
      s'.OwnerQuota.ExpectedOwnerCount = s.OwnerQuota.ExpectedOwnerCount ∧
      (∀ e ∈ l, s'.OwnerQuota.GetUsed e.1 = e.2.ChunksOwned) ∧
      (∀ x, x ∉ l.map Prod.fst → s'.OwnerQuota.GetUsed x = s.OwnerQuota.GetUsed x) ∧
      (l ≠ [] →
        (s'.OwnerQuota.ActiveOwnerIds.length ≤ s.OwnerQuota.ExpectedOwnerCount ∨
          s.OwnerQuota.ExpectedOwnerCount = 0) →
        ∀ x ∈ s'.OwnerQuota.ActiveOwnerIds, s'.OwnerQuota.GetHardLimit x
          = s.OwnerQuota.Total / ((max s.OwnerQuota.ExpectedOwnerCount
              s'.OwnerQuota.ActiveOwnerIds.length : Nat) : Int)) := by
  induction l with
  | nil =>
    intro s _ _ _ _ _ _ _
    refine ⟨s, rfl, rfl, rfl, rfl, ?_, ?_, rfl, rfl, ?_, ?_, ?_⟩
    · simp [SumChunksOwned_nil]
    · simp
    · intro e he; simp at he
    · intro x _; rfl
    · intro hne; exact absurd rfl hne
  | cons e rest ih =>
    obtain ⟨u, info⟩ := e
    intro s h0 h1 husers hnodup hfresh hchunks hshared
    have hu : d.IsOwnerUser u = true := husers (u, info) (List.mem_cons_self _ _)
    have hrecu := hfresh (u, info) (List.mem_cons_self _ _)
    have hch : 0 ≤ info.ChunksOwned := hchunks (u, info) (List.mem_cons_self _ _)
    have hrestnn : 0 ≤ SumChunksOwned rest :=
      SumChunksOwned_nonneg rest (fun e' he' => hchunks e' (List.mem_cons_of_mem _ he'))
    rw [SumChunksOwned_cons] at hshared
    simp only [] at hshared
    simp only [List.map_cons, List.nodup_cons] at hnodup
    obtain ⟨hunot, hnodup'⟩ := hnodup
    obtain ⟨s3, hstep, hG, hP, hC, hS, hA, hT, hE, hUsed, hHLout, hHLin⟩ :=
      ResetOwners_step d s u info rest h0 h1 hu ⟨hrecu.1, hrecu.2.1⟩ hch (by omega)
    have hfresh3 : ∀ e' ∈ rest, s3.OwnerQuota.GetHardLimit e'.1 = 0 ∧
        s3.OwnerQuota.GetUsed e'.1 = 0 ∧ e'.1 ∉ s3.OwnerQuota.ActiveOwnerIds := by
      intro e' he'
      have hf := hfresh e' (List.mem_cons_of_mem _ he')
      have hne : e'.1 ≠ u := by
        intro heq
        apply hunot
        rw [← heq]
        exact List.mem_map_of_mem Prod.fst he'
      have hnotin : e'.1 ∉ s.OwnerQuota.ActiveOwnerIds ++ [u] := by
        simp only [List.mem_append, List.mem_singleton, not_or]
        exact ⟨hf.2.2, hne⟩
      refine ⟨?_, ?_, ?_⟩
      · rw [hHLout _ hnotin]; exact hf.1
      · rw [hUsed, if_neg hne]; exact hf.2.1
      · rw [hA]; exact hnotin
    obtain ⟨s', hrun, hG', hP', hC', hS', hA', hT', hE', hUsed', hUsedOut', hHL'⟩ :=
      ih s3 (by rw [hT]; exact h0) (by rw [hT]; exact h1)
        (fun e' he' => husers e' (List.mem_cons_of_mem _ he')) hnodup' hfresh3
        (fun e' he' => hchunks e' (List.mem_cons_of_mem _ he'))
        (by rw [hS]; simp only []; omega)
    refine ⟨s', by rw [hstep]; exact hrun, by rw [hG', hG], by rw [hP', hP], by rw [hC', hC],
      ?_, ?_, by rw [hT', hT], by rw [hE', hE], ?_, ?_, ?_⟩
    · rw [hS', hS, SumChunksOwned_cons]
      simp only [TQuotaRecord.mk.injEq, true_and, and_true]
      omega
    · rw [hA', hA]; simp
    · intro e' he'
      rcases List.mem_cons.mp he' with heq | hmem
      · subst heq
        rw [hUsedOut' u hunot, hUsed, if_pos rfl]
      · exact hUsed' e' hmem
    · intro x hx
      simp only [List.map_cons, List.mem_cons, not_or] at hx
      rw [hUsedOut' x hx.2, hUsed, if_neg hx.1]
    · intro _ hcond x hx
      by_cases hrest : rest = []
      · subst hrest
        simp only [ResetOwners, Option.some.injEq, Prod.mk.injEq, and_true] at hrun
        subst hrun
        rw [hA] at hcond hx ⊢
        simp only [List.length_append, List.length_singleton] at hcond ⊢
        exact hHLin hcond x hx
      · rw [hE, hT] at hHL'
        exact hHL' hrest hcond x hx

end TChunkTracker

namespace TPerOwnerQuotaTracker

theorem SetExpectedOwnerCount_Reset (t : TPerOwnerQuotaTracker) (total : Int)
    (limits : TColorLimits) (n : Nat) :
    (t.Reset total limits).SetExpectedOwnerCount n
      = some { t.Reset total limits with ExpectedOwnerCount := n } := by
  unfold SetExpectedOwnerCount RedistributeQuotas
  by_cases hn : n = 0
  · subst hn; simp [Reset]
  · have : n ≠ (t.Reset total limits).ExpectedOwnerCount := by simpa [Reset] using hn
    simp [this, Reset, ForceHardLimitAll]
    omega

end TPerOwnerQuotaTracker

namespace TChunkTracker

theorem ResetUserPool_spec (d : TPDiskDefs) (s : TChunkTracker) (p : TKeeperParams) (r : String)
    (h0 : 0 ≤ s.GlobalQuota.GetHardLimit d.OwnerBeginUser)
    (h1 : s.GlobalQuota.GetHardLimit d.OwnerBeginUser < 2 ^ 63)
    (husers : ∀ e ∈ p.OwnersInfo, d.IsOwnerUser e.1 = true)
    (hnodup : (p.OwnersInfo.map Prod.fst).Nodup)
    (hchunks : ∀ e ∈ p.OwnersInfo, 0 ≤ e.2.ChunksOwned)
    (hcommon : 0 ≤ p.CommonLogSize)
    (hshared : s.SharedQuota.Used + SumChunksOwned p.OwnersInfo
      ≤ s.GlobalQuota.GetHardLimit d.OwnerBeginUser) :
    ∃ s', ResetUserPool d s p r = some (s', true, r) ∧
      s'.Params = s.Params ∧ s'.ColorBorder = p.SpaceColorBorder ∧
      s'.GlobalQuota = (if p.CommonLogSize ≠ 0
        then (s.GlobalQuota.ForceAllocate d.OwnerSystem p.CommonLogSize).1 else s.GlobalQuota) ∧
      s'.SharedQuota = { s.SharedQuota with
        Name := "SharedQuota"
        HardLimit := s.GlobalQuota.GetHardLimit d.OwnerBeginUser
        Limits := d.MakeChunkLimits
        Used := s.SharedQuota.Used + SumChunksOwned p.OwnersInfo } ∧
      s'.OwnerQuota.ActiveOwnerIds = p.OwnersInfo.map Prod.fst ∧
      s'.OwnerQuota.Total = s.GlobalQuota.GetHardLimit d.OwnerBeginUser ∧
      s'.OwnerQuota.ExpectedOwnerCount = p.ExpectedOwnerCount ∧
      (∀ e ∈ p.OwnersInfo, s'.OwnerQuota.GetUsed e.1 = e.2.ChunksOwned) ∧
      (∀ x, x ∉ p.OwnersInfo.map Prod.fst → s'.OwnerQuota.GetUsed x = 0) ∧
      ((p.OwnersInfo.length ≤ p.ExpectedOwnerCount ∨ p.ExpectedOwnerCount = 0) →
        ∀ e ∈ p.OwnersInfo, s'.OwnerQuota.GetHardLimit e.1
          = s.GlobalQuota.GetHardLimit d.OwnerBeginUser
            / ((max p.ExpectedOwnerCount p.OwnersInfo.length : Nat) : Int)) := by
  obtain ⟨s', hrun, hG, hP, hC, hS, hA, hT, hE, hUsed, hUsedOut, hHL⟩ :=
    ResetOwners_spec d p.OwnersInfo
      { s with
        SharedQuota := ((s.SharedQuota.SetName "SharedQuota").ForceHardLimit
          (s.GlobalQuota.GetHardLimit d.OwnerBeginUser) d.MakeChunkLimits).1
        OwnerQuota := { s.OwnerQuota.Reset (s.GlobalQuota.GetHardLimit d.OwnerBeginUser)
          d.MakeChunkLimits with ExpectedOwnerCount := p.ExpectedOwnerCount } }
      h0 h1 husers hnodup
      (by intro e _; exact ⟨rfl, rfl, by simp [TPerOwnerQuotaTracker.Reset]⟩)
      hchunks
      (by simpa [TQuotaRecord.ForceHardLimit, TQuotaRecord.SetName] using hshared)
  simp only [] at hG hP hC hS hA hT hE hUsedOut hHL
  have hA2 : s'.OwnerQuota.ActiveOwnerIds = p.OwnersInfo.map Prod.fst := by
    rw [hA]; simp [TPerOwnerQuotaTracker.Reset]
  unfold ResetUserPool
  simp only [TPerOwnerQuotaTracker.SetExpectedOwnerCount_Reset]
  rw [hrun]
  simp only []
  have hrest : s'.Params = s.Params ∧
      s'.SharedQuota = { s.SharedQuota with
        Name := "SharedQuota"
        HardLimit := s.GlobalQuota.GetHardLimit d.OwnerBeginUser
        Limits := d.MakeChunkLimits
        Used := s.SharedQuota.Used + SumChunksOwned p.OwnersInfo } ∧
      s'.OwnerQuota.ActiveOwnerIds = p.OwnersInfo.map Prod.fst ∧
      s'.OwnerQuota.Total = s.GlobalQuota.GetHardLimit d.OwnerBeginUser ∧
      s'.OwnerQuota.ExpectedOwnerCount = p.ExpectedOwnerCount ∧
      (∀ e ∈ p.OwnersInfo, s'.OwnerQuota.GetUsed e.1 = e.2.ChunksOwned) ∧
      (∀ x, x ∉ p.OwnersInfo.map Prod.fst → s'.OwnerQuota.GetUsed x = 0) ∧
      ((p.OwnersInfo.length ≤ p.ExpectedOwnerCount ∨ p.ExpectedOwnerCount = 0) →
        ∀ e ∈ p.OwnersInfo, s'.OwnerQuota.GetHardLimit e.1
          = s.GlobalQuota.GetHardLimit d.OwnerBeginUser
            / ((max p.ExpectedOwnerCount p.OwnersInfo.length : Nat) : Int)) := by
    refine ⟨hP, ?_, hA2, hT, hE, hUsed, ?_, ?_⟩
    · rw [hS]; simp [TQuotaRecord.ForceHardLimit, TQuotaRecord.SetName]
    · intro x hx
      rw [hUsedOut x hx]; rfl
    · intro hcond e he
      have hne : p.OwnersInfo ≠ [] := List.ne_nil_of_mem he
      have hlen : s'.OwnerQuota.ActiveOwnerIds.length = p.OwnersInfo.length := by
        rw [hA2]; simp
      have := hHL hne (by rw [hlen]; exact hcond) e.1
        (by rw [hA2]; exact List.mem_map_of_mem Prod.fst he)
      rw [this, hlen]
      rfl
  by_cases hz : p.CommonLogSize = 0
  · simp only [hz, ne_eq, not_true_eq_false, if_false]
    exact ⟨{ s' with ColorBorder := p.SpaceColorBorder }, rfl, hrest.1, rfl, hG, hrest.2⟩
  · simp only [ne_eq, hz, not_false_eq_true, if_true, TPerOwnerQuotaTracker.InitialAllocate,
      hcommon]
    refine ⟨{ s' with
        GlobalQuota := (s'.GlobalQuota.ForceAllocate d.OwnerSystem p.CommonLogSize).1
        ColorBorder := p.SpaceColorBorder }, ?_, hrest.1, rfl, ?_, hrest.2⟩
    · simp [TPerOwnerQuotaTracker.ForceAllocate, TQuotaRecord.ForceAllocate]
    · simp only [hG]

theorem GlobalStage_five_GetHardLimit (d : TPDiskDefs) (p : TKeeperParams) (x : TOwner) :
    (GlobalStage d p 5).GetHardLimit x =
      if x = d.OwnerBeginUser then SpecUserPool p
      else if x = d.OwnerSystem then SpecCommonLog p
      else if x = d.OwnerCommonStaticLog then SpecStaticLog p
      else if x = d.OwnerSystemReserve then SysReserveSize
      else if x = d.OwnerSystemLog then p.SysLogSize
      else 0 := by
  simp [GlobalStage_five, GlobalStage_four, GlobalStage_three, GlobalStage_two, GlobalStage_one]

theorem GlobalStage_GetUsed (d : TPDiskDefs) (p : TKeeperParams) (k : Nat) (x : TOwner) :
    (GlobalStage d p k).GetUsed x = 0 := by
  unfold GlobalStage
  generalize hl : List.take k _ = l
  clear hl
  have : ∀ (l : List (TOwner × Int × String)) (g : TPerOwnerQuotaTracker), g.GetUsed x = 0 →
      (l.foldl (fun g e => g.GlobalWith e.1 e.2.1 e.2.2) g).GetUsed x = 0 := by
    intro l
    induction l with
    | nil => intro g hg; exact hg
    | cons e rest ih =>
      intro g hg
      simp only [List.foldl_cons]
      exact ih _ (by simpa using hg)
  exact this l _ rfl

theorem GlobalStage_five_active (d : TPDiskDefs) (p : TKeeperParams) :
    (GlobalStage d p 5).ActiveOwnerIds = [d.OwnerSystemLog, d.OwnerSystemReserve,
      d.OwnerCommonStaticLog, d.OwnerSystem, d.OwnerBeginUser] := rfl

end TChunkTracker

theorem TChunkTracker.Reset_fail_spec (d : TPDiskDefs) (hd : d.WellFormed)
    (s0 : TChunkTracker) (p : TKeeperParams) (r : String) (hsys : 0 ≤ p.SysLogSize)
    (hfail : p.TotalChunks < p.SysLogSize + 5 + TChunkTracker.SpecStaticLog p
      + TChunkTracker.SpecCommonLog p + TChunkTracker.SumChunksOwned p.OwnersInfo) :
    ∃ (k : Nat) (a b : String), 1 ≤ k ∧ k ≤ 4 ∧ 0 < a.length ∧
      TChunkTracker.Reset d s0 p r
        = some ({ s0 with Params := p, GlobalQuota := TChunkTracker.GlobalStage d p k },
            false, a ++ b) := by
  rw [TChunkTracker.Reset_eq d hd s0 p r hsys]
  by_cases c1 : p.TotalChunks < p.SysLogSize
  · rw [if_pos c1]
    simp only [String.append_assoc]
    exact ⟨1, _, _, by decide, by decide, by decide, rfl⟩
  rw [if_neg c1]
  by_cases c2 : p.TotalChunks - p.SysLogSize < 5
  · rw [if_pos c2]
    simp only [String.append_assoc]
    exact ⟨2, _, _, by decide, by decide, by decide, rfl⟩
  rw [if_neg c2]
  by_cases c3 : p.TotalChunks - p.SysLogSize - 5 < TChunkTracker.SpecStaticLog p
  · rw [if_pos c3]
    simp only [String.append_assoc]
    exact ⟨3, _, _, by decide, by decide, by decide, rfl⟩
  rw [if_neg c3]
  by_cases c4 : p.TotalChunks - p.SysLogSize - 5 - TChunkTracker.SpecStaticLog p
      < TChunkTracker.SpecCommonLog p
  · rw [if_pos c4]
    simp only [String.append_assoc]
    exact ⟨4, _, _, by decide, by decide, by decide, rfl⟩
  rw [if_neg c4]
  have c5 : TChunkTracker.SpecUserPool p < TChunkTracker.SumChunksOwned p.OwnersInfo := by
    unfold TChunkTracker.SpecUserPool; omega
  rw [if_pos c5]
  simp only [String.append_assoc]
  exact ⟨4, _, _, by decide, by decide, by decide, rfl⟩

namespace TChunkTracker

theorem Reset_ok_spec (d : TPDiskDefs) (hd : d.WellFormed) (s0 : TChunkTracker)
    (p : TKeeperParams) (r : String)
    (hrange : p.TotalChunks < 2 ^ 63) (hsys : 0 ≤ p.SysLogSize) (hcommon : 0 ≤ p.CommonLogSize)
    (hchunks : ∀ e ∈ p.OwnersInfo, 0 ≤ e.2.ChunksOwned)
    (husers : ∀ e ∈ p.OwnersInfo, d.IsOwnerUser e.1 = true)
    (hnodup : (p.OwnersInfo.map Prod.fst).Nodup)
    (hadm : p.SysLogSize + 5 + SpecStaticLog p + SpecCommonLog p + SumChunksOwned p.OwnersInfo
      ≤ p.TotalChunks)
    (hs0 : s0.SharedQuota.Used + SumChunksOwned p.OwnersInfo ≤ SpecUserPool p) :
    ∃ s', Reset d s0 p r = some (s', true, r) ∧
      s'.Params = p ∧ s'.ColorBorder = p.SpaceColorBorder ∧
      s'.GlobalQuota = (if p.CommonLogSize ≠ 0
        then ((GlobalStage d p 5).ForceAllocate d.OwnerSystem p.CommonLogSize).1
        else GlobalStage d p 5) ∧
      s'.SharedQuota = { s0.SharedQuota with
        Name := "SharedQuota"
        HardLimit := SpecUserPool p
        Limits := d.MakeChunkLimits
        Used := s0.SharedQuota.Used + SumChunksOwned p.OwnersInfo } ∧
      s'.OwnerQuota.ActiveOwnerIds = p.OwnersInfo.map Prod.fst ∧
      s'.OwnerQuota.Total = SpecUserPool p ∧
      s'.OwnerQuota.ExpectedOwnerCount = p.ExpectedOwnerCount ∧
      (∀ e ∈ p.OwnersInfo, s'.OwnerQuota.GetUsed e.1 = e.2.ChunksOwned) ∧
      (∀ x, x ∉ p.OwnersInfo.map Prod.fst → s'.OwnerQuota.GetUsed x = 0) ∧
      ((p.OwnersInfo.length ≤ p.ExpectedOwnerCount ∨ p.ExpectedOwnerCount = 0) →
        ∀ e ∈ p.OwnersInfo, s'.OwnerQuota.GetHardLimit e.1
          = SpecUserPool p / ((max p.ExpectedOwnerCount p.OwnersInfo.length : Nat) : Int)) := by
  have hst := SpecStaticLog_nonneg p
  have hcl := SpecCommonLog_ge p
  have hsum := SumChunksOwned_nonneg p.OwnersInfo hchunks
  have hpool : (GlobalStage d p 5).GetHardLimit d.OwnerBeginUser = SpecUserPool p := by
    rw [GlobalStage_five_GetHardLimit, if_pos rfl]
  have hpool0 : 0 ≤ SpecUserPool p := by unfold SpecUserPool; omega
  have hpool1 : SpecUserPool p < 2 ^ 63 := by unfold SpecUserPool; omega
  rw [Reset_eq d hd s0 p r hsys]
  rw [if_neg (by omega), if_neg (by omega), if_neg (by omega), if_neg (by omega),
    if_neg (by unfold SpecUserPool; omega)]
  have := ResetUserPool_spec d { s0 with Params := p, GlobalQuota := GlobalStage d p 5 } p r
    (by simp only [hpool]; exact hpool0) (by simp only [hpool]; exact hpool1)
    husers hnodup hchunks hcommon (by simp only [hpool]; exact hs0)
  simp only [hpool] at this
  exact this

theorem Reset_ok_admitted (d : TPDiskDefs) (hd : d.WellFormed) (s0 s' : TChunkTracker)
    (p : TKeeperParams) (r r' : String) (hsys : 0 ≤ p.SysLogSize)
    (hok : Reset d s0 p r = some (s', true, r')) :
    p.SysLogSize + 5 + SpecStaticLog p + SpecCommonLog p + SumChunksOwned p.OwnersInfo
      ≤ p.TotalChunks := by
  by_contra hadm
  obtain ⟨k, a, b, _, _, _, hrun⟩ := Reset_fail_spec d hd s0 p r hsys (not_le.mp hadm)
  rw [hrun] at hok
  simp at hok

end TChunkTracker
/-! ## Space colours: lemmas -/

theorem TColor.severity_ite_mono (thr fn fm : Int) (col cn cm : TColor) (hf : fm ≤ fn)
    (hc : cn.Severity ≤ cm.Severity) (hb : cn.Severity ≤ col.Severity) :
    (if thr > fn then col else cn).Severity ≤ (if thr > fm then col else cm).Severity := by
  by_cases h1 : thr > fn
  · have h2 : thr > fm := lt_of_le_of_lt hf h1
    rw [if_pos h1, if_pos h2]
  · rw [if_neg h1]
    by_cases h2 : thr > fm
    · rw [if_pos h2]; exact hb
    · rw [if_neg h2]; exact hc

theorem TColor.severity_ite_le (thr f : Int) (col c : TColor) (k : Nat)
    (hb : c.Severity ≤ k) (hcol : col.Severity ≤ k) :
    (if thr > f then col else c).Severity ≤ k := by
  split
  · exact hcol
  · exact hb

theorem TColor.Min_mono (a b c : TColor) (h : b.Severity ≤ c.Severity) :
    (TColor.Min a b).Severity ≤ (TColor.Min a c).Severity := by
  unfold TColor.Min
  split <;> split <;> omega

theorem TColor.Max_mono (a b c e : TColor) (h1 : a.Severity ≤ c.Severity)
    (h2 : b.Severity ≤ e.Severity) :
    (TColor.Max a b).Severity ≤ (TColor.Max c e).Severity := by
  unfold TColor.Max
  split <;> split <;> omega

theorem TColor.Min_Severity (a b : TColor) :
    (TColor.Min a b).Severity = min a.Severity b.Severity := by
  unfold TColor.Min
  split
  · rw [min_eq_right]; omega
  · rw [min_eq_left]; omega

theorem TColor.Max_Severity (a b : TColor) :
    (TColor.Max a b).Severity = max a.Severity b.Severity := by
  unfold TColor.Max
  split
  · rw [max_eq_right]; omega
  · rw [max_eq_left]; omega

theorem TQuotaRecord.EstimateSpaceColor_le_of_le (r : TQuotaRecord) (n m : Int) (h : n ≤ m) :
    (r.EstimateSpaceColor n).Severity ≤ (r.EstimateSpaceColor m).Severity := by
  have hf : r.GetFree - m ≤ r.GetFree - n := by omega
  unfold TQuotaRecord.EstimateSpaceColor
  simp only []
  refine TColor.severity_ite_mono _ _ _ _ _ _ hf ?_ ?_
  · refine TColor.severity_ite_mono _ _ _ _ _ _ hf ?_ ?_
    · refine TColor.severity_ite_mono _ _ _ _ _ _ hf ?_ ?_
      · refine TColor.severity_ite_mono _ _ _ _ _ _ hf ?_ ?_
        · refine TColor.severity_ite_mono _ _ _ _ _ _ hf ?_ ?_
          · exact TColor.severity_ite_mono _ _ _ _ _ _ hf (le_refl _) (by decide)
          · exact TColor.severity_ite_le _ _ _ _ 2 (by decide) (by decide)
        · refine TColor.severity_ite_le _ _ _ _ 3 ?_ (by decide)
          exact TColor.severity_ite_le _ _ _ _ 3 (by decide) (by decide)
      · refine TColor.severity_ite_le _ _ _ _ 4 ?_ (by decide)
        refine TColor.severity_ite_le _ _ _ _ 4 ?_ (by decide)
        exact TColor.severity_ite_le _ _ _ _ 4 (by decide) (by decide)
    · refine TColor.severity_ite_le _ _ _ _ 5 ?_ (by decide)
      refine TColor.severity_ite_le _ _ _ _ 5 ?_ (by decide)
      refine TColor.severity_ite_le _ _ _ _ 5 ?_ (by decide)
      exact TColor.severity_ite_le _ _ _ _ 5 (by decide) (by decide)
  · refine TColor.severity_ite_le _ _ _ _ 6 ?_ (by decide)
    refine TColor.severity_ite_le _ _ _ _ 6 ?_ (by decide)
    refine TColor.severity_ite_le _ _ _ _ 6 ?_ (by decide)
    refine TColor.severity_ite_le _ _ _ _ 6 ?_ (by decide)
    exact TColor.severity_ite_le _ _ _ _ 6 (by decide) (by decide)
namespace TChunkTracker

theorem ResetOwners_GlobalQuota (d : TPDiskDefs) (l : List (TOwner × TOwnerInfo))
    (s s' : TChunkTracker) (b : Bool) (h : ResetOwners d l s = some (s', b)) :
    s'.GlobalQuota = s.GlobalQuota := by
  induction l generalizing s with
  | nil =>
    simp only [ResetOwners, Option.some.injEq, Prod.mk.injEq] at h
    rw [← h.1]
  | cons e rest ih =>
    obtain ⟨ownerId, ownerInfo⟩ := e
    simp only [ResetOwners] at h
    split at h
    · simp at h
    · rename_i s1 hs1
      have hf := (AddOwner_frame d s s1 ownerId ownerInfo.VDiskId hs1).2.2.1
      split at h
      · split at h
        · simp at h
        · split at h
          · rw [ih _ h]; exact hf
          · simp only [Option.some.injEq, Prod.mk.injEq] at h
            rw [← h.1]; exact hf
      · rw [ih _ h]; exact hf

theorem ResetUserPool_GetHardLimit (d : TPDiskDefs) (s s' : TChunkTracker) (p : TKeeperParams)
    (r r' : String) (ok : Bool) (h : ResetUserPool d s p r = some (s', ok, r')) (x : TOwner) :
    s'.GlobalQuota.GetHardLimit x = s.GlobalQuota.GetHardLimit x := by
  unfold ResetUserPool at h
  simp only [] at h
  split at h
  · simp at h
  · split at h
    · simp at h
    · rename_i s1 hs1
      have hg := ResetOwners_GlobalQuota d _ _ _ _ hs1
      simp only [Option.some.injEq, Prod.mk.injEq] at h
      rw [← h.1, hg]
    · rename_i s1 hs1
      have hg := ResetOwners_GlobalQuota d _ _ _ _ hs1
      split at h
      · unfold TPerOwnerQuotaTracker.InitialAllocate at h
        split at h
        · simp at h
        · rename_i gq isOk heq
          split at heq
          · simp only [Option.some.injEq] at heq
            have hgq : gq.GetHardLimit x = s1.GlobalQuota.GetHardLimit x := by
              have h1 : gq = (s1.GlobalQuota.ForceAllocate d.OwnerSystem p.CommonLogSize).1 := by
                rw [heq]
              rw [h1, TPerOwnerQuotaTracker.ForceAllocate_GetHardLimit]
            cases isOk
            · simp only [Bool.not_false, if_true, Option.some.injEq, Prod.mk.injEq] at h
              rw [← h.1]; simp only []; rw [hgq, hg]
            · simp only [Bool.not_true, Bool.false_eq_true, if_false, Option.some.injEq,
                Prod.mk.injEq] at h
              rw [← h.1]; simp only []; rw [hgq, hg]
          · simp at heq
      · simp only [Option.some.injEq, Prod.mk.injEq] at h
        rw [← h.1]; simp only []; rw [hg]

theorem GlobalStage_four_GetHardLimit_System (d : TPDiskDefs) (p : TKeeperParams) :
    (GlobalStage d p 4).GetHardLimit d.OwnerSystem = SpecCommonLog p := by
  simp [GlobalStage_four]

end TChunkTracker
namespace TPerOwnerQuotaTracker

@[simp] theorem WithUsed_GetUsed (t : TPerOwnerQuotaTracker) (id : TOwner) (u : Int)
    (x : TOwner) : (t.WithUsed id u).GetUsed x = if x = id then u else t.GetUsed x := by
  unfold WithUsed GetUsed TQuotaRecord.GetUsed
  by_cases hx : x = id
  · subst hx; simp
  · simp [hx, Function.update_noteq hx]

@[simp] theorem WithUsed_GetHardLimit (t : TPerOwnerQuotaTracker) (id : TOwner) (u : Int)
    (x : TOwner) : (t.WithUsed id u).GetHardLimit x = t.GetHardLimit x := by
  unfold WithUsed GetHardLimit TQuotaRecord.GetHardLimit
  by_cases hx : x = id
  · subst hx; simp
  · simp [hx, Function.update_noteq hx]

theorem WithUsed_QuotaForOwner_ne (t : TPerOwnerQuotaTracker) (id : TOwner) (u : Int)
    (x : TOwner) (hx : x ≠ id) : (t.WithUsed id u).QuotaForOwner x = t.QuotaForOwner x := by
  simp [WithUsed, Function.update_noteq hx]

theorem WithUsed_self (t : TPerOwnerQuotaTracker) (id : TOwner) (u : Int)
    (hu : u = t.GetUsed id) : t.WithUsed id u = t := by
  subst hu
  unfold WithUsed GetUsed TQuotaRecord.GetUsed
  have : ({ t.QuotaForOwner id with Used := (t.QuotaForOwner id).Used } : TQuotaRecord)
      = t.QuotaForOwner id := rfl
  simp only [this, Function.update_eq_self]

theorem Release_eq (t : TPerOwnerQuotaTracker) (id : TOwner) (count : Int) :
    t.Release id count =
      if count ≤ t.GetUsed id then some (t.WithUsed id (t.GetUsed id - count)) else none := by
  unfold Release TQuotaRecord.Release GetUsed TQuotaRecord.GetUsed WithUsed
  by_cases h : count ≤ (t.QuotaForOwner id).Used
  · simp [h]
  · simp [h]

theorem TryAllocate_eq (t : TPerOwnerQuotaTracker) (id : TOwner) (count : Int) (r : String) :
    ((t.TryAllocate id count r).2.1 = true ↔ t.GetUsed id + count ≤ t.GetHardLimit id) ∧
    (t.TryAllocate id count r).1
      = (if t.GetUsed id + count ≤ t.GetHardLimit id
          then t.WithUsed id (t.GetUsed id + count) else t) := by
  unfold TryAllocate TQuotaRecord.TryAllocate GetUsed GetHardLimit TQuotaRecord.GetUsed
    TQuotaRecord.GetHardLimit WithUsed
  by_cases h : (t.QuotaForOwner id).Used + count ≤ (t.QuotaForOwner id).HardLimit
  · simp [h]
  · simp [h]

end TPerOwnerQuotaTracker

namespace TChunkTracker

theorem Release_commonLog (d : TPDiskDefs) (s : TChunkTracker) (owner : TOwner) (n : Int)
    (hnu : d.IsOwnerUser owner = false)
    (ho : owner = d.OwnerCommonStaticLog ∨ owner = d.OwnerSystem)
    (hne : d.OwnerCommonStaticLog ≠ d.OwnerSystem)
    (hle : n ≤ s.GlobalQuota.GetUsed d.OwnerCommonStaticLog
      + s.GlobalQuota.GetUsed d.OwnerSystem) :
    Release d s owner n = some { s with
      GlobalQuota :=
        (s.GlobalQuota.WithUsed d.OwnerCommonStaticLog
          (s.GlobalQuota.GetUsed d.OwnerCommonStaticLog
            - min (s.GlobalQuota.GetUsed d.OwnerCommonStaticLog) n)).WithUsed d.OwnerSystem
          (s.GlobalQuota.GetUsed d.OwnerSystem
            - (n - min (s.GlobalQuota.GetUsed d.OwnerCommonStaticLog) n)) } := by
  have hmin := min_le_left (s.GlobalQuota.GetUsed d.OwnerCommonStaticLog) n
  have hmin2 := min_le_right (s.GlobalQuota.GetUsed d.OwnerCommonStaticLog) n
  have e1 : (if min (s.GlobalQuota.GetUsed d.OwnerCommonStaticLog) n ≠ 0
        then s.GlobalQuota.Release d.OwnerCommonStaticLog
          (min (s.GlobalQuota.GetUsed d.OwnerCommonStaticLog) n)
        else some s.GlobalQuota)
      = some (s.GlobalQuota.WithUsed d.OwnerCommonStaticLog
          (s.GlobalQuota.GetUsed d.OwnerCommonStaticLog
            - min (s.GlobalQuota.GetUsed d.OwnerCommonStaticLog) n)) := by
    by_cases hb : min (s.GlobalQuota.GetUsed d.OwnerCommonStaticLog) n = 0
    · rw [if_neg (not_not.mpr hb), hb,
        TPerOwnerQuotaTracker.WithUsed_self s.GlobalQuota d.OwnerCommonStaticLog _ (by omega)]
    · rw [if_pos hb, TPerOwnerQuotaTracker.Release_eq, if_pos hmin]
  have hS : (s.GlobalQuota.WithUsed d.OwnerCommonStaticLog
      (s.GlobalQuota.GetUsed d.OwnerCommonStaticLog
        - min (s.GlobalQuota.GetUsed d.OwnerCommonStaticLog) n)).GetUsed d.OwnerSystem
      = s.GlobalQuota.GetUsed d.OwnerSystem := by
    rw [TPerOwnerQuotaTracker.WithUsed_GetUsed, if_neg hne.symm]
  have e2 : (if n - min (s.GlobalQuota.GetUsed d.OwnerCommonStaticLog) n ≠ 0
        then (s.GlobalQuota.WithUsed d.OwnerCommonStaticLog
          (s.GlobalQuota.GetUsed d.OwnerCommonStaticLog
            - min (s.GlobalQuota.GetUsed d.OwnerCommonStaticLog) n)).Release d.OwnerSystem
            (n - min (s.GlobalQuota.GetUsed d.OwnerCommonStaticLog) n)
        else some (s.GlobalQuota.WithUsed d.OwnerCommonStaticLog
          (s.GlobalQuota.GetUsed d.OwnerCommonStaticLog
            - min (s.GlobalQuota.GetUsed d.OwnerCommonStaticLog) n)))
      = some ((s.GlobalQuota.WithUsed d.OwnerCommonStaticLog
          (s.GlobalQuota.GetUsed d.OwnerCommonStaticLog
            - min (s.GlobalQuota.GetUsed d.OwnerCommonStaticLog) n)).WithUsed d.OwnerSystem
          (s.GlobalQuota.GetUsed d.OwnerSystem
            - (n - min (s.GlobalQuota.GetUsed d.OwnerCommonStaticLog) n))) := by
    by_cases hc : n - min (s.GlobalQuota.GetUsed d.OwnerCommonStaticLog) n = 0
    · rw [if_neg (not_not.mpr hc), hc,
        TPerOwnerQuotaTracker.WithUsed_self (s.GlobalQuota.WithUsed d.OwnerCommonStaticLog
          (s.GlobalQuota.GetUsed d.OwnerCommonStaticLog
            - min (s.GlobalQuota.GetUsed d.OwnerCommonStaticLog) n)) d.OwnerSystem _
          (by rw [hS]; omega)]
    · have hrel : n - min (s.GlobalQuota.GetUsed d.OwnerCommonStaticLog) n
          ≤ s.GlobalQuota.GetUsed d.OwnerSystem := by
        rcases min_choice (s.GlobalQuota.GetUsed d.OwnerCommonStaticLog) n with h | h
        · rw [h]; omega
        · omega
      rw [if_pos hc, TPerOwnerQuotaTracker.Release_eq, hS, if_pos hrel]
  unfold Release
  rw [if_neg (by simp [hnu]), if_pos ho]
  simp only []
  rw [e1]
  simp only []
  rw [e2]

end TChunkTracker

/-! ## The properties -/

/-- C1 (sum invariant), evaluation at the failing input.  After `Reset` with the parameters of
scenario 5 the shared pool and the user owners agree (150 chunks used).  A `TryAllocate` of 1000
chunks for user owner 2 then returns failure: `OwnerQuota.used(2)` has been force-incremented to
1100 while `SharedQuota.used` is still 150, so in this reachable state `SharedQuota.used = 150`
and the sum over the user owners is 1150. -/
theorem TChunkTracker.failed_user_TryAllocate_breaks_used_sum :
    ∃ s0, TChunkTracker.Reset sampleDefs TChunkTracker.new scenario5 "" = some (s0, true, "") ∧
      s0.SharedQuota.GetUsed = 150 ∧ TChunkTracker.UserUsedSum sampleDefs s0 = 150 ∧
      (TChunkTracker.TryAllocate sampleDefs s0 2 1000 "").2.1 = false ∧
      TChunkTracker.Reachable sampleDefs (TChunkTracker.TryAllocate sampleDefs s0 2 1000 "").1 ∧
      (TChunkTracker.TryAllocate sampleDefs s0 2 1000 "").1.SharedQuota.GetUsed = 150 ∧
      (TChunkTracker.TryAllocate sampleDefs s0 2 1000 "").1.OwnerQuota.GetUsed 2 = 1100 ∧
      TChunkTracker.UserUsedSum sampleDefs (TChunkTracker.TryAllocate sampleDefs s0 2 1000 "").1
        = 1150 :=
  ⟨_, rfl, rfl, by decide, rfl,
    .tryAllocate _ 2 1000 "" (.reset scenario5 "" "" _ rfl) (by decide), rfl, rfl, by decide⟩

/-- C2 (idempotence of reset), evaluation at the failing input.  `Reset` with the parameters of
scenario 5 succeeds on a fresh tracker and leaves `SharedQuota.used = 150`; a second `Reset` with
the same parameters succeeds too, and `SharedQuota.used` is 300: `Reset` re-initialises
`GlobalQuota` and `OwnerQuota` but only forces the hard limit of `SharedQuota`, so the restored
chunk counts are added to the ones of the first reset.  The hard limit is 745 both times, the
free count drops from 595 to 445, and the per-owner records are the same. -/
theorem TChunkTracker.second_Reset_doubles_shared_used :
    ∃ s1 s2, TChunkTracker.Reset sampleDefs TChunkTracker.new scenario5 "" = some (s1, true, "") ∧
      TChunkTracker.Reset sampleDefs s1 scenario5 "" = some (s2, true, "") ∧
      s1.SharedQuota.GetUsed = 150 ∧ s2.SharedQuota.GetUsed = 300 ∧
      s1.SharedQuota.GetHardLimit = 745 ∧ s2.SharedQuota.GetHardLimit = 745 ∧
      s1.SharedQuota.GetFree = 595 ∧ s2.SharedQuota.GetFree = 445 ∧
      s1.OwnerQuota.GetUsed 2 = 100 ∧ s2.OwnerQuota.GetUsed 2 = 100 ∧
      TChunkTracker.UserUsedSum sampleDefs s2 = 150 :=
  ⟨_, _, rfl, rfl, rfl, rfl, rfl, rfl, rfl, rfl, rfl, rfl, by decide⟩

/-- C3 (failed reset, amended).  `Reset` works in place and has no rollback.  For every tracker
state `s0` and every parameters `p` (system log size not negative) that fail the admission test,
`Reset(p)` returns false and sets the out-reason to a non-empty diagnostic; `SharedQuota`,
`OwnerQuota` and `ColorBorder` are those of `s0`, but `Params` has been overwritten with `p` and
`GlobalQuota` has been re-initialised and holds the system owners added up to the failing
check. -/
theorem TChunkTracker.Reset_failure_keeps_user_side_only (d : TPDiskDefs) (hd : d.WellFormed)
    (s0 : TChunkTracker) (p : TKeeperParams) (r : String) (hsys : 0 ≤ p.SysLogSize)
    (hfail : p.TotalChunks < p.SysLogSize + 5 + TChunkTracker.SpecStaticLog p
      + TChunkTracker.SpecCommonLog p + TChunkTracker.SumChunksOwned p.OwnersInfo) :
    ∃ s' r', TChunkTracker.Reset d s0 p r = some (s', false, r') ∧ r' ≠ "" ∧
      s'.Params = p ∧ s'.SharedQuota = s0.SharedQuota ∧ s'.OwnerQuota = s0.OwnerQuota ∧
      s'.ColorBorder = s0.ColorBorder ∧
      ∃ k, 1 ≤ k ∧ k ≤ 4 ∧ s'.GlobalQuota = TChunkTracker.GlobalStage d p k := by
  obtain ⟨k, a, b, hk1, hk4, ha, hrun⟩ := TChunkTracker.Reset_fail_spec d hd s0 p r hsys hfail
  refine ⟨_, _, hrun, ?_, rfl, rfl, rfl, rfl, k, hk1, hk4, rfl⟩
  intro hempty
  have hlen := congrArg String.length hempty
  rw [String.length_append] at hlen
  have h0 : ("" : String).length = 0 := rfl
  omega

/-- Witness for C3 (amended): a fresh tracker and a disk of 100 chunks with a system log of 101
chunks. -/
theorem TChunkTracker.Reset_failure_keeps_user_side_only_witness :
    ∃ s' r', TChunkTracker.Reset sampleDefs TChunkTracker.new
        { TotalChunks := 100, SysLogSize := 101 } "" = some (s', false, r') ∧ r' ≠ "" ∧
      s'.Params = { TotalChunks := 100, SysLogSize := 101 } := by
  obtain ⟨s', r', h1, h2, h3, _⟩ :=
    TChunkTracker.Reset_failure_keeps_user_side_only sampleDefs
      (by constructor <;> decide) TChunkTracker.new
      { TotalChunks := 100, SysLogSize := 101 } "" (by decide) (by decide)
  exact ⟨s', r', h1, h2, h3⟩

/-- C3, counterexample.  On a fresh tracker `Reset` with 100 chunks in total and a system log of
101 chunks returns false with the diagnostic of the first check, and the state is not the one
before the call: `GlobalQuota` now lists the SystemLog owner with a hard limit of 101 chunks. -/
theorem TChunkTracker.failed_Reset_changes_state :
    ∃ s', TChunkTracker.Reset sampleDefs TChunkTracker.new
        { TotalChunks := 100, SysLogSize := 101 } ""
        = some (s', false, "Error adding OwnerSystemLog quota, size# 101 TotalChunks# 100") ∧
      s'.GlobalQuota.ActiveOwnerIds = [251] ∧ s'.GlobalQuota.GetHardLimit 251 = 101 ∧
      TChunkTracker.new.GlobalQuota.ActiveOwnerIds = [] ∧ s' ≠ TChunkTracker.new := by
  refine ⟨_, rfl, rfl, rfl, rfl, ?_⟩
  intro h
  have h2 := congrArg (fun s => s.GlobalQuota.ActiveOwnerIds) h
  revert h2
  decide

/-- C4 (reset admission).  For parameters with non-negative sizes (an `i64` total, user owner ids
as keys of the owner table), `Reset` on a fresh tracker returns, and it returns ok exactly when
`total_chunks ≥ sys_log_size + 5 + staticLog + commonLog + Σ chunks_owned`.  Adding a system owner
returns minus its size, so each step decreases the unappropriated running total by that size, and
`Reset` fails at the first step that makes the total negative (or, at the fifth step, smaller than
the chunks owned), with the diagnostic of that step. -/
theorem TChunkTracker.Reset_admission (d : TPDiskDefs) (hd : d.WellFormed) (p : TKeeperParams)
    (r : String) (hrange : p.TotalChunks < 2 ^ 63) (hsys : 0 ≤ p.SysLogSize)
    (hcommon : 0 ≤ p.CommonLogSize) (hchunks : ∀ e ∈ p.OwnersInfo, 0 ≤ e.2.ChunksOwned)
    (husers : ∀ e ∈ p.OwnersInfo, d.IsOwnerUser e.1 = true)
    (hnodup : (p.OwnersInfo.map Prod.fst).Nodup) :
    ∃ s' ok r', TChunkTracker.Reset d TChunkTracker.new p r = some (s', ok, r') ∧
      (ok = true ↔ p.SysLogSize + 5 + TChunkTracker.SpecStaticLog p
        + TChunkTracker.SpecCommonLog p + TChunkTracker.SumChunksOwned p.OwnersInfo
          ≤ p.TotalChunks) ∧
      (∀ (g g' : TPerOwnerQuotaTracker) (id : TOwner) (q : Int) (name : String) (inc : Int),
        g.AddSystemOwner id q name = some (g', inc) → inc = -q) ∧
      (p.TotalChunks - p.SysLogSize < 0 →
        r' = "Error adding OwnerSystemLog quota, size# " ++ toString p.SysLogSize
          ++ " TotalChunks# " ++ toString p.TotalChunks) ∧
      (0 ≤ p.TotalChunks - p.SysLogSize → p.TotalChunks - p.SysLogSize - 5 < 0 →
        r' = "Error adding OwnerSystemReserve quota, size# " ++ toString (5 : Int)
          ++ " TotalChunks# " ++ toString p.TotalChunks) ∧
      (0 ≤ p.TotalChunks - p.SysLogSize - 5 →
        p.TotalChunks - p.SysLogSize - 5 - TChunkTracker.SpecStaticLog p < 0 →
        r' = "Error adding OwnerCommonStaticLog quota, size# "
          ++ toString (TChunkTracker.SpecStaticLog p)
          ++ " TotalChunks# " ++ toString p.TotalChunks) ∧
      (0 ≤ p.TotalChunks - p.SysLogSize - 5 - TChunkTracker.SpecStaticLog p →
        p.TotalChunks - p.SysLogSize - 5 - TChunkTracker.SpecStaticLog p
          - TChunkTracker.SpecCommonLog p < 0 →
        r' = "Error adding OwnerSystem (common log) quota, size# "
          ++ toString (TChunkTracker.SpecCommonLog p)
          ++ " TotalChunks# " ++ toString p.TotalChunks) ∧
      (0 ≤ TChunkTracker.SpecUserPool p →
        TChunkTracker.SpecUserPool p < TChunkTracker.SumChunksOwned p.OwnersInfo →
        r' = "Error adding OwnerBeginUser quota, chunksOwned#"
          ++ toString (TChunkTracker.SumChunksOwned p.OwnersInfo)
          ++ " unappropriated# " ++ toString (TChunkTracker.SpecUserPool p)
          ++ " TotalChunks# " ++ toString p.TotalChunks) ∧
      (ok = true → r' = r) := by
  have hst := TChunkTracker.SpecStaticLog_nonneg p
  have hcl := TChunkTracker.SpecCommonLog_ge p
  have hsum := TChunkTracker.SumChunksOwned_nonneg p.OwnersInfo hchunks
  have hpooldef : TChunkTracker.SpecUserPool p = p.TotalChunks - p.SysLogSize - 5
      - TChunkTracker.SpecStaticLog p - TChunkTracker.SpecCommonLog p := rfl
  have hadd : ∀ (g g' : TPerOwnerQuotaTracker) (id : TOwner) (q : Int) (name : String)
      (inc : Int), g.AddSystemOwner id q name = some (g', inc) → inc = -q :=
    fun g g' id q name inc h =>
      (TPerOwnerQuotaTracker.AddSystemOwner_some g g' id q name inc h).2.2
  by_cases hadm : p.SysLogSize + 5 + TChunkTracker.SpecStaticLog p
      + TChunkTracker.SpecCommonLog p + TChunkTracker.SumChunksOwned p.OwnersInfo
        ≤ p.TotalChunks
  · obtain ⟨s', hrun, _⟩ := TChunkTracker.Reset_ok_spec d hd TChunkTracker.new p r hrange hsys
      hcommon hchunks husers hnodup hadm
      (by have h0 : TChunkTracker.new.SharedQuota.Used = 0 := rfl
          rw [h0]; omega)
    exact ⟨s', true, r, hrun, ⟨fun _ => hadm, fun _ => rfl⟩, hadd,
      fun h => by exfalso; omega, fun _ h => by exfalso; omega,
      fun _ h => by exfalso; omega, fun _ h => by exfalso; omega,
      fun _ h => by exfalso; omega, fun _ => rfl⟩
  · rw [TChunkTracker.Reset_eq d hd TChunkTracker.new p r hsys]
    by_cases c1 : p.TotalChunks < p.SysLogSize
    · rw [if_pos c1]
      exact ⟨_, false, _, rfl, ⟨fun h => by simp at h, fun h => absurd h hadm⟩, hadd,
        fun _ => rfl, fun h _ => by exfalso; omega, fun h _ => by exfalso; omega,
        fun h _ => by exfalso; omega, fun h _ => by exfalso; omega, fun h => by simp at h⟩
    rw [if_neg c1]
    by_cases c2 : p.TotalChunks - p.SysLogSize < 5
    · rw [if_pos c2]
      exact ⟨_, false, _, rfl, ⟨fun h => by simp at h, fun h => absurd h hadm⟩, hadd,
        fun h => by exfalso; omega, fun _ _ => rfl, fun h _ => by exfalso; omega,
        fun h _ => by exfalso; omega, fun h _ => by exfalso; omega, fun h => by simp at h⟩
    rw [if_neg c2]
    by_cases c3 : p.TotalChunks - p.SysLogSize - 5 < TChunkTracker.SpecStaticLog p
    · rw [if_pos c3]
      exact ⟨_, false, _, rfl, ⟨fun h => by simp at h, fun h => absurd h hadm⟩, hadd,
        fun h => by exfalso; omega, fun _ h => by exfalso; omega, fun _ _ => rfl,
        fun h _ => by exfalso; omega, fun h _ => by exfalso; omega, fun h => by simp at h⟩
    rw [if_neg c3]
    by_cases c4 : p.TotalChunks - p.SysLogSize - 5 - TChunkTracker.SpecStaticLog p
        < TChunkTracker.SpecCommonLog p
    · rw [if_pos c4]
      exact ⟨_, false, _, rfl, ⟨fun h => by simp at h, fun h => absurd h hadm⟩, hadd,
        fun h => by exfalso; omega, fun _ h => by exfalso; omega,
        fun _ h => by exfalso; omega, fun _ _ => rfl, fun h _ => by exfalso; omega,
        fun h => by simp at h⟩
    rw [if_neg c4]
    have c5 : TChunkTracker.SpecUserPool p < TChunkTracker.SumChunksOwned p.OwnersInfo := by
      omega
    rw [if_pos c5]
    exact ⟨_, false, _, rfl, ⟨fun h => by simp at h, fun h => absurd h hadm⟩, hadd,
      fun h => by exfalso; omega, fun _ h => by exfalso; omega,
      fun _ h => by exfalso; omega, fun _ h => by exfalso; omega, fun _ _ => rfl,
      fun h => by simp at h⟩

/-- Witness for C4: the parameters of scenario 5 (need 50 + 5 + 0 + 200 + 150 = 405 of 1000
chunks) are admitted. -/
theorem TChunkTracker.Reset_admission_witness :
    ∃ s' r', TChunkTracker.Reset sampleDefs TChunkTracker.new scenario5 "" = some (s', true, r') := by
  obtain ⟨s', ok, r', hrun, hiff, _⟩ :=
    TChunkTracker.Reset_admission sampleDefs (by constructor <;> decide) scenario5 ""
      (by decide) (by decide) (by decide) (by decide) (by decide) (by decide)
  have hok : ok = true := hiff.mpr (by decide)
  subst hok
  exact ⟨s', r', hrun⟩

/-- C5 (reset postcondition).  After a successful `Reset` on a fresh tracker (non-negative
sizes, an `i64` total, user owner ids as keys of the owner table):
`SharedQuota.hard_limit = GlobalQuota.hard_limit(BeginUser) =
total_chunks − sys_log_size − 5 − staticLog − commonLog`; `SharedQuota.used` is the sum of
`chunks_owned`; every listed owner's `used` is its `chunks_owned`; and when the number `n` of
listed owners is at most the expected count, or the expected count is 0, every listed owner's
hard limit is the pool size divided by `max(expected_owner_count, n)`. -/
theorem TChunkTracker.Reset_postcondition (d : TPDiskDefs) (hd : d.WellFormed)
    (p : TKeeperParams) (r : String) (hrange : p.TotalChunks < 2 ^ 63) (hsys : 0 ≤ p.SysLogSize)
    (hcommon : 0 ≤ p.CommonLogSize) (hchunks : ∀ e ∈ p.OwnersInfo, 0 ≤ e.2.ChunksOwned)
    (husers : ∀ e ∈ p.OwnersInfo, d.IsOwnerUser e.1 = true)
    (hnodup : (p.OwnersInfo.map Prod.fst).Nodup)
    (s' : TChunkTracker) (r' : String)
    (hok : TChunkTracker.Reset d TChunkTracker.new p r = some (s', true, r')) :
    s'.SharedQuota.GetHardLimit = s'.GlobalQuota.GetHardLimit d.OwnerBeginUser ∧
    s'.GlobalQuota.GetHardLimit d.OwnerBeginUser
      = p.TotalChunks - p.SysLogSize - 5 - TChunkTracker.SpecStaticLog p
        - TChunkTracker.SpecCommonLog p ∧
    s'.SharedQuota.GetUsed = TChunkTracker.SumChunksOwned p.OwnersInfo ∧
    (∀ e ∈ p.OwnersInfo, s'.OwnerQuota.GetUsed e.1 = e.2.ChunksOwned) ∧
    ((p.OwnersInfo.length ≤ p.ExpectedOwnerCount ∨ p.ExpectedOwnerCount = 0) →
      ∀ e ∈ p.OwnersInfo, s'.OwnerQuota.GetHardLimit e.1
        = (p.TotalChunks - p.SysLogSize - 5 - TChunkTracker.SpecStaticLog p
            - TChunkTracker.SpecCommonLog p)
          / ((max p.ExpectedOwnerCount p.OwnersInfo.length : Nat) : Int)) := by
  have hadm := TChunkTracker.Reset_ok_admitted d hd _ s' p r r' hsys hok
  have hsum := TChunkTracker.SumChunksOwned_nonneg p.OwnersInfo hchunks
  obtain ⟨s'', hrun, _, _, hG, hS, _, _, _, hUsed, _, hHL⟩ :=
    TChunkTracker.Reset_ok_spec d hd TChunkTracker.new p r hrange hsys hcommon hchunks husers
      hnodup hadm
      (by have h0 : TChunkTracker.new.SharedQuota.Used = 0 := rfl
          rw [h0]; unfold TChunkTracker.SpecUserPool; omega)
  rw [hrun] at hok
  simp only [Option.some.injEq, Prod.mk.injEq, true_and] at hok
  obtain ⟨hs, _⟩ := hok
  subst hs
  have hGl : s''.GlobalQuota.GetHardLimit d.OwnerBeginUser = TChunkTracker.SpecUserPool p := by
    rw [hG]
    split
    · rw [TPerOwnerQuotaTracker.ForceAllocate_GetHardLimit,
        TChunkTracker.GlobalStage_five_GetHardLimit, if_pos rfl]
    · rw [TChunkTracker.GlobalStage_five_GetHardLimit, if_pos rfl]
  refine ⟨?_, hGl, ?_, hUsed, hHL⟩
  · rw [hGl, hS]; rfl
  · rw [hS]
    have h0 : TChunkTracker.new.SharedQuota.Used = 0 := rfl
    simp [TQuotaRecord.GetUsed, h0]

/-- Witness for C5: scenario 5 of the spec.  Total 1000, system log 50, common log 200, no
static groups, 4 expected owners, chunks owned 100, 50 and 0: `Reset` succeeds, the pool is 745,
each user's hard limit is 745 / 4 = 186 and `SharedQuota.used` is 150. -/
theorem TChunkTracker.Reset_postcondition_witness :
    ∃ s' r', TChunkTracker.Reset sampleDefs TChunkTracker.new scenario5 "" = some (s', true, r') ∧
      s'.SharedQuota.GetHardLimit = 745 ∧ s'.SharedQuota.GetUsed = 150 ∧
      s'.OwnerQuota.GetHardLimit 2 = 186 ∧ s'.OwnerQuota.GetHardLimit 3 = 186 ∧
      s'.OwnerQuota.GetHardLimit 4 = 186 ∧
      s'.OwnerQuota.GetUsed 2 = 100 ∧ s'.OwnerQuota.GetUsed 3 = 50 ∧
      s'.OwnerQuota.GetUsed 4 = 0 := by
  have hrun : ∃ s', TChunkTracker.Reset sampleDefs TChunkTracker.new scenario5 ""
      = some (s', true, "") := ⟨_, rfl⟩
  obtain ⟨s', hrun⟩ := hrun
  obtain ⟨h1, h2, h3, h4, h5⟩ :=
    TChunkTracker.Reset_postcondition sampleDefs (by constructor <;> decide) scenario5 ""
      (by decide) (by decide) (by decide) (by decide) (by decide) (by decide) s' "" hrun
  have h5' := h5 (by decide)
  refine ⟨s', "", hrun, ?_, ?_, ?_, ?_, ?_, ?_, ?_, ?_⟩
  · rw [h1, h2]; decide
  · rw [h3]; decide
  · rw [h5' (2, { ChunksOwned := 100, VDiskId := 1 }) (by decide)]; decide
  · rw [h5' (3, { ChunksOwned := 50, VDiskId := 2 }) (by decide)]; decide
  · rw [h5' (4, { ChunksOwned := 0, VDiskId := 3 }) (by decide)]; decide
  · exact h4 (2, { ChunksOwned := 100, VDiskId := 1 }) (by decide)
  · exact h4 (3, { ChunksOwned := 50, VDiskId := 2 }) (by decide)
  · exact h4 (4, { ChunksOwned := 0, VDiskId := 3 }) (by decide)

/-- C6 (system records after initialisation, amended).  After a successful `Reset` on a fresh
tracker the records of SystemLog, SystemReserve and CommonStaticLog have `used = 0` and a
non-negative hard limit.  The System (CommonLog) record has `used = common_log_size ≥ 0`, forced
in without a limit check; it is within the two log pools together,
`used(System) ≤ hard_limit(System) + hard_limit(CommonStaticLog)`, and it is within
`hard_limit(System)` exactly when there are no static groups or `common_log_size ≤ 200`. -/
theorem TChunkTracker.Reset_system_records (d : TPDiskDefs) (hd : d.WellFormed)
    (p : TKeeperParams) (r : String) (hrange : p.TotalChunks < 2 ^ 63) (hsys : 0 ≤ p.SysLogSize)
    (hcommon : 0 ≤ p.CommonLogSize) (hchunks : ∀ e ∈ p.OwnersInfo, 0 ≤ e.2.ChunksOwned)
    (husers : ∀ e ∈ p.OwnersInfo, d.IsOwnerUser e.1 = true)
    (hnodup : (p.OwnersInfo.map Prod.fst).Nodup)
    (s' : TChunkTracker) (r' : String)
    (hok : TChunkTracker.Reset d TChunkTracker.new p r = some (s', true, r')) :
    (∀ id ∈ [d.OwnerSystemLog, d.OwnerSystemReserve, d.OwnerCommonStaticLog],
      s'.GlobalQuota.GetUsed id = 0 ∧ 0 ≤ s'.GlobalQuota.GetHardLimit id) ∧
    s'.GlobalQuota.GetUsed d.OwnerSystem = p.CommonLogSize ∧
    0 ≤ s'.GlobalQuota.GetUsed d.OwnerSystem ∧
    s'.GlobalQuota.GetUsed d.OwnerSystem
      ≤ s'.GlobalQuota.GetHardLimit d.OwnerSystem
        + s'.GlobalQuota.GetHardLimit d.OwnerCommonStaticLog ∧
    (s'.GlobalQuota.GetUsed d.OwnerSystem ≤ s'.GlobalQuota.GetHardLimit d.OwnerSystem ↔
      (p.HasStaticGroups = false ∨ p.CommonLogSize ≤ 200)) := by
  have hadm := TChunkTracker.Reset_ok_admitted d hd _ s' p r r' hsys hok
  have hsum := TChunkTracker.SumChunksOwned_nonneg p.OwnersInfo hchunks
  obtain ⟨s'', hrun, _, _, hG, _⟩ :=
    TChunkTracker.Reset_ok_spec d hd TChunkTracker.new p r hrange hsys hcommon hchunks husers
      hnodup hadm
      (by have h0 : TChunkTracker.new.SharedQuota.Used = 0 := rfl
          rw [h0]; unfold TChunkTracker.SpecUserPool; omega)
  rw [hrun] at hok
  simp only [Option.some.injEq, Prod.mk.injEq, true_and] at hok
  obtain ⟨hs, _⟩ := hok
  subst hs
  have hHL : ∀ x, s''.GlobalQuota.GetHardLimit x
      = (TChunkTracker.GlobalStage d p 5).GetHardLimit x := by
    intro x; rw [hG]; split
    · rw [TPerOwnerQuotaTracker.ForceAllocate_GetHardLimit]
    · rfl
  have hUsed : ∀ x, s''.GlobalQuota.GetUsed x = if x = d.OwnerSystem then p.CommonLogSize else 0 := by
    intro x; rw [hG]; split
    · rw [TPerOwnerQuotaTracker.ForceAllocate_GetUsed]
      simp [TChunkTracker.GlobalStage_GetUsed]
    · rename_i hz
      have hz' : p.CommonLogSize = 0 := by simpa using hz
      simp [TChunkTracker.GlobalStage_GetUsed, hz']
  have hst := TChunkTracker.SpecStaticLog_nonneg p
  have hHLsys : s''.GlobalQuota.GetHardLimit d.OwnerSystem = TChunkTracker.SpecCommonLog p := by
    rw [hHL, TChunkTracker.GlobalStage_five_GetHardLimit, if_neg hd.system_ne_user, if_pos rfl]
  have hHLstatic : s''.GlobalQuota.GetHardLimit d.OwnerCommonStaticLog
      = TChunkTracker.SpecStaticLog p := by
    rw [hHL, TChunkTracker.GlobalStage_five_GetHardLimit, if_neg hd.static_ne_user,
      if_neg hd.static_ne_system, if_pos rfl]
  have hHLres : s''.GlobalQuota.GetHardLimit d.OwnerSystemReserve = 5 := by
    rw [hHL, TChunkTracker.GlobalStage_five_GetHardLimit, if_neg hd.reserve_ne_user,
      if_neg hd.reserve_ne_system, if_neg hd.reserve_ne_static, if_pos rfl]
    rfl
  have hHLlog : s''.GlobalQuota.GetHardLimit d.OwnerSystemLog = p.SysLogSize := by
    rw [hHL, TChunkTracker.GlobalStage_five_GetHardLimit, if_neg hd.log_ne_user,
      if_neg hd.log_ne_system, if_neg hd.log_ne_static, if_neg hd.log_ne_reserve, if_pos rfl]
  have hmax : TChunkTracker.SpecCommonLog p
      = max 200 (p.CommonLogSize - TChunkTracker.SpecStaticLog p) := rfl
  have hstval : TChunkTracker.SpecStaticLog p = if p.HasStaticGroups then 70 else 0 := rfl
  refine ⟨?_, ?_, ?_, ?_, ?_⟩
  · intro id hid
    simp only [List.mem_cons, List.mem_singleton, List.not_mem_nil, or_false] at hid
    rcases hid with h | h | h
    · subst h
      rw [hUsed, if_neg hd.log_ne_system, hHLlog]; exact ⟨rfl, hsys⟩
    · subst h
      rw [hUsed, if_neg hd.reserve_ne_system, hHLres]; exact ⟨rfl, by decide⟩
    · subst h
      rw [hUsed, if_neg hd.static_ne_system, hHLstatic]; exact ⟨rfl, hst⟩
  · rw [hUsed, if_pos rfl]
  · rw [hUsed, if_pos rfl]; exact hcommon
  · rw [hUsed, if_pos rfl, hHLsys, hHLstatic, hmax]
    have := le_max_right 200 (p.CommonLogSize - TChunkTracker.SpecStaticLog p)
    omega
  · rw [hUsed, if_pos rfl, hHLsys, hmax, hstval]
    cases hsg : p.HasStaticGroups
    · simp only [Bool.false_eq_true, if_false, true_or, iff_true]
      exact le_trans (by omega) (le_max_right _ _)
    · simp only [if_true, Bool.true_eq_false, false_or]
      constructor
      · intro h
        rcases le_max_iff.mp h with h | h <;> omega
      · intro h
        exact le_trans h (le_max_left _ _)

/-- Witness for C6 (amended): scenario 5 has no static groups; the replayed common log usage of
200 chunks is within the hard limit of the System owner. -/
theorem TChunkTracker.Reset_system_records_witness :
    ∃ s' r', TChunkTracker.Reset sampleDefs TChunkTracker.new scenario5 "" = some (s', true, r') ∧
      s'.GlobalQuota.GetUsed sampleDefs.OwnerSystem = 200 ∧
      s'.GlobalQuota.GetUsed sampleDefs.OwnerSystem
        ≤ s'.GlobalQuota.GetHardLimit sampleDefs.OwnerSystem := by
  have hrun : ∃ s', TChunkTracker.Reset sampleDefs TChunkTracker.new scenario5 ""
      = some (s', true, "") := ⟨_, rfl⟩
  obtain ⟨s', hrun⟩ := hrun
  obtain ⟨_, h2, _, _, h5⟩ :=
    TChunkTracker.Reset_system_records sampleDefs (by constructor <;> decide) scenario5 ""
      (by decide) (by decide) (by decide) (by decide) (by decide) (by decide) s' "" hrun
  exact ⟨s', "", hrun, h2, h5.mpr (Or.inl rfl)⟩

/-- C6, counterexample.  With static groups and a common log of 300 chunks (1000 chunks in
total, system log 50, no user owners) `Reset` succeeds, gives the System owner the hard limit
`max(200, 300 − 70) = 230` and then replays 300 used chunks into it: `used = 300 > 230`. -/
theorem TChunkTracker.common_log_used_exceeds_hard_limit :
    ∃ s', TChunkTracker.Reset sampleDefs TChunkTracker.new
        { TotalChunks := 1000, SysLogSize := 50, CommonLogSize := 300, HasStaticGroups := true }
        "" = some (s', true, "") ∧
      s'.GlobalQuota.GetUsed sampleDefs.OwnerSystem = 300 ∧
      s'.GlobalQuota.GetHardLimit sampleDefs.OwnerSystem = 230 ∧
      s'.GlobalQuota.GetHardLimit sampleDefs.OwnerCommonStaticLog = 70 ∧
      ¬ (s'.GlobalQuota.GetUsed sampleDefs.OwnerSystem
        ≤ s'.GlobalQuota.GetHardLimit sampleDefs.OwnerSystem) :=
  ⟨_, rfl, rfl, rfl, rfl, by decide⟩

/-- C7 (per-user bound, amended).  The per-user hard limit is advisory: what holds in every state
reachable from a successful `Reset` of a fresh tracker by `TryAllocate`, `Release`, `AddOwner` and
`RemoveOwner` calls is the bound on the shared pool,
`SharedQuota.used ≤ SharedQuota.hard_limit`. -/
theorem TChunkTracker.shared_used_le_hard_limit (d : TPDiskDefs) (s : TChunkTracker)
    (h : TChunkTracker.Reachable d s) : s.SharedQuota.GetUsed ≤ s.SharedQuota.GetHardLimit := by
  unfold TQuotaRecord.GetUsed TQuotaRecord.GetHardLimit
  induction h with
  | reset p r r' s hreset =>
    exact TChunkTracker.Reset_ok_shared_le d _ s p r r' hreset (by simp [TChunkTracker.new])
  | tryAllocate s owner count r _ _ ih =>
    exact TChunkTracker.TryAllocate_shared_le d s owner count r ih
  | release s s' owner count _ hc hrel ih =>
    exact TChunkTracker.Release_shared_le d s s' owner count hc hrel ih
  | addOwner s s' owner v _ hadd ih =>
    rw [(TChunkTracker.AddOwner_frame d s s' owner v hadd).2.1]; exact ih
  | removeOwner s s' owner _ hrem ih =>
    rw [(TChunkTracker.RemoveOwner_frame d s s' owner hrem).2.1]; exact ih

/-- Witness for C7 (amended): the state after `Reset` with the parameters of scenario 5 and a
granted allocation of 100 chunks to user owner 2 is reachable and has 250 of 745 shared chunks
in use. -/
theorem TChunkTracker.shared_used_le_hard_limit_witness :
    ∃ s0, TChunkTracker.Reset sampleDefs TChunkTracker.new scenario5 "" = some (s0, true, "") ∧
      (TChunkTracker.TryAllocate sampleDefs s0 2 100 "").1.SharedQuota.GetUsed = 250 ∧
      (TChunkTracker.TryAllocate sampleDefs s0 2 100 "").1.SharedQuota.GetHardLimit = 745 ∧
      (TChunkTracker.TryAllocate sampleDefs s0 2 100 "").1.SharedQuota.GetUsed
        ≤ (TChunkTracker.TryAllocate sampleDefs s0 2 100 "").1.SharedQuota.GetHardLimit :=
  ⟨_, rfl, rfl, rfl,
    TChunkTracker.shared_used_le_hard_limit sampleDefs _
      (.tryAllocate _ 2 100 "" (.reset scenario5 "" "" _ rfl) (by decide))⟩

/-- C7, counterexample.  After `Reset` with the parameters of scenario 5 user owner 2 has hard
limit 186 and 100 chunks in use; an allocation of 100 more chunks is granted (the shared pool has
room) and leaves `OwnerQuota.used(2) = 200 > 186 = OwnerQuota.hard_limit(2)` in a reachable
state. -/
theorem TChunkTracker.user_used_exceeds_own_hard_limit :
    ∃ s0, TChunkTracker.Reset sampleDefs TChunkTracker.new scenario5 "" = some (s0, true, "") ∧
      sampleDefs.IsOwnerUser 2 = true ∧
      (TChunkTracker.TryAllocate sampleDefs s0 2 100 "").2.1 = true ∧
      TChunkTracker.Reachable sampleDefs (TChunkTracker.TryAllocate sampleDefs s0 2 100 "").1 ∧
      (TChunkTracker.TryAllocate sampleDefs s0 2 100 "").1.OwnerQuota.GetUsed 2 = 200 ∧
      (TChunkTracker.TryAllocate sampleDefs s0 2 100 "").1.OwnerQuota.GetHardLimit 2 = 186 ∧
      ¬ ((TChunkTracker.TryAllocate sampleDefs s0 2 100 "").1.OwnerQuota.GetUsed 2
        ≤ (TChunkTracker.TryAllocate sampleDefs s0 2 100 "").1.OwnerQuota.GetHardLimit 2) :=
  ⟨_, rfl, rfl, rfl, .tryAllocate _ 2 100 "" (.reset scenario5 "" "" _ rfl) (by decide), rfl, rfl,
    by decide⟩

/-- C8 (user allocation is gated only by the shared pool).  For a user owner and a count
`n > 0`, `TChunkTracker::TryAllocate` returns ok exactly when
`SharedQuota.used + n ≤ SharedQuota.hard_limit`, whatever the owner's own record holds; on success
the owner's `used` and `SharedQuota.used` have both grown by `n`, and the state differs from the
previous one in these two `used` fields only. -/
theorem TChunkTracker.TryAllocate_user_gated_by_shared (d : TPDiskDefs) (s : TChunkTracker)
    (owner : TOwner) (n : Int) (r0 : String) (hu : d.IsOwnerUser owner = true) (_hn : 0 < n) :
    ((TChunkTracker.TryAllocate d s owner n r0).2.1 = true ↔
        s.SharedQuota.GetUsed + n ≤ s.SharedQuota.GetHardLimit) ∧
    ((TChunkTracker.TryAllocate d s owner n r0).2.1 = true →
      (TChunkTracker.TryAllocate d s owner n r0).1.OwnerQuota.GetUsed owner
          = s.OwnerQuota.GetUsed owner + n ∧
      (TChunkTracker.TryAllocate d s owner n r0).1.SharedQuota.GetUsed
          = s.SharedQuota.GetUsed + n ∧
      (TChunkTracker.TryAllocate d s owner n r0).1 =
        { s with
          SharedQuota := { s.SharedQuota with Used := s.SharedQuota.Used + n }
          OwnerQuota := { s.OwnerQuota with
            QuotaForOwner := Function.update s.OwnerQuota.QuotaForOwner owner
              { s.OwnerQuota.QuotaForOwner owner with
                Used := (s.OwnerQuota.QuotaForOwner owner).Used + n } } }) := by
  unfold TChunkTracker.TryAllocate
  simp only [hu, if_true, TQuotaRecord.TryAllocate, TPerOwnerQuotaTracker.ForceAllocate,
    TQuotaRecord.ForceAllocate, TQuotaRecord.GetUsed, TQuotaRecord.GetHardLimit,
    TPerOwnerQuotaTracker.GetUsed]
  by_cases h : s.SharedQuota.Used + n ≤ s.SharedQuota.HardLimit
  · simp [h]
  · simp [h]

/-- Witness for C8: in the state with `SharedQuota = {hard_limit 10, used 4}` a user owner
(id 2 of the sample layout) whose own hard limit is 0 is granted 6 chunks. -/
theorem TChunkTracker.TryAllocate_user_gated_by_shared_witness :
    sampleDefs.IsOwnerUser 2 = true ∧ (0 : Int) < 6 ∧
    (TChunkTracker.TryAllocate sampleDefs
        { TChunkTracker.new with SharedQuota := { HardLimit := 10, Used := 4 } } 2 6 "").2.1
      = true :=
  ⟨by decide, by decide,
    (TChunkTracker.TryAllocate_user_gated_by_shared sampleDefs
      { TChunkTracker.new with SharedQuota := { HardLimit := 10, Used := 4 } } 2 6 ""
      (by decide) (by decide)).1.mpr (by decide)⟩

/-- C9 (equal-split bound).  In every state of a `TPerOwnerQuotaTracker` that is reachable from a
`Reset` with a non-negative total through `Reset`, `SetExpectedOwnerCount`, `AddOwner` and
`RemoveOwner`, the hard limits of the entries of the active list sum to at most `Total`; the sum
taken once per distinct active owner is bounded as well. -/
theorem TPerOwnerQuotaTracker.equal_split_bound (t : TPerOwnerQuotaTracker)
    (h : TPerOwnerQuotaTracker.Reachable t) :
    t.ActiveHardLimitSum ≤ t.Total ∧
      ((t.ActiveOwnerIds.dedup).map (fun id => t.GetHardLimit id)).sum ≤ t.Total := by
  have hinv : TPerOwnerQuotaTracker.SplitInv t := by
    induction h with
    | reset t total limits h0 h1 => exact TPerOwnerQuotaTracker.SplitInv_reset t total limits h0 h1
    | setExpectedOwnerCount t t' n _ ht ih =>
      exact TPerOwnerQuotaTracker.SplitInv_setExpectedOwnerCount t ih n t' ht
    | addOwner t t' id vdiskId _ ht ih =>
      exact TPerOwnerQuotaTracker.SplitInv_addOwner t ih id vdiskId t' ht
    | removeOwner t t' id _ ht ih =>
      exact TPerOwnerQuotaTracker.SplitInv_removeOwner t ih id t' ht
  refine ⟨hinv.sum_le, le_trans ?_ hinv.sum_le⟩
  unfold TPerOwnerQuotaTracker.ActiveHardLimitSum
  apply List.Sublist.sum_le_sum
  · exact (List.dedup_sublist t.ActiveOwnerIds).map _
  · intro a ha
    rcases List.mem_map.mp ha with ⟨x, _, rfl⟩
    exact hinv.limit_nonneg x

/-- Witness for C9: a tracker reset to 10 chunks with two expected owners, after three `AddOwner`
calls (the third owner joins beyond the expected count) and one `RemoveOwner`. -/
theorem TPerOwnerQuotaTracker.equal_split_bound_witness :
    ∃ t0 t1 t2 t3 t4 : TPerOwnerQuotaTracker,
      (TPerOwnerQuotaTracker.new.Reset 10 {}).SetExpectedOwnerCount 2 = some t0 ∧
      t0.AddOwner 2 1 = some t1 ∧ t1.AddOwner 3 2 = some t2 ∧ t2.AddOwner 4 3 = some t3 ∧
      t3.RemoveOwner 2 = some t4 ∧
      (t4.ActiveHardLimitSum ≤ t4.Total ∧
        ((t4.ActiveOwnerIds.dedup).map (fun id => t4.GetHardLimit id)).sum ≤ t4.Total) :=
  ⟨_, _, _, _, _, rfl, rfl, rfl, rfl, rfl,
    TPerOwnerQuotaTracker.equal_split_bound _
      (.removeOwner _ _ 2 (.addOwner _ _ 4 3 (.addOwner _ _ 3 2 (.addOwner _ _ 2 1
        (.setExpectedOwnerCount _ _ 2 (.reset TPerOwnerQuotaTracker.new 10 {} (by decide)
          (by decide)) rfl) rfl) rfl) rfl) rfl)⟩

/-- C10 (add-owner policy, amended).  For a tracker whose total is a non-negative `i64` and an id
whose record is empty, `AddOwner(id)` succeeds and appends the id to the active list, leaving the
total, the expected count and every `used` as they were.  (a) If the new `|active|` is at most the
expected count, or the expected count is 0, every active owner's hard limit is
`Total / max(expected, |active|)`.  (b) Otherwise no hard limit changes and the new owner's hard
limit is 0.  The zero share is not tied to `SetExpectedOwnerCount`: it is kept by `RemoveOwner` of
another id, by an `AddOwner` that takes branch (b) and by `SetExpectedOwnerCount` with the
current count, and it is replaced by the next redistribution, whoever triggers it. -/
theorem TPerOwnerQuotaTracker.AddOwner_policy (t : TPerOwnerQuotaTracker) (id : TOwner)
    (vdiskId : TVDiskID) (h0 : 0 ≤ t.Total) (h1 : t.Total < 2 ^ 63)
    (hrec : t.GetHardLimit id = 0 ∧ t.GetUsed id = 0) :
    ∃ t', t.AddOwner id vdiskId = some t' ∧
      t'.ActiveOwnerIds = t.ActiveOwnerIds ++ [id] ∧
      t'.Total = t.Total ∧ t'.ExpectedOwnerCount = t.ExpectedOwnerCount ∧
      (∀ x, t'.GetUsed x = t.GetUsed x) ∧
      ((t'.ActiveOwnerIds.length ≤ t.ExpectedOwnerCount ∨ t.ExpectedOwnerCount = 0) →
        ∀ x ∈ t'.ActiveOwnerIds, t'.GetHardLimit x
          = t.Total / ((max t.ExpectedOwnerCount t'.ActiveOwnerIds.length : Nat) : Int)) ∧
      (¬ (t'.ActiveOwnerIds.length ≤ t.ExpectedOwnerCount ∨ t.ExpectedOwnerCount = 0) →
        (∀ x, t'.GetHardLimit x = t.GetHardLimit x) ∧ t'.GetHardLimit id = 0) ∧
      (∀ (u u' : TPerOwnerQuotaTracker) (y x : TOwner), u.RemoveOwner y = some u' → y ≠ x →
        u'.GetHardLimit x = u.GetHardLimit x) ∧
      (∀ (u u' : TPerOwnerQuotaTracker) (y : TOwner) (w : TVDiskID) (x : TOwner),
        u.AddOwner y w = some u' →
        ¬ (u.ActiveOwnerIds.length + 1 ≤ u.ExpectedOwnerCount ∨ u.ExpectedOwnerCount = 0) →
        u'.GetHardLimit x = u.GetHardLimit x) ∧
      (∀ u : TPerOwnerQuotaTracker, u.SetExpectedOwnerCount u.ExpectedOwnerCount = some u) := by
  have hEq := TPerOwnerQuotaTracker.AddOwner_eq t id vdiskId h0 h1
  rw [if_pos hrec] at hEq
  by_cases hc : t.ActiveOwnerIds.length + 1 ≤ t.ExpectedOwnerCount ∨ t.ExpectedOwnerCount = 0
  · rw [if_pos hc] at hEq
    refine ⟨_, hEq, rfl, rfl, rfl, ?_, ?_, ?_,
      TPerOwnerQuotaTracker.RemoveOwner_GetHardLimit_other,
      TPerOwnerQuotaTracker.AddOwner_GetHardLimit_of_full,
      TPerOwnerQuotaTracker.SetExpectedOwnerCount_same⟩
    · intro x; simp
    · intro _ x hx
      have hx' : x ∈ t.ActiveOwnerIds ++ [id] := hx
      rw [TPerOwnerQuotaTracker.WithLimit_GetHardLimit, if_pos hx']
      simp [TPerOwnerQuotaTracker.WithLimit, TPerOwnerQuotaTracker.Joined]
    · intro hn
      exact absurd (by simpa [TPerOwnerQuotaTracker.WithLimit,
        TPerOwnerQuotaTracker.Joined] using hc) hn
  · rw [if_neg hc] at hEq
    refine ⟨_, hEq, rfl, rfl, rfl, ?_, ?_, ?_,
      TPerOwnerQuotaTracker.RemoveOwner_GetHardLimit_other,
      TPerOwnerQuotaTracker.AddOwner_GetHardLimit_of_full,
      TPerOwnerQuotaTracker.SetExpectedOwnerCount_same⟩
    · intro x; simp
    · intro hy
      exact absurd (by simpa [TPerOwnerQuotaTracker.Joined] using hy) hc
    · intro _
      exact ⟨fun x => TPerOwnerQuotaTracker.Joined_GetHardLimit t id vdiskId x,
        (TPerOwnerQuotaTracker.Joined_GetHardLimit t id vdiskId id).trans hrec.1⟩

/-- Witness for C10: the first owner added to a tracker reset to 10 chunks (expected count 0)
receives the whole total. -/
theorem TPerOwnerQuotaTracker.AddOwner_policy_witness :
    ∃ t', (TPerOwnerQuotaTracker.new.Reset 10 {}).AddOwner 2 1 = some t' ∧
      t'.ActiveOwnerIds = [2] ∧ t'.GetHardLimit 2 = 10 := by
  obtain ⟨t', h1, h2, _, _, _, ha, _⟩ :=
    TPerOwnerQuotaTracker.AddOwner_policy (TPerOwnerQuotaTracker.new.Reset 10 {}) 2 1
      (by decide) (by decide) (by decide)
  refine ⟨t', h1, h2, ?_⟩
  have h3 := ha (Or.inr rfl) 2 (by rw [h2]; simp [TPerOwnerQuotaTracker.Reset])
  rw [h3, h2]
  decide

/-- C10, counterexample to "the new owner's hard limit stays 0 until `SetExpectedOwnerCount`
changes the expected count".  Total 10, expected count 2: owners 2 and 3 get 5 each, owner 4 joins
beyond the expected count and gets 0; after owners 2 and 3 are removed, adding owner 5 makes
`|active| = 2 ≤ 2`, the quotas are redistributed and owner 4 holds 5, while the expected count is
still 2 and `SetExpectedOwnerCount` was not called. -/
theorem TPerOwnerQuotaTracker.zero_share_replaced_by_later_AddOwner :
    ∃ t0 t1 t2 t3 t4 t5 t6 : TPerOwnerQuotaTracker,
      (TPerOwnerQuotaTracker.new.Reset 10 {}).SetExpectedOwnerCount 2 = some t0 ∧
      t0.AddOwner 2 1 = some t1 ∧ t1.AddOwner 3 2 = some t2 ∧ t2.AddOwner 4 3 = some t3 ∧
      t3.RemoveOwner 2 = some t4 ∧ t4.RemoveOwner 3 = some t5 ∧ t5.AddOwner 5 4 = some t6 ∧
      t3.ActiveOwnerIds = [2, 3, 4] ∧ t3.ExpectedOwnerCount = 2 ∧ t3.GetHardLimit 4 = 0 ∧
      t6.ActiveOwnerIds = [4, 5] ∧ t6.ExpectedOwnerCount = 2 ∧ t6.GetHardLimit 4 = 5 :=
  ⟨_, _, _, _, _, _, _, rfl, rfl, rfl, rfl, rfl, rfl, rfl, rfl, rfl, rfl, rfl, rfl, rfl⟩
/-- C11 (remove-owner frame).  For an id present in the active list, `RemoveOwner(id)` succeeds;
the new active list is the old one with exactly one occurrence of `id` removed (as a multiset: a
permutation of the list with the first occurrence erased), `hard_limit(id)` is 0, `used(id)` is
unchanged, the record of every other owner is unchanged (no share is redistributed), and the
total and the expected count are unchanged.  For an id that is not in the active list the
found-assertion fails. -/
theorem TPerOwnerQuotaTracker.RemoveOwner_policy (t : TPerOwnerQuotaTracker) (id : TOwner) :
    (id ∈ t.ActiveOwnerIds →
      ∃ t', t.RemoveOwner id = some t' ∧
        List.Perm t'.ActiveOwnerIds (t.ActiveOwnerIds.erase id) ∧
        t'.ActiveOwnerIds.length + 1 = t.ActiveOwnerIds.length ∧
        (∀ x, x ≠ id → t'.ActiveOwnerIds.count x = t.ActiveOwnerIds.count x) ∧
        t'.ActiveOwnerIds.count id + 1 = t.ActiveOwnerIds.count id ∧
        t'.GetHardLimit id = 0 ∧ t'.GetUsed id = t.GetUsed id ∧
        (∀ x, x ≠ id → t'.QuotaForOwner x = t.QuotaForOwner x) ∧
        t'.Total = t.Total ∧ t'.ExpectedOwnerCount = t.ExpectedOwnerCount) ∧
    (id ∉ t.ActiveOwnerIds → t.RemoveOwner id = none) := by
  rw [TPerOwnerQuotaTracker.RemoveOwner_eq]
  constructor
  · intro hmem
    rw [if_pos hmem]
    have hperm := TPerOwnerQuotaTracker.SwapRemove_perm t.ActiveOwnerIds id hmem
    refine ⟨_, rfl, hperm, ?_, ?_, ?_, ?_, ?_, ?_, rfl, rfl⟩
    · simp only []
      rw [hperm.length_eq, List.length_erase_of_mem hmem]
      have := List.length_pos_of_mem hmem
      omega
    · intro x hx
      simp only []
      rw [hperm.count_eq, List.count_erase_of_ne hx]
    · simp only []
      rw [hperm.count_eq, List.count_erase_self]
      have := List.count_pos_iff.mpr hmem
      omega
    · simp [TPerOwnerQuotaTracker.GetHardLimit, TQuotaRecord.GetHardLimit]
    · simp [TPerOwnerQuotaTracker.GetUsed, TQuotaRecord.GetUsed]
    · intro x hx
      simp [Function.update_noteq hx]
  · intro hnot
    rw [if_neg hnot]

/-- Witness for C11: a tracker reset to 10 chunks to which owner 2 has been added; removing
owner 2 succeeds and leaves it with hard limit 0. -/
theorem TPerOwnerQuotaTracker.RemoveOwner_policy_witness :
    ∃ t1 t', (TPerOwnerQuotaTracker.new.Reset 10 {}).AddOwner 2 1 = some t1 ∧
      (2 : TOwner) ∈ t1.ActiveOwnerIds ∧ t1.RemoveOwner 2 = some t' ∧
      t'.GetHardLimit 2 = 0 ∧ t'.ActiveOwnerIds.length + 1 = t1.ActiveOwnerIds.length := by
  obtain ⟨t1, h1, hA, _⟩ := TPerOwnerQuotaTracker.AddOwner_spec
    (TPerOwnerQuotaTracker.new.Reset 10 {}) 2 1 (by decide) (by decide) (by decide)
  have hmem : (2 : TOwner) ∈ t1.ActiveOwnerIds := by
    rw [hA]; simp
  obtain ⟨t', h2, _, hlen, _, _, hHL, _⟩ := (TPerOwnerQuotaTracker.RemoveOwner_policy t1 2).1 hmem
  exact ⟨t1, t', h1, hmem, h2, hHL, hlen⟩
/-- C12 (colour monotonicity).  For a fixed tracker state and any owner (user, CommonStaticLog
or another system id), if `n ≤ m` then `EstimateSpaceColor(owner, n)` is no more severe than
`EstimateSpaceColor(owner, m)` in the order Green < Cyan < Yellow < LightOrange < Orange < Red <
Black. -/
theorem TChunkTracker.EstimateSpaceColor_mono (d : TPDiskDefs) (s : TChunkTracker)
    (owner : TOwner) (n m : Int) (h : n ≤ m) :
    (TChunkTracker.EstimateSpaceColor d s owner n).Severity
      ≤ (TChunkTracker.EstimateSpaceColor d s owner m).Severity := by
  unfold TChunkTracker.EstimateSpaceColor
  by_cases hu : d.IsOwnerUser owner = true
  · simp only [hu, if_true]
    exact TColor.Max_mono _ _ _ _
      (TColor.Min_mono _ _ _ (TQuotaRecord.EstimateSpaceColor_le_of_le _ n m h))
      (TQuotaRecord.EstimateSpaceColor_le_of_le _ n m h)
  · simp only [hu, Bool.false_eq_true, if_false]
    exact TQuotaRecord.EstimateSpaceColor_le_of_le _ n m h

/-- Witness for C12: in the state of scenario 6, user owner 2 is Orange for an allocation of 0
chunks and Black for an allocation of 30 chunks. -/
theorem TChunkTracker.EstimateSpaceColor_mono_witness :
    (0 : Int) ≤ 30 ∧
    TChunkTracker.EstimateSpaceColor sampleDefs scenario6 2 0 = TColor.ORANGE ∧
    TChunkTracker.EstimateSpaceColor sampleDefs scenario6 2 30 = TColor.BLACK ∧
    (TChunkTracker.EstimateSpaceColor sampleDefs scenario6 2 0).Severity
      ≤ (TChunkTracker.EstimateSpaceColor sampleDefs scenario6 2 30).Severity :=
  ⟨by decide, by decide, by decide,
    TChunkTracker.EstimateSpaceColor_mono sampleDefs scenario6 2 0 30 (by decide)⟩

/-- C13 (user colour combination).  For a user owner and an allocation size `a`,
`EstimateSpaceColor(owner, a)` is `Max(Min(ColorBorder, owner colour), shared colour)`, the
maximum in severity of the shared colour and the owner colour capped by the border.  Hence it is
never less severe than the `SharedQuota` colour, and it is more severe than `ColorBorder` only
when the `SharedQuota` colour is. -/
theorem TChunkTracker.EstimateSpaceColor_user (d : TPDiskDefs) (s : TChunkTracker)
    (owner : TOwner) (a : Int) (hu : d.IsOwnerUser owner = true) :
    TChunkTracker.EstimateSpaceColor d s owner a
      = TColor.Max (TColor.Min s.ColorBorder (s.OwnerQuota.EstimateSpaceColor owner a))
          (s.SharedQuota.EstimateSpaceColor a) ∧
    (TChunkTracker.EstimateSpaceColor d s owner a).Severity
      = max (min s.ColorBorder.Severity (s.OwnerQuota.EstimateSpaceColor owner a).Severity)
          (s.SharedQuota.EstimateSpaceColor a).Severity ∧
    (s.SharedQuota.EstimateSpaceColor a).Severity
      ≤ (TChunkTracker.EstimateSpaceColor d s owner a).Severity ∧
    (s.ColorBorder.Severity < (TChunkTracker.EstimateSpaceColor d s owner a).Severity →
      s.ColorBorder.Severity < (s.SharedQuota.EstimateSpaceColor a).Severity) := by
  have heq : TChunkTracker.EstimateSpaceColor d s owner a
      = TColor.Max (TColor.Min s.ColorBorder (s.OwnerQuota.EstimateSpaceColor owner a))
          (s.SharedQuota.EstimateSpaceColor a) := by
    unfold TChunkTracker.EstimateSpaceColor
    simp only [hu, if_true]
  have hsev : (TChunkTracker.EstimateSpaceColor d s owner a).Severity
      = max (min s.ColorBorder.Severity (s.OwnerQuota.EstimateSpaceColor owner a).Severity)
          (s.SharedQuota.EstimateSpaceColor a).Severity := by
    rw [heq, TColor.Max_Severity, TColor.Min_Severity]
  refine ⟨heq, hsev, ?_, ?_⟩
  · rw [hsev]; exact le_max_right _ _
  · intro hlt
    rw [hsev] at hlt
    rcases lt_max_iff.mp hlt with h | h
    · exact absurd (lt_of_lt_of_le h (min_le_left _ _)) (lt_irrefl _)
    · exact h

/-- Witness for C13: scenario 6 of the spec.  `ColorBorder = Yellow`, the user's own quota
reports Cyan and `SharedQuota` reports Orange: the user's colour is Orange. -/
theorem TChunkTracker.EstimateSpaceColor_user_witness :
    sampleDefs.IsOwnerUser 2 = true ∧ scenario6.ColorBorder = TColor.YELLOW ∧
    scenario6.OwnerQuota.EstimateSpaceColor 2 0 = TColor.CYAN ∧
    scenario6.SharedQuota.EstimateSpaceColor 0 = TColor.ORANGE ∧
    TChunkTracker.EstimateSpaceColor sampleDefs scenario6 2 0 = TColor.ORANGE :=
  ⟨by decide, rfl, by decide, by decide,
    (TChunkTracker.EstimateSpaceColor_user sampleDefs scenario6 2 0 (by decide)).1.trans
      (by decide)⟩
/-- C14 (CommonStaticLog allocation order).  For a count `n > 0`, `TryAllocate(CommonStaticLog,
n)` (a) if the System (CommonLog) pool accepts `n`, returns ok, adds `n` to `used(System)` and
changes nothing else in the tracker; (b) else if the CommonStaticLog bonus pool accepts `n`,
returns ok, adds `n` to `used(CommonStaticLog)` and changes nothing else; (c) else returns
failure and the tracker is unchanged.  It succeeds exactly when `n` fits entirely in one of the
two pools. -/
theorem TChunkTracker.TryAllocate_CommonStaticLog (d : TPDiskDefs) (hd : d.WellFormed)
    (s : TChunkTracker) (n : Int) (r0 : String) (_hn : 0 < n) :
    (s.GlobalQuota.GetUsed d.OwnerSystem + n ≤ s.GlobalQuota.GetHardLimit d.OwnerSystem →
      (TChunkTracker.TryAllocate d s d.OwnerCommonStaticLog n r0).2.1 = true ∧
      (TChunkTracker.TryAllocate d s d.OwnerCommonStaticLog n r0).1 =
        { s with GlobalQuota := { s.GlobalQuota with
            QuotaForOwner := Function.update s.GlobalQuota.QuotaForOwner d.OwnerSystem
              { s.GlobalQuota.QuotaForOwner d.OwnerSystem with
                Used := (s.GlobalQuota.QuotaForOwner d.OwnerSystem).Used + n } } }) ∧
    (¬ (s.GlobalQuota.GetUsed d.OwnerSystem + n ≤ s.GlobalQuota.GetHardLimit d.OwnerSystem) →
      s.GlobalQuota.GetUsed d.OwnerCommonStaticLog + n
        ≤ s.GlobalQuota.GetHardLimit d.OwnerCommonStaticLog →
      (TChunkTracker.TryAllocate d s d.OwnerCommonStaticLog n r0).2.1 = true ∧
      (TChunkTracker.TryAllocate d s d.OwnerCommonStaticLog n r0).1 =
        { s with GlobalQuota := { s.GlobalQuota with
            QuotaForOwner := Function.update s.GlobalQuota.QuotaForOwner d.OwnerCommonStaticLog
              { s.GlobalQuota.QuotaForOwner d.OwnerCommonStaticLog with
                Used := (s.GlobalQuota.QuotaForOwner d.OwnerCommonStaticLog).Used + n } } }) ∧
    (¬ (s.GlobalQuota.GetUsed d.OwnerSystem + n ≤ s.GlobalQuota.GetHardLimit d.OwnerSystem) →
      ¬ (s.GlobalQuota.GetUsed d.OwnerCommonStaticLog + n
        ≤ s.GlobalQuota.GetHardLimit d.OwnerCommonStaticLog) →
      (TChunkTracker.TryAllocate d s d.OwnerCommonStaticLog n r0).2.1 = false ∧
      (TChunkTracker.TryAllocate d s d.OwnerCommonStaticLog n r0).1 = s) ∧
    ((TChunkTracker.TryAllocate d s d.OwnerCommonStaticLog n r0).2.1 = true ↔
      (s.GlobalQuota.GetUsed d.OwnerSystem + n ≤ s.GlobalQuota.GetHardLimit d.OwnerSystem ∨
        s.GlobalQuota.GetUsed d.OwnerCommonStaticLog + n
          ≤ s.GlobalQuota.GetHardLimit d.OwnerCommonStaticLog)) := by
  have hns := hd.static_not_user
  have hne : d.OwnerCommonStaticLog ≠ d.OwnerSystem := hd.static_ne_system
  unfold TChunkTracker.TryAllocate
  simp only [hns, Bool.false_eq_true, if_false, if_true, TPerOwnerQuotaTracker.TryAllocate,
    TQuotaRecord.TryAllocate, TPerOwnerQuotaTracker.GetUsed, TPerOwnerQuotaTracker.GetHardLimit,
    TQuotaRecord.GetUsed, TQuotaRecord.GetHardLimit]
  by_cases hS : (s.GlobalQuota.QuotaForOwner d.OwnerSystem).Used + n
      ≤ (s.GlobalQuota.QuotaForOwner d.OwnerSystem).HardLimit
  · simp [hS]
  · by_cases hC : (s.GlobalQuota.QuotaForOwner d.OwnerCommonStaticLog).Used + n
        ≤ (s.GlobalQuota.QuotaForOwner d.OwnerCommonStaticLog).HardLimit
    · simp [hS, hC, Function.update_noteq hne]
    · simp [hS, hC, Function.update_noteq hne]

/-- Witness for C14: with the common log full (200 of 200) and 5 of 70 bonus chunks used, an
allocation of 5 chunks for CommonStaticLog is granted from the bonus pool. -/
theorem TChunkTracker.TryAllocate_CommonStaticLog_witness :
    (0 : Int) < 5 ∧
    (TChunkTracker.TryAllocate sampleDefs staticLogSample sampleDefs.OwnerCommonStaticLog 5
      "").2.1 = true ∧
    (TChunkTracker.TryAllocate sampleDefs staticLogSample sampleDefs.OwnerCommonStaticLog 5
      "").1.GlobalQuota.GetUsed sampleDefs.OwnerCommonStaticLog = 10 :=
  ⟨by decide,
    (TChunkTracker.TryAllocate_CommonStaticLog sampleDefs (by constructor <;> decide)
      staticLogSample 5 "" (by decide)).2.2.2.mpr (Or.inr (by decide)),
    by decide⟩

/-- C15 (CommonStaticLog release order).  For a count `n` with
`0 < n ≤ used(CommonStaticLog) + used(System)`, `Release(CommonStaticLog, n)` succeeds: it
decreases `used(CommonStaticLog)` by `min(used(CommonStaticLog), n)` and `used(System)` by the
remainder.  Each of the two record releases meets its requirement (amount ≤ that record's
`used`), so `used(CommonStaticLog)` does not go negative and `used(System)` does not go negative
when it was not before; hard limits and every other record are unchanged. -/
theorem TChunkTracker.Release_CommonStaticLog (d : TPDiskDefs) (hd : d.WellFormed)
    (s : TChunkTracker) (n : Int) (_hn : 0 < n)
    (hle : n ≤ s.GlobalQuota.GetUsed d.OwnerCommonStaticLog
      + s.GlobalQuota.GetUsed d.OwnerSystem) :
    ∃ s', TChunkTracker.Release d s d.OwnerCommonStaticLog n = some s' ∧
      s'.GlobalQuota.GetUsed d.OwnerCommonStaticLog
        = s.GlobalQuota.GetUsed d.OwnerCommonStaticLog
          - min (s.GlobalQuota.GetUsed d.OwnerCommonStaticLog) n ∧
      s'.GlobalQuota.GetUsed d.OwnerSystem
        = s.GlobalQuota.GetUsed d.OwnerSystem
          - (n - min (s.GlobalQuota.GetUsed d.OwnerCommonStaticLog) n) ∧
      min (s.GlobalQuota.GetUsed d.OwnerCommonStaticLog) n
        ≤ s.GlobalQuota.GetUsed d.OwnerCommonStaticLog ∧
      (n - min (s.GlobalQuota.GetUsed d.OwnerCommonStaticLog) n ≠ 0 →
        n - min (s.GlobalQuota.GetUsed d.OwnerCommonStaticLog) n
          ≤ s.GlobalQuota.GetUsed d.OwnerSystem) ∧
      0 ≤ s'.GlobalQuota.GetUsed d.OwnerCommonStaticLog ∧
      (0 ≤ s.GlobalQuota.GetUsed d.OwnerSystem → 0 ≤ s'.GlobalQuota.GetUsed d.OwnerSystem) ∧
      (∀ x, s'.GlobalQuota.GetHardLimit x = s.GlobalQuota.GetHardLimit x) ∧
      (∀ x, x ≠ d.OwnerCommonStaticLog → x ≠ d.OwnerSystem →
        s'.GlobalQuota.QuotaForOwner x = s.GlobalQuota.QuotaForOwner x) ∧
      s'.GlobalQuota.ActiveOwnerIds = s.GlobalQuota.ActiveOwnerIds ∧
      s'.SharedQuota = s.SharedQuota ∧ s'.OwnerQuota = s.OwnerQuota ∧
      s'.Params = s.Params ∧ s'.ColorBorder = s.ColorBorder := by
  have hne : d.OwnerCommonStaticLog ≠ d.OwnerSystem := hd.static_ne_system
  have hmin := min_le_left (s.GlobalQuota.GetUsed d.OwnerCommonStaticLog) n
  have hmin2 := min_le_right (s.GlobalQuota.GetUsed d.OwnerCommonStaticLog) n
  have hrel : n - min (s.GlobalQuota.GetUsed d.OwnerCommonStaticLog) n ≠ 0 →
      n - min (s.GlobalQuota.GetUsed d.OwnerCommonStaticLog) n
        ≤ s.GlobalQuota.GetUsed d.OwnerSystem := by
    intro hc
    rcases min_choice (s.GlobalQuota.GetUsed d.OwnerCommonStaticLog) n with h | h
    · rw [h]; omega
    · omega
  refine ⟨_, TChunkTracker.Release_commonLog d s d.OwnerCommonStaticLog n hd.static_not_user
    (Or.inl rfl) hne hle, ?_, ?_, hmin, hrel, ?_, ?_, ?_, ?_, rfl, rfl, rfl, rfl, rfl⟩
  · simp [hne]
  · simp
  · simp only [TPerOwnerQuotaTracker.WithUsed_GetUsed, if_neg hne, if_true]
    omega
  · intro h0
    simp only [TPerOwnerQuotaTracker.WithUsed_GetUsed, if_true]
    rcases min_choice (s.GlobalQuota.GetUsed d.OwnerCommonStaticLog) n with h | h
    · rw [h]; omega
    · rw [h]; omega
  · intro x; simp
  · intro x hx1 hx2
    rw [TPerOwnerQuotaTracker.WithUsed_QuotaForOwner_ne _ _ _ _ hx2,
      TPerOwnerQuotaTracker.WithUsed_QuotaForOwner_ne _ _ _ _ hx1]

/-- Witness for C15: with 5 bonus chunks and 200 common-log chunks in use, releasing 8 chunks for
CommonStaticLog empties the bonus usage and takes the remaining 3 from the System record. -/
theorem TChunkTracker.Release_CommonStaticLog_witness :
    ∃ s', TChunkTracker.Release sampleDefs staticLogSample sampleDefs.OwnerCommonStaticLog 8
        = some s' ∧
      s'.GlobalQuota.GetUsed sampleDefs.OwnerCommonStaticLog = 0 ∧
      s'.GlobalQuota.GetUsed sampleDefs.OwnerSystem = 197 := by
  obtain ⟨s', h1, h2, h3, _⟩ := TChunkTracker.Release_CommonStaticLog sampleDefs
    (by constructor <;> decide) staticLogSample 8 (by decide) (by decide)
  exact ⟨s', h1, h2.trans (by decide), h3.trans (by decide)⟩

/-- C16 (System owner, amended).  `Release(OwnerSystem, n)` is not a direct delegation: it takes
the common-log branch, exactly as `Release(CommonStaticLog, n)` does, so for
`0 < n ≤ used(CommonStaticLog) + used(System)` it first decreases `used(CommonStaticLog)` by
`min(used(CommonStaticLog), n)` and decreases `used(System)` only by the remainder.  It
decreases `used(System)` by exactly `n` and leaves every other record unchanged when
`used(CommonStaticLog) = 0` and `n ≤ used(System)`.  `TryAllocate(OwnerSystem, n)` is a direct
delegation: it touches only the System record, whose `used` grows by `n` exactly when
`used + n ≤ hard_limit`. -/
theorem TChunkTracker.Release_System_fills_bonus_first (d : TPDiskDefs) (hd : d.WellFormed)
    (s : TChunkTracker) (n : Int) (r0 : String) (hn : 0 < n) :
    TChunkTracker.Release d s d.OwnerSystem n
      = TChunkTracker.Release d s d.OwnerCommonStaticLog n ∧
    (n ≤ s.GlobalQuota.GetUsed d.OwnerCommonStaticLog + s.GlobalQuota.GetUsed d.OwnerSystem →
      ∃ s', TChunkTracker.Release d s d.OwnerSystem n = some s' ∧
        s'.GlobalQuota.GetUsed d.OwnerCommonStaticLog
          = s.GlobalQuota.GetUsed d.OwnerCommonStaticLog
            - min (s.GlobalQuota.GetUsed d.OwnerCommonStaticLog) n ∧
        s'.GlobalQuota.GetUsed d.OwnerSystem
          = s.GlobalQuota.GetUsed d.OwnerSystem
            - (n - min (s.GlobalQuota.GetUsed d.OwnerCommonStaticLog) n)) ∧
    (s.GlobalQuota.GetUsed d.OwnerCommonStaticLog = 0 → n ≤ s.GlobalQuota.GetUsed d.OwnerSystem →
      TChunkTracker.Release d s d.OwnerSystem n
        = some { s with
            GlobalQuota :=
              s.GlobalQuota.WithUsed d.OwnerSystem (s.GlobalQuota.GetUsed d.OwnerSystem - n) }) ∧
    ((TChunkTracker.TryAllocate d s d.OwnerSystem n r0).2.1 = true ↔
      s.GlobalQuota.GetUsed d.OwnerSystem + n ≤ s.GlobalQuota.GetHardLimit d.OwnerSystem) ∧
    (TChunkTracker.TryAllocate d s d.OwnerSystem n r0).1
      = { s with
          GlobalQuota :=
            if s.GlobalQuota.GetUsed d.OwnerSystem + n ≤ s.GlobalQuota.GetHardLimit d.OwnerSystem
            then s.GlobalQuota.WithUsed d.OwnerSystem (s.GlobalQuota.GetUsed d.OwnerSystem + n)
            else s.GlobalQuota } := by
  have hne : d.OwnerCommonStaticLog ≠ d.OwnerSystem := hd.static_ne_system
  have hbranch : ∀ owner, d.IsOwnerUser owner = false →
      (owner = d.OwnerCommonStaticLog ∨ owner = d.OwnerSystem) →
      TChunkTracker.Release d s owner n
        = TChunkTracker.Release d s d.OwnerCommonStaticLog n := by
    intro owner hnu ho
    unfold TChunkTracker.Release
    rw [if_neg (by simp [hnu]), if_pos ho, if_neg (by simp [hd.static_not_user]),
      if_pos (Or.inl rfl)]
  refine ⟨hbranch _ hd.system_not_user (Or.inr rfl), ?_, ?_, ?_, ?_⟩
  · intro hle
    refine ⟨_, TChunkTracker.Release_commonLog d s d.OwnerSystem n hd.system_not_user
      (Or.inr rfl) hne hle, ?_, ?_⟩
    · simp [hne]
    · simp
  · intro h0 hle
    rw [TChunkTracker.Release_commonLog d s d.OwnerSystem n hd.system_not_user (Or.inr rfl) hne
      (by omega)]
    have hmin : min (s.GlobalQuota.GetUsed d.OwnerCommonStaticLog) n = 0 := by
      rw [h0]; exact min_eq_left hn.le
    rw [hmin, TPerOwnerQuotaTracker.WithUsed_self s.GlobalQuota d.OwnerCommonStaticLog _
      (by omega)]
    simp
  · unfold TChunkTracker.TryAllocate
    rw [if_neg (by simp [hd.system_not_user]), if_neg hne.symm]
    exact (TPerOwnerQuotaTracker.TryAllocate_eq s.GlobalQuota d.OwnerSystem n r0).1
  · unfold TChunkTracker.TryAllocate
    rw [if_neg (by simp [hd.system_not_user]), if_neg hne.symm]
    simp only []
    rw [(TPerOwnerQuotaTracker.TryAllocate_eq s.GlobalQuota d.OwnerSystem n r0).2]

/-- Witness for C16 (amended): with 5 bonus chunks in use, `Release(OwnerSystem, 3)` gives the
same result as `Release(CommonStaticLog, 3)`. -/
theorem TChunkTracker.Release_System_fills_bonus_first_witness :
    (0 : Int) < 3 ∧
    TChunkTracker.Release sampleDefs staticLogSample sampleDefs.OwnerSystem 3
      = TChunkTracker.Release sampleDefs staticLogSample sampleDefs.OwnerCommonStaticLog 3 :=
  ⟨by decide, (TChunkTracker.Release_System_fills_bonus_first sampleDefs
    (by constructor <;> decide) staticLogSample 3 "" (by decide)).1⟩

/-- C16, counterexample.  `Reset` with static groups (1000 chunks, system log 50, common log
200) leaves the System owner with 200 of 200 chunks used; `TryAllocate(CommonStaticLog, 5)` is
then granted from the bonus pool.  In this reachable state `Release(OwnerSystem, 3)` with
`3 ≤ used(System) = 200` leaves `used(System)` at 200 and lowers `used(CommonStaticLog)` from 5
to 2. -/
theorem TChunkTracker.Release_System_changes_bonus_record :
    ∃ s0 s2, TChunkTracker.Reset sampleDefs TChunkTracker.new staticGroupParams ""
        = some (s0, true, "") ∧
      (TChunkTracker.TryAllocate sampleDefs s0 253 5 "").2.1 = true ∧
      (TChunkTracker.TryAllocate sampleDefs s0 253 5 "").1.GlobalQuota.GetUsed 0 = 200 ∧
      (TChunkTracker.TryAllocate sampleDefs s0 253 5 "").1.GlobalQuota.GetUsed 253 = 5 ∧
      TChunkTracker.Release sampleDefs (TChunkTracker.TryAllocate sampleDefs s0 253 5 "").1 0 3
        = some s2 ∧
      s2.GlobalQuota.GetUsed 0 = 200 ∧ s2.GlobalQuota.GetUsed 253 = 2 ∧
      TChunkTracker.Reachable sampleDefs s2 :=
  ⟨_, _, rfl, rfl, rfl, rfl, rfl, rfl, rfl,
    .release _ _ 0 3 (.tryAllocate _ 253 5 "" (.reset staticGroupParams "" "" _ rfl) (by decide))
      (by decide) rfl⟩

/-- C17 (free space of an owner).  For a user owner `GetOwnerFree` is
`SharedQuota.hard_limit − SharedQuota.used`: it depends neither on the id nor on the owner's
`OwnerQuota` record nor on `GlobalQuota`.  For CommonStaticLog it is
`free(CommonStaticLog) + free(System)` of `GlobalQuota`, and for any other system id it is that
id's `GlobalQuota` free. -/
theorem TChunkTracker.GetOwnerFree_cases (d : TPDiskDefs) (hd : d.WellFormed)
    (s : TChunkTracker) :
    (∀ id, d.IsOwnerUser id = true →
      TChunkTracker.GetOwnerFree d s id
        = s.SharedQuota.GetHardLimit - s.SharedQuota.GetUsed) ∧
    (∀ (s2 : TChunkTracker) (id id2 : TOwner), d.IsOwnerUser id = true →
      d.IsOwnerUser id2 = true → s2.SharedQuota = s.SharedQuota →
      TChunkTracker.GetOwnerFree d s2 id2 = TChunkTracker.GetOwnerFree d s id) ∧
    TChunkTracker.GetOwnerFree d s d.OwnerCommonStaticLog
      = s.GlobalQuota.GetFree d.OwnerCommonStaticLog + s.GlobalQuota.GetFree d.OwnerSystem ∧
    (∀ id, d.IsOwnerUser id = false → id ≠ d.OwnerCommonStaticLog →
      TChunkTracker.GetOwnerFree d s id = s.GlobalQuota.GetFree id) := by
  refine ⟨?_, ?_, ?_, ?_⟩
  · intro id hu
    unfold TChunkTracker.GetOwnerFree
    rw [if_pos hu]
    rfl
  · intro s2 id id2 hu hu2 hs
    unfold TChunkTracker.GetOwnerFree
    rw [if_pos hu, if_pos hu2, hs]
  · unfold TChunkTracker.GetOwnerFree
    rw [if_neg (by simp [hd.static_not_user]), if_pos rfl]
  · intro id hnu hne
    unfold TChunkTracker.GetOwnerFree
    rw [if_neg (by simp [hnu]), if_neg hne]

/-- Witness for C17: in the state of scenario 6 user owner 2 sees the 35 free chunks of the
shared record, although its own record has 90 free. -/
theorem TChunkTracker.GetOwnerFree_cases_witness :
    sampleDefs.IsOwnerUser 2 = true ∧ scenario6.OwnerQuota.GetFree 2 = 90 ∧
    TChunkTracker.GetOwnerFree sampleDefs scenario6 2 = 35 :=
  ⟨by decide, by decide,
    ((TChunkTracker.GetOwnerFree_cases sampleDefs (by constructor <;> decide) scenario6).1 2
      (by decide)).trans (by decide)⟩

/-- C18 (common-log sizing).  Whenever `Reset` gets as far as adding the System (CommonLog)
owner, that is when `total_chunks ≥ sys_log_size + 5 + staticLog`, the hard limit of the System
owner in the resulting state is `max(200, common_log_size − staticLog)` with `staticLog = 70`
with static groups and 0 without; this holds whether `Reset` then returns ok or fails at a later
step. -/
theorem TChunkTracker.Reset_common_log_size (d : TPDiskDefs) (hd : d.WellFormed)
    (s0 s' : TChunkTracker) (p : TKeeperParams) (r r' : String) (ok : Bool)
    (hsys : 0 ≤ p.SysLogSize)
    (hreach : p.SysLogSize + 5 + (if p.HasStaticGroups then 70 else 0) ≤ p.TotalChunks)
    (hrun : TChunkTracker.Reset d s0 p r = some (s', ok, r')) :
    s'.GlobalQuota.GetHardLimit d.OwnerSystem
      = max 200 (p.CommonLogSize - (if p.HasStaticGroups then 70 else 0)) := by
  have hst : TChunkTracker.SpecStaticLog p = if p.HasStaticGroups then 70 else 0 := rfl
  have hcl : TChunkTracker.SpecCommonLog p
      = max 200 (p.CommonLogSize - (if p.HasStaticGroups then 70 else 0)) := rfl
  rw [← hst] at hreach
  rw [← hcl]
  rw [TChunkTracker.Reset_eq d hd s0 p r hsys, if_neg (by omega), if_neg (by omega),
    if_neg (by omega)] at hrun
  split at hrun
  · simp only [Option.some.injEq, Prod.mk.injEq] at hrun
    rw [← hrun.1]
    exact TChunkTracker.GlobalStage_four_GetHardLimit_System d p
  · split at hrun
    · simp only [Option.some.injEq, Prod.mk.injEq] at hrun
      rw [← hrun.1]
      exact TChunkTracker.GlobalStage_four_GetHardLimit_System d p
    · rw [TChunkTracker.ResetUserPool_GetHardLimit d _ s' p r r' ok hrun]
      simp only []
      rw [TChunkTracker.GlobalStage_five_GetHardLimit, if_neg hd.system_ne_user, if_pos rfl]

/-- Witness for C18: with static groups and a common log of 300 chunks the System owner gets
the hard limit `max(200, 300 − 70) = 230`. -/
theorem TChunkTracker.Reset_common_log_size_witness :
    ∃ s', TChunkTracker.Reset sampleDefs TChunkTracker.new
        { TotalChunks := 1000, SysLogSize := 50, CommonLogSize := 300, HasStaticGroups := true }
        "" = some (s', true, "") ∧
      s'.GlobalQuota.GetHardLimit sampleDefs.OwnerSystem = 230 := by
  have hrun : ∃ s', TChunkTracker.Reset sampleDefs TChunkTracker.new
      { TotalChunks := 1000, SysLogSize := 50, CommonLogSize := 300, HasStaticGroups := true }
      "" = some (s', true, "") := ⟨_, rfl⟩
  obtain ⟨s', hrun⟩ := hrun
  exact ⟨s', hrun, (TChunkTracker.Reset_common_log_size sampleDefs (by constructor <;> decide)
    TChunkTracker.new s' _ "" "" true (by decide) (by decide) hrun).trans (by decide)⟩

end NPDisk

namespace NBlobDepot

/-! ## Pending event queue: lemmas -/

theorem subSize_eq (a b : Nat) (hb : b ≤ a) (ha : a < 2 ^ 64) : subSize a b = a - b := by
  unfold subSize
  have hb2 : b % 2 ^ 64 = b := Nat.mod_eq_of_lt (by omega)
  rw [hb2]
  omega

theorem addSize_eq (a b : Nat) (h : a + b < 2 ^ 64) : addSize a b = a + b := by
  unfold addSize
  exact Nat.mod_eq_of_lt h

namespace TBlobDepotAgent

theorem QueuedBytes_nil : QueuedBytes [] = 0 := rfl

theorem QueuedBytes_cons (e : TPendingEvent) (q : List TPendingEvent) :
    QueuedBytes (e :: q) = e.Size + QueuedBytes q := by
  simp [QueuedBytes]

theorem QueuedBytes_append (q1 q2 : List TPendingEvent) :
    QueuedBytes (q1 ++ q2) = QueuedBytes q1 + QueuedBytes q2 := by
  simp [QueuedBytes]

@[simp] theorem ProcessStorageEvent_PendingEventBytes (s : TBlobDepotAgent) (ev : TEvent) :
    (s.ProcessStorageEvent ev).PendingEventBytes = s.PendingEventBytes := by
  unfold ProcessStorageEvent; split <;> rfl

@[simp] theorem ProcessStorageEvent_PendingEventQ (s : TBlobDepotAgent) (ev : TEvent) :
    (s.ProcessStorageEvent ev).PendingEventQ = s.PendingEventQ := by
  unfold ProcessStorageEvent; split <;> rfl

@[simp] theorem ProcessStorageEvent_IsConnected (s : TBlobDepotAgent) (ev : TEvent) :
    (s.ProcessStorageEvent ev).IsConnected = s.IsConnected := by
  unfold ProcessStorageEvent; split <;> rfl

@[simp] theorem ProcessStorageEvent_InFlight (s : TBlobDepotAgent) (ev : TEvent) :
    (s.ProcessStorageEvent ev).ProcessPendingEventInFlight = s.ProcessPendingEventInFlight := by
  unfold ProcessStorageEvent; split <;> rfl

theorem DrainLoop_spec (timedOut : Nat → Bool) (q : List TPendingEvent) :
    ∀ (i : Nat) (s : TBlobDepotAgent), s.PendingEventQ = q →
      s.PendingEventBytes = QueuedBytes q → s.PendingEventBytes < 2 ^ 64 →
      ∃ s', DrainLoop timedOut q i s = some s' ∧
        s'.PendingEventBytes = QueuedBytes s'.PendingEventQ ∧
        s'.PendingEventBytes ≤ s.PendingEventBytes ∧
        s'.IsConnected = s.IsConnected ∧ s'.TabletId = s.TabletId ∧
        ∀ e ∈ s'.PendingEventQ, e ∈ q := by
  induction q with
  | nil =>
    intro i s hq hb _
    exact ⟨s, rfl, by rw [hb, hq], le_refl _, rfl, rfl, by rw [hq]; exact fun e he => he⟩
  | cons item rest ih =>
    intro i s hq hb hlt
    rw [QueuedBytes_cons] at hb
    have hge : (s.ProcessStorageEvent item.Event).PendingEventBytes ≥ item.Size := by
      rw [ProcessStorageEvent_PendingEventBytes]; omega
    have hsub : subSize (s.ProcessStorageEvent item.Event).PendingEventBytes item.Size
        = QueuedBytes rest := by
      rw [ProcessStorageEvent_PendingEventBytes, subSize_eq _ _ (by omega) hlt]; omega
    have htab : (s.ProcessStorageEvent item.Event).TabletId = s.TabletId := by
      unfold ProcessStorageEvent; split <;> rfl
    simp only [DrainLoop, hge, if_true, hsub]
    by_cases hc : (!rest.isEmpty) = true ∧ timedOut i = true
    · rw [if_pos hc]
      by_cases hf : (!(s.ProcessStorageEvent item.Event).ProcessPendingEventInFlight) = true
      · rw [if_pos hf]
        exact ⟨_, rfl, rfl, by simp only []; omega, by simp, htab,
          fun e he => List.mem_cons_of_mem _ he⟩
      · rw [if_neg hf]
        exact ⟨_, rfl, rfl, by simp only []; omega, by simp, htab,
          fun e he => List.mem_cons_of_mem _ he⟩
    · rw [if_neg hc]
      obtain ⟨s', h1, h2, h3, h4, h5, h6⟩ := ih (i + 1)
        { s.ProcessStorageEvent item.Event with
          PendingEventBytes := QueuedBytes rest
          PendingEventQ := rest } rfl rfl (by simp only []; omega)
      exact ⟨s', h1, h2, by simp only [] at h3; omega, by simpa using h4,
        by simp only [] at h5; rw [h5, htab], fun e he => List.mem_cons_of_mem _ (h6 e he)⟩

theorem ClearLoop_spec (reason : String) (q : List TPendingEvent) :
    ∀ (s : TBlobDepotAgent), s.PendingEventBytes = QueuedBytes q →
      s.PendingEventBytes < 2 ^ 64 →
      ∃ s', ClearLoop reason q s = some s' ∧ s'.PendingEventBytes = 0 ∧
        s'.PendingEventQ = s.PendingEventQ ∧ s'.IsConnected = s.IsConnected ∧
        s'.TabletId = s.TabletId := by
  induction q with
  | nil =>
    intro s hb _
    exact ⟨s, rfl, by rw [hb]; rfl, rfl, rfl, rfl⟩
  | cons item rest ih =>
    intro s hb hlt
    rw [QueuedBytes_cons] at hb
    have hge : s.PendingEventBytes ≥ item.Size := by omega
    have hsub : subSize s.PendingEventBytes item.Size = QueuedBytes rest := by
      rw [subSize_eq _ _ (by omega) hlt]; omega
    simp only [ClearLoop, hge, if_true, hsub]
    obtain ⟨s', h1, h2, h3, h4, h5⟩ := ih
      { s with
        PendingEventBytes := QueuedBytes rest
        Effects := s.Effects ++ [TEffect.EndWithError item.Event EReplyStatus.ERROR reason] }
      rfl (by simp only []; omega)
    exact ⟨s', h1, h2, h3, h4, h5⟩

theorem WatchdogLoop_spec (now : Nat) (q : List TPendingEvent) :
    ∀ (s : TBlobDepotAgent), s.PendingEventBytes = QueuedBytes q →
      s.PendingEventBytes < 2 ^ 64 →
      (WatchdogLoop now q s).2.PendingEventBytes = QueuedBytes (WatchdogLoop now q s).1 ∧
      (WatchdogLoop now q s).2.PendingEventBytes + QueuedBytes (ExpiredPrefix now q)
        = s.PendingEventBytes ∧
      (∀ e ∈ (WatchdogLoop now q s).1, e ∈ q) := by
  induction q with
  | nil =>
    intro s hb _
    exact ⟨hb, rfl, fun e he => he⟩
  | cons item rest ih =>
    intro s hb hlt
    by_cases he : item.ExpirationTimestamp ≤ now
    · rw [QueuedBytes_cons] at hb
      have hsub : subSize s.PendingEventBytes item.Size = QueuedBytes rest := by
        rw [subSize_eq _ _ (by omega) hlt]; omega
      have hp : ExpiredPrefix now (item :: rest) = item :: ExpiredPrefix now rest := by
        simp [ExpiredPrefix, List.takeWhile_cons, he]
      have hw : WatchdogLoop now (item :: rest) s = WatchdogLoop now rest
          { s with
            Effects := s.Effects ++
              [TEffect.EndWithError item.Event EReplyStatus.ERROR "pending event queue timeout"]
            PendingEventBytes := QueuedBytes rest } := by
        simp only [WatchdogLoop, he, if_true, hsub]
      obtain ⟨h1, h2, h3⟩ := ih
        { s with
          Effects := s.Effects ++
            [TEffect.EndWithError item.Event EReplyStatus.ERROR "pending event queue timeout"]
          PendingEventBytes := QueuedBytes rest }
        rfl (by simp only []; omega)
      rw [hw, hp, QueuedBytes_cons]
      exact ⟨h1, by simp only [] at h2; omega, fun e he => List.mem_cons_of_mem _ (h3 e he)⟩
    · have hp : ExpiredPrefix now (item :: rest) = [] := by
        simp [ExpiredPrefix, List.takeWhile_cons, he]
      have hw : WatchdogLoop now (item :: rest) s = (item :: rest, s) := by
        simp only [WatchdogLoop, he, if_false]
      rw [hw, hp]
      exact ⟨hb, rfl, fun e he => he⟩

theorem BytesInv_HandleStorageProxy (c : TAgentConsts) (now : Nat) (s : TBlobDepotAgent)
    (ev : TEvent) (h : BytesInv c s) (hev : ev.CalculateSize + c.MaxPendingEventBytes < 2 ^ 64) :
    BytesInv c (HandleStorageProxy c now s ev) := by
  obtain ⟨h1, h2, h3, h4⟩ := h
  unfold HandleStorageProxy
  simp only []
  split
  · exact ⟨h1, h2, h3, h4⟩
  · cases hcon : s.IsConnected
    · simp only [Bool.not_false, if_true, true_and, true_or]
      split
      · exact ⟨h1, h2, h3, h4⟩
      · rename_i hle
        have hadd : addSize ev.CalculateSize s.PendingEventBytes
            = ev.CalculateSize + s.PendingEventBytes := addSize_eq _ _ (by omega)
        have hadd2 : addSize s.PendingEventBytes ev.CalculateSize
            = s.PendingEventBytes + ev.CalculateSize := addSize_eq _ _ (by omega)
        rw [hadd] at hle
        refine ⟨?_, ?_, ?_, ?_⟩
        · simp only [hadd2, QueuedBytes_append, QueuedBytes_cons, QueuedBytes_nil]; omega
        · simp only [hadd2]; omega
        · simp only [hadd2]; omega
        · intro e he
          simp only [List.mem_append, List.mem_singleton] at he
          rcases he with he | he
          · exact h4 e he
          · left; rw [he]
    · simp only [Bool.not_true, Bool.false_eq_true, if_false, false_and, false_or]
      split
      · have hadd : addSize s.PendingEventBytes 0 = s.PendingEventBytes := by
          rw [addSize_eq _ _ (by omega)]; rfl
        refine ⟨?_, ?_, ?_, ?_⟩
        · simp only [hadd, QueuedBytes_append, QueuedBytes_cons, QueuedBytes_nil]; omega
        · simp only [hadd]; exact h2
        · simp only [hadd]; exact h3
        · intro e he
          simp only [List.mem_append, List.mem_singleton] at he
          rcases he with he | he
          · exact h4 e he
          · right; rw [he]
      · exact ⟨by simpa using h1, by simpa using h2, by simpa using h3, by simpa using h4⟩

theorem BytesInv_DrainLoop (c : TAgentConsts) (timedOut : Nat → Bool) (s : TBlobDepotAgent)
    (h : BytesInv c s) :
    ∃ s', HandlePendingEvent timedOut s = some s' ∧ BytesInv c s' := by
  obtain ⟨h1, h2, h3, h4⟩ := h
  obtain ⟨s', e1, e2, e3, _, _, e6⟩ := DrainLoop_spec timedOut s.PendingEventQ 0 s rfl h1 h2
  exact ⟨s', e1, e2, by omega, by omega, fun e he => h4 e (e6 e he)⟩

theorem BytesInv_HandleProcessPendingEvent (c : TAgentConsts) (timedOut : Nat → Bool)
    (s : TBlobDepotAgent) (h : BytesInv c s) (hf : s.ProcessPendingEventInFlight = true) :
    ∃ s', HandleProcessPendingEvent timedOut s = some s' ∧ BytesInv c s' := by
  unfold HandleProcessPendingEvent
  rw [if_pos hf]
  exact BytesInv_DrainLoop c timedOut _ ⟨h.1, h.2, h.3, h.4⟩

theorem BytesInv_ClearPendingEventQueue (c : TAgentConsts) (reason : String)
    (s : TBlobDepotAgent) (h : BytesInv c s) :
    ∃ s', ClearPendingEventQueue reason s = some s' ∧ s'.PendingEventQ = [] ∧
      s'.PendingEventBytes = 0 ∧ BytesInv c s' := by
  obtain ⟨h1, h2, h3, h4⟩ := h
  obtain ⟨s', e1, e2, e3, _, _⟩ := ClearLoop_spec reason s.PendingEventQ
    { s with PendingEventQ := [] } h1 h2
  refine ⟨s', e1, e3, e2, ?_, ?_, ?_, ?_⟩
  · rw [e2, e3]; rfl
  · omega
  · omega
  · rw [e3]; intro e he; cases he

theorem BytesInv_HandlePendingEventQueueWatchdog (c : TAgentConsts) (now : Nat)
    (s : TBlobDepotAgent) (h : BytesInv c s) :
    BytesInv c (HandlePendingEventQueueWatchdog now s) ∧
    (s.IsConnected = false →
      (HandlePendingEventQueueWatchdog now s).PendingEventBytes
        + QueuedBytes (ExpiredPrefix now s.PendingEventQ) = s.PendingEventBytes) := by
  obtain ⟨h1, h2, h3, h4⟩ := h
  obtain ⟨e1, e2, e3⟩ := WatchdogLoop_spec now s.PendingEventQ s h1 h2
  unfold HandlePendingEventQueueWatchdog
  cases hcon : s.IsConnected
  · simp only [Bool.not_false, if_true]
    exact ⟨⟨e1, by simp only []; omega, by simp only []; omega, fun e he => h4 e (e3 e he)⟩,
      fun _ => e2⟩
  · simp only [Bool.not_true, Bool.false_eq_true, if_false]
    exact ⟨⟨h1, h2, h3, h4⟩, fun hc => by cases hc⟩

theorem BytesInv_of_Reachable (c : TAgentConsts) (s : TBlobDepotAgent) (h : Reachable c s) :
    BytesInv c s := by
  induction h with
  | init s hq hb =>
    refine ⟨by rw [hb, hq]; rfl, by omega, by omega, ?_⟩
    rw [hq]; intro e he; cases he
  | handleStorageProxy s ev now _ hev ih => exact BytesInv_HandleStorageProxy c now s ev ih hev
  | handlePendingEvent s s' timedOut _ hs ih =>
    obtain ⟨s2, e1, e2⟩ := BytesInv_DrainLoop c timedOut s ih
    rw [hs] at e1
    cases e1
    exact e2
  | handleProcessPendingEvent s s' timedOut _ hs ih =>
    cases hf : s.ProcessPendingEventInFlight
    · simp [HandleProcessPendingEvent, hf] at hs
    · obtain ⟨s2, e1, e2⟩ := BytesInv_HandleProcessPendingEvent c timedOut s ih hf
      rw [hs] at e1
      cases e1
      exact e2
  | clearPendingEventQueue s s' reason _ hs ih =>
    obtain ⟨s2, e1, _, _, e2⟩ := BytesInv_ClearPendingEventQueue c reason s ih
    rw [hs] at e1
    cases e1
    exact e2
  | handlePendingEventQueueWatchdog s now _ ih =>
    exact (BytesInv_HandlePendingEventQueueWatchdog c now s ih).1
  | setConnected s b _ ih => exact ⟨ih.1, ih.2, ih.3, ih.4⟩
  | setTabletId s id _ ih => exact ⟨ih.1, ih.2, ih.3, ih.4⟩

end TBlobDepotAgent

open TBlobDepotAgent in
theorem Reachable_queuedAB : Reachable sampleConsts queuedAB :=
  Reachable.handleStorageProxy _ evB 0
    (Reachable.handleStorageProxy _ evA 0 (Reachable.init {} rfl rfl) (by decide)) (by decide)

open TBlobDepotAgent in
theorem Reachable_connectedAB : Reachable sampleConsts connectedAB :=
  Reachable.setTabletId _ 7 (Reachable.setConnected _ true Reachable_queuedAB)

open TBlobDepotAgent in
theorem HandlePendingEvent_connectedAB :
    HandlePendingEvent (fun _ => true) connectedAB = some drainedB := rfl

open TBlobDepotAgent in
theorem Reachable_overCap : Reachable sampleConsts overCap :=
  Reachable.handleStorageProxy _ evC 1
    (Reachable.handlePendingEvent _ _ _ Reachable_connectedAB HandlePendingEvent_connectedAB)
    (by decide)

namespace TBlobDepotAgent

theorem QueuedEventBytes_eq_QueuedBytes (q : List TPendingEvent)
    (h : ∀ e ∈ q, e.Size = e.Event.CalculateSize) : QueuedEventBytes q = QueuedBytes q := by
  unfold QueuedEventBytes QueuedBytes
  congr 1
  exact List.map_congr_left (fun e he => (h e he).symm)

theorem HandleStorageProxy_connected_append (c : TAgentConsts) (now : Nat)
    (s : TBlobDepotAgent) (ev : TEvent) (hlt : s.PendingEventBytes < 2 ^ 64)
    (hd : ev.Decommission = false) (hc : s.IsConnected = true) (hq : s.PendingEventQ ≠ []) :
    HandleStorageProxy c now s ev =
      { s with
        PendingEventQ := s.PendingEventQ ++
          [{ Event := ev, Size := 0, ExpirationTimestamp := now + c.EventExpirationTime }] } := by
  have hadd : addSize s.PendingEventBytes 0 = s.PendingEventBytes := by
    rw [addSize_eq _ _ (by omega)]; rfl
  have hne : s.PendingEventQ.isEmpty = false := by
    cases hs : s.PendingEventQ with
    | nil => exact absurd hs hq
    | cons a l => rfl
  unfold HandleStorageProxy
  have hf : (match ev.EventType with
      | EEventType.EvGet => ev.Decommission
      | EEventType.EvRange => ev.Decommission
      | _ => false) = false := by
    split <;> first | exact hd | rfl
  simp only [hf, hc, hne, hadd, Bool.not_true, Bool.not_false, Bool.false_eq_true, if_false,
    false_and, false_or, if_true]

/-! ## Pending event queue: the properties -/

/-- C19: in every state reached from an empty queue with `PendingEventBytes = 0` through the
queue handlers, `PendingEventBytes` is the sum of the recorded `Size` over `PendingEventQ`.
Hence `HandlePendingEvent`, `HandleProcessPendingEvent` (when a continuation is in flight) and
`ClearPendingEventQueue` run to completion, no `Y_VERIFY(PendingEventBytes >= item.Size)`
failing, and they and `HandleStorageProxy` and the watchdog leave a state where the equation
holds again; the unchecked subtraction of the watchdog takes exactly the bytes of the expired
entries off the counter, without wrapping below zero. -/
theorem PendingEventBytes_accounting (c : TAgentConsts) (s : TBlobDepotAgent)
    (h : Reachable c s) :
    s.PendingEventBytes = QueuedBytes s.PendingEventQ ∧
    (∀ timedOut, ∃ s', HandlePendingEvent timedOut s = some s' ∧
      s'.PendingEventBytes = QueuedBytes s'.PendingEventQ) ∧
    (∀ timedOut, s.ProcessPendingEventInFlight = true →
      ∃ s', HandleProcessPendingEvent timedOut s = some s' ∧
        s'.PendingEventBytes = QueuedBytes s'.PendingEventQ) ∧
    (∀ reason, ∃ s', ClearPendingEventQueue reason s = some s' ∧ s'.PendingEventQ = [] ∧
      s'.PendingEventBytes = 0) ∧
    (∀ now, (HandlePendingEventQueueWatchdog now s).PendingEventBytes
        = QueuedBytes (HandlePendingEventQueueWatchdog now s).PendingEventQ ∧
      (s.IsConnected = false →
        (HandlePendingEventQueueWatchdog now s).PendingEventBytes
          + QueuedBytes (ExpiredPrefix now s.PendingEventQ) = s.PendingEventBytes)) ∧
    (∀ now ev, ev.CalculateSize + c.MaxPendingEventBytes < 2 ^ 64 →
      (HandleStorageProxy c now s ev).PendingEventBytes
        = QueuedBytes (HandleStorageProxy c now s ev).PendingEventQ) := by
  have hinv := BytesInv_of_Reachable c s h
  refine ⟨hinv.1, ?_, ?_, ?_, ?_, ?_⟩
  · intro timedOut
    obtain ⟨s', e1, e2⟩ := BytesInv_DrainLoop c timedOut s hinv
    exact ⟨s', e1, e2.1⟩
  · intro timedOut hf
    obtain ⟨s', e1, e2⟩ := BytesInv_HandleProcessPendingEvent c timedOut s hinv hf
    exact ⟨s', e1, e2.1⟩
  · intro reason
    obtain ⟨s', e1, e2, e3, _⟩ := BytesInv_ClearPendingEventQueue c reason s hinv
    exact ⟨s', e1, e2, e3⟩
  · intro now
    obtain ⟨e1, e2⟩ := BytesInv_HandlePendingEventQueueWatchdog c now s hinv
    exact ⟨e1.1, e2⟩
  · intro now ev hev
    exact (BytesInv_HandleStorageProxy c now s ev hinv hev).1

/-- C19 witness: the agent that queued two events of 300 bytes while disconnected is reachable,
its counter and the sum of the recorded sizes are both 600. -/
theorem PendingEventBytes_accounting_witness :
    Reachable sampleConsts queuedAB ∧
    queuedAB.PendingEventBytes = QueuedBytes queuedAB.PendingEventQ ∧
    queuedAB.PendingEventBytes = 600 :=
  ⟨Reachable_queuedAB, (PendingEventBytes_accounting sampleConsts queuedAB Reachable_queuedAB).1,
    rfl⟩

/-- C20, as the code has it: in every reachable state the sum of the recorded `Size` over
`PendingEventQ` is at most `MaxPendingEventBytes`, and the size recorded with an entry is the
`CalculateSize()` of its event or zero, so the estimates themselves sum to at most the cap
whenever every queued entry carries its estimate.  An event that is not forwarded and arrives
while the agent is connected and the queue is non-empty is appended with size zero, without an
overflow check and without a change of `PendingEventBytes`. -/
theorem recorded_sizes_within_cap (c : TAgentConsts) (s : TBlobDepotAgent)
    (h : Reachable c s) :
    QueuedBytes s.PendingEventQ ≤ c.MaxPendingEventBytes ∧
    (∀ e ∈ s.PendingEventQ, e.Size = e.Event.CalculateSize ∨ e.Size = 0) ∧
    ((∀ e ∈ s.PendingEventQ, e.Size = e.Event.CalculateSize) →
      QueuedEventBytes s.PendingEventQ ≤ c.MaxPendingEventBytes) ∧
    (∀ now ev, ev.Decommission = false → s.IsConnected = true → s.PendingEventQ ≠ [] →
      HandleStorageProxy c now s ev =
        { s with
          PendingEventQ := s.PendingEventQ ++
            [{ Event := ev, Size := 0,
               ExpirationTimestamp := now + c.EventExpirationTime }] }) := by
  have hinv := BytesInv_of_Reachable c s h
  have hle : QueuedBytes s.PendingEventQ ≤ c.MaxPendingEventBytes := by
    rw [← hinv.1]; exact hinv.3
  refine ⟨hle, hinv.4, ?_, ?_⟩
  · intro hall
    rw [QueuedEventBytes_eq_QueuedBytes _ hall]
    exact hle
  · intro now ev hd hc hq
    exact HandleStorageProxy_connected_append c now s ev hinv.2 hd hc hq

/-- C20 witness: in the reachable state `overCap` the recorded sizes sum to 300, within the cap
of 1000. -/
theorem recorded_sizes_within_cap_witness :
    Reachable sampleConsts overCap ∧
    QueuedBytes overCap.PendingEventQ ≤ sampleConsts.MaxPendingEventBytes ∧
    QueuedBytes overCap.PendingEventQ = 300 :=
  ⟨Reachable_overCap, (recorded_sizes_within_cap sampleConsts overCap Reachable_overCap).1, rfl⟩

/-- C20 counterexample: with a cap of 1000 bytes, two events of 300 bytes are queued while the
agent is disconnected; the connection comes up and `HandlePendingEvent` stops on its timer after
the first event; an event of 2000 bytes arrives while the second is still queued.  It is
appended with recorded size 0 and no overflow check: the queue then holds events whose
`CalculateSize()` estimates sum to 2300 > 1000, while `PendingEventBytes` is 300. -/
theorem queued_estimates_exceed_cap :
    HandlePendingEvent (fun _ => true) connectedAB = some drainedB ∧
    overCap = HandleStorageProxy sampleConsts 1 drainedB evC ∧
    Reachable sampleConsts overCap ∧
    overCap.IsConnected = true ∧
    overCap.PendingEventQ =
      [{ Event := evB, Size := 300, ExpirationTimestamp := 10 },
       { Event := evC, Size := 0, ExpirationTimestamp := 11 }] ∧
    overCap.PendingEventBytes = 300 ∧
    QueuedEventBytes overCap.PendingEventQ = 2300 ∧
    sampleConsts.MaxPendingEventBytes = 1000 ∧
    ¬ QueuedEventBytes overCap.PendingEventQ ≤ sampleConsts.MaxPendingEventBytes :=
  ⟨rfl, rfl, Reachable_overCap, rfl, rfl, rfl, rfl, rfl, by decide⟩

end TBlobDepotAgent

end NBlobDepot

namespace NBlobDepot

namespace TBlobDepotAgent

/-! ## Pending event queue: dispatch, drain, timeout and clear -/

theorem HandleStorageProxy_eq (c : TAgentConsts) (now : Nat) (s : TBlobDepotAgent)
    (ev : TEvent) :
    HandleStorageProxy c now s ev =
      if ev.DoForward then
        { s with Effects := s.Effects ++ [TEffect.Forward ev] }
      else if s.IsConnected = false then
        if addSize ev.CalculateSize s.PendingEventBytes > c.MaxPendingEventBytes then
          { s with Effects := s.Effects ++
              [TEffect.EndWithError ev EReplyStatus.ERROR "pending event queue overflow"] }
        else
          { s with
            PendingEventBytes := addSize s.PendingEventBytes ev.CalculateSize
            PendingEventQ := s.PendingEventQ ++
              [{ Event := ev, Size := ev.CalculateSize,
                 ExpirationTimestamp := now + c.EventExpirationTime }] }
      else if s.PendingEventQ = [] then
        s.ProcessStorageEvent ev
      else
        { s with
          PendingEventBytes := addSize s.PendingEventBytes 0
          PendingEventQ := s.PendingEventQ ++
            [{ Event := ev, Size := 0, ExpirationTimestamp := now + c.EventExpirationTime }] } := by
  unfold HandleStorageProxy TEvent.DoForward
  simp only []
  split
  · rfl
  · cases hcon : s.IsConnected
    · simp only [Bool.not_false, if_true, true_and, true_or]
    · simp only [Bool.not_true, Bool.false_eq_true, if_false, false_and, false_or]
      cases hq : s.PendingEventQ with
      | nil => simp
      | cons a l => simp

theorem ProcessStorageEvent_eq (s : TBlobDepotAgent) (ev : TEvent) :
    s.ProcessStorageEvent ev = { s with Effects := s.Effects ++ [ProcessEffect s.TabletId ev] } := by
  unfold ProcessStorageEvent ProcessEffect
  split <;> rfl

theorem DoForward_iff (ev : TEvent) :
    ev.DoForward = true ↔
      (ev.EventType = EEventType.EvGet ∨ ev.EventType = EEventType.EvRange) ∧
        ev.Decommission = true := by
  unfold TEvent.DoForward
  cases h : ev.EventType <;> simp

theorem ProcessEffect_ne_overflow (t : Nat) (ev : TEvent) :
    ProcessEffect t ev
      ≠ TEffect.EndWithError ev EReplyStatus.ERROR "pending event queue overflow" := by
  unfold ProcessEffect
  split
  · intro h
    injection h with _ _ h3
    exact absurd h3 (by decide)
  · intro h
    cases h

/-- C21: for an event that is not forwarded and arrives while `IsConnected` is false (the sum
of its size and the counter being a `size_t` value), `HandleStorageProxy` rejects it exactly when
`CalculateSize() + PendingEventBytes > MaxPendingEventBytes`.  A rejected event gets one ERROR
reply with reason "pending event queue overflow" and nothing else changes; an accepted event
is appended at the back with its size and the deadline `now + EventExpirationTime`, and
`PendingEventBytes` grows by its size. -/
theorem HandleStorageProxy_overflow_admission (c : TAgentConsts) (now : Nat)
    (s : TBlobDepotAgent) (ev : TEvent) (hdis : s.IsConnected = false)
    (hnf : ev.DoForward = false) (hnw : ev.CalculateSize + s.PendingEventBytes < 2 ^ 64) :
    (ev.CalculateSize + s.PendingEventBytes > c.MaxPendingEventBytes →
      HandleStorageProxy c now s ev =
        { s with Effects := s.Effects ++
            [TEffect.EndWithError ev EReplyStatus.ERROR "pending event queue overflow"] }) ∧
    (¬ ev.CalculateSize + s.PendingEventBytes > c.MaxPendingEventBytes →
      HandleStorageProxy c now s ev =
        { s with
          PendingEventBytes := s.PendingEventBytes + ev.CalculateSize
          PendingEventQ := s.PendingEventQ ++
            [{ Event := ev, Size := ev.CalculateSize,
               ExpirationTimestamp := now + c.EventExpirationTime }] }) ∧
    ((HandleStorageProxy c now s ev).Effects = s.Effects ++
        [TEffect.EndWithError ev EReplyStatus.ERROR "pending event queue overflow"] ↔
      ev.CalculateSize + s.PendingEventBytes > c.MaxPendingEventBytes) ∧
    ((HandleStorageProxy c now s ev).PendingEventQ = s.PendingEventQ ↔
      ev.CalculateSize + s.PendingEventBytes > c.MaxPendingEventBytes) := by
  have h1 : addSize ev.CalculateSize s.PendingEventBytes
      = ev.CalculateSize + s.PendingEventBytes := addSize_eq _ _ hnw
  have h2 : addSize s.PendingEventBytes ev.CalculateSize
      = s.PendingEventBytes + ev.CalculateSize := addSize_eq _ _ (by omega)
  by_cases hgt : ev.CalculateSize + s.PendingEventBytes > c.MaxPendingEventBytes
  · have hH : HandleStorageProxy c now s ev =
        { s with Effects := s.Effects ++
            [TEffect.EndWithError ev EReplyStatus.ERROR "pending event queue overflow"] } := by
      rw [HandleStorageProxy_eq]
      simp only [hnf, hdis, h1, hgt, Bool.false_eq_true, if_false, if_true]
    refine ⟨fun _ => hH, fun h => absurd hgt h, ⟨fun _ => hgt, fun _ => ?_⟩,
      ⟨fun _ => hgt, fun _ => ?_⟩⟩
    · rw [hH]
    · rw [hH]
  · have hH : HandleStorageProxy c now s ev =
        { s with
          PendingEventBytes := s.PendingEventBytes + ev.CalculateSize
          PendingEventQ := s.PendingEventQ ++
            [{ Event := ev, Size := ev.CalculateSize,
               ExpirationTimestamp := now + c.EventExpirationTime }] } := by
      rw [HandleStorageProxy_eq]
      simp only [hnf, hdis, h1, h2, hgt, Bool.false_eq_true, if_false, if_true]
    refine ⟨fun h => absurd h hgt, fun _ => hH, ⟨fun h => ?_, fun h => absurd h hgt⟩,
      ⟨fun h => ?_, fun h => absurd h hgt⟩⟩
    · rw [hH] at h
      simp at h
    · rw [hH] at h
      simp at h

/-- C21 witness: scenario 1 of §8.  With a cap of 1000 bytes, after three events of 300 bytes
the fourth is rejected (300 + 900 > 1000) with one ERROR reply; after five such events exactly
three are queued, `PendingEventBytes` is 900 and the fourth and the fifth have been refused. -/
theorem HandleStorageProxy_overflow_admission_witness :
    queued3.IsConnected = false ∧ (ev300 4).DoForward = false ∧
    (ev300 4).CalculateSize + queued3.PendingEventBytes > sampleConsts.MaxPendingEventBytes ∧
    HandleStorageProxy sampleConsts 0 queued3 (ev300 4) =
      { queued3 with Effects := queued3.Effects ++
          [TEffect.EndWithError (ev300 4) EReplyStatus.ERROR "pending event queue overflow"] } ∧
    queued5.PendingEventQ.map (fun e => e.Event) = [ev300 1, ev300 2, ev300 3] ∧
    queued5.PendingEventBytes = 900 ∧
    queued5.Effects =
      [TEffect.EndWithError (ev300 4) EReplyStatus.ERROR "pending event queue overflow",
       TEffect.EndWithError (ev300 5) EReplyStatus.ERROR "pending event queue overflow"] :=
  ⟨rfl, rfl, by decide,
    (HandleStorageProxy_overflow_admission sampleConsts 0 queued3 (ev300 4) rfl rfl
      (by decide)).1 (by decide),
    rfl, rfl, rfl⟩

/-- C22: the dispatch rule of `HandleStorageProxy`.  (1) An event is forwarded exactly when it
is a Get or a Range with the `Decommission` flag set; then one `Forward` is sent and nothing
else changes: the queue, `PendingEventBytes` and the flags are the same and no query is created.
(2) Any other event is handed to `ProcessStorageEvent` at once exactly when the agent is
connected and the pending queue is empty.  (3) Otherwise it is either refused for overflow,
which happens only while disconnected, or appended at the back of the queue, nothing being
processed; so with a non-empty queue the old entries stay in front of the new one. -/
theorem HandleStorageProxy_dispatch (c : TAgentConsts) (now : Nat) (s : TBlobDepotAgent)
    (ev : TEvent) :
    (ev.DoForward = true ↔
      (ev.EventType = EEventType.EvGet ∨ ev.EventType = EEventType.EvRange) ∧
        ev.Decommission = true) ∧
    (ev.DoForward = true →
      HandleStorageProxy c now s ev = { s with Effects := s.Effects ++ [TEffect.Forward ev] }) ∧
    (ev.DoForward = false →
      (HandleStorageProxy c now s ev = s.ProcessStorageEvent ev ↔
        s.IsConnected = true ∧ s.PendingEventQ = [])) ∧
    (ev.DoForward = false → ¬ (s.IsConnected = true ∧ s.PendingEventQ = []) →
      (s.IsConnected = false ∧
        HandleStorageProxy c now s ev =
          { s with Effects := s.Effects ++
              [TEffect.EndWithError ev EReplyStatus.ERROR "pending event queue overflow"] }) ∨
      (∃ size, (size = ev.CalculateSize ∨ size = 0) ∧
        HandleStorageProxy c now s ev =
          { s with
            PendingEventBytes := addSize s.PendingEventBytes size
            PendingEventQ := s.PendingEventQ ++
              [{ Event := ev, Size := size,
                 ExpirationTimestamp := now + c.EventExpirationTime }] })) := by
  refine ⟨DoForward_iff ev, ?_, ?_, ?_⟩
  · intro hf
    rw [HandleStorageProxy_eq, if_pos hf]
  · intro hf
    rw [HandleStorageProxy_eq]
    simp only [hf, Bool.false_eq_true, if_false]
    cases hcon : s.IsConnected
    · simp only [if_true, Bool.false_eq_true, false_and, iff_false]
      split
      · intro h
        have h2 := congrArg TBlobDepotAgent.Effects h
        rw [ProcessStorageEvent_eq] at h2
        simp only [List.append_cancel_left_eq, List.cons.injEq, and_true] at h2
        exact ProcessEffect_ne_overflow _ _ h2.symm
      · intro h
        have h2 := congrArg TBlobDepotAgent.PendingEventQ h
        rw [ProcessStorageEvent_eq] at h2
        simp at h2
    · simp only [Bool.true_eq_false, if_false, true_and]
      by_cases hq : s.PendingEventQ = []
      · simp only [hq, if_true]
      · simp only [hq, if_false, iff_false]
        intro h
        have h2 := congrArg TBlobDepotAgent.PendingEventQ h
        rw [ProcessStorageEvent_eq] at h2
        simp at h2
  · intro hf hnot
    rw [HandleStorageProxy_eq]
    simp only [hf, Bool.false_eq_true, if_false]
    cases hcon : s.IsConnected
    · rw [if_pos rfl]
      split
      · exact Or.inl ⟨rfl, rfl⟩
      · exact Or.inr ⟨ev.CalculateSize, Or.inl rfl, rfl⟩
    · have hq : s.PendingEventQ ≠ [] := fun hq => hnot ⟨hcon, hq⟩
      rw [if_neg (by decide), if_neg hq]
      exact Or.inr ⟨0, Or.inr rfl, rfl⟩

theorem foldl_ProcessStorageEvent (l : List TPendingEvent) :
    ∀ s : TBlobDepotAgent,
      l.foldl (fun st e => st.ProcessStorageEvent e.Event) s =
        { s with Effects := s.Effects ++ l.map (fun e => ProcessEffect s.TabletId e.Event) } := by
  induction l with
  | nil => intro s; simp
  | cons a l ih =>
    intro s
    rw [List.foldl_cons, ih, ProcessStorageEvent_eq]
    simp

theorem DrainLoop_fifo (timedOut : Nat → Bool) (q : List TPendingEvent) :
    ∀ (i : Nat) (s : TBlobDepotAgent), s.PendingEventQ = q →
      s.PendingEventBytes = QueuedBytes q → s.PendingEventBytes < 2 ^ 64 →
      ∃ n s', DrainLoop timedOut q i s = some s' ∧ n ≤ q.length ∧ (q ≠ [] → 0 < n) ∧
        s'.PendingEventQ = q.drop n ∧
        s'.PendingEventBytes = QueuedBytes (q.drop n) ∧
        s'.Effects = s.Effects ++ (q.take n).map (fun e => ProcessEffect s.TabletId e.Event)
          ++ (if n < q.length ∧ s.ProcessPendingEventInFlight = false
              then [TEffect.SendProcessPendingEvent] else []) ∧
        s'.ProcessPendingEventInFlight
          = (s.ProcessPendingEventInFlight || decide (n < q.length)) ∧
        s'.IsConnected = s.IsConnected ∧ s'.TabletId = s.TabletId ∧
        (∀ j, j + 1 < n → timedOut (i + j) = false) ∧
        (n < q.length → timedOut (i + (n - 1)) = true) := by
  induction q with
  | nil =>
    intro i s hq _ _
    refine ⟨0, s, rfl, le_refl _, fun h => absurd rfl h, by simpa using hq, by simp [QueuedBytes, *],
      by simp, by simp, rfl, rfl, fun j hj => by omega, fun h => by simp at h⟩
  | cons item rest ih =>
    intro i s hq hb hlt
    rw [QueuedBytes_cons] at hb
    have hge : (s.ProcessStorageEvent item.Event).PendingEventBytes ≥ item.Size := by
      rw [ProcessStorageEvent_PendingEventBytes]; omega
    have hsub : subSize (s.ProcessStorageEvent item.Event).PendingEventBytes item.Size
        = QueuedBytes rest := by
      rw [ProcessStorageEvent_PendingEventBytes, subSize_eq _ _ (by omega) hlt]; omega
    have htab : (s.ProcessStorageEvent item.Event).TabletId = s.TabletId := by
      rw [ProcessStorageEvent_eq]
    have heff : (s.ProcessStorageEvent item.Event).Effects
        = s.Effects ++ [ProcessEffect s.TabletId item.Event] := by
      rw [ProcessStorageEvent_eq]
    simp only [DrainLoop, hge, if_true, hsub]
    by_cases hc : (!rest.isEmpty) = true ∧ timedOut i = true
    · rw [if_pos hc]
      have hne : rest ≠ [] := by
        intro h; rw [h] at hc; simp at hc
      have hlen : 1 < (item :: rest).length := by
        cases rest with
        | nil => exact absurd rfl hne
        | cons a l => simp
      cases hf : s.ProcessPendingEventInFlight
      · have hf2 : (!(s.ProcessStorageEvent item.Event).ProcessPendingEventInFlight) = true := by
          simp [hf]
        rw [if_pos hf2]
        refine ⟨1, _, rfl, by omega, fun _ => by omega, rfl, rfl, ?_, ?_, by simp, htab,
          fun j hj => by omega, fun _ => by simpa using hc.2⟩
        · simp only [heff, List.take_succ_cons, List.take_zero, List.map_cons, List.map_nil,
            hlen, true_and, if_true]
        · have := List.length_pos.mpr hne
          simp [this]
      · have hf2 : ¬ (!(s.ProcessStorageEvent item.Event).ProcessPendingEventInFlight) = true := by
          simp [hf]
        rw [if_neg hf2]
        refine ⟨1, _, rfl, by omega, fun _ => by omega, rfl, rfl, ?_, ?_, by simp, htab,
          fun j hj => by omega, fun _ => by simpa using hc.2⟩
        · simp [heff]
        · simp [hf]
    · rw [if_neg hc]
      obtain ⟨n, s', h1, h2, h3, h4, h5, h6, h7, h8, h9, h10, h11⟩ := ih (i + 1)
        { s.ProcessStorageEvent item.Event with
          PendingEventBytes := QueuedBytes rest
          PendingEventQ := rest } rfl rfl (by simp only []; omega)
      refine ⟨n + 1, s', h1, by simp only [List.length_cons]; omega, fun _ => by omega,
        by simpa using h4, by simpa using h5, ?_, ?_, by simpa using h8,
        by simp only [] at h9; rw [h9, htab], ?_, ?_⟩
      · rw [h6]
        simp only [heff, htab, ProcessStorageEvent_InFlight, List.take_succ_cons, List.map_cons,
          List.length_cons, Nat.add_lt_add_iff_right, List.append_assoc, List.singleton_append]
      · rw [h7]
        simp only [ProcessStorageEvent_InFlight, List.length_cons, Nat.add_lt_add_iff_right]
      · intro j hj
        cases j with
        | zero =>
          cases hr : rest with
          | nil =>
            rw [hr] at h2
            simp at h2
            omega
          | cons a l =>
            have : ¬ timedOut i = true := fun ht => hc ⟨by simp [hr], ht⟩
            simpa using this
        | succ j =>
          have := h10 j (by omega)
          rw [show i + (j + 1) = i + 1 + j by omega]
          exact this
      · intro hn
        have hn2 : n < rest.length := by simpa using hn
        have h0 : 0 < n := h3 (by intro h; rw [h] at hn2; simp at hn2)
        have := h11 hn2
        rw [show i + (n + 1 - 1) = i + 1 + (n - 1) by omega]
        exact this

/-- C23: FIFO drain.  In a state whose counter is the sum of the recorded sizes,
`HandlePendingEvent` completes; it hands the first `n` events of the queue to
`ProcessStorageEvent`, front to back, and leaves the other entries queued in their order, with
`PendingEventBytes` their recorded sum.  It processes at least one event of a non-empty queue;
it stops before the end only when the timer test succeeded after the `n`-th event, and the test
failed after each earlier one.  If the 1 ms budget is never exceeded it processes all events and
ends with an empty queue and `PendingEventBytes = 0`. -/
theorem HandlePendingEvent_fifo (timedOut : Nat → Bool) (s : TBlobDepotAgent)
    (hb : s.PendingEventBytes = QueuedBytes s.PendingEventQ)
    (hlt : s.PendingEventBytes < 2 ^ 64) :
    ∃ n s', HandlePendingEvent timedOut s = some s' ∧
      n ≤ s.PendingEventQ.length ∧ (s.PendingEventQ ≠ [] → 0 < n) ∧
      s'.Effects =
        ((s.PendingEventQ.take n).foldl (fun st e => st.ProcessStorageEvent e.Event) s).Effects
          ++ (if n < s.PendingEventQ.length ∧ s.ProcessPendingEventInFlight = false
              then [TEffect.SendProcessPendingEvent] else []) ∧
      (s.TabletId ≠ 0 →
        s'.Effects = s.Effects ++ (s.PendingEventQ.take n).map (fun e => TEffect.Initiate e.Event)
          ++ (if n < s.PendingEventQ.length ∧ s.ProcessPendingEventInFlight = false
              then [TEffect.SendProcessPendingEvent] else [])) ∧
      s'.PendingEventQ = s.PendingEventQ.drop n ∧
      s'.PendingEventBytes = QueuedBytes (s.PendingEventQ.drop n) ∧
      (∀ j, j + 1 < n → timedOut j = false) ∧
      (n < s.PendingEventQ.length → timedOut (n - 1) = true) ∧
      ((∀ j, timedOut j = false) →
        n = s.PendingEventQ.length ∧ s'.PendingEventQ = [] ∧ s'.PendingEventBytes = 0) := by
  obtain ⟨n, s', h1, h2, h3, h4, h5, h6, _, _, _, h10, h11⟩ :=
    DrainLoop_fifo timedOut s.PendingEventQ 0 s rfl hb hlt
  have hn : (∀ j, timedOut j = false) → n = s.PendingEventQ.length := by
    intro hall
    by_contra hne
    have := h11 (by omega)
    rw [Nat.zero_add, hall] at this
    cases this
  refine ⟨n, s', h1, h2, h3, ?_, ?_, h4, h5, ?_, ?_, ?_⟩
  · rw [h6, foldl_ProcessStorageEvent]
  · intro ht
    rw [h6]
    simp only [ProcessEffect, ht, if_false]
  · intro j hj
    simpa using h10 j hj
  · intro hlt2
    simpa using h11 hlt2
  · intro hall
    have hn2 := hn hall
    refine ⟨hn2, ?_, ?_⟩
    · rw [h4, hn2, List.drop_length]
    · rw [h5, hn2, List.drop_length]; rfl

/-- C23 witness: scenario 3 of §8.  Three events are queued while disconnected, the connection
comes up, and a drain whose timer never fires initiates them in arrival order and leaves an
empty queue and `PendingEventBytes = 0`. -/
theorem HandlePendingEvent_fifo_witness :
    connected3.PendingEventBytes = QueuedBytes connected3.PendingEventQ ∧
    connected3.PendingEventBytes < 2 ^ 64 ∧
    connected3.PendingEventQ.map (fun e => e.Event) = [ev300 1, ev300 2, ev300 3] ∧
    ∃ s', HandlePendingEvent (fun _ => false) connected3 = some s' ∧
      s'.Effects = [TEffect.Initiate (ev300 1), TEffect.Initiate (ev300 2),
        TEffect.Initiate (ev300 3)] ∧
      s'.PendingEventQ = [] ∧ s'.PendingEventBytes = 0 := by
  obtain ⟨n, s', h1, _, _, _, h5, _, _, _, _, h10⟩ :=
    HandlePendingEvent_fifo (fun _ => false) connected3 (by decide) (by decide)
  obtain ⟨hn, hq, hb⟩ := h10 (fun _ => rfl)
  refine ⟨by decide, by decide, rfl, s', h1, ?_, hq, hb⟩
  rw [h5 (by decide), hn]
  rfl

theorem WatchdogLoop_closed (now : Nat) (q : List TPendingEvent) :
    ∀ s : TBlobDepotAgent,
      (WatchdogLoop now q s).1 = q.dropWhile (fun e => decide (e.ExpirationTimestamp ≤ now)) ∧
      (WatchdogLoop now q s).2.Effects = s.Effects ++ (ExpiredPrefix now q).map (fun e =>
        TEffect.EndWithError e.Event EReplyStatus.ERROR "pending event queue timeout") ∧
      (WatchdogLoop now q s).2.IsConnected = s.IsConnected ∧
      (WatchdogLoop now q s).2.TabletId = s.TabletId ∧
      (WatchdogLoop now q s).2.ProcessPendingEventInFlight = s.ProcessPendingEventInFlight := by
  induction q with
  | nil => intro s; simp [WatchdogLoop, ExpiredPrefix]
  | cons item rest ih =>
    intro s
    by_cases he : item.ExpirationTimestamp ≤ now
    · have hw : WatchdogLoop now (item :: rest) s = WatchdogLoop now rest
          { s with
            Effects := s.Effects ++
              [TEffect.EndWithError item.Event EReplyStatus.ERROR "pending event queue timeout"]
            PendingEventBytes := subSize s.PendingEventBytes item.Size } := by
        simp only [WatchdogLoop, he, if_true]
      obtain ⟨h1, h2, h3, h4, h5⟩ := ih
        { s with
          Effects := s.Effects ++
            [TEffect.EndWithError item.Event EReplyStatus.ERROR "pending event queue timeout"]
          PendingEventBytes := subSize s.PendingEventBytes item.Size }
      rw [hw]
      refine ⟨?_, ?_, h3, h4, h5⟩
      · rw [h1]; simp [List.dropWhile_cons, he]
      · rw [h2]; simp [ExpiredPrefix, List.takeWhile_cons, he]
    · have hw : WatchdogLoop now (item :: rest) s = (item :: rest, s) := by
        simp only [WatchdogLoop, he, if_false]
      rw [hw]
      simp [ExpiredPrefix, List.takeWhile_cons, List.dropWhile_cons, he]

theorem sorted_takeWhile_dropWhile (now : Nat) (q : List TPendingEvent)
    (h : q.Pairwise (fun a b => a.ExpirationTimestamp ≤ b.ExpirationTimestamp)) :
    q.takeWhile (fun e => decide (e.ExpirationTimestamp ≤ now))
      = q.filter (fun e => decide (e.ExpirationTimestamp ≤ now)) ∧
    q.dropWhile (fun e => decide (e.ExpirationTimestamp ≤ now))
      = q.filter (fun e => decide (now < e.ExpirationTimestamp)) := by
  induction q with
  | nil => simp
  | cons a l ih =>
    rw [List.pairwise_cons] at h
    obtain ⟨ih1, ih2⟩ := ih h.2
    by_cases he : a.ExpirationTimestamp ≤ now
    · have hn : ¬ now < a.ExpirationTimestamp := by omega
      simp [List.takeWhile_cons, List.dropWhile_cons, List.filter_cons, he, hn, ih1, ih2]
    · have hn : now < a.ExpirationTimestamp := by omega
      have hall : ∀ b ∈ l, now < b.ExpirationTimestamp := fun b hb => by
        have := h.1 b hb; omega
      have h1 : l.filter (fun e => decide (e.ExpirationTimestamp ≤ now)) = [] := by
        rw [List.filter_eq_nil_iff]
        intro b hb
        have := hall b hb
        simp; omega
      have h2 : l.filter (fun e => decide (now < e.ExpirationTimestamp)) = l := by
        rw [List.filter_eq_self]
        intro b hb
        simpa using hall b hb
      simp [List.takeWhile_cons, List.dropWhile_cons, List.filter_cons, he, hn, h1, h2]

/-- C24: pending-queue timeout.  For a queue whose deadlines are non-decreasing from front to
back, a run of `HandlePendingEventQueueWatchdog` at time `now` while disconnected removes
exactly the entries with deadline `≤ now`: the queue that remains is the old one restricted to
the entries with deadline `> now`, in their order; the removed entries are a prefix of the old
queue; each of them, front to back, got one ERROR reply with reason
"pending event queue timeout"; and the timer is re-armed.  While connected the queue and
`PendingEventBytes` are unchanged and only the timer is re-armed. -/
theorem HandlePendingEventQueueWatchdog_timeout (now : Nat) (s : TBlobDepotAgent)
    (hsorted : s.PendingEventQ.Pairwise
      (fun a b => a.ExpirationTimestamp ≤ b.ExpirationTimestamp)) :
    (s.IsConnected = false →
      (HandlePendingEventQueueWatchdog now s).PendingEventQ
        = s.PendingEventQ.filter (fun e => decide (now < e.ExpirationTimestamp)) ∧
      (∀ e ∈ (HandlePendingEventQueueWatchdog now s).PendingEventQ,
        now < e.ExpirationTimestamp) ∧
      s.PendingEventQ
        = s.PendingEventQ.filter (fun e => decide (e.ExpirationTimestamp ≤ now))
          ++ (HandlePendingEventQueueWatchdog now s).PendingEventQ ∧
      (HandlePendingEventQueueWatchdog now s).Effects
        = s.Effects
          ++ (s.PendingEventQ.filter (fun e => decide (e.ExpirationTimestamp ≤ now))).map
            (fun e => TEffect.EndWithError e.Event EReplyStatus.ERROR
              "pending event queue timeout")
          ++ [TEffect.SchedulePendingEventQueueWatchdog]) ∧
    (s.IsConnected = true →
      (HandlePendingEventQueueWatchdog now s).PendingEventQ = s.PendingEventQ ∧
      (HandlePendingEventQueueWatchdog now s).PendingEventBytes = s.PendingEventBytes ∧
      (HandlePendingEventQueueWatchdog now s).Effects
        = s.Effects ++ [TEffect.SchedulePendingEventQueueWatchdog]) := by
  obtain ⟨t1, t2⟩ := sorted_takeWhile_dropWhile now s.PendingEventQ hsorted
  obtain ⟨w1, w2, _, _, _⟩ := WatchdogLoop_closed now s.PendingEventQ s
  constructor
  · intro hcon
    have hQ : (HandlePendingEventQueueWatchdog now s).PendingEventQ
        = s.PendingEventQ.filter (fun e => decide (now < e.ExpirationTimestamp)) := by
      unfold HandlePendingEventQueueWatchdog
      simp only [hcon, Bool.not_false, if_true]
      rw [w1, t2]
    have hE : (HandlePendingEventQueueWatchdog now s).Effects
        = s.Effects
          ++ (s.PendingEventQ.filter (fun e => decide (e.ExpirationTimestamp ≤ now))).map
            (fun e => TEffect.EndWithError e.Event EReplyStatus.ERROR
              "pending event queue timeout")
          ++ [TEffect.SchedulePendingEventQueueWatchdog] := by
      unfold HandlePendingEventQueueWatchdog
      simp only [hcon, Bool.not_false, if_true]
      rw [w2, ExpiredPrefix, t1]
    refine ⟨hQ, ?_, ?_, hE⟩
    · intro e he
      rw [hQ, List.mem_filter] at he
      simpa using he.2
    · rw [hQ, ← t1, ← t2, List.takeWhile_append_dropWhile]
  · intro hcon
    have hW : HandlePendingEventQueueWatchdog now s
        = { s with Effects := s.Effects ++ [TEffect.SchedulePendingEventQueueWatchdog] } := by
      unfold HandlePendingEventQueueWatchdog
      simp only [hcon, Bool.not_true, Bool.false_eq_true, if_false]
    rw [hW]
    exact ⟨rfl, rfl, rfl⟩

/-- C24 witness: scenario 2 of §8.  An event queued at time 0 expires at time 10; the watchdog
run at time 11 answers it with one "pending event queue timeout" error and leaves an empty
queue. -/
theorem HandlePendingEventQueueWatchdog_timeout_witness :
    queued1.PendingEventQ.Pairwise
      (fun a b => a.ExpirationTimestamp ≤ b.ExpirationTimestamp) ∧
    queued1.IsConnected = false ∧
    queued1.PendingEventQ = [{ Event := evA, Size := 300, ExpirationTimestamp := 10 }] ∧
    (HandlePendingEventQueueWatchdog 11 queued1).PendingEventQ = [] ∧
    (HandlePendingEventQueueWatchdog 11 queued1).Effects =
      [TEffect.EndWithError evA EReplyStatus.ERROR "pending event queue timeout",
       TEffect.SchedulePendingEventQueueWatchdog] := by
  have hs : queued1.PendingEventQ.Pairwise
      (fun a b => a.ExpirationTimestamp ≤ b.ExpirationTimestamp) := by
    rw [show queued1.PendingEventQ
      = [{ Event := evA, Size := 300, ExpirationTimestamp := 10 }] from rfl]
    exact List.pairwise_singleton _ _
  obtain ⟨h1, _, _, h4⟩ := (HandlePendingEventQueueWatchdog_timeout 11 queued1 hs).1 rfl
  refine ⟨hs, rfl, rfl, ?_, ?_⟩
  · rw [h1]; rfl
  · rw [h4]; rfl

/-- C25: bulk clear.  In a state whose counter is the sum of the recorded sizes,
`ClearPendingEventQueue(r)` completes; it terminates every queued event once, front to back,
with status ERROR and reason `r`, and leaves the queue empty and `PendingEventBytes = 0`;
nothing else changes. -/
theorem ClearPendingEventQueue_terminates_all (reason : String) (s : TBlobDepotAgent)
    (hb : s.PendingEventBytes = QueuedBytes s.PendingEventQ)
    (hlt : s.PendingEventBytes < 2 ^ 64) :
    ClearPendingEventQueue reason s = some
      { s with
        PendingEventQ := []
        PendingEventBytes := 0
        Effects := s.Effects ++
          s.PendingEventQ.map (fun e => TEffect.EndWithError e.Event EReplyStatus.ERROR reason) } := by
  have hloop : ∀ (q : List TPendingEvent) (t : TBlobDepotAgent),
      t.PendingEventBytes = QueuedBytes q → t.PendingEventBytes < 2 ^ 64 →
      ClearLoop reason q t = some
        { t with
          PendingEventBytes := 0
          Effects := t.Effects ++
            q.map (fun e => TEffect.EndWithError e.Event EReplyStatus.ERROR reason) } := by
    intro q
    induction q with
    | nil =>
      intro t hb _
      have h0 : t.PendingEventBytes = 0 := by rw [hb]; rfl
      simp only [ClearLoop, List.map_nil, List.append_nil]
      rw [← h0]
    | cons item rest ih =>
      intro t hb hlt
      rw [QueuedBytes_cons] at hb
      have hge : t.PendingEventBytes ≥ item.Size := by omega
      have hsub : subSize t.PendingEventBytes item.Size = QueuedBytes rest := by
        rw [subSize_eq _ _ (by omega) hlt]; omega
      simp only [ClearLoop, hge, if_true, hsub]
      rw [ih _ rfl (by simp only []; omega)]
      simp
  unfold ClearPendingEventQueue
  exact hloop s.PendingEventQ { s with PendingEventQ := [] } hb hlt

/-- C25 witness: clearing the queue that holds `evA` and `evB` (600 bytes) with the reason
"disconnected" answers both, in order, and empties the queue. -/
theorem ClearPendingEventQueue_terminates_all_witness :
    queuedAB.PendingEventBytes = QueuedBytes queuedAB.PendingEventQ ∧
    queuedAB.PendingEventBytes < 2 ^ 64 ∧
    ∃ s', ClearPendingEventQueue "disconnected" queuedAB = some s' ∧
      s'.PendingEventQ = [] ∧ s'.PendingEventBytes = 0 ∧
      s'.Effects = [TEffect.EndWithError evA EReplyStatus.ERROR "disconnected",
        TEffect.EndWithError evB EReplyStatus.ERROR "disconnected"] :=
  ⟨by decide, by decide, _,
    ClearPendingEventQueue_terminates_all "disconnected" queuedAB (by decide) (by decide),
    rfl, rfl, rfl⟩

theorem ErrorReplies_append (a b : List TEffect) :
    ErrorReplies (a ++ b) = ErrorReplies a ++ ErrorReplies b := by
  simp [ErrorReplies, List.filterMap_append]

theorem ErrorReplies_map_EndWithError (q : List TPendingEvent) (st : EReplyStatus)
    (r : String) :
    ErrorReplies (q.map (fun e => TEffect.EndWithError e.Event st r))
      = List.replicate q.length (st, r) := by
  induction q with
  | nil => rfl
  | cons a l ih =>
    simp only [List.map_cons, List.length_cons, List.replicate_succ]
    rw [← ih]
    simp [ErrorReplies, List.filterMap_cons]

theorem ErrorReplies_map_Initiate (q : List TPendingEvent) :
    ErrorReplies (q.map (fun e => TEffect.Initiate e.Event)) = [] := by
  induction q with
  | nil => rfl
  | cons a l ih =>
    simp only [List.map_cons]
    rw [← ih]
    simp [ErrorReplies, List.filterMap_cons]

theorem ErrorReplies_map_ProcessEffect (t : Nat) (q : List TPendingEvent) :
    ErrorReplies (q.map (fun e => ProcessEffect t e.Event))
      = if t = 0 then List.replicate q.length (EReplyStatus.ERROR, "group is in error state")
        else [] := by
  by_cases ht : t = 0
  · simp only [ProcessEffect, ht, if_true]
    exact ErrorReplies_map_EndWithError q _ _
  · simp only [ProcessEffect, ht, if_false]
    exact ErrorReplies_map_Initiate q

theorem DrainLoop_effects (timedOut : Nat → Bool) (q : List TPendingEvent) :
    ∀ (i : Nat) (s s' : TBlobDepotAgent), DrainLoop timedOut q i s = some s' →
      ∃ n tl, n ≤ q.length ∧
        s'.Effects = s.Effects ++ (q.take n).map (fun e => ProcessEffect s.TabletId e.Event)
          ++ tl ∧ (tl = [] ∨ tl = [TEffect.SendProcessPendingEvent]) := by
  induction q with
  | nil =>
    intro i s s' h
    simp only [DrainLoop, Option.some.injEq] at h
    exact ⟨0, [], le_refl _, by simp [h], Or.inl rfl⟩
  | cons item rest ih =>
    intro i s s' h
    have htab : (s.ProcessStorageEvent item.Event).TabletId = s.TabletId := by
      rw [ProcessStorageEvent_eq]
    have heff : (s.ProcessStorageEvent item.Event).Effects
        = s.Effects ++ [ProcessEffect s.TabletId item.Event] := by
      rw [ProcessStorageEvent_eq]
    simp only [DrainLoop] at h
    split at h
    · split at h
      · split at h
        · simp only [Option.some.injEq] at h
          refine ⟨1, [TEffect.SendProcessPendingEvent], by simp, ?_, Or.inr rfl⟩
          rw [← h]
          simp [heff]
        · simp only [Option.some.injEq] at h
          refine ⟨1, [], by simp, ?_, Or.inl rfl⟩
          rw [← h]
          simp [heff]
      · obtain ⟨n, tl, h1, h2, h3⟩ := ih _ _ _ h
        refine ⟨n + 1, tl, by simp only [List.length_cons]; omega, ?_, h3⟩
        rw [h2]
        simp [heff, htab]
    · cases h

theorem ClearLoop_effects (reason : String) (q : List TPendingEvent) :
    ∀ (s s' : TBlobDepotAgent), ClearLoop reason q s = some s' →
      s'.Effects = s.Effects ++
        q.map (fun e => TEffect.EndWithError e.Event EReplyStatus.ERROR reason) := by
  induction q with
  | nil =>
    intro s s' h
    simp only [ClearLoop, Option.some.injEq] at h
    simp [h]
  | cons item rest ih =>
    intro s s' h
    simp only [ClearLoop] at h
    split at h
    · rw [ih _ _ h]
      simp
    · cases h

/-- C26: the error replies of the queue handlers.  Every error termination that a handler of
this file issues carries the status ERROR.  `HandleStorageProxy` issues one with the reason
"pending event queue overflow" exactly for a cap rejection, and one with
"group is in error state" exactly when it processes the event at once and `TabletId = 0`;
`ProcessStorageEvent` ends the query with "group is in error state" and does not initiate it
when `TabletId = 0`, and initiates it without an error otherwise; a drain issues
"group is in error state" for each processed event when `TabletId = 0` and nothing otherwise;
`ClearPendingEventQueue(r)` issues the reason `r` once per queued event; the watchdog issues
"pending event queue timeout" once per expired entry while disconnected and nothing while
connected.  The three fixed reasons are pairwise distinct. -/
theorem error_replies_taxonomy (c : TAgentConsts) (now : Nat) (s : TBlobDepotAgent)
    (ev : TEvent) (reason : String) (timedOut : Nat → Bool) :
    (ErrorReplies (HandleStorageProxy c now s ev).Effects = ErrorReplies s.Effects ++
      (if ev.DoForward then []
       else if s.IsConnected = false then
         (if addSize ev.CalculateSize s.PendingEventBytes > c.MaxPendingEventBytes
          then [(EReplyStatus.ERROR, "pending event queue overflow")] else [])
       else if s.PendingEventQ = [] ∧ s.TabletId = 0
         then [(EReplyStatus.ERROR, "group is in error state")] else [])) ∧
    (s.TabletId = 0 →
      (s.ProcessStorageEvent ev).Effects = s.Effects ++
        [TEffect.EndWithError ev EReplyStatus.ERROR "group is in error state"]) ∧
    (s.TabletId ≠ 0 →
      (s.ProcessStorageEvent ev).Effects = s.Effects ++ [TEffect.Initiate ev]) ∧
    (∀ s', HandlePendingEvent timedOut s = some s' →
      ∃ n, n ≤ s.PendingEventQ.length ∧
        ErrorReplies s'.Effects = ErrorReplies s.Effects ++
          (if s.TabletId = 0
           then List.replicate n (EReplyStatus.ERROR, "group is in error state") else [])) ∧
    (∀ s', HandleProcessPendingEvent timedOut s = some s' →
      ∃ n, n ≤ s.PendingEventQ.length ∧
        ErrorReplies s'.Effects = ErrorReplies s.Effects ++
          (if s.TabletId = 0
           then List.replicate n (EReplyStatus.ERROR, "group is in error state") else [])) ∧
    (∀ s', ClearPendingEventQueue reason s = some s' →
      ErrorReplies s'.Effects = ErrorReplies s.Effects ++
        List.replicate s.PendingEventQ.length (EReplyStatus.ERROR, reason)) ∧
    (ErrorReplies (HandlePendingEventQueueWatchdog now s).Effects = ErrorReplies s.Effects ++
      (if s.IsConnected = false
       then List.replicate (ExpiredPrefix now s.PendingEventQ).length
         (EReplyStatus.ERROR, "pending event queue timeout") else [])) ∧
    ("pending event queue overflow" ≠ "pending event queue timeout" ∧
      "pending event queue overflow" ≠ "group is in error state" ∧
      "pending event queue timeout" ≠ "group is in error state") := by
  have hdrain : ∀ (t t' : TBlobDepotAgent), DrainLoop timedOut t.PendingEventQ 0 t = some t' →
      ∃ n, n ≤ t.PendingEventQ.length ∧
        ErrorReplies t'.Effects = ErrorReplies t.Effects ++
          (if t.TabletId = 0
           then List.replicate n (EReplyStatus.ERROR, "group is in error state") else []) := by
    intro t t' h
    obtain ⟨n, tl, h1, h2, h3⟩ := DrainLoop_effects timedOut _ 0 t t' h
    refine ⟨n, h1, ?_⟩
    have htl : ErrorReplies tl = [] := by
      rcases h3 with h3 | h3 <;> rw [h3] <;> rfl
    rw [h2, ErrorReplies_append, ErrorReplies_append, htl, ErrorReplies_map_ProcessEffect,
      List.append_nil, List.length_take, Nat.min_eq_left h1]
  refine ⟨?_, ?_, ?_, ?_, ?_, ?_, ?_, by decide, by decide, by decide⟩
  · rw [HandleStorageProxy_eq]
    by_cases hf : ev.DoForward = true
    · simp only [hf, if_true, ErrorReplies_append, List.append_nil]
      simp [ErrorReplies]
    · simp only [hf, Bool.false_eq_true, if_false]
      cases hcon : s.IsConnected
      · simp only [if_true]
        split
        · simp [ErrorReplies_append, ErrorReplies]
        · simp
      · simp only [Bool.true_eq_false, if_false]
        by_cases hq : s.PendingEventQ = []
        · simp only [hq, if_true, true_and]
          rw [ProcessStorageEvent_eq]
          simp only [ErrorReplies_append]
          by_cases ht : s.TabletId = 0
          · simp [ht, ProcessEffect, ErrorReplies]
          · simp [ht, ProcessEffect, ErrorReplies]
        · simp [hq]
  · intro ht
    rw [ProcessStorageEvent_eq]
    simp [ProcessEffect, ht]
  · intro ht
    rw [ProcessStorageEvent_eq]
    simp [ProcessEffect, ht]
  · intro s' h
    exact hdrain s s' h
  · intro s' h
    unfold HandleProcessPendingEvent at h
    split at h
    · exact hdrain { s with ProcessPendingEventInFlight := false } s' h
    · cases h
  · intro s' h
    unfold ClearPendingEventQueue at h
    rw [ClearLoop_effects reason _ _ _ h, ErrorReplies_append, ErrorReplies_map_EndWithError]
  · obtain ⟨_, w2, _, _, _⟩ := WatchdogLoop_closed now s.PendingEventQ s
    unfold HandlePendingEventQueueWatchdog
    cases hcon : s.IsConnected
    · simp only [Bool.not_false, if_true]
      rw [ErrorReplies_append, w2, ErrorReplies_append, ErrorReplies_map_EndWithError]
      simp [ErrorReplies]
    · simp only [Bool.not_true, Bool.false_eq_true, if_false, Bool.true_eq_false]
      rw [ErrorReplies_append]
      simp [ErrorReplies]

end TBlobDepotAgent

end NBlobDepot
namespace NBlobDepot

namespace TBlobDepotAgent

/-! ## Pending event queue: the drain continuation -/

theorem SelfEventsSent_append (a b : List TEffect) :
    SelfEventsSent (a ++ b) = SelfEventsSent a + SelfEventsSent b := by
  simp [SelfEventsSent, List.count_append]

theorem SelfEventsSent_map_ProcessEffect (t : Nat) (q : List TPendingEvent) :
    SelfEventsSent (q.map (fun e => ProcessEffect t e.Event)) = 0 := by
  induction q with
  | nil => rfl
  | cons a l ih =>
    rw [List.map_cons, ← List.singleton_append, SelfEventsSent_append, ih]
    unfold ProcessEffect SelfEventsSent
    split <;> simp

theorem SelfEventsSent_map_EndWithError (q : List TPendingEvent) (st : EReplyStatus)
    (r : String) :
    SelfEventsSent (q.map (fun e => TEffect.EndWithError e.Event st r)) = 0 := by
  induction q with
  | nil => rfl
  | cons a l ih =>
    rw [List.map_cons, ← List.singleton_append, SelfEventsSent_append, ih]
    simp [SelfEventsSent]

/-- What `HandleStorageProxy` leaves untouched: the continuation flag and the number of
self-events sent. -/
theorem HandleStorageProxy_flag (c : TAgentConsts) (now : Nat) (s : TBlobDepotAgent)
    (ev : TEvent) :
    (HandleStorageProxy c now s ev).ProcessPendingEventInFlight = s.ProcessPendingEventInFlight ∧
    SelfEventsSent (HandleStorageProxy c now s ev).Effects = SelfEventsSent s.Effects := by
  rw [HandleStorageProxy_eq]
  split
  · exact ⟨rfl, by simp [SelfEventsSent_append, SelfEventsSent]⟩
  · split
    · split
      · exact ⟨rfl, by simp [SelfEventsSent_append, SelfEventsSent]⟩
      · exact ⟨rfl, rfl⟩
    · split
      · rw [ProcessStorageEvent_eq]
        refine ⟨rfl, ?_⟩
        simp only [SelfEventsSent_append]
        have := SelfEventsSent_map_ProcessEffect s.TabletId
          [{ Event := ev, Size := 0, ExpirationTimestamp := 0 }]
        simp only [List.map_cons, List.map_nil] at this
        rw [this, Nat.add_zero]
      · exact ⟨rfl, rfl⟩

theorem ClearPendingEventQueue_flag (reason : String) (s s' : TBlobDepotAgent)
    (h : ClearPendingEventQueue reason s = some s') :
    s'.ProcessPendingEventInFlight = s.ProcessPendingEventInFlight ∧
    SelfEventsSent s'.Effects = SelfEventsSent s.Effects := by
  have hF : ∀ (q : List TPendingEvent) (t t' : TBlobDepotAgent), ClearLoop reason q t = some t' →
      t'.ProcessPendingEventInFlight = t.ProcessPendingEventInFlight := by
    intro q
    induction q with
    | nil =>
      intro t t' h
      simp only [ClearLoop, Option.some.injEq] at h
      rw [h]
    | cons item rest ih =>
      intro t t' h
      simp only [ClearLoop] at h
      split at h
      · exact (ih _ _ h).trans rfl
      · cases h
  unfold ClearPendingEventQueue at h
  refine ⟨(hF _ _ _ h).trans rfl, ?_⟩
  rw [ClearLoop_effects reason _ _ _ h, SelfEventsSent_append, SelfEventsSent_map_EndWithError]
  rfl

theorem HandlePendingEventQueueWatchdog_flag (now : Nat) (s : TBlobDepotAgent) :
    (HandlePendingEventQueueWatchdog now s).ProcessPendingEventInFlight
      = s.ProcessPendingEventInFlight ∧
    SelfEventsSent (HandlePendingEventQueueWatchdog now s).Effects
      = SelfEventsSent s.Effects := by
  obtain ⟨_, w2, _, _, w5⟩ := WatchdogLoop_closed now s.PendingEventQ s
  cases hcon : s.IsConnected
  · unfold HandlePendingEventQueueWatchdog
    simp only [hcon, Bool.not_false, if_true]
    refine ⟨w5, ?_⟩
    rw [SelfEventsSent_append, w2, SelfEventsSent_append, SelfEventsSent_map_EndWithError]
    simp [SelfEventsSent]
  · have hW : HandlePendingEventQueueWatchdog now s
        = { s with Effects := s.Effects ++ [TEffect.SchedulePendingEventQueueWatchdog] } := by
      unfold HandlePendingEventQueueWatchdog
      simp only [hcon, Bool.not_true, Bool.false_eq_true, if_false]
    rw [hW]
    refine ⟨rfl, ?_⟩
    rw [SelfEventsSent_append]
    simp [SelfEventsSent]

/-- The continuation flag and the self-events after a drain, in a state whose counter is the
sum of the recorded sizes. -/
theorem HandlePendingEvent_flag (timedOut : Nat → Bool) (s : TBlobDepotAgent)
    (hb : s.PendingEventBytes = QueuedBytes s.PendingEventQ)
    (hlt : s.PendingEventBytes < 2 ^ 64) :
    ∃ s', HandlePendingEvent timedOut s = some s' ∧
      SelfEventsSent s'.Effects = SelfEventsSent s.Effects
        + (if s'.PendingEventQ ≠ [] ∧ s.ProcessPendingEventInFlight = false then 1 else 0) ∧
      s'.ProcessPendingEventInFlight
        = (s.ProcessPendingEventInFlight || decide (s'.PendingEventQ ≠ [])) ∧
      (s'.PendingEventQ ≠ [] → ∃ i, timedOut i = true) := by
  obtain ⟨n, s', h1, h2, _, h4, _, h6, h7, _, _, _, h11⟩ :=
    DrainLoop_fifo timedOut s.PendingEventQ 0 s rfl hb hlt
  have hiff : s'.PendingEventQ ≠ [] ↔ n < s.PendingEventQ.length := by
    rw [h4, Ne, List.drop_eq_nil_iff]
    omega
  refine ⟨s', h1, ?_, ?_, ?_⟩
  · rw [h6, SelfEventsSent_append, SelfEventsSent_append, SelfEventsSent_map_ProcessEffect]
    by_cases hc : n < s.PendingEventQ.length ∧ s.ProcessPendingEventInFlight = false
    · have hc2 : s'.PendingEventQ ≠ [] ∧ s.ProcessPendingEventInFlight = false :=
        ⟨hiff.mpr hc.1, hc.2⟩
      rw [if_pos hc, if_pos hc2]
      simp [SelfEventsSent]
    · have hc2 : ¬ (s'.PendingEventQ ≠ [] ∧ s.ProcessPendingEventInFlight = false) :=
        fun h => hc ⟨hiff.mp h.1, h.2⟩
      rw [if_neg hc, if_neg hc2]
      simp [SelfEventsSent]
  · rw [h7]
    congr 1
    exact decide_eq_decide.mpr hiff.symm
  · intro hne
    exact ⟨_, h11 (hiff.mp hne)⟩

end TBlobDepotAgent

namespace TAgentMailbox

theorem Reachable_Agent (c : TAgentConsts) (m : TAgentMailbox) (h : Reachable c m) :
    TBlobDepotAgent.Reachable c m.Agent := by
  induction h with
  | init s hq hb _ => exact TBlobDepotAgent.Reachable.init s hq hb
  | handleStorageProxy m ev now _ hev ih =>
    exact TBlobDepotAgent.Reachable.handleStorageProxy _ ev now ih hev
  | handlePendingEvent m s timedOut _ hs ih =>
    exact TBlobDepotAgent.Reachable.handlePendingEvent _ s timedOut ih hs
  | deliver m s timedOut _ _ hs ih =>
    exact TBlobDepotAgent.Reachable.handleProcessPendingEvent _ s timedOut ih hs
  | clearPendingEventQueue m s reason _ hs ih =>
    exact TBlobDepotAgent.Reachable.clearPendingEventQueue _ s reason ih hs
  | handlePendingEventQueueWatchdog m now _ ih =>
    exact TBlobDepotAgent.Reachable.handlePendingEventQueueWatchdog _ now ih
  | setConnected m b _ ih => exact TBlobDepotAgent.Reachable.setConnected _ b ih
  | setTabletId m id _ ih => exact TBlobDepotAgent.Reachable.setTabletId _ id ih

/-- The invariant of the continuation flag: at most one self-event is undelivered, and the flag
is set exactly when there is one. -/
theorem flag_invariant (c : TAgentConsts) (m : TAgentMailbox) (h : Reachable c m) :
    m.Undelivered ≤ 1 ∧ (m.Agent.ProcessPendingEventInFlight = true ↔ m.Undelivered = 1) := by
  induction h with
  | init s _ _ hf => exact ⟨by simp, by simp [hf]⟩
  | handleStorageProxy m ev now _ _ ih =>
    obtain ⟨f1, f2⟩ := TBlobDepotAgent.HandleStorageProxy_flag c now m.Agent ev
    simp only [AfterHandler, f1, f2, Nat.sub_self, Nat.add_zero]
    exact ih
  | handlePendingEvent m s timedOut hm hs ih =>
    have hinv := TBlobDepotAgent.BytesInv_of_Reachable c _ (Reachable_Agent c m hm)
    obtain ⟨s', e1, e2, e3, _⟩ :=
      TBlobDepotAgent.HandlePendingEvent_flag timedOut m.Agent hinv.1 hinv.2
    rw [hs] at e1
    cases e1
    simp only [AfterHandler, e2, e3]
    obtain ⟨i1, i2⟩ := ih
    cases hf : m.Agent.ProcessPendingEventInFlight
    · have hu : m.Undelivered = 0 := by
        rcases Nat.lt_or_ge m.Undelivered 1 with h | h
        · omega
        · have := i2.mpr (by omega); rw [hf] at this; cases this
      by_cases hq : s.PendingEventQ ≠ []
      · simp [hq, hu]
      · simp [hq, hu]
    · have hu : m.Undelivered = 1 := i2.mp hf
      simp [hu]
  | deliver m s timedOut hm hpos hs ih =>
    obtain ⟨i1, i2⟩ := ih
    have hu : m.Undelivered = 1 := by omega
    have hf : m.Agent.ProcessPendingEventInFlight = true := i2.mpr hu
    have hinv := TBlobDepotAgent.BytesInv_of_Reachable c _ (Reachable_Agent c m hm)
    unfold TBlobDepotAgent.HandleProcessPendingEvent at hs
    rw [if_pos hf] at hs
    obtain ⟨s', e1, e2, e3, _⟩ := TBlobDepotAgent.HandlePendingEvent_flag timedOut
      { m.Agent with ProcessPendingEventInFlight := false } hinv.1 hinv.2
    rw [hs] at e1
    cases e1
    simp only [AfterHandler, TakeOne, e2, e3, hu]
    by_cases hq : s.PendingEventQ ≠ []
    · simp [hq]
    · simp [hq]
  | clearPendingEventQueue m s reason _ hs ih =>
    obtain ⟨f1, f2⟩ := TBlobDepotAgent.ClearPendingEventQueue_flag reason m.Agent s hs
    simp only [AfterHandler, f1, f2, Nat.sub_self, Nat.add_zero]
    exact ih
  | handlePendingEventQueueWatchdog m now _ ih =>
    obtain ⟨f1, f2⟩ := TBlobDepotAgent.HandlePendingEventQueueWatchdog_flag now m.Agent
    simp only [AfterHandler, f1, f2, Nat.sub_self, Nat.add_zero]
    exact ih
  | setConnected m b _ ih => exact ih
  | setTabletId m id _ ih => exact ih

theorem Reachable_yieldedMailbox : Reachable sampleConsts yieldedMailbox := by
  have h0 : Reachable sampleConsts { Agent := {}, Undelivered := 0 } :=
    Reachable.init {} rfl rfl rfl
  have h1 := Reachable.handleStorageProxy _ evA 0 h0 (by decide)
  have h2 := Reachable.handleStorageProxy _ evB 0 h1 (by decide)
  have h3 := Reachable.setTabletId _ 7 (Reachable.setConnected _ true h2)
  exact Reachable.handlePendingEvent _ drainedB (fun _ => true) h3 HandlePendingEvent_connectedAB

/-- C30: the drain continuation.  Counting the `EvProcessPendingEvent` self-events that were
sent and not yet delivered, in every reachable state of agent and mailbox the count is 0 or 1
and `ProcessPendingEventInFlight` is true exactly when it is 1.  A run of `HandlePendingEvent`
completes and sends a self-event exactly when it stops with a non-empty queue while the flag
was false, which happens only after the timer test succeeded; otherwise it sends none, so the
count stays at most 1.  When a self-event is delivered, `HandleProcessPendingEvent` completes:
its `Y_VERIFY(ProcessPendingEventInFlight)` holds, and its result is that of
`HandlePendingEvent` run with the flag cleared. -/
theorem drain_continuation_flag (c : TAgentConsts) (m : TAgentMailbox) (h : Reachable c m) :
    m.Undelivered ≤ 1 ∧
    (m.Agent.ProcessPendingEventInFlight = true ↔ m.Undelivered = 1) ∧
    (∀ timedOut, ∃ s', TBlobDepotAgent.HandlePendingEvent timedOut m.Agent = some s' ∧
      (TBlobDepotAgent.SelfEventsSent s'.Effects
          = TBlobDepotAgent.SelfEventsSent m.Agent.Effects + 1 ↔
        s'.PendingEventQ ≠ [] ∧ m.Agent.ProcessPendingEventInFlight = false) ∧
      (¬ (s'.PendingEventQ ≠ [] ∧ m.Agent.ProcessPendingEventInFlight = false) →
        TBlobDepotAgent.SelfEventsSent s'.Effects
          = TBlobDepotAgent.SelfEventsSent m.Agent.Effects) ∧
      (s'.PendingEventQ ≠ [] → ∃ i, timedOut i = true) ∧
      (s'.PendingEventQ ≠ [] → s'.ProcessPendingEventInFlight = true) ∧
      (m.AfterHandler s').Undelivered ≤ 1) ∧
    (0 < m.Undelivered → ∀ timedOut,
      ∃ s', TBlobDepotAgent.HandleProcessPendingEvent timedOut m.Agent = some s' ∧
        TBlobDepotAgent.HandlePendingEvent timedOut
          { m.Agent with ProcessPendingEventInFlight := false } = some s' ∧
        (m.TakeOne.AfterHandler s').Undelivered ≤ 1) := by
  obtain ⟨i1, i2⟩ := flag_invariant c m h
  have hinv := TBlobDepotAgent.BytesInv_of_Reachable c _ (Reachable_Agent c m h)
  refine ⟨i1, i2, ?_, ?_⟩
  · intro timedOut
    obtain ⟨s', e1, e2, e3, e4⟩ :=
      TBlobDepotAgent.HandlePendingEvent_flag timedOut m.Agent hinv.1 hinv.2
    refine ⟨s', e1, ?_, ?_, e4, ?_, (flag_invariant c _ (Reachable.handlePendingEvent m s' timedOut h e1)).1⟩
    · rw [e2]
      by_cases hc : s'.PendingEventQ ≠ [] ∧ m.Agent.ProcessPendingEventInFlight = false
      · rw [if_pos hc]
        exact ⟨fun _ => hc, fun _ => rfl⟩
      · rw [if_neg hc]
        simp only [Nat.add_zero, hc, iff_false]
        omega
    · intro hc
      rw [e2, if_neg hc, Nat.add_zero]
    · intro hne
      rw [e3]
      simp [hne]
  · intro hpos timedOut
    have hf : m.Agent.ProcessPendingEventInFlight = true := i2.mpr (by omega)
    obtain ⟨s', e1, _⟩ := TBlobDepotAgent.HandlePendingEvent_flag timedOut
      { m.Agent with ProcessPendingEventInFlight := false } hinv.1 hinv.2
    have e0 : TBlobDepotAgent.HandleProcessPendingEvent timedOut m.Agent = some s' := by
      unfold TBlobDepotAgent.HandleProcessPendingEvent
      rw [if_pos hf]
      exact e1
    exact ⟨s', e0, e1, (flag_invariant c _ (Reachable.deliver m s' timedOut h hpos e0)).1⟩

/-- C30 witness: scenario 4 of §8 in small.  After a drain that the timer stopped with one
event still queued, one self-event is undelivered and the flag is set; its delivery completes
and drains the rest. -/
theorem drain_continuation_flag_witness :
    Reachable sampleConsts yieldedMailbox ∧
    yieldedMailbox.Undelivered = 1 ∧
    yieldedMailbox.Agent.ProcessPendingEventInFlight = true ∧
    yieldedMailbox.Agent.PendingEventQ.map (fun e => e.Event) = [evB] ∧
    ∃ s', TBlobDepotAgent.HandleProcessPendingEvent (fun _ => false) yieldedMailbox.Agent
        = some s' ∧
      s'.PendingEventQ = [] ∧ s'.ProcessPendingEventInFlight = false := by
  obtain ⟨s', h1, h2, _⟩ :=
    (drain_continuation_flag sampleConsts yieldedMailbox Reachable_yieldedMailbox).2.2.2
      (by decide) (fun _ => false)
  refine ⟨Reachable_yieldedMailbox, rfl, rfl, rfl, s', h1, ?_, ?_⟩
  · have : some s' = some _ := h2.symm.trans (rfl : TBlobDepotAgent.HandlePendingEvent
        (fun _ => false) { yieldedMailbox.Agent with ProcessPendingEventInFlight := false }
        = some { drainedB with
            PendingEventQ := []
            PendingEventBytes := 0
            ProcessPendingEventInFlight := false
            Effects := drainedB.Effects ++ [TEffect.Initiate evB] })
    cases this
    rfl
  · have : some s' = some _ := h2.symm.trans (rfl : TBlobDepotAgent.HandlePendingEvent
        (fun _ => false) { yieldedMailbox.Agent with ProcessPendingEventInFlight := false }
        = some { drainedB with
            PendingEventQ := []
            PendingEventBytes := 0
            ProcessPendingEventInFlight := false
            Effects := drainedB.Effects ++ [TEffect.Initiate evB] })
    cases this
    rfl

end TAgentMailbox

end NBlobDepot
namespace NBlobDepot

/-! ## Query registry: the deadline index -/

theorem mem_MapInsert (k : Nat) (p : TQueryPtr) (m : List (Nat × TQueryPtr))
    (e : Nat × TQueryPtr) : e ∈ MapInsert k p m ↔ e = (k, p) ∨ e ∈ m := by
  induction m with
  | nil => simp [MapInsert]
  | cons a l ih =>
    unfold MapInsert
    split
    · simp only [List.mem_cons, ih]
      tauto
    · simp only [List.mem_cons]

theorem MapInsert_perm (k : Nat) (p : TQueryPtr) (m : List (Nat × TQueryPtr)) :
    List.Perm (MapInsert k p m) ((k, p) :: m) := by
  induction m with
  | nil => exact List.Perm.refl _
  | cons a l ih =>
    unfold MapInsert
    split
    · exact (List.Perm.cons a ih).trans (List.Perm.swap _ _ _)
    · exact List.Perm.refl _

theorem MapInsert_sorted (k : Nat) (p : TQueryPtr) (m : List (Nat × TQueryPtr))
    (h : m.Pairwise (fun a b => a.1 ≤ b.1)) :
    (MapInsert k p m).Pairwise (fun a b => a.1 ≤ b.1) := by
  induction m with
  | nil => simp [MapInsert]
  | cons a l ih =>
    rw [List.pairwise_cons] at h
    unfold MapInsert
    split
    · rename_i hle
      rw [List.pairwise_cons]
      refine ⟨?_, ih h.2⟩
      intro b hb
      rw [mem_MapInsert] at hb
      rcases hb with hb | hb
      · rw [hb]; exact hle
      · exact h.1 b hb
    · rename_i hle
      rw [List.pairwise_cons, List.pairwise_cons]
      refine ⟨?_, h⟩
      intro b hb
      rcases List.mem_cons.mp hb with hb | hb
      · rw [hb]; simp only []; omega
      · have := h.1 b hb
        simp only [] at this ⊢
        omega

theorem MapInsert_length (k : Nat) (p : TQueryPtr) (m : List (Nat × TQueryPtr)) :
    (MapInsert k p m).length = m.length + 1 := by
  rw [(MapInsert_perm k p m).length_eq, List.length_cons]

theorem MapInsert_append_of_le (k : Nat) (p : TQueryPtr) (a b : List (Nat × TQueryPtr))
    (h : ∀ e ∈ a, e.1 ≤ k) : MapInsert k p (a ++ b) = a ++ MapInsert k p b := by
  induction a with
  | nil => rfl
  | cons x l ih =>
    have hx : x.1 ≤ k := h x (List.mem_cons_self _ _)
    rw [List.cons_append, MapInsert, if_pos hx, ih (fun e he => h e (List.mem_cons_of_mem _ he))]
    rfl

theorem MapUpperBound_append_of_le (k : Nat) (a b : List (Nat × TQueryPtr))
    (h : ∀ e ∈ a, e.1 ≤ k) : MapUpperBound k (a ++ b) = a.length + MapUpperBound k b := by
  induction a with
  | nil => simp
  | cons x l ih =>
    have hx : x.1 ≤ k := h x (List.mem_cons_self _ _)
    rw [List.cons_append, MapUpperBound, if_pos hx,
      ih (fun e he => h e (List.mem_cons_of_mem _ he)), List.length_cons]
    omega

end NBlobDepot
namespace NBlobDepot

namespace TQueryRegistry

/-! ## Query registry: the invariant -/

theorem MapInv_congr (reg reg' : TQueryRegistry)
    (hm : reg'.QueryWatchdogMap = reg.QueryWatchdogMap)
    (hq : ∀ p, (reg'.Queries p).map (fun q => q.QueryWatchdogMapIter)
      = (reg.Queries p).map (fun q => q.QueryWatchdogMapIter))
    (h : MapInv reg) : MapInv reg' := by
  obtain ⟨h1, h2, h3, h4⟩ := h
  refine ⟨by rw [hm]; exact h1, ?_, by rw [hm]; exact h3, ?_⟩
  · intro e he
    rw [hm] at he
    obtain ⟨q, hq1, hq2⟩ := h2 e he
    have := hq e.2
    rw [hq1] at this
    cases hq' : reg'.Queries e.2 with
    | none => rw [hq'] at this; cases this
    | some q' =>
      rw [hq'] at this
      simp only [Option.map_some', Option.some.injEq] at this
      exact ⟨q', rfl, this.trans hq2⟩
  · intro p q' hq'
    have := hq p
    rw [hq'] at this
    cases hq0 : reg.Queries p with
    | none => rw [hq0] at this; cases this
    | some q =>
      rw [hq0] at this
      simp only [Option.map_some', Option.some.injEq] at this
      rw [hm, this]
      exact h4 p q hq0

theorem MapInv_Construct (wd now : Nat) (reg : TQueryRegistry) (self : TQueryPtr)
    (event : TEvent) (queryId : Nat) (hfresh : reg.Queries self = none) (h : MapInv reg) :
    MapInv (TQuery.Construct wd now reg self event queryId) := by
  obtain ⟨h1, h2, h3, h4⟩ := h
  have hnot : ∀ e ∈ reg.QueryWatchdogMap, e.2 ≠ self := by
    intro e he heq
    obtain ⟨q, hq, _⟩ := h2 e he
    rw [heq, hfresh] at hq
    cases hq
  refine ⟨MapInsert_sorted _ _ _ h1, ?_, ?_, ?_⟩
  · intro e he
    simp only [TQuery.Construct] at he ⊢
    rw [mem_MapInsert] at he
    rcases he with he | he
    · rw [he]
      exact ⟨_, Function.update_same _ _ _, rfl⟩
    · obtain ⟨q, hq, hk⟩ := h2 e he
      exact ⟨q, by rw [Function.update_noteq (hnot e he)]; exact hq, hk⟩
  · simp only [TQuery.Construct]
    rw [((MapInsert_perm _ _ _).map _).nodup_iff, List.map_cons, List.nodup_cons]
    refine ⟨?_, h3⟩
    intro hmem
    obtain ⟨e, he, heq⟩ := List.mem_map.mp hmem
    exact hnot e he heq
  · intro p q hq
    simp only [TQuery.Construct] at hq ⊢
    rw [mem_MapInsert]
    by_cases hp : p = self
    · rw [hp, Function.update_same] at hq
      cases hq
      left; rw [hp]
    · rw [Function.update_noteq hp] at hq
      right; exact h4 p q hq

theorem erase_snd_ne (m : List (Nat × TQueryPtr)) (hn : (m.map (fun e => e.2)).Nodup)
    (k : Nat) (self : TQueryPtr) (e : Nat × TQueryPtr) (he : e ∈ m.erase (k, self))
    (hk : (k, self) ∈ m) : e.2 ≠ self := by
  intro heq
  have hpair : m.Nodup := List.Nodup.of_map _ hn
  have hem : e ∈ m := List.mem_of_mem_erase he
  have : e = (k, self) := List.inj_on_of_nodup_map hn hem hk heq
  rw [this] at he
  exact (List.Nodup.not_mem_erase hpair) he

theorem MapInv_CheckQueryExecutionTime (wd now : Nat) (reg : TQueryRegistry) (self : TQueryPtr)
    (q : TQuery) (hq : reg.Queries self = some q) (h : MapInv reg) :
    TQuery.CheckQueryExecutionTime wd now reg self = some
      { reg with
        Effects := reg.Effects ++ [TQueryEffect.StillExecuting q.WatchdogPriority self]
        QueryWatchdogMap := MapInsert (now + wd) self
          (reg.QueryWatchdogMap.erase (q.QueryWatchdogMapIter, self))
        Queries := Function.update reg.Queries self (some
          { q with
            WatchdogPriority := EPriority.PRI_NOTICE
            QueryWatchdogMapIter := now + wd }) } ∧
    MapInv
      { reg with
        Effects := reg.Effects ++ [TQueryEffect.StillExecuting q.WatchdogPriority self]
        QueryWatchdogMap := MapInsert (now + wd) self
          (reg.QueryWatchdogMap.erase (q.QueryWatchdogMapIter, self))
        Queries := Function.update reg.Queries self (some
          { q with
            WatchdogPriority := EPriority.PRI_NOTICE
            QueryWatchdogMapIter := now + wd }) } := by
  obtain ⟨h1, h2, h3, h4⟩ := h
  have hnode := h4 self q hq
  constructor
  · unfold TQuery.CheckQueryExecutionTime
    simp only [hq, hnode, if_true]
  · have hsub : List.Sublist (reg.QueryWatchdogMap.erase (q.QueryWatchdogMapIter, self))
        reg.QueryWatchdogMap := List.erase_sublist _ _
    refine ⟨MapInsert_sorted _ _ _ (h1.sublist hsub), ?_, ?_, ?_⟩
    · intro e he
      simp only [] at he ⊢
      rw [mem_MapInsert] at he
      rcases he with he | he
      · rw [he]
        exact ⟨_, Function.update_same _ _ _, rfl⟩
      · have hne := erase_snd_ne _ h3 _ _ e he hnode
        obtain ⟨q', hq', hk⟩ := h2 e (List.mem_of_mem_erase he)
        exact ⟨q', by rw [Function.update_noteq hne]; exact hq', hk⟩
    · simp only []
      rw [((MapInsert_perm _ _ _).map _).nodup_iff, List.map_cons, List.nodup_cons]
      refine ⟨?_, h3.sublist (hsub.map _)⟩
      intro hmem
      obtain ⟨e, he, heq⟩ := List.mem_map.mp hmem
      exact erase_snd_ne _ h3 _ _ e he hnode heq
    · intro p q' hq'
      simp only [] at hq' ⊢
      rw [mem_MapInsert]
      by_cases hp : p = self
      · rw [hp, Function.update_same] at hq'
        cases hq'
        left; rw [hp]
      · rw [Function.update_noteq hp] at hq'
        right
        refine (List.mem_erase_of_ne ?_).mpr (h4 p q' hq')
        intro heq
        exact hp (congrArg Prod.snd heq)

theorem MapInv_Destruct (reg : TQueryRegistry) (self : TQueryPtr)
    (q : TQuery) (hq : reg.Queries self = some q) (h : MapInv reg) :
    TQuery.Destruct reg self = some
      { reg with
        QueryWatchdogMap := reg.QueryWatchdogMap.erase (q.QueryWatchdogMapIter, self)
        Queries := Function.update reg.Queries self none } ∧
    MapInv
      { reg with
        QueryWatchdogMap := reg.QueryWatchdogMap.erase (q.QueryWatchdogMapIter, self)
        Queries := Function.update reg.Queries self none } := by
  obtain ⟨h1, h2, h3, h4⟩ := h
  have hnode := h4 self q hq
  constructor
  · unfold TQuery.Destruct
    simp only [hq, hnode, if_true]
  · have hsub : List.Sublist (reg.QueryWatchdogMap.erase (q.QueryWatchdogMapIter, self))
        reg.QueryWatchdogMap := List.erase_sublist _ _
    refine ⟨h1.sublist hsub, ?_, h3.sublist (hsub.map _), ?_⟩
    · intro e he
      simp only [] at he ⊢
      have hne := erase_snd_ne _ h3 _ _ e he hnode
      obtain ⟨q', hq', hk⟩ := h2 e (List.mem_of_mem_erase he)
      exact ⟨q', by rw [Function.update_noteq hne]; exact hq', hk⟩
    · intro p q' hq'
      simp only [] at hq' ⊢
      by_cases hp : p = self
      · rw [hp, Function.update_same] at hq'
        cases hq'
      · rw [Function.update_noteq hp] at hq'
        refine (List.mem_erase_of_ne ?_).mpr (h4 p q' hq')
        intro heq
        exact hp (congrArg Prod.snd heq)

end TQueryRegistry

end NBlobDepot
namespace NBlobDepot

namespace TQueryRegistry

theorem PendingInv_congr (reg reg' : TQueryRegistry) (ps : List TQueryPtr)
    (hq : ∀ p, (reg'.Queries p).map (fun q => q.Destroyed)
      = (reg.Queries p).map (fun q => q.Destroyed))
    (h : PendingInv reg ps) : PendingInv reg' ps := by
  obtain ⟨h1, h2⟩ := h
  refine ⟨?_, h2⟩
  intro p
  rw [h1 p]
  have := hq p
  constructor
  · rintro ⟨q, hq1, hq2⟩
    rw [hq1] at this
    cases hq' : reg'.Queries p with
    | none => rw [hq'] at this; cases this
    | some q' =>
      rw [hq'] at this
      simp only [Option.map_some', Option.some.injEq] at this
      exact ⟨q', rfl, this.trans hq2⟩
  · rintro ⟨q', hq1, hq2⟩
    rw [hq1] at this
    cases hq0 : reg.Queries p with
    | none => rw [hq0] at this; cases this
    | some q =>
      rw [hq0] at this
      simp only [Option.map_some', Option.some.injEq] at this
      exact ⟨q, rfl, this.symm.trans hq2⟩

theorem DoDestroy_eq (reg : TQueryRegistry) (self : TQueryPtr) (q : TQuery)
    (hq : reg.Queries self = some q) (hlive : q.Destroyed = false) :
    TQuery.DoDestroy reg self = some (AfterTermination reg self q []) := by
  unfold TQuery.DoDestroy AfterTermination
  simp only [hq, hlive, Bool.false_eq_true, if_false, List.append_nil]

theorem DoDestroy_none (reg : TQueryRegistry) (self : TQueryPtr) (q : TQuery)
    (hq : reg.Queries self = some q) (hdead : q.Destroyed = true) :
    TQuery.DoDestroy reg self = none := by
  unfold TQuery.DoDestroy
  simp only [hq, hdead, if_true]

theorem EndWithError_eq (reg : TQueryRegistry) (self : TQueryPtr) (q : TQuery)
    (status : EReplyStatus) (errorReason : String)
    (hq : reg.Queries self = some q) (hlive : q.Destroyed = false) :
    TQuery.EndWithError reg self status errorReason = some (AfterTermination reg self q
      [TQueryEffect.Send q.Event.Sender q.Event.Cookie
         { Status := status, ErrorReason := errorReason },
       TQueryEffect.OnDestroy self false]) := by
  unfold TQuery.EndWithError TQuery.DoDestroy AfterTermination TEvent.MakeErrorResponse
  simp only [hq, hlive, Bool.false_eq_true, if_false]

theorem EndWithSuccess_eq (reg : TQueryRegistry) (self : TQueryPtr) (q : TQuery)
    (response : TResponse)
    (hq : reg.Queries self = some q) (hlive : q.Destroyed = false) :
    TQuery.EndWithSuccess reg self response = some (AfterTermination reg self q
      [TQueryEffect.Send q.Event.Sender q.Event.Cookie response,
       TQueryEffect.OnDestroy self true]) := by
  unfold TQuery.EndWithSuccess TQuery.DoDestroy AfterTermination
  simp only [hq, hlive, Bool.false_eq_true, if_false]

theorem EndWithError_some (reg reg' : TQueryRegistry) (self : TQueryPtr)
    (status : EReplyStatus) (errorReason : String)
    (h : TQuery.EndWithError reg self status errorReason = some reg') :
    ∃ q, reg.Queries self = some q ∧ q.Destroyed = false := by
  unfold TQuery.EndWithError at h
  cases hq : reg.Queries self with
  | none => rw [hq] at h; cases h
  | some q =>
    refine ⟨q, rfl, ?_⟩
    cases hd : q.Destroyed with
    | false => rfl
    | true =>
      rw [hq] at h
      simp only [] at h
      rw [DoDestroy_none _ self q (by exact hq) hd] at h
      cases h

theorem EndWithSuccess_some (reg reg' : TQueryRegistry) (self : TQueryPtr)
    (response : TResponse)
    (h : TQuery.EndWithSuccess reg self response = some reg') :
    ∃ q, reg.Queries self = some q ∧ q.Destroyed = false := by
  unfold TQuery.EndWithSuccess at h
  cases hq : reg.Queries self with
  | none => rw [hq] at h; cases h
  | some q =>
    refine ⟨q, rfl, ?_⟩
    cases hd : q.Destroyed with
    | false => rfl
    | true =>
      rw [hq] at h
      simp only [] at h
      rw [DoDestroy_none _ self q (by exact hq) hd] at h
      cases h

theorem Inv_AfterTermination (reg : TQueryRegistry) (self : TQueryPtr) (q : TQuery)
    (sent : List TQueryEffect) (hq : reg.Queries self = some q) (hlive : q.Destroyed = false)
    (h : Inv reg) : Inv (AfterTermination reg self q sent) := by
  obtain ⟨hm, hp, hn⟩ := h
  have hnotin : self ∉ reg.DeletePendingQueries := by
    intro hmem
    obtain ⟨q', hq', hd⟩ := (hp self).mp hmem
    rw [hq] at hq'
    cases hq'
    rw [hlive] at hd
    cases hd
  refine ⟨MapInv_congr reg _ rfl ?_ hm, ?_, ?_⟩
  · intro p
    simp only [AfterTermination]
    by_cases hps : p = self
    · rw [hps, Function.update_same, hq]; rfl
    · rw [Function.update_noteq hps]
  · intro p
    simp only [AfterTermination, List.mem_append, List.mem_singleton]
    by_cases hps : p = self
    · rw [hps, Function.update_same]
      exact ⟨fun _ => ⟨_, rfl, rfl⟩, fun _ => Or.inr rfl⟩
    · rw [Function.update_noteq hps, ← hp p]
      exact ⟨fun h => h.resolve_right hps, Or.inl⟩
  · simp only [AfterTermination]
    rw [List.nodup_append]
    refine ⟨hn, List.nodup_singleton _, ?_⟩
    intro a ha hb
    rw [List.mem_singleton] at hb
    rw [hb] at ha
    exact hnotin ha

theorem Inv_Construct (wd now : Nat) (reg : TQueryRegistry) (self : TQueryPtr)
    (event : TEvent) (queryId : Nat) (hfresh : reg.Queries self = none) (h : Inv reg) :
    Inv (TQuery.Construct wd now reg self event queryId) := by
  obtain ⟨hm, hp, hn⟩ := h
  refine ⟨MapInv_Construct wd now reg self event queryId hfresh hm, ?_, hn⟩
  intro p
  simp only [TQuery.Construct]
  by_cases hps : p = self
  · rw [hps, Function.update_same]
    constructor
    · intro hmem
      obtain ⟨q', hq', _⟩ := (hp self).mp hmem
      rw [hfresh] at hq'
      cases hq'
    · rintro ⟨q', hq', hd⟩
      cases hq'
      cases hd
  · rw [Function.update_noteq hps]
    exact hp p

theorem Inv_CheckQueryExecutionTime (wd now : Nat) (reg reg' : TQueryRegistry)
    (self : TQueryPtr) (h : Inv reg)
    (hc : TQuery.CheckQueryExecutionTime wd now reg self = some reg') :
    Inv reg' ∧ reg'.DeletePendingQueries = reg.DeletePendingQueries ∧
      reg'.ExecutingQueries = reg.ExecutingQueries ∧
      reg'.PendingBlockChecks = reg.PendingBlockChecks ∧ reg'.PendingId = reg.PendingId := by
  obtain ⟨hm, hp⟩ := h
  cases hq : reg.Queries self with
  | none =>
    unfold TQuery.CheckQueryExecutionTime at hc
    rw [hq] at hc
    cases hc
  | some q =>
    obtain ⟨e1, e2⟩ := MapInv_CheckQueryExecutionTime wd now reg self q hq hm
    rw [e1] at hc
    cases hc
    refine ⟨⟨e2, ?_⟩, rfl, rfl, rfl, rfl⟩
    refine PendingInv_congr reg _ _ ?_ hp
    intro p
    simp only []
    by_cases hps : p = self
    · rw [hps, Function.update_same, hq]; rfl
    · rw [Function.update_noteq hps]

theorem Inv_QueryWatchdogLoop (wd now : Nat) :
    ∀ (fuel it : Nat) (reg reg' : TQueryRegistry), Inv reg →
      QueryWatchdogLoop wd now fuel it reg = some reg' →
      Inv reg' ∧ reg'.DeletePendingQueries = reg.DeletePendingQueries := by
  intro fuel
  induction fuel with
  | zero =>
    intro it reg reg' _ h
    simp only [QueryWatchdogLoop] at h
    cases h
  | succ fuel ih =>
    intro it reg reg' hinv h
    simp only [QueryWatchdogLoop] at h
    split at h
    · cases h
      exact ⟨hinv, rfl⟩
    · split at h
      · split at h
        · cases h
        · split at h
          · cases h
          · rename_i reg1 hc
            obtain ⟨i1, i2, _⟩ := Inv_CheckQueryExecutionTime wd now reg reg1 _ hinv hc
            obtain ⟨j1, j2⟩ := ih _ reg1 reg' i1 h
            exact ⟨j1, j2.trans i2⟩
      · cases h
        exact ⟨hinv, rfl⟩

theorem DestructAll_spec :
    ∀ (ps : List TQueryPtr) (reg : TQueryRegistry), MapInv reg → PendingInv reg ps →
      ∃ reg', DestructAll ps reg = some reg' ∧ MapInv reg' ∧ PendingInv reg' [] ∧
        reg'.DeletePendingQueries = reg.DeletePendingQueries ∧
        reg'.ExecutingQueries = reg.ExecutingQueries ∧
        reg'.PendingBlockChecks = reg.PendingBlockChecks ∧
        reg'.PendingId = reg.PendingId ∧ reg'.Effects = reg.Effects ∧
        (∀ p, reg'.Queries p = if p ∈ ps then none else reg.Queries p) := by
  intro ps
  induction ps with
  | nil =>
    intro reg hm hp
    exact ⟨reg, rfl, hm, hp, rfl, rfl, rfl, rfl, rfl, fun p => by simp⟩
  | cons a ps ih =>
    intro reg hm hp
    obtain ⟨q, hq, hd⟩ := (hp.1 a).mp (List.mem_cons_self _ _)
    obtain ⟨e1, e2⟩ := MapInv_Destruct reg a q hq hm
    have hnd := List.nodup_cons.mp hp.2
    have hp' : PendingInv
        { reg with
          QueryWatchdogMap := reg.QueryWatchdogMap.erase (q.QueryWatchdogMapIter, a)
          Queries := Function.update reg.Queries a none } ps := by
      refine ⟨?_, hnd.2⟩
      intro p
      simp only []
      by_cases hpa : p = a
      · rw [hpa, Function.update_same]
        constructor
        · intro hmem; exact absurd hmem hnd.1
        · rintro ⟨q', hq', _⟩; cases hq'
      · rw [Function.update_noteq hpa, ← hp.1 p, List.mem_cons]
        exact ⟨Or.inr, fun h => h.resolve_left hpa⟩
    obtain ⟨reg', r1, r2, r3, r4, r5, r6, r7, r8, r9⟩ := ih _ e2 hp'
    refine ⟨reg', ?_, r2, r3, r4, r5, r6, r7, r8, ?_⟩
    · simp only [DestructAll, e1]
      exact r1
    · intro p
      rw [r9 p]
      simp only [List.mem_cons]
      by_cases hpa : p = a
      · rw [hpa, Function.update_same]
        simp
      · rw [Function.update_noteq hpa]
        simp [hpa]

theorem FlushDeletePending_spec (reg : TQueryRegistry) (h : Inv reg) :
    ∃ reg', FlushDeletePending reg = some reg' ∧ Inv reg' ∧ reg'.DeletePendingQueries = [] ∧
      (∀ p, reg'.Queries p = if p ∈ reg.DeletePendingQueries then none else reg.Queries p) ∧
      (∀ p q, reg'.Queries p = some q → q.Destroyed = false) := by
  obtain ⟨hm, hp⟩ := h
  obtain ⟨reg', r1, r2, r3, r4, _, _, _, _, r9⟩ :=
    DestructAll_spec reg.DeletePendingQueries { reg with DeletePendingQueries := [] }
      ⟨hm.1, hm.2, hm.3, hm.4⟩ ⟨hp.1, hp.2⟩
  simp only [] at r4
  refine ⟨reg', r1, ⟨r2, by rw [r4]; exact r3⟩, r4, r9, ?_⟩
  intro p q hq
  cases hd : q.Destroyed with
  | false => rfl
  | true =>
    have := (r3.1 p).mpr ⟨q, hq, hd⟩
    cases this

theorem Inv_of_Reachable (wd : Nat) (reg : TQueryRegistry) (h : Reachable wd reg) :
    Inv reg := by
  induction h with
  | init =>
    refine ⟨⟨List.Pairwise.nil, ?_, List.nodup_nil, ?_⟩, ⟨?_, List.nodup_nil⟩⟩
    · intro e he; cases he
    · intro p q hq; cases hq
    · intro p
      constructor
      · intro hmem; cases hmem
      · rintro ⟨q, hq, _⟩; cases hq
  | construct reg now self event queryId _ hfresh ih =>
    exact Inv_Construct wd now reg self event queryId hfresh ih
  | endWithError reg reg' self status errorReason _ hs ih =>
    obtain ⟨q, hq, hlive⟩ := EndWithError_some reg reg' self status errorReason hs
    rw [EndWithError_eq reg self q status errorReason hq hlive] at hs
    cases hs
    exact Inv_AfterTermination reg self q _ hq hlive ih
  | endWithSuccess reg reg' self response _ hs ih =>
    obtain ⟨q, hq, hlive⟩ := EndWithSuccess_some reg reg' self response hs
    rw [EndWithSuccess_eq reg self q response hq hlive] at hs
    cases hs
    exact Inv_AfterTermination reg self q _ hq hlive ih
  | handleQueryWatchdog reg reg' now fuel _ hs ih =>
    unfold HandleQueryWatchdog at hs
    split at hs
    · cases hs
    · rename_i reg1 hl
      cases hs
      obtain ⟨j1, j2⟩ := Inv_QueryWatchdogLoop wd now fuel 0 reg reg1 ih hl
      exact ⟨⟨j1.1.1, j1.1.2, j1.1.3, j1.1.4⟩, ⟨j1.2.1, j1.2.2⟩⟩
  | flushDeletePending reg reg' _ hs ih =>
    obtain ⟨r, r1, r2, _⟩ := FlushDeletePending_spec reg ih
    rw [hs] at r1
    cases r1
    exact r2
  | linkExecuting reg self q _ _ _ ih =>
    exact ⟨⟨ih.1.1, ih.1.2, ih.1.3, ih.1.4⟩, ⟨ih.2.1, ih.2.2⟩⟩
  | linkPendingBlockChecks reg self q _ _ _ ih =>
    exact ⟨⟨ih.1.1, ih.1.2, ih.1.3, ih.1.4⟩, ⟨ih.2.1, ih.2.2⟩⟩
  | linkPendingId reg self q _ _ _ ih =>
    exact ⟨⟨ih.1.1, ih.1.2, ih.1.3, ih.1.4⟩, ⟨ih.2.1, ih.2.2⟩⟩

end TQueryRegistry

end NBlobDepot
namespace NBlobDepot

namespace TQueryRegistry

/-! ## Query registry: the properties -/

theorem Reachable_oneQuery : Reachable 10 oneQuery :=
  Reachable.construct {} 0 1 evA 42 Reachable.init rfl

theorem EndWithError_oneQuery :
    TQuery.EndWithError oneQuery 1 EReplyStatus.ERROR "group is in error state"
      = some endedQuery :=
  EndWithError_eq oneQuery 1 queryA EReplyStatus.ERROR "group is in error state" rfl rfl

theorem Reachable_endedQuery : Reachable 10 endedQuery :=
  Reachable.endWithError oneQuery endedQuery 1 EReplyStatus.ERROR "group is in error state"
    Reachable_oneQuery EndWithError_oneQuery

/-- C27, counterexample.  A query is constructed at time 0 with a watchdog duration of 10 and
ended at once with `EndWithError`, as `ProcessStorageEvent` does without a tablet.  Right after
`EndWithError` has returned the query is destroyed (`Destroyed = true`, on the destruction
list) and its node (10, query) is still in `QueryWatchdogMap`. -/
theorem destroyed_query_keeps_its_node :
    oneQuery = TQuery.Construct 10 0 {} 1 evA 42 ∧
    TQuery.EndWithError oneQuery 1 EReplyStatus.ERROR "group is in error state"
      = some endedQuery ∧
    Reachable 10 endedQuery ∧
    (∃ q, endedQuery.Queries 1 = some q ∧ q.Destroyed = true) ∧
    endedQuery.QueryWatchdogMap = [(10, 1)] ∧
    endedQuery.DeletePendingQueries = [1] ∧
    ¬ ((∃ k, (k, 1) ∈ endedQuery.QueryWatchdogMap) ↔
      ∃ q, endedQuery.Queries 1 = some q ∧ q.Destroyed = false) := by
  refine ⟨rfl, EndWithError_oneQuery, Reachable_endedQuery, ⟨_, rfl, rfl⟩, rfl, rfl, ?_⟩
  intro h
  obtain ⟨q, hq, hd⟩ := h.mp ⟨10, by decide⟩
  have : endedQuery.Queries 1 = some { queryA with Destroyed := true } := rfl
  rw [this] at hq
  cases hq
  cases hd

/-- C27, as the code has it.  In every reachable state of the registry a query has a node in
`QueryWatchdogMap` exactly when its object exists, that is from its construction to its
destructor; it then has exactly one node, under the key stored in its iterator.  A query is
destroyed (`Destroyed = true`) exactly when it is on the destruction list, and it keeps its
node until the list is flushed; the flush completes, and right after it a query has a node
exactly when it exists and is not destroyed.  The constructor inserts the one node of a new
query under the key `StartTime + WatchdogDuration`. -/
theorem deadline_index_membership (wd : Nat) (reg : TQueryRegistry) (h : Reachable wd reg) :
    (∀ p, (∃ k, (k, p) ∈ reg.QueryWatchdogMap) ↔ ∃ q, reg.Queries p = some q) ∧
    (∀ p q, reg.Queries p = some q →
      (q.QueryWatchdogMapIter, p) ∈ reg.QueryWatchdogMap ∧
      (reg.QueryWatchdogMap.map (fun e => e.2)).count p = 1) ∧
    (∀ p q, reg.Queries p = some q →
      (q.Destroyed = true ↔ p ∈ reg.DeletePendingQueries)) ∧
    (∃ reg', FlushDeletePending reg = some reg' ∧ reg'.DeletePendingQueries = [] ∧
      ∀ p, (∃ k, (k, p) ∈ reg'.QueryWatchdogMap) ↔
        ∃ q, reg'.Queries p = some q ∧ q.Destroyed = false) ∧
    (∀ now self event queryId, reg.Queries self = none →
      (reg.QueryWatchdogMap.map (fun e => e.2)).count self = 0 ∧
      (TQuery.Construct wd now reg self event queryId).QueryWatchdogMap
        = MapInsert (now + wd) self reg.QueryWatchdogMap ∧
      (TQuery.Construct wd now reg self event queryId).Queries self = some
        { Event := event, QueryId := queryId, StartTime := now,
          QueryWatchdogMapIter := now + wd } ∧
      ((TQuery.Construct wd now reg self event queryId).QueryWatchdogMap.map
        (fun e => e.2)).count self = 1) := by
  have hinv := Inv_of_Reachable wd reg h
  have hentry : ∀ r : TQueryRegistry, MapInv r →
      ∀ p, (∃ k, (k, p) ∈ r.QueryWatchdogMap) ↔ ∃ q, r.Queries p = some q := by
    intro r hr p
    constructor
    · rintro ⟨k, hk⟩
      obtain ⟨q, hq, _⟩ := hr.owner (k, p) hk
      exact ⟨q, hq⟩
    · rintro ⟨q, hq⟩
      exact ⟨_, hr.node p q hq⟩
  have hcount : ∀ r : TQueryRegistry, MapInv r → ∀ p q, r.Queries p = some q →
      (r.QueryWatchdogMap.map (fun e => e.2)).count p = 1 := by
    intro r hr p q hq
    refine List.count_eq_one_of_mem hr.nodup ?_
    exact List.mem_map.mpr ⟨_, hr.node p q hq, rfl⟩
  refine ⟨hentry reg hinv.map, ?_, ?_, ?_, ?_⟩
  · intro p q hq
    exact ⟨hinv.map.node p q hq, hcount reg hinv.map p q hq⟩
  · intro p q hq
    rw [hinv.del.pending p]
    constructor
    · intro hd; exact ⟨q, hq, hd⟩
    · rintro ⟨q', hq', hd⟩
      rw [hq] at hq'
      cases hq'
      exact hd
  · obtain ⟨reg', r1, r2, r3, _, r5⟩ := FlushDeletePending_spec reg hinv
    refine ⟨reg', r1, r3, ?_⟩
    intro p
    rw [hentry reg' r2.map p]
    constructor
    · rintro ⟨q, hq⟩; exact ⟨q, hq, r5 p q hq⟩
    · rintro ⟨q, hq, _⟩; exact ⟨q, hq⟩
  · intro now self event queryId hfresh
    have hc := Inv_Construct wd now reg self event queryId hfresh hinv
    refine ⟨?_, rfl, ?_, ?_⟩
    · rw [List.count_eq_zero]
      intro hmem
      obtain ⟨e, he, heq⟩ := List.mem_map.mp hmem
      obtain ⟨q, hq, _⟩ := hinv.map.owner e he
      rw [heq, hfresh] at hq
      cases hq
    · simp only [TQuery.Construct, Function.update_same]
    · refine hcount _ hc.map self
        { Event := event, QueryId := queryId, StartTime := now,
          QueryWatchdogMapIter := now + wd } ?_
      simp only [TQuery.Construct, Function.update_same]

/-- C27 witness: in the reachable state `endedQuery` the destroyed query is on the destruction
list and has its one node; the flush removes it. -/
theorem deadline_index_membership_witness :
    Reachable 10 endedQuery ∧
    ((∃ k, (k, 1) ∈ endedQuery.QueryWatchdogMap) ↔ ∃ q, endedQuery.Queries 1 = some q) ∧
    (endedQuery.QueryWatchdogMap.map (fun e => e.2)).count 1 = 1 ∧
    1 ∈ endedQuery.DeletePendingQueries :=
  ⟨Reachable_endedQuery,
    (deadline_index_membership 10 endedQuery Reachable_endedQuery).1 1,
    ((deadline_index_membership 10 endedQuery Reachable_endedQuery).2.1 1
      { queryA with Destroyed := true } rfl).2,
    by decide⟩

end TQueryRegistry

end NBlobDepot
namespace NBlobDepot

namespace TQueryRegistry

/-- C28: exactly-once termination.  For a query that exists and is not destroyed, in a reachable
state of the registry, `EndWithError` and `EndWithSuccess` complete; each sends one response, to
`Event->Sender` with `Event->Cookie`, sets `Destroyed`, unlinks the query from the three
membership lists and appends it to the destruction list, where it then stands exactly once, the
list having no duplicates before and after.  Nothing else changes.  A further `EndWithError` or
`EndWithSuccess` on the same query fails the `Y_VERIFY(!Destroyed)` of `DoDestroy`. -/
theorem termination_exactly_once (wd : Nat) (reg : TQueryRegistry) (self : TQueryPtr)
    (q : TQuery) (hreach : Reachable wd reg) (hq : reg.Queries self = some q)
    (hlive : q.Destroyed = false) :
    reg.DeletePendingQueries.Nodup ∧ self ∉ reg.DeletePendingQueries ∧
    (∀ status errorReason,
      TQuery.EndWithError reg self status errorReason = some (AfterTermination reg self q
        [TQueryEffect.Send q.Event.Sender q.Event.Cookie
           { Status := status, ErrorReason := errorReason },
         TQueryEffect.OnDestroy self false])) ∧
    (∀ response,
      TQuery.EndWithSuccess reg self response = some (AfterTermination reg self q
        [TQueryEffect.Send q.Event.Sender q.Event.Cookie response,
         TQueryEffect.OnDestroy self true])) ∧
    (∀ sent,
      (AfterTermination reg self q sent).Effects = reg.Effects ++ sent ∧
      (AfterTermination reg self q sent).Queries self = some { q with Destroyed := true } ∧
      (∀ p, p ≠ self → (AfterTermination reg self q sent).Queries p = reg.Queries p) ∧
      (AfterTermination reg self q sent).QueryWatchdogMap = reg.QueryWatchdogMap ∧
      self ∉ (AfterTermination reg self q sent).ExecutingQueries ∧
      self ∉ (AfterTermination reg self q sent).PendingBlockChecks ∧
      self ∉ (AfterTermination reg self q sent).PendingId ∧
      (∀ p, p ≠ self →
        (p ∈ (AfterTermination reg self q sent).ExecutingQueries ↔ p ∈ reg.ExecutingQueries) ∧
        (p ∈ (AfterTermination reg self q sent).PendingBlockChecks
          ↔ p ∈ reg.PendingBlockChecks) ∧
        (p ∈ (AfterTermination reg self q sent).PendingId ↔ p ∈ reg.PendingId)) ∧
      (AfterTermination reg self q sent).DeletePendingQueries
        = reg.DeletePendingQueries ++ [self] ∧
      (AfterTermination reg self q sent).DeletePendingQueries.count self = 1 ∧
      (AfterTermination reg self q sent).DeletePendingQueries.Nodup ∧
      (∀ status errorReason,
        TQuery.EndWithError (AfterTermination reg self q sent) self status errorReason
          = none) ∧
      (∀ response,
        TQuery.EndWithSuccess (AfterTermination reg self q sent) self response = none)) := by
  have hinv := Inv_of_Reachable wd reg hreach
  have hnotin : self ∉ reg.DeletePendingQueries := by
    intro hmem
    obtain ⟨q', hq', hd⟩ := (hinv.del.pending self).mp hmem
    rw [hq] at hq'
    cases hq'
    rw [hlive] at hd
    cases hd
  refine ⟨hinv.del.pending_nodup, hnotin,
    fun status errorReason => EndWithError_eq reg self q status errorReason hq hlive,
    fun response => EndWithSuccess_eq reg self q response hq hlive, ?_⟩
  intro sent
  have hinv' := Inv_AfterTermination reg self q sent hq hlive hinv
  have hq' : (AfterTermination reg self q sent).Queries self
      = some { q with Destroyed := true } := by
    simp only [AfterTermination, Function.update_same]
  refine ⟨rfl, hq', ?_, rfl, ?_, ?_, ?_, ?_, rfl, ?_, hinv'.del.pending_nodup, ?_, ?_⟩
  · intro p hp
    simp only [AfterTermination, Function.update_noteq hp]
  · simp [AfterTermination, List.mem_filter]
  · simp [AfterTermination, List.mem_filter]
  · simp [AfterTermination, List.mem_filter]
  · intro p hp
    simp [AfterTermination, List.mem_filter, hp]
  · refine List.count_eq_one_of_mem hinv'.del.pending_nodup ?_
    simp [AfterTermination]
  · intro status errorReason
    unfold TQuery.EndWithError
    rw [hq']
    simp only []
    exact DoDestroy_none _ self { q with Destroyed := true } hq' rfl
  · intro response
    unfold TQuery.EndWithSuccess
    rw [hq']
    simp only []
    exact DoDestroy_none _ self { q with Destroyed := true } hq' rfl

/-- C28 witness: the query of `oneQuery`, which came from sender 0 with cookie 1, is ended with
an error: one response goes to sender 0 with cookie 1, the query is on the destruction list
once, and a second termination is refused. -/
theorem termination_exactly_once_witness :
    Reachable 10 oneQuery ∧ oneQuery.Queries 1 = some queryA ∧ queryA.Destroyed = false ∧
    TQuery.EndWithError oneQuery 1 EReplyStatus.ERROR "group is in error state"
      = some endedQuery ∧
    endedQuery.Effects =
      [TQueryEffect.Send 0 1
         { Status := EReplyStatus.ERROR, ErrorReason := "group is in error state" },
       TQueryEffect.OnDestroy 1 false] ∧
    endedQuery.DeletePendingQueries = [1] ∧
    TQuery.EndWithSuccess endedQuery 1 { Status := EReplyStatus.OK } = none :=
  ⟨Reachable_oneQuery, rfl, rfl,
    (termination_exactly_once 10 oneQuery 1 queryA Reachable_oneQuery rfl rfl).2.2.1
      EReplyStatus.ERROR "group is in error state",
    rfl, rfl,
    ((termination_exactly_once 10 oneQuery 1 queryA Reachable_oneQuery rfl rfl).2.2.2.2
      _).2.2.2.2.2.2.2.2.2.2.2.2 { Status := EReplyStatus.OK }⟩

end TQueryRegistry

end NBlobDepot
namespace NBlobDepot

namespace TQueryRegistry

/-! ## Query registry: the watchdog tick -/

theorem CheckedQueries_append (a b : List TQueryEffect) :
    CheckedQueries (a ++ b) = CheckedQueries a ++ CheckedQueries b := by
  simp [CheckedQueries, List.filterMap_append]

theorem QueryWatchdogLoop_done (wd now : Nat) (fuel it : Nat) (reg : TQueryRegistry)
    (hfuel : 1 ≤ fuel) (h : ∀ e ∈ reg.QueryWatchdogMap, now < e.1) :
    QueryWatchdogLoop wd now fuel it reg = some reg := by
  cases fuel with
  | zero => omega
  | succ f =>
    simp only [QueryWatchdogLoop]
    split
    · rfl
    · rename_i ts query hget
      have hmem : (ts, query) ∈ reg.QueryWatchdogMap := List.get?_mem hget
      have := h _ hmem
      simp only [] at this
      rw [if_neg (by omega)]

theorem MapInsert_gt (k : Nat) (p : TQueryPtr) (m : List (Nat × TQueryPtr)) (now : Nat)
    (hk : now < k) (h : ∀ e ∈ m, now < e.1) : ∀ e ∈ MapInsert k p m, now < e.1 := by
  intro e he
  rw [mem_MapInsert] at he
  rcases he with he | he
  · rw [he]; exact hk
  · exact h e he

theorem QueryWatchdogLoop_step (wd now f : Nat) (reg reg1 : TQueryRegistry) (k : Nat)
    (p : TQueryPtr) (q : TQuery) (hget : reg.QueryWatchdogMap.get? 0 = some (k, p))
    (hk : k ≤ now) (hq : reg.Queries p = some q)
    (hidx : reg.QueryWatchdogMap.indexOf (q.QueryWatchdogMapIter, p) = 0)
    (hc : TQuery.CheckQueryExecutionTime wd now reg p = some reg1) :
    QueryWatchdogLoop wd now (f + 1) 0 reg =
      QueryWatchdogLoop wd now f
        (if MapUpperBound (now + wd)
          (reg.QueryWatchdogMap.erase (q.QueryWatchdogMapIter, p)) = 0 then 1 else 0) reg1 := by
  simp only [QueryWatchdogLoop, hget, hk, if_true, hq, hidx, hc, Nat.zero_lt_succ,
    Nat.le_zero_eq, Nat.zero_add]

theorem QueryWatchdogLoop_spec (wd now : Nat) (hwd : 0 < wd) :
    ∀ (E U : List (Nat × TQueryPtr)) (fuel : Nat) (reg : TQueryRegistry), MapInv reg →
      reg.QueryWatchdogMap = E ++ U → (∀ e ∈ E, e.1 ≤ now) → (∀ e ∈ U, now < e.1) →
      E.length + 1 ≤ fuel →
      ∃ reg', QueryWatchdogLoop wd now fuel 0 reg = some reg' ∧ MapInv reg' ∧
        reg'.QueryWatchdogMap = E.foldl (fun m e => MapInsert (now + wd) e.2 m) U ∧
        CheckedQueries reg'.Effects = CheckedQueries reg.Effects ++ E.map (fun e => e.2) ∧
        (∀ p, reg'.Queries p =
          if p ∈ E.map (fun e => e.2) then
            (reg.Queries p).map (fun q =>
              { q with
                WatchdogPriority := EPriority.PRI_NOTICE
                QueryWatchdogMapIter := now + wd })
          else reg.Queries p) ∧
        reg'.DeletePendingQueries = reg.DeletePendingQueries ∧
        reg'.ExecutingQueries = reg.ExecutingQueries ∧
        reg'.PendingBlockChecks = reg.PendingBlockChecks ∧
        reg'.PendingId = reg.PendingId ∧
        reg'.Effects.length = reg.Effects.length + E.length := by
  intro E
  induction E with
  | nil =>
    intro U fuel reg hinv hmap _ hU hfuel
    refine ⟨reg, ?_, hinv, by simpa using hmap, by simp, fun p => by simp, rfl, rfl, rfl, rfl,
      by simp⟩
    apply QueryWatchdogLoop_done wd now fuel 0 reg (by omega)
    intro e he
    rw [hmap] at he
    exact hU e (by simpa using he)
  | cons a E' ih =>
    intro U fuel reg hinv hmap hE hU hfuel
    obtain ⟨k, p⟩ := a
    have hk : k ≤ now := hE (k, p) (List.mem_cons_self _ _)
    have hE' : ∀ e ∈ E', e.1 ≤ now := fun e he => hE e (List.mem_cons_of_mem _ he)
    have hE'' : ∀ e ∈ E', e.1 ≤ now + wd := fun e he => by have := hE' e he; omega
    have hmem : (k, p) ∈ reg.QueryWatchdogMap := by rw [hmap]; simp
    obtain ⟨q, hq, hqk⟩ := hinv.owner (k, p) hmem
    simp only [] at hq hqk
    obtain ⟨c1, c2⟩ := MapInv_CheckQueryExecutionTime wd now reg p q hq hinv
    obtain ⟨reg1, hreg1⟩ : ∃ r : TQueryRegistry, r =
        { reg with
          Effects := reg.Effects ++ [TQueryEffect.StillExecuting q.WatchdogPriority p]
          QueryWatchdogMap := MapInsert (now + wd) p
            (reg.QueryWatchdogMap.erase (q.QueryWatchdogMapIter, p))
          Queries := Function.update reg.Queries p (some
            { q with
              WatchdogPriority := EPriority.PRI_NOTICE
              QueryWatchdogMapIter := now + wd }) } := ⟨_, rfl⟩
    rw [← hreg1] at c1 c2
    have herase : reg.QueryWatchdogMap.erase (q.QueryWatchdogMapIter, p) = E' ++ U := by
      rw [hqk, hmap, List.cons_append, List.erase_cons_head]
    have hU' : ∀ e ∈ MapInsert (now + wd) p U, now < e.1 :=
      MapInsert_gt _ _ _ now (by omega) hU
    have hmap1 : reg1.QueryWatchdogMap = E' ++ MapInsert (now + wd) p U := by
      rw [hreg1]
      simp only []
      rw [herase, MapInsert_append_of_le _ _ _ _ hE'']
    have hpnot : p ∉ E'.map (fun e => e.2) := by
      have hnd := hinv.nodup
      rw [hmap, List.cons_append, List.map_cons, List.nodup_cons, List.map_append,
        List.mem_append] at hnd
      exact fun h => hnd.1 (Or.inl h)
    cases fuel with
    | zero => simp at hfuel
    | succ f =>
      have hf : E'.length + 1 ≤ f := by simpa using hfuel
      have hget : reg.QueryWatchdogMap.get? 0 = some (k, p) := by rw [hmap]; rfl
      have hidx : reg.QueryWatchdogMap.indexOf (q.QueryWatchdogMapIter, p) = 0 := by
        rw [hqk, hmap, List.cons_append]
        simp [List.indexOf, List.findIdx_cons]
      rw [QueryWatchdogLoop_step wd now f reg reg1 k p q hget hk hq hidx c1]
      obtain ⟨reg', l0, l1, l2, l3, l4, l5, l6, l7, l8, l9⟩ :=
        ih (MapInsert (now + wd) p U) f reg1 c2 hmap1 hE' hU' hf
      have hloop : QueryWatchdogLoop wd now f
          (if MapUpperBound (now + wd)
            (reg.QueryWatchdogMap.erase (q.QueryWatchdogMapIter, p)) = 0 then 1 else 0) reg1
          = some reg' := by
        cases hE0 : E' with
        | nil =>
          have hall : ∀ e ∈ reg1.QueryWatchdogMap, now < e.1 := by
            intro e he
            rw [hmap1, hE0] at he
            exact hU' e (by simpa using he)
          have h0 := QueryWatchdogLoop_done wd now f 0 reg1 (by omega) hall
          rw [h0] at l0
          rw [QueryWatchdogLoop_done wd now f _ reg1 (by omega) hall]
          exact l0
        | cons b E'' =>
          have hne : MapUpperBound (now + wd)
              (reg.QueryWatchdogMap.erase (q.QueryWatchdogMapIter, p)) ≠ 0 := by
            rw [herase, MapUpperBound_append_of_le _ _ _ hE'', hE0]
            simp
          rw [if_neg hne]
          exact l0
      refine ⟨reg', hloop, l1, ?_, ?_, ?_, ?_, ?_, ?_, ?_, ?_⟩
      · rw [l2]; rfl
      · rw [l3, hreg1]
        simp only [CheckedQueries_append, List.map_cons, List.append_assoc]
        rfl
      · intro p'
        rw [l4 p', hreg1]
        simp only [List.map_cons, List.mem_cons]
        by_cases hp : p' = p
        · rw [hp, if_neg hpnot, Function.update_same, hq]
          simp
        · rw [Function.update_noteq hp]
          simp only [hp, false_or]
      · rw [l5, hreg1]
      · rw [l6, hreg1]
      · rw [l7, hreg1]
      · rw [l8, hreg1]
      · rw [l9, hreg1]
        simp only [List.length_append, List.length_cons, List.length_nil]
        omega

end TQueryRegistry

end NBlobDepot
namespace NBlobDepot

namespace TQueryRegistry

theorem sorted_split (now : Nat) (m : List (Nat × TQueryPtr))
    (h : m.Pairwise (fun a b => a.1 ≤ b.1)) :
    m = m.filter (fun e => decide (e.1 ≤ now)) ++ m.filter (fun e => decide (now < e.1)) := by
  induction m with
  | nil => rfl
  | cons a l ih =>
    rw [List.pairwise_cons] at h
    by_cases he : a.1 ≤ now
    · have hn : ¬ now < a.1 := by omega
      simp only [List.filter_cons, he, hn, decide_True, decide_False, if_true,
        Bool.false_eq_true, if_false, List.cons_append]
      rw [← ih h.2]
    · have hn : now < a.1 := by omega
      have hall : ∀ b ∈ l, now < b.1 := fun b hb => by
        have := h.1 b hb; omega
      have h1 : l.filter (fun e => decide (e.1 ≤ now)) = [] := by
        rw [List.filter_eq_nil_iff]
        intro b hb
        have := hall b hb
        simp; omega
      have h2 : l.filter (fun e => decide (now < e.1)) = l := by
        rw [List.filter_eq_self]
        intro b hb
        simpa using hall b hb
      simp only [List.filter_cons, he, hn, decide_True, decide_False, if_true,
        Bool.false_eq_true, if_false, h1, h2, List.nil_append]

theorem foldl_MapInsert_perm (k : Nat) (E : List (Nat × TQueryPtr)) :
    ∀ U : List (Nat × TQueryPtr),
      List.Perm (E.foldl (fun m e => MapInsert k e.2 m) U) (U ++ E.map (fun e => (k, e.2))) := by
  induction E with
  | nil => intro U; simp
  | cons a E ih =>
    intro U
    rw [List.foldl_cons, List.map_cons]
    refine (ih _).trans ?_
    refine ((MapInsert_perm k a.2 U).append_right _).trans ?_
    rw [List.cons_append]
    exact List.perm_middle.symm

theorem MapInsert_sublist (k : Nat) (p : TQueryPtr) (m : List (Nat × TQueryPtr)) :
    List.Sublist m (MapInsert k p m) := by
  induction m with
  | nil => simp
  | cons a l ih =>
    unfold MapInsert
    split
    · exact ih.cons₂ a
    · exact List.sublist_cons_self _ _

theorem foldl_MapInsert_sublist (k : Nat) (E : List (Nat × TQueryPtr)) :
    ∀ U : List (Nat × TQueryPtr),
      List.Sublist U (E.foldl (fun m e => MapInsert k e.2 m) U) := by
  induction E with
  | nil => intro U; exact List.Sublist.refl _
  | cons a E ih =>
    intro U
    rw [List.foldl_cons]
    exact (MapInsert_sublist k a.2 U).trans (ih _)

theorem Reachable_threeQueries : Reachable 10 threeQueries := by
  have h1 : Reachable 10 (TQuery.Construct 10 0 {} 1 evA 41) :=
    Reachable.construct {} 0 1 evA 41 Reachable.init rfl
  have h2 := Reachable.construct _ 3 2 evB 42 h1 rfl
  exact Reachable.construct _ 15 3 evC 43 h2 rfl

/-- C29: the query watchdog tick.  With `WatchdogDuration > 0`, for a registry whose deadline
index is well formed and a time `now`, `HandleQueryWatchdog` terminates (with fuel for one
iteration per node and one more).  It calls `CheckQueryExecutionTime` on the queries whose
deadline was `≤ now`, once each, in the order of the index, and on no other query, and re-arms
the timer.  Afterwards each of those queries is keyed at `now + WatchdogDuration` with priority
Notice, the nodes whose deadline was `> now` are unchanged and in their order, the registered
queries are the same as before, and no node has a deadline `≤ now`. -/
theorem HandleQueryWatchdog_tick (wd now fuel : Nat) (reg : TQueryRegistry) (hwd : 0 < wd)
    (hinv : MapInv reg) (hfuel : reg.QueryWatchdogMap.length + 1 ≤ fuel) :
    ∃ reg', HandleQueryWatchdog wd now fuel reg = some reg' ∧
      CheckedQueries reg'.Effects = CheckedQueries reg.Effects ++
        (reg.QueryWatchdogMap.filter (fun e => decide (e.1 ≤ now))).map (fun e => e.2) ∧
      ((reg.QueryWatchdogMap.filter (fun e => decide (e.1 ≤ now))).map (fun e => e.2)).Nodup ∧
      reg'.Effects.getLast? = some TQueryEffect.ScheduleQueryWatchdog ∧
      reg'.Effects.length = reg.Effects.length
        + (reg.QueryWatchdogMap.filter (fun e => decide (e.1 ≤ now))).length + 1 ∧
      reg'.QueryWatchdogMap =
        (reg.QueryWatchdogMap.filter (fun e => decide (e.1 ≤ now))).foldl
          (fun m e => MapInsert (now + wd) e.2 m)
          (reg.QueryWatchdogMap.filter (fun e => decide (now < e.1))) ∧
      List.Perm reg'.QueryWatchdogMap
        (reg.QueryWatchdogMap.filter (fun e => decide (now < e.1)) ++
          (reg.QueryWatchdogMap.filter (fun e => decide (e.1 ≤ now))).map
            (fun e => (now + wd, e.2))) ∧
      List.Sublist (reg.QueryWatchdogMap.filter (fun e => decide (now < e.1)))
        reg'.QueryWatchdogMap ∧
      List.Perm (reg'.QueryWatchdogMap.map (fun e => e.2))
        (reg.QueryWatchdogMap.map (fun e => e.2)) ∧
      (∀ e ∈ reg'.QueryWatchdogMap, now < e.1) ∧
      reg'.QueryWatchdogMap.Pairwise (fun a b => a.1 ≤ b.1) ∧
      (∀ p, reg'.Queries p =
        if p ∈ (reg.QueryWatchdogMap.filter (fun e => decide (e.1 ≤ now))).map (fun e => e.2)
        then (reg.Queries p).map (fun q =>
          { q with
            WatchdogPriority := EPriority.PRI_NOTICE
            QueryWatchdogMapIter := now + wd })
        else reg.Queries p) ∧
      reg'.DeletePendingQueries = reg.DeletePendingQueries ∧
      reg'.ExecutingQueries = reg.ExecutingQueries ∧
      reg'.PendingBlockChecks = reg.PendingBlockChecks ∧
      reg'.PendingId = reg.PendingId := by
  have hsplit := sorted_split now reg.QueryWatchdogMap hinv.sorted
  have hE : ∀ e ∈ reg.QueryWatchdogMap.filter (fun e => decide (e.1 ≤ now)), e.1 ≤ now := by
    intro e he
    simpa using (List.mem_filter.mp he).2
  have hU : ∀ e ∈ reg.QueryWatchdogMap.filter (fun e => decide (now < e.1)), now < e.1 := by
    intro e he
    simpa using (List.mem_filter.mp he).2
  have hlen : (reg.QueryWatchdogMap.filter (fun e => decide (e.1 ≤ now))).length + 1 ≤ fuel :=
    le_trans (Nat.succ_le_succ (List.length_filter_le _ _)) hfuel
  obtain ⟨reg1, l0, l1, l2, l3, l4, l5, l6, l7, l8, l9⟩ :=
    QueryWatchdogLoop_spec wd now hwd _ _ fuel reg hinv hsplit hE hU hlen
  have hperm := foldl_MapInsert_perm (now + wd)
    (reg.QueryWatchdogMap.filter (fun e => decide (e.1 ≤ now)))
    (reg.QueryWatchdogMap.filter (fun e => decide (now < e.1)))
  refine ⟨{ reg1 with Effects := reg1.Effects ++ [TQueryEffect.ScheduleQueryWatchdog] }, ?_,
    ?_, ?_, ?_, ?_, l2, ?_, ?_, ?_, ?_, l1.sorted, l4, l5, l6, l7, l8⟩
  · unfold HandleQueryWatchdog
    rw [l0]
  · simp only [CheckedQueries_append, l3]
    simp [CheckedQueries]
  · exact hinv.nodup.sublist ((List.filter_sublist _).map _)
  · simp
  · simp only [List.length_append, List.length_cons, List.length_nil, l9]
  · simp only [l2]
    exact hperm
  · simp only [l2]
    exact foldl_MapInsert_sublist _ _ _
  · simp only [l2]
    refine (hperm.map _).trans ?_
    rw [List.map_append, List.map_map]
    refine List.perm_append_comm.trans ?_
    have : (reg.QueryWatchdogMap.map (fun e => e.2)) =
        (reg.QueryWatchdogMap.filter (fun e => decide (e.1 ≤ now))).map (fun e => e.2) ++
        (reg.QueryWatchdogMap.filter (fun e => decide (now < e.1))).map (fun e => e.2) := by
      rw [← List.map_append, ← hsplit]
    rw [this]
    exact List.Perm.refl _
  · intro e he
    simp only [l2] at he
    have := hperm.mem_iff.mp he
    rw [List.mem_append, List.mem_map] at this
    rcases this with h | ⟨a, _, ha⟩
    · exact hU e h
    · rw [← ha]
      simp only []
      omega

/-- C29 witness: three queries with the deadlines 10, 13 and 25 and a watchdog duration of 10.
The tick at time 14 checks the first and the second query, in this order, and re-keys them at
24; the third keeps its deadline 25. -/
theorem HandleQueryWatchdog_tick_witness :
    (0 : Nat) < 10 ∧ MapInv threeQueries ∧
    threeQueries.QueryWatchdogMap = [(10, 1), (13, 2), (25, 3)] ∧
    ∃ reg', HandleQueryWatchdog 10 14 4 threeQueries = some reg' ∧
      CheckedQueries reg'.Effects = [1, 2] ∧
      reg'.QueryWatchdogMap = [(24, 1), (24, 2), (25, 3)] := by
  have hinv : MapInv threeQueries := (Inv_of_Reachable 10 _ Reachable_threeQueries).map
  obtain ⟨reg', h1, h2, _, _, _, h6, _⟩ :=
    HandleQueryWatchdog_tick 10 14 4 threeQueries (by decide) hinv (by decide)
  refine ⟨by decide, hinv, rfl, reg', h1, ?_, ?_⟩
  · rw [h2]; rfl
  · rw [h6]; rfl

end TQueryRegistry

end NBlobDepot

namespace NPDisk

/-! ## Chunk tracker: round trip and per-owner usage -/
theorem TChunkTracker.Release_commonLog_cases (d : TPDiskDefs) (s : TChunkTracker)
    (owner : TOwner) (n : Int) (hnu : d.IsOwnerUser owner = false)
    (ho : owner = d.OwnerCommonStaticLog ∨ owner = d.OwnerSystem)
    (hne : d.OwnerCommonStaticLog ≠ d.OwnerSystem) :
    TChunkTracker.Release d s owner n =
      if n - min (s.GlobalQuota.GetUsed d.OwnerCommonStaticLog) n ≠ 0 ∧
          ¬ n - min (s.GlobalQuota.GetUsed d.OwnerCommonStaticLog) n
            ≤ s.GlobalQuota.GetUsed d.OwnerSystem then
        none
      else
        some { s with
          GlobalQuota :=
            (s.GlobalQuota.WithUsed d.OwnerCommonStaticLog
              (s.GlobalQuota.GetUsed d.OwnerCommonStaticLog
                - min (s.GlobalQuota.GetUsed d.OwnerCommonStaticLog) n)).WithUsed d.OwnerSystem
              (s.GlobalQuota.GetUsed d.OwnerSystem
                - (n - min (s.GlobalQuota.GetUsed d.OwnerCommonStaticLog) n)) } := by
  have hmin := min_le_left (s.GlobalQuota.GetUsed d.OwnerCommonStaticLog) n
  have e1 : (if min (s.GlobalQuota.GetUsed d.OwnerCommonStaticLog) n ≠ 0
        then s.GlobalQuota.Release d.OwnerCommonStaticLog
          (min (s.GlobalQuota.GetUsed d.OwnerCommonStaticLog) n)
        else some s.GlobalQuota)
      = some (s.GlobalQuota.WithUsed d.OwnerCommonStaticLog
          (s.GlobalQuota.GetUsed d.OwnerCommonStaticLog
            - min (s.GlobalQuota.GetUsed d.OwnerCommonStaticLog) n)) := by
    by_cases hb : min (s.GlobalQuota.GetUsed d.OwnerCommonStaticLog) n = 0
    · rw [if_neg (not_not.mpr hb), hb,
        TPerOwnerQuotaTracker.WithUsed_self s.GlobalQuota d.OwnerCommonStaticLog _ (by omega)]
    · rw [if_pos hb, TPerOwnerQuotaTracker.Release_eq, if_pos hmin]
  have hS : (s.GlobalQuota.WithUsed d.OwnerCommonStaticLog
      (s.GlobalQuota.GetUsed d.OwnerCommonStaticLog
        - min (s.GlobalQuota.GetUsed d.OwnerCommonStaticLog) n)).GetUsed d.OwnerSystem
      = s.GlobalQuota.GetUsed d.OwnerSystem := by
    rw [TPerOwnerQuotaTracker.WithUsed_GetUsed, if_neg hne.symm]
  unfold TChunkTracker.Release
  rw [if_neg (by simp [hnu]), if_pos ho]
  simp only []
  rw [e1]
  simp only []
  by_cases hc : n - min (s.GlobalQuota.GetUsed d.OwnerCommonStaticLog) n = 0
  · rw [if_neg (not_not.mpr hc), if_neg (fun h => h.1 hc), hc,
      TPerOwnerQuotaTracker.WithUsed_self (s.GlobalQuota.WithUsed d.OwnerCommonStaticLog
        (s.GlobalQuota.GetUsed d.OwnerCommonStaticLog
          - min (s.GlobalQuota.GetUsed d.OwnerCommonStaticLog) n)) d.OwnerSystem _
        (by rw [hS]; omega)]
  · rw [if_pos hc, TPerOwnerQuotaTracker.Release_eq, hS]
    by_cases hrel : n - min (s.GlobalQuota.GetUsed d.OwnerCommonStaticLog) n
        ≤ s.GlobalQuota.GetUsed d.OwnerSystem
    · rw [if_pos hrel, if_neg (fun h => h.2 hrel)]
    · rw [if_neg hrel, if_pos ⟨hc, hrel⟩]

theorem TChunkTracker.TryAllocate_static_granted (d : TPDiskDefs) (hd : d.WellFormed)
    (s : TChunkTracker) (n : Int) (r0 : String)
    (hok : (TChunkTracker.TryAllocate d s d.OwnerCommonStaticLog n r0).2.1 = true) :
    (s.GlobalQuota.GetUsed d.OwnerSystem + n ≤ s.GlobalQuota.GetHardLimit d.OwnerSystem ∧
      (TChunkTracker.TryAllocate d s d.OwnerCommonStaticLog n r0).1 =
        { s with
          GlobalQuota :=
            s.GlobalQuota.WithUsed d.OwnerSystem (s.GlobalQuota.GetUsed d.OwnerSystem + n) }) ∨
    (¬ s.GlobalQuota.GetUsed d.OwnerSystem + n ≤ s.GlobalQuota.GetHardLimit d.OwnerSystem ∧
      s.GlobalQuota.GetUsed d.OwnerCommonStaticLog + n
        ≤ s.GlobalQuota.GetHardLimit d.OwnerCommonStaticLog ∧
      (TChunkTracker.TryAllocate d s d.OwnerCommonStaticLog n r0).1 =
        { s with
          GlobalQuota :=
            s.GlobalQuota.WithUsed d.OwnerCommonStaticLog
              (s.GlobalQuota.GetUsed d.OwnerCommonStaticLog + n) }) := by
  have hns := hd.static_not_user
  obtain ⟨a1, a2⟩ := TPerOwnerQuotaTracker.TryAllocate_eq s.GlobalQuota d.OwnerSystem n r0
  unfold TChunkTracker.TryAllocate at hok ⊢
  simp only [hns, Bool.false_eq_true, if_false, if_true] at hok ⊢
  by_cases hS : s.GlobalQuota.GetUsed d.OwnerSystem + n ≤ s.GlobalQuota.GetHardLimit d.OwnerSystem
  · left
    refine ⟨hS, ?_⟩
    rw [if_pos (a1.mpr hS), a2, if_pos hS]
  · right
    have hf : ¬ (s.GlobalQuota.TryAllocate d.OwnerSystem n r0).2.1 = true :=
      fun h => hS (a1.mp h)
    rw [if_neg hf] at hok ⊢
    simp only [a2, if_neg hS] at hok ⊢
    obtain ⟨b1, b2⟩ := TPerOwnerQuotaTracker.TryAllocate_eq s.GlobalQuota
      d.OwnerCommonStaticLog n (s.GlobalQuota.TryAllocate d.OwnerSystem n r0).2.2
    have hC := b1.mp hok
    refine ⟨hS, hC, ?_⟩
    rw [b2, if_pos hC]

/-- C31: allocate/release round trip for CommonStaticLog.  For a count `n > 0`, when
`TryAllocate(CommonStaticLog, n)` succeeds the combined usage `used(CommonStaticLog) +
used(System)` grows by `n`, and whenever the following `Release(CommonStaticLog, n)` returns, it
brings the combined usage back to its value before the allocation; the hard limits are
untouched, so `GetOwnerFree(CommonStaticLog)` and `GetOwnerHardLimit(CommonStaticLog)` are as
before the two calls, and so is everything outside the two records.  The release does return
when the combined usage before the allocation was not negative. -/
theorem TChunkTracker.CommonStaticLog_round_trip (d : TPDiskDefs) (hd : d.WellFormed)
    (s : TChunkTracker) (n : Int) (r0 : String) (_hn : 0 < n)
    (hok : (TChunkTracker.TryAllocate d s d.OwnerCommonStaticLog n r0).2.1 = true) :
    ((TChunkTracker.TryAllocate d s d.OwnerCommonStaticLog n r0).1.GlobalQuota.GetUsed
        d.OwnerCommonStaticLog
      + (TChunkTracker.TryAllocate d s d.OwnerCommonStaticLog n r0).1.GlobalQuota.GetUsed
        d.OwnerSystem
      = s.GlobalQuota.GetUsed d.OwnerCommonStaticLog + s.GlobalQuota.GetUsed d.OwnerSystem
        + n) ∧
    (∀ s2, TChunkTracker.Release d
        (TChunkTracker.TryAllocate d s d.OwnerCommonStaticLog n r0).1 d.OwnerCommonStaticLog n
          = some s2 →
      s2.GlobalQuota.GetUsed d.OwnerCommonStaticLog + s2.GlobalQuota.GetUsed d.OwnerSystem
        = s.GlobalQuota.GetUsed d.OwnerCommonStaticLog + s.GlobalQuota.GetUsed d.OwnerSystem ∧
      TChunkTracker.GetOwnerFree d s2 d.OwnerCommonStaticLog
        = TChunkTracker.GetOwnerFree d s d.OwnerCommonStaticLog ∧
      TChunkTracker.GetOwnerHardLimit d s2 d.OwnerCommonStaticLog
        = TChunkTracker.GetOwnerHardLimit d s d.OwnerCommonStaticLog ∧
      (∀ x, s2.GlobalQuota.GetHardLimit x = s.GlobalQuota.GetHardLimit x) ∧
      (∀ x, x ≠ d.OwnerCommonStaticLog → x ≠ d.OwnerSystem →
        s2.GlobalQuota.QuotaForOwner x = s.GlobalQuota.QuotaForOwner x) ∧
      s2.SharedQuota = s.SharedQuota ∧ s2.OwnerQuota = s.OwnerQuota ∧
      s2.Params = s.Params ∧ s2.ColorBorder = s.ColorBorder) ∧
    (0 ≤ s.GlobalQuota.GetUsed d.OwnerCommonStaticLog + s.GlobalQuota.GetUsed d.OwnerSystem →
      ∃ s2, TChunkTracker.Release d
        (TChunkTracker.TryAllocate d s d.OwnerCommonStaticLog n r0).1 d.OwnerCommonStaticLog n
          = some s2) := by
  have hne : d.OwnerCommonStaticLog ≠ d.OwnerSystem := hd.static_ne_system
  have hns := hd.static_not_user
  -- the state after the allocation: one of the two records has `n` more in use
  obtain ⟨s1, hs1⟩ : ∃ s1, s1 = (TChunkTracker.TryAllocate d s d.OwnerCommonStaticLog n r0).1 :=
    ⟨_, rfl⟩
  rw [← hs1]
  have hfacts : s1.GlobalQuota.GetUsed d.OwnerCommonStaticLog
        + s1.GlobalQuota.GetUsed d.OwnerSystem
        = s.GlobalQuota.GetUsed d.OwnerCommonStaticLog + s.GlobalQuota.GetUsed d.OwnerSystem
          + n ∧
      (∀ x, s1.GlobalQuota.GetHardLimit x = s.GlobalQuota.GetHardLimit x) ∧
      (∀ x, x ≠ d.OwnerCommonStaticLog → x ≠ d.OwnerSystem →
        s1.GlobalQuota.QuotaForOwner x = s.GlobalQuota.QuotaForOwner x) ∧
      s1.SharedQuota = s.SharedQuota ∧ s1.OwnerQuota = s.OwnerQuota ∧
      s1.Params = s.Params ∧ s1.ColorBorder = s.ColorBorder := by
    rcases TChunkTracker.TryAllocate_static_granted d hd s n r0 hok with ⟨_, h⟩ | ⟨_, _, h⟩
    · rw [hs1, h]
      refine ⟨?_, fun x => by simp, ?_, rfl, rfl, rfl, rfl⟩
      · simp only [TPerOwnerQuotaTracker.WithUsed_GetUsed, if_neg hne, if_true]
        omega
      · intro x _ hx2
        exact TPerOwnerQuotaTracker.WithUsed_QuotaForOwner_ne _ _ _ _ hx2
    · rw [hs1, h]
      refine ⟨?_, fun x => by simp, ?_, rfl, rfl, rfl, rfl⟩
      · simp only [TPerOwnerQuotaTracker.WithUsed_GetUsed, if_neg hne.symm, if_true]
        omega
      · intro x hx1 _
        exact TPerOwnerQuotaTracker.WithUsed_QuotaForOwner_ne _ _ _ _ hx1
  obtain ⟨f1, f2, f3, f4, f5, f6, f7⟩ := hfacts
  have hrel := TChunkTracker.Release_commonLog_cases d s1 d.OwnerCommonStaticLog n hns
    (Or.inl rfl) hne
  refine ⟨f1, ?_, ?_⟩
  · intro s2 h2
    rw [hrel] at h2
    split at h2
    · cases h2
    · simp only [Option.some.injEq] at h2
      subst h2
      have hU : (((s1.GlobalQuota.WithUsed d.OwnerCommonStaticLog
            (s1.GlobalQuota.GetUsed d.OwnerCommonStaticLog
              - min (s1.GlobalQuota.GetUsed d.OwnerCommonStaticLog) n)).WithUsed d.OwnerSystem
            (s1.GlobalQuota.GetUsed d.OwnerSystem
              - (n - min (s1.GlobalQuota.GetUsed d.OwnerCommonStaticLog) n))).GetUsed
              d.OwnerCommonStaticLog
          + ((s1.GlobalQuota.WithUsed d.OwnerCommonStaticLog
            (s1.GlobalQuota.GetUsed d.OwnerCommonStaticLog
              - min (s1.GlobalQuota.GetUsed d.OwnerCommonStaticLog) n)).WithUsed d.OwnerSystem
            (s1.GlobalQuota.GetUsed d.OwnerSystem
              - (n - min (s1.GlobalQuota.GetUsed d.OwnerCommonStaticLog) n))).GetUsed
              d.OwnerSystem)
          = s.GlobalQuota.GetUsed d.OwnerCommonStaticLog
            + s.GlobalQuota.GetUsed d.OwnerSystem := by
        simp only [TPerOwnerQuotaTracker.WithUsed_GetUsed, if_neg hne, if_true]
        omega
      have hH : ∀ x, ((s1.GlobalQuota.WithUsed d.OwnerCommonStaticLog
            (s1.GlobalQuota.GetUsed d.OwnerCommonStaticLog
              - min (s1.GlobalQuota.GetUsed d.OwnerCommonStaticLog) n)).WithUsed d.OwnerSystem
            (s1.GlobalQuota.GetUsed d.OwnerSystem
              - (n - min (s1.GlobalQuota.GetUsed d.OwnerCommonStaticLog) n))).GetHardLimit x
          = s.GlobalQuota.GetHardLimit x := by
        intro x
        simp only [TPerOwnerQuotaTracker.WithUsed_GetHardLimit]
        exact f2 x
      refine ⟨hU, ?_, ?_, hH, ?_, f4, f5, f6, f7⟩
      · have hfree : ∀ (t : TPerOwnerQuotaTracker) (x : TOwner),
            t.GetFree x = t.GetHardLimit x - t.GetUsed x := fun _ _ => rfl
        unfold TChunkTracker.GetOwnerFree
        simp only [hns, Bool.false_eq_true, if_false, if_true]
        rw [hfree, hfree, hfree, hfree, hH, hH]
        omega
      · unfold TChunkTracker.GetOwnerHardLimit
        simp only [hns, Bool.false_eq_true, if_false, if_true]
        rw [hH, hH]
      · intro x hx1 hx2
        rw [TPerOwnerQuotaTracker.WithUsed_QuotaForOwner_ne _ _ _ _ hx2,
          TPerOwnerQuotaTracker.WithUsed_QuotaForOwner_ne _ _ _ _ hx1]
        exact f3 x hx1 hx2
  · intro h0
    rw [hrel]
    have hcond : ¬ (n - min (s1.GlobalQuota.GetUsed d.OwnerCommonStaticLog) n ≠ 0 ∧
        ¬ n - min (s1.GlobalQuota.GetUsed d.OwnerCommonStaticLog) n
          ≤ s1.GlobalQuota.GetUsed d.OwnerSystem) := by
      rintro ⟨_, h2⟩
      apply h2
      rcases min_choice (s1.GlobalQuota.GetUsed d.OwnerCommonStaticLog) n with h | h
      · rw [h]; omega
      · rw [h]; omega
    rw [if_neg hcond]
    exact ⟨_, rfl⟩

/-- Witness for C31: with 100 of 200 common-log chunks and 5 of 70 bonus chunks in use, an
allocation of 3 chunks for CommonStaticLog is taken from the common log (103) and the release of
3 chunks goes to the bonus pool (2): the records differ from before, their sum 105 and the free
space of CommonStaticLog do not. -/
theorem TChunkTracker.CommonStaticLog_round_trip_witness :
    (0 : Int) < 3 ∧
    (TChunkTracker.TryAllocate sampleDefs commonLogSample sampleDefs.OwnerCommonStaticLog 3
      "").2.1 = true ∧
    (TChunkTracker.TryAllocate sampleDefs commonLogSample sampleDefs.OwnerCommonStaticLog 3
      "").1.GlobalQuota.GetUsed sampleDefs.OwnerSystem = 103 ∧
    ∃ s2, TChunkTracker.Release sampleDefs
        (TChunkTracker.TryAllocate sampleDefs commonLogSample sampleDefs.OwnerCommonStaticLog 3
          "").1 sampleDefs.OwnerCommonStaticLog 3 = some s2 ∧
      s2.GlobalQuota.GetUsed sampleDefs.OwnerCommonStaticLog = 2 ∧
      s2.GlobalQuota.GetUsed sampleDefs.OwnerSystem = 103 ∧
      TChunkTracker.GetOwnerFree sampleDefs s2 sampleDefs.OwnerCommonStaticLog
        = TChunkTracker.GetOwnerFree sampleDefs commonLogSample
            sampleDefs.OwnerCommonStaticLog :=
  ⟨by decide, rfl, rfl, _, rfl, rfl, rfl,
    ((TChunkTracker.CommonStaticLog_round_trip sampleDefs (by constructor <;> decide)
      commonLogSample 3 "" (by decide) rfl).2.1 _ rfl).2.1⟩

namespace TPerOwnerQuotaTracker

theorem ForceHardLimit_GetUsed (t : TPerOwnerQuotaTracker) (id : TOwner) (limit : Int)
    (res : TPerOwnerQuotaTracker × Int) (h : t.ForceHardLimit id limit = some res) (x : TOwner) :
    res.1.GetUsed x = t.GetUsed x := by
  unfold ForceHardLimit at h
  split at h
  · simp only [Option.some.injEq] at h
    rw [← h]
    unfold GetUsed TQuotaRecord.GetUsed TQuotaRecord.ForceHardLimit
    by_cases hx : x = id
    · subst hx; simp
    · simp [Function.update_noteq hx]
  · cases h

theorem ForceHardLimitAll_GetUsed (limit : Int) (ids : List TOwner) :
    ∀ (t t' : TPerOwnerQuotaTracker), ForceHardLimitAll limit ids t = some t' →
      ∀ x, t'.GetUsed x = t.GetUsed x := by
  induction ids with
  | nil =>
    intro t t' h x
    simp only [ForceHardLimitAll, Option.some.injEq] at h
    rw [h]
  | cons id rest ih =>
    intro t t' h x
    simp only [ForceHardLimitAll] at h
    split at h
    · cases h
    · rename_i res hres
      rw [ih _ _ h x, ForceHardLimit_GetUsed t id limit res hres x]

theorem RedistributeQuotas_GetUsed (t t' : TPerOwnerQuotaTracker)
    (h : t.RedistributeQuotas = some t') (x : TOwner) : t'.GetUsed x = t.GetUsed x := by
  unfold RedistributeQuotas at h
  simp only [] at h
  split at h
  · exact ForceHardLimitAll_GetUsed _ _ _ _ h x
  · simp only [Option.some.injEq] at h
    rw [h]

theorem SetExpectedOwnerCount_GetUsed (t t' : TPerOwnerQuotaTracker) (n : Nat)
    (h : t.SetExpectedOwnerCount n = some t') (x : TOwner) : t'.GetUsed x = t.GetUsed x := by
  unfold SetExpectedOwnerCount at h
  split at h
  · exact (RedistributeQuotas_GetUsed _ _ h x).trans rfl
  · simp only [Option.some.injEq] at h
    rw [h]

theorem AddOwner_GetUsed (t t' : TPerOwnerQuotaTracker) (id : TOwner) (v : TVDiskID)
    (h : t.AddOwner id v = some t') (x : TOwner) : t'.GetUsed x = t.GetUsed x := by
  have hj : ∀ y, (t.Joined id v).GetUsed y = t.GetUsed y := fun y => Joined_GetUsed t id v y
  unfold AddOwner at h
  simp only [] at h
  split at h
  · split at h
    · exact (RedistributeQuotas_GetUsed _ _ h x).trans (hj x)
    · simp only [Option.some.injEq] at h
      rw [← h]
      exact hj x
  · cases h

theorem RemoveOwner_GetUsed (t t' : TPerOwnerQuotaTracker) (id : TOwner)
    (h : t.RemoveOwner id = some t') (x : TOwner) : t'.GetUsed x = t.GetUsed x := by
  rw [RemoveOwner_eq] at h
  split at h
  · simp only [Option.some.injEq] at h
    rw [← h]
    unfold GetUsed TQuotaRecord.GetUsed
    by_cases hx : x = id
    · subst hx; simp
    · simp [Function.update_noteq hx]
  · cases h

theorem InitialAllocate_GetUsed_ne (t : TPerOwnerQuotaTracker) (id : TOwner) (count : Int)
    (res : TPerOwnerQuotaTracker × Bool) (h : t.InitialAllocate id count = some res)
    (x : TOwner) (hx : x ≠ id) : res.1.GetUsed x = t.GetUsed x := by
  unfold InitialAllocate at h
  split at h
  · simp only [Option.some.injEq] at h
    rw [← h, ForceAllocate_GetUsed, if_neg hx]
  · cases h

theorem Release_GetUsed_ne (t t' : TPerOwnerQuotaTracker) (id : TOwner) (count : Int)
    (h : t.Release id count = some t') (x : TOwner) (hx : x ≠ id) :
    t'.GetUsed x = t.GetUsed x := by
  rw [Release_eq] at h
  split at h
  · simp only [Option.some.injEq] at h
    rw [← h, WithUsed_GetUsed, if_neg hx]
  · cases h

end TPerOwnerQuotaTracker

namespace TChunkTracker

theorem ResetOwners_nonuser_used (d : TPDiskDefs) (l : List (TOwner × TOwnerInfo)) :
    ∀ (s : TChunkTracker) (res : TChunkTracker × Bool), ResetOwners d l s = some res →
      ∀ x, d.IsOwnerUser x = false → res.1.OwnerQuota.GetUsed x = s.OwnerQuota.GetUsed x := by
  induction l with
  | nil =>
    intro s res h x _
    simp only [ResetOwners, Option.some.injEq] at h
    rw [← h]
  | cons e rest ih =>
    intro s res h x hx
    obtain ⟨ownerId, ownerInfo⟩ := e
    simp only [ResetOwners] at h
    split at h
    · cases h
    · rename_i s1 hadd
      obtain ⟨hu, _, _, _, _, hoq⟩ := AddOwner_frame d s s1 ownerId ownerInfo.VDiskId hadd
      have h1 : s1.OwnerQuota.GetUsed x = s.OwnerQuota.GetUsed x :=
        TPerOwnerQuotaTracker.AddOwner_GetUsed _ _ _ _ hoq x
      have hxo : x ≠ ownerId := by
        intro heq
        rw [heq, hu] at hx
        cases hx
      split at h
      · split at h
        · cases h
        · rename_i oq hinit
          have h2 : oq.1.GetUsed x = s1.OwnerQuota.GetUsed x :=
            TPerOwnerQuotaTracker.InitialAllocate_GetUsed_ne _ _ _ oq hinit x hxo
          split at h
          · rw [ih _ _ h x hx]
            exact h2.trans h1
          · simp only [Option.some.injEq] at h
            rw [← h]
            exact h2.trans h1
      · rw [ih _ _ h x hx]
        exact h1

theorem ResetUserPool_nonuser_used (d : TPDiskDefs) (s s' : TChunkTracker) (p : TKeeperParams)
    (r r' : String) (ok : Bool) (h : ResetUserPool d s p r = some (s', ok, r')) :
    ∀ x, d.IsOwnerUser x = false → s'.OwnerQuota.GetUsed x = 0 := by
  intro x hx
  unfold ResetUserPool at h
  simp only [] at h
  split at h
  · cases h
  · rename_i oq hoq
    have h0 : oq.GetUsed x = 0 := by
      rw [TPerOwnerQuotaTracker.SetExpectedOwnerCount_GetUsed _ _ _ hoq x]
      rfl
    split at h
    · cases h
    · rename_i s2 hres
      simp only [Option.some.injEq, Prod.mk.injEq] at h
      rw [← h.1]
      exact (ResetOwners_nonuser_used d _ _ _ hres x hx).trans h0
    · rename_i s2 hres
      have h2 : s2.OwnerQuota.GetUsed x = 0 :=
        (ResetOwners_nonuser_used d _ _ _ hres x hx).trans h0
      split at h
      · split at h
        · cases h
        · split at h
          · simp only [Option.some.injEq, Prod.mk.injEq] at h
            rw [← h.1]
            exact h2
          · simp only [Option.some.injEq, Prod.mk.injEq] at h
            rw [← h.1]
            exact h2
      · simp only [Option.some.injEq, Prod.mk.injEq] at h
        rw [← h.1]
        exact h2

theorem Reset_SysLogSize_nonneg (d : TPDiskDefs) (s0 : TChunkTracker) (p : TKeeperParams)
    (r : String) (res : TChunkTracker × Bool × String) (h : Reset d s0 p r = some res) :
    0 ≤ p.SysLogSize := by
  by_contra hneg
  have hnone : (s0.GlobalQuota.Reset p.TotalChunks d.MakeLogLimits).AddSystemOwner
      d.OwnerSystemLog p.SysLogSize "SysLog" = none := by
    unfold TPerOwnerQuotaTracker.AddSystemOwner TPerOwnerQuotaTracker.ForceHardLimit
    simp only [hneg, if_false]
    split <;> rfl
  unfold Reset at h
  simp only [hnone] at h
  cases h

theorem Reset_ok_nonuser_used (d : TPDiskDefs) (hd : d.WellFormed) (s0 s : TChunkTracker)
    (p : TKeeperParams) (r r' : String) (h : Reset d s0 p r = some (s, true, r')) :
    ∀ x, d.IsOwnerUser x = false → s.OwnerQuota.GetUsed x = 0 := by
  have hsys := Reset_SysLogSize_nonneg d s0 p r _ h
  rw [Reset_eq d hd s0 p r hsys] at h
  split at h
  · simp at h
  · split at h
    · simp at h
    · split at h
      · simp at h
      · split at h
        · simp at h
        · split at h
          · simp at h
          · exact ResetUserPool_nonuser_used d _ s p r r' true h

theorem Reachable_nonuser_used (d : TPDiskDefs) (hd : d.WellFormed) (s : TChunkTracker)
    (h : Reachable d s) : ∀ x, d.IsOwnerUser x = false → s.OwnerQuota.GetUsed x = 0 := by
  induction h with
  | reset p r r' s hs => exact Reset_ok_nonuser_used d hd _ s p r r' hs
  | tryAllocate s owner count r _ _ ih =>
    intro x hx
    unfold TryAllocate
    split
    · rename_i hu
      have hxo : x ≠ owner := by
        intro heq
        rw [heq, hu] at hx
        cases hx
      simp only []
      rw [TPerOwnerQuotaTracker.ForceAllocate_GetUsed, if_neg hxo]
      exact ih x hx
    · split
      · simp only []
        split <;> exact ih x hx
      · exact ih x hx
  | release s s' owner count _ _ hs ih =>
    intro x hx
    unfold Release at hs
    split at hs
    · rename_i hu
      have hxo : x ≠ owner := by
        intro heq
        rw [heq, hu] at hx
        cases hx
      split at hs
      · cases hs
      · rename_i oq hoq
        split at hs
        · cases hs
        · simp only [Option.some.injEq] at hs
          rw [← hs]
          simp only []
          rw [TPerOwnerQuotaTracker.Release_GetUsed_ne _ _ _ _ hoq x hxo]
          exact ih x hx
    · split at hs
      · simp only [] at hs
        split at hs
        · cases hs
        · split at hs
          · cases hs
          · simp only [Option.some.injEq] at hs
            rw [← hs]
            exact ih x hx
      · split at hs
        · cases hs
        · simp only [Option.some.injEq] at hs
          rw [← hs]
          exact ih x hx
  | addOwner s s' owner vdiskId _ hs ih =>
    intro x hx
    obtain ⟨_, _, _, _, _, hoq⟩ := AddOwner_frame d s s' owner vdiskId hs
    rw [TPerOwnerQuotaTracker.AddOwner_GetUsed _ _ _ _ hoq x]
    exact ih x hx
  | removeOwner s s' owner _ hs ih =>
    intro x hx
    obtain ⟨_, _, _, _, _, hoq⟩ := RemoveOwner_frame d s s' owner hs
    rw [TPerOwnerQuotaTracker.RemoveOwner_GetUsed _ _ _ hoq x]
    exact ih x hx

end TChunkTracker

/-- C32: `GetOwnerUsed` reads only the per-user table.  For every owner id it returns the `used`
field of that id's `OwnerQuota` record, so replacing `GlobalQuota` by any other tracker does not
change its result.  In every state reached from a successful `Reset` by `TryAllocate`,
`Release`, `AddOwner` and `RemoveOwner` the `OwnerQuota` records of the ids that are not user
ids have `used = 0`; hence `GetOwnerUsed` returns 0 for SystemLog, SystemReserve,
CommonStaticLog and System, whatever these owners have allocated in `GlobalQuota`. -/
theorem TChunkTracker.GetOwnerUsed_reads_OwnerQuota (d : TPDiskDefs) (hd : d.WellFormed)
    (s : TChunkTracker) (h : TChunkTracker.Reachable d s) :
    (∀ id, TChunkTracker.GetOwnerUsed s id = (s.OwnerQuota.QuotaForOwner id).Used) ∧
    (∀ id (g : TPerOwnerQuotaTracker),
      TChunkTracker.GetOwnerUsed { s with GlobalQuota := g } id
        = TChunkTracker.GetOwnerUsed s id) ∧
    (∀ id, d.IsOwnerUser id = false → TChunkTracker.GetOwnerUsed s id = 0) ∧
    TChunkTracker.GetOwnerUsed s d.OwnerSystemLog = 0 ∧
    TChunkTracker.GetOwnerUsed s d.OwnerSystemReserve = 0 ∧
    TChunkTracker.GetOwnerUsed s d.OwnerCommonStaticLog = 0 ∧
    TChunkTracker.GetOwnerUsed s d.OwnerSystem = 0 := by
  have hz : ∀ id, d.IsOwnerUser id = false → TChunkTracker.GetOwnerUsed s id = 0 :=
    fun id hid => TChunkTracker.Reachable_nonuser_used d hd s h id hid
  exact ⟨fun _ => rfl, fun _ _ => rfl, hz, hz _ hd.log_not_user, hz _ hd.reserve_not_user,
    hz _ hd.static_not_user, hz _ hd.system_not_user⟩

/-- Witness for C32: after `Reset` with static groups (1000 chunks, system log 50, common log
200) and a granted `TryAllocate(CommonStaticLog, 5)`, `GlobalQuota` has 200 chunks used by System
and 5 by CommonStaticLog, and `GetOwnerUsed` returns 0 for both. -/
theorem TChunkTracker.GetOwnerUsed_reads_OwnerQuota_witness :
    ∃ s0, TChunkTracker.Reset sampleDefs TChunkTracker.new staticGroupParams ""
        = some (s0, true, "") ∧
      (TChunkTracker.TryAllocate sampleDefs s0 253 5 "").2.1 = true ∧
      (TChunkTracker.TryAllocate sampleDefs s0 253 5 "").1.GlobalQuota.GetUsed 0 = 200 ∧
      (TChunkTracker.TryAllocate sampleDefs s0 253 5 "").1.GlobalQuota.GetUsed 253 = 5 ∧
      TChunkTracker.GetOwnerUsed (TChunkTracker.TryAllocate sampleDefs s0 253 5 "").1
        sampleDefs.OwnerCommonStaticLog = 0 ∧
      TChunkTracker.GetOwnerUsed (TChunkTracker.TryAllocate sampleDefs s0 253 5 "").1
        sampleDefs.OwnerSystem = 0 :=
  ⟨_, rfl, rfl, rfl, rfl,
    (TChunkTracker.GetOwnerUsed_reads_OwnerQuota sampleDefs (by constructor <;> decide) _
      (.tryAllocate _ 253 5 "" (.reset staticGroupParams "" "" _ rfl) (by decide))).2.2.2.2.2.1,
    (TChunkTracker.GetOwnerUsed_reads_OwnerQuota sampleDefs (by constructor <;> decide) _
      (.tryAllocate _ 253 5 "" (.reset staticGroupParams "" "" _ rfl) (by decide))).2.2.2.2.2.2⟩

end NPDisk

end NKikimr
